import Mathlib

/-!
# dmrlib: Homebrew wire codec

A shallow embedding of the wire codec of `src/dmr/proto/homebrew.c`:
`dmr_homebrew_frame_type`, `dmr_homebrew_send` and `dmr_homebrew_parse_packet`.

Conventions of the embedding

* a byte buffer is a `List Nat`; every store into a `uint8_t` is written with an explicit
  `% 256`, every store into a `uint32_t` with an explicit `% 2 ^ 32`;
* a pointer that the C code tests against `NULL` is an `Option`;
* what the C code obtains from its environment (the four `rand()` draws, the result of the
  socket write, the success of the allocator) is an explicit argument;
* the C functions mutate the session and the packet in place: the embedding returns the
  updated values.
-/

namespace DmrLib

/-! ## Declarations of headers that are not part of the sources -/

/-- Modelled from the spec: `DMR_PAYLOAD_BYTES` of `dmr/packet.h`, which is not among the
sources; the spec fixes the payload of a DMR packet at 33 bytes. -/
def DMR_PAYLOAD_BYTES : Nat := 33

/-- Modelled from the spec: `DMR_TS2` of `dmr/type.h`, which is not among the sources; the
spec numbers the two timeslots 0 and 1, so the second one is 1. -/
def DMR_TS2 : Nat := 1

/-- Modelled from the spec: the macro `DMR_UINT32_BE` of `dmr/bits.h`, which is not among the
sources; the spec reads the four bytes of a stream id big-endian into 32 bits. -/
def DMR_UINT32_BE (b0 b1 b2 b3 : Nat) : Nat :=
  ((b0 <<< 24) ||| (b1 <<< 16) ||| (b2 <<< 8) ||| b3) % 2 ^ 32

/-- The values of the enumerators of `dmr_data_type_t` that the codec names. The enumeration
is declared in a header that is not among the sources, so its values are a parameter. The
three proofs record that the enumerators are different constants: `VOICE` and `VOICE_SYNC`
label two cases of one `switch`, and `VOICE_LC` and `DATA` are tested in its `default`. -/
structure dmr_data_type_enum where
  VOICE : Nat
  VOICE_SYNC : Nat
  VOICE_LC : Nat
  DATA : Nat
  voice_ne_voice_sync : VOICE ≠ VOICE_SYNC
  voice_lc_other : VOICE_LC ≠ VOICE ∧ VOICE_LC ≠ VOICE_SYNC
  data_other : DATA ≠ VOICE ∧ DATA ≠ VOICE_SYNC

/-- One assignment of the enumerators, used to evaluate the codec on concrete inputs. -/
def sample_enum : dmr_data_type_enum where
  VOICE := 0xf1
  VOICE_SYNC := 0xf0
  VOICE_LC := 0x01
  DATA := 0x06
  voice_ne_voice_sync := by decide
  voice_lc_other := by decide
  data_other := by decide

/-! ## Data model -/

/-- The `meta` member of `dmr_packet_t`: `sequence` and `voice_frame` are `uint8_t`,
`stream_id` is `uint32_t`. -/
structure dmr_packet_meta_t where
  sequence : Nat
  voice_frame : Nat
  stream_id : Nat
  deriving DecidableEq, Repr

/-- The C structure `dmr_packet_t`, with the members the codec reads and writes. -/
structure dmr_packet_t where
  ts : Nat
  flco : Nat
  src_id : Nat
  dst_id : Nat
  repeater_id : Nat
  data_type : Nat
  payload : List Nat
  meta : dmr_packet_meta_t
  deriving DecidableEq, Repr

/-- The values a `dmr_packet_t` can hold in C: the integer members are within the range of
their types and the payload is an array of `DMR_PAYLOAD_BYTES` bytes. -/
def dmr_packet_t.wf (p : dmr_packet_t) : Prop :=
  p.src_id < 2 ^ 32 ∧ p.dst_id < 2 ^ 32 ∧ p.repeater_id < 2 ^ 32 ∧
  p.meta.sequence < 256 ∧ p.meta.voice_frame < 256 ∧ p.meta.stream_id < 2 ^ 32 ∧
  p.payload.length = DMR_PAYLOAD_BYTES ∧ ∀ b ∈ p.payload, b < 256

instance (p : dmr_packet_t) : Decidable p.wf := by
  unfold dmr_packet_t.wf
  exact inferInstance

/-- The result of `talloc_zero(NULL, dmr_packet_t)`: every member is zero. -/
def dmr_packet_zero : dmr_packet_t where
  ts := 0
  flco := 0
  src_id := 0
  dst_id := 0
  repeater_id := 0
  data_type := 0
  payload := List.replicate DMR_PAYLOAD_BYTES 0
  meta := { sequence := 0, voice_frame := 0, stream_id := 0 }

/-- One element of the per-timeslot transmit state `homebrew->tx[]`. -/
structure dmr_homebrew_tx_t where
  stream_id : Nat
  deriving DecidableEq, Repr

/-- The authentication phases `dmr_homebrew_auth_t`. -/
inductive dmr_homebrew_auth_t where
  | DMR_HOMEBREW_AUTH_NONE
  | DMR_HOMEBREW_AUTH_INIT
  | DMR_HOMEBREW_AUTH_FAIL
  | DMR_HOMEBREW_AUTH_CONF
  | DMR_HOMEBREW_AUTH_DONE
  deriving DecidableEq, Repr

/-- The member `config` of the session, a `dmr_homebrew_config_t`. The structure is declared
in a header that is not among the sources: `repeater_id` is its member of eight characters
and `bytes` is the object as it lies in memory, `sizeof(dmr_homebrew_config_t)` bytes. -/
structure dmr_homebrew_config_t where
  repeater_id : List Nat
  bytes : List Nat
  deriving DecidableEq, Repr

/-- Modelled from the spec: the member `proto` of the session, a `dmr_proto_t` declared in a
header that is not among the sources, with the members that the vtable operations and the
loop read and write. `thread` tells whether the pointer `thread` is not `NULL`, and
`mutex_locked` whether the mutex `mutex` is held. -/
structure dmr_proto_t where
  init_done : Bool := false
  is_active : Bool := false
  thread : Bool := false
  mutex_locked : Bool := false
  deriving DecidableEq, Repr

/-- The session `dmr_homebrew_t`, with the members the wire codec, the authentication, the
loop and the vtable operations read and write: the numeric repeater id, the transmit state of
the two timeslots, the authentication phase, the configuration, the nonce `random` sent by
the master, the receive buffer, the time of the last ping, the descriptor `fd` of the socket
and the member `proto`. -/
structure dmr_homebrew_t where
  id : Nat
  tx : List dmr_homebrew_tx_t
  auth : dmr_homebrew_auth_t := dmr_homebrew_auth_t.DMR_HOMEBREW_AUTH_NONE
  config : dmr_homebrew_config_t := { repeater_id := [], bytes := [] }
  random : List Nat := []
  buffer : List Nat := []
  last_ping_sent : Nat := 0
  fd : Int := 0
  proto : dmr_proto_t := {}
  deriving DecidableEq, Repr

/-- The stream id stored in `homebrew->tx[ts]`. -/
def dmr_homebrew_t.tx_stream_id (h : dmr_homebrew_t) (ts : Nat) : Nat :=
  (h.tx.getD ts { stream_id := 0 }).stream_id

/-- The assignment `homebrew->tx[ts].stream_id = v`. -/
def dmr_homebrew_t.set_tx_stream_id (h : dmr_homebrew_t) (ts v : Nat) : dmr_homebrew_t :=
  { h with tx := h.tx.set ts { stream_id := v } }

/-- The frame types of `dmr_homebrew_frame_type_t`. -/
inductive dmr_homebrew_frame_type_t where
  | DMR_HOMEBREW_DMR_DATA_FRAME
  | DMR_HOMEBREW_MASTER_ACK
  | DMR_HOMEBREW_MASTER_ACK_NONCE
  | DMR_HOMEBREW_MASTER_CLOSING
  | DMR_HOMEBREW_MASTER_NAK
  | DMR_HOMEBREW_MASTER_PING
  | DMR_HOMEBREW_REPEATER_BEACON
  | DMR_HOMEBREW_REPEATER_CLOSING
  | DMR_HOMEBREW_REPEATER_KEY
  | DMR_HOMEBREW_REPEATER_LOGIN
  | DMR_HOMEBREW_REPEATER_PONG
  | DMR_HOMEBREW_REPEATER_RSSI
  | DMR_HOMEBREW_UNKNOWN
  deriving DecidableEq, Repr

open dmr_homebrew_frame_type_t

/-! ## Magic strings (ASCII codes of the C string constants) -/

/-- The bytes of "DMRD". -/
def dmr_homebrew_data_signature : List Nat := [68, 77, 82, 68]
/-- The bytes of "MSTACK". -/
def dmr_homebrew_master_ack : List Nat := [77, 83, 84, 65, 67, 75]
/-- The bytes of "MSTNAK". -/
def dmr_homebrew_master_nak : List Nat := [77, 83, 84, 78, 65, 75]
/-- The bytes of "MSTPING". -/
def dmr_homebrew_master_ping : List Nat := [77, 83, 84, 80, 73, 78, 71]
/-- The bytes of "MSTCL". -/
def dmr_homebrew_master_closing : List Nat := [77, 83, 84, 67, 76]
/-- The bytes of "RPTL". -/
def dmr_homebrew_repeater_login : List Nat := [82, 80, 84, 76]
/-- The bytes of "RPTK". -/
def dmr_homebrew_repeater_key : List Nat := [82, 80, 84, 75]
/-- The bytes of "RPTPONG". -/
def dmr_homebrew_repeater_pong : List Nat := [82, 80, 84, 80, 79, 78, 71]
/-- The bytes of "RPTCL". -/
def dmr_homebrew_repeater_closing : List Nat := [82, 80, 84, 67, 76]
/-- The bytes of "RPTSBKN". -/
def dmr_homebrew_repeater_beacon : List Nat := [82, 80, 84, 83, 66, 75, 78]
/-- The bytes of "RPTRSSI". -/
def dmr_homebrew_repeater_rssi : List Nat := [82, 80, 84, 82, 83, 83, 73]

/-! ## The wire codec -/

/-- The test `!memcmp(bytes, magic, n)`: the first `n` bytes of both buffers are equal. -/
def memcmp_zero (bytes magic : List Nat) (n : Nat) : Bool :=
  decide (bytes.take n = magic.take n)

/-- The function `dmr_homebrew_frame_type`: a `switch` on the length, and within each case a
chain of `memcmp` tests; `len` is an `ssize_t`. -/
def dmr_homebrew_frame_type (bytes : List Nat) (len : Int) : dmr_homebrew_frame_type_t :=
  if len = 12 then
    if memcmp_zero bytes dmr_homebrew_repeater_login 4 then DMR_HOMEBREW_REPEATER_LOGIN
    else DMR_HOMEBREW_UNKNOWN
  else if len = 13 then
    if memcmp_zero bytes dmr_homebrew_master_closing 5 then DMR_HOMEBREW_MASTER_CLOSING
    else if memcmp_zero bytes dmr_homebrew_repeater_closing 5 then DMR_HOMEBREW_REPEATER_CLOSING
    else DMR_HOMEBREW_UNKNOWN
  else if len = 14 then
    if memcmp_zero bytes dmr_homebrew_master_ack 6 then DMR_HOMEBREW_MASTER_ACK
    else if memcmp_zero bytes dmr_homebrew_master_nak 6 then DMR_HOMEBREW_MASTER_NAK
    else DMR_HOMEBREW_UNKNOWN
  else if len = 15 then
    if memcmp_zero bytes dmr_homebrew_master_ping 7 then DMR_HOMEBREW_MASTER_PING
    else if memcmp_zero bytes dmr_homebrew_repeater_pong 7 then DMR_HOMEBREW_REPEATER_PONG
    else if memcmp_zero bytes dmr_homebrew_repeater_beacon 7 then DMR_HOMEBREW_REPEATER_BEACON
    else DMR_HOMEBREW_UNKNOWN
  else if len = 22 then
    if memcmp_zero bytes dmr_homebrew_master_ack 6 then DMR_HOMEBREW_MASTER_ACK_NONCE
    else DMR_HOMEBREW_UNKNOWN
  else if len = 23 then
    if memcmp_zero bytes dmr_homebrew_repeater_rssi 7 then DMR_HOMEBREW_REPEATER_RSSI
    else DMR_HOMEBREW_UNKNOWN
  else if len = 53 then
    if memcmp_zero bytes dmr_homebrew_data_signature 4 then DMR_HOMEBREW_DMR_DATA_FRAME
    else DMR_HOMEBREW_UNKNOWN
  else if len = 76 then
    if memcmp_zero bytes dmr_homebrew_repeater_key 4 then DMR_HOMEBREW_REPEATER_KEY
    else DMR_HOMEBREW_UNKNOWN
  else DMR_HOMEBREW_UNKNOWN

/-- The four `rand()` results that one call of `dmr_homebrew_generate_stream_id` draws, in
the order of the macro arguments they fill. -/
structure rand_draws where
  r0 : Nat
  r1 : Nat
  r2 : Nat
  r3 : Nat
  deriving DecidableEq, Repr

/-- The function `dmr_homebrew_generate_stream_id`: four `rand()` draws packed by
`DMR_UINT32_BE`. -/
def dmr_homebrew_generate_stream_id (rnd : rand_draws) : Nat :=
  DMR_UINT32_BE rnd.r0 rnd.r1 rnd.r2 rnd.r3

/-- What a call of `dmr_homebrew_send` that passes its argument check leaves behind: the
session and the packet as updated in place, the buffer handed to `dmr_homebrew_sendraw`, and
the return value. -/
structure dmr_homebrew_send_result where
  homebrew : dmr_homebrew_t
  packet : dmr_packet_t
  frame : List Nat
  ret : Int
  deriving DecidableEq, Repr

/-- The function `dmr_homebrew_send`. `rnd` holds the `rand()` draws that a call of
`dmr_homebrew_generate_stream_id` would see and `sendraw_ret` is what
`dmr_homebrew_sendraw` returns for the frame; the result is `none` on the
invalid-argument return, where no frame is built. -/
def dmr_homebrew_send (E : dmr_data_type_enum) (rnd : rand_draws) (sendraw_ret : Int)
    (homebrew : Option dmr_homebrew_t) (ts : Nat) (packet : Option dmr_packet_t) :
    Option dmr_homebrew_send_result :=
  match homebrew, packet with
  | some h, some p =>
    if ts > DMR_TS2 then none
    else
      let p := if p.repeater_id = 0 then { p with repeater_id := h.id } else p
      let b15 := ((p.ts &&& 0x01) <<< 0) % 256
      let b15 := (b15 ||| ((p.flco &&& 0x01) <<< 1)) % 256
      let hb : dmr_homebrew_t × Nat :=
        if p.data_type = E.VOICE then
          (h, (b15 ||| ((p.meta.voice_frame &&& 0x0f) <<< 4)) % 256)
        else if p.data_type = E.VOICE_SYNC then
          (h, (b15 ||| 0x04) % 256)
        else
          let h1 :=
            if (p.data_type = E.VOICE_LC ∨ p.data_type = E.DATA) ∧ p.meta.sequence = 0 then
              h.set_tx_stream_id ts (dmr_homebrew_generate_stream_id rnd)
            else h
          let c15 := (b15 ||| 0x0b) % 256
          (h1, (c15 ||| ((p.data_type &&& 0x0f) <<< 4)) % 256)
      let h2 := hb.1
      let sid := h2.tx_stream_id ts
      let p2 := { p with meta := { p.meta with stream_id := sid } }
      let buf : List Nat :=
        [68, 77, 82, 68,
         p2.meta.sequence % 256,
         (p2.src_id >>> 16) % 256, (p2.src_id >>> 8) % 256, (p2.src_id >>> 0) % 256,
         (p2.dst_id >>> 16) % 256, (p2.dst_id >>> 8) % 256, (p2.dst_id >>> 0) % 256,
         (p2.repeater_id >>> 24) % 256, (p2.repeater_id >>> 16) % 256,
         (p2.repeater_id >>> 8) % 256, (p2.repeater_id >>> 0) % 256,
         hb.2,
         (sid >>> 24) % 256, (sid >>> 16) % 256, (sid >>> 8) % 256, (sid >>> 0) % 256]
        ++ p2.payload.take DMR_PAYLOAD_BYTES
      some { homebrew := h2, packet := p2, frame := buf, ret := sendraw_ret }
  | _, _ => none

/-- The function `dmr_homebrew_parse_packet`. `alloc_ok` tells whether `talloc_zero`
succeeds; the result is `none` where the C function returns `NULL`. -/
def dmr_homebrew_parse_packet (E : dmr_data_type_enum) (alloc_ok : Bool)
    (data : Option (List Nat)) (len : Int) : Option dmr_packet_t :=
  match data with
  | none => none
  | some data =>
    if dmr_homebrew_frame_type data len ≠ DMR_HOMEBREW_DMR_DATA_FRAME then none
    else if alloc_ok = false then none
    else
      let d : Nat → Nat := fun i => data.getD i 0
      let packet := dmr_packet_zero
      let kind := ((d 15) &&& 0x0c) >>> 2
      let dt_vf : Nat × Nat :=
        if kind = 0x00 then (E.VOICE, ((d 15) &&& 0xf0) >>> 4)
        else if kind = 0x01 then (E.VOICE_SYNC, 0)
        else if kind = 0x02 then (((d 15) &&& 0xf0) >>> 4, packet.meta.voice_frame)
        else (packet.data_type, packet.meta.voice_frame)
      some
        { ts := ((d 15) &&& 0x01) >>> 0
          flco := ((d 15) &&& 0x02) >>> 1
          src_id := (((d 5) <<< 16) ||| ((d 6) <<< 8) ||| (d 7)) % 2 ^ 32
          dst_id := (((d 8) <<< 16) ||| ((d 9) <<< 8) ||| (d 10)) % 2 ^ 32
          repeater_id :=
            (((d 11) <<< 24) ||| ((d 12) <<< 16) ||| ((d 13) <<< 8) ||| ((d 14) <<< 0)) % 2 ^ 32
          data_type := dt_vf.1
          payload := (data.drop 20).take DMR_PAYLOAD_BYTES
          meta :=
            { sequence := (d 4) % 256
              voice_frame := dt_vf.2
              stream_id := DMR_UINT32_BE (d 16) (d 17) (d 18) (d 19) } }

/-! ## The vtable operation tx -/

/-- What a call of `homebrew_proto_tx` with non-null arguments leaves behind: the session
and the packet as updated in place, and the frame handed to `dmr_homebrew_sendraw`, if
`dmr_homebrew_send` built one. -/
structure homebrew_proto_tx_result where
  homebrew : dmr_homebrew_t
  packet : dmr_packet_t
  frame : Option (List Nat)
  deriving DecidableEq, Repr

/-- The function `homebrew_proto_tx`: it assigns the session id to `packet->repeater_id` and
calls `dmr_homebrew_send` on the timeslot of the packet. The result is `none` when an
argument is `NULL`, where the function returns at once. -/
def homebrew_proto_tx (E : dmr_data_type_enum) (rnd : rand_draws) (sendraw_ret : Int)
    (homebrewptr : Option dmr_homebrew_t) (packet : Option dmr_packet_t) :
    Option homebrew_proto_tx_result :=
  match homebrewptr, packet with
  | some h, some p =>
    let p1 := { p with repeater_id := h.id }
    match dmr_homebrew_send E rnd sendraw_ret (some h) p1.ts (some p1) with
    | some r => some { homebrew := r.homebrew, packet := r.packet, frame := some r.frame }
    | none => some { homebrew := h, packet := p1, frame := none }
  | _, _ => none

/-! ## Authentication (`dmr_homebrew_auth`) -/

/-- Modelled from the spec: the values that `dmr_error_set`, `dmr_error(DMR_EINVAL)` and
`dmr_error(DMR_ENOMEM)` return. They are defined outside the sources; each reports an error
to the caller, and an error is a result different from 0, the result of success. -/
structure dmr_error_env where
  error_set : Int
  error_set_ne_zero : error_set ≠ 0
  error_einval : Int
  error_einval_ne_zero : error_einval ≠ 0
  error_enomem : Int
  error_enomem_ne_zero : error_enomem ≠ 0

/-- What one call of `dmr_homebrew_recvraw` leaves behind: its return value, the length it
stores in `*len` and the content of the receive buffer of the session. -/
structure recv_event where
  ret : Int
  len : Int
  buffer : List Nat
  deriving DecidableEq, Repr

/-- The state of a run of `dmr_homebrew_auth`: the session, the frames handed to
`dmr_homebrew_sendraw` so far, and what the socket will answer: the return values of the
calls of `dmr_homebrew_sendraw` to come and the outcomes of the calls of
`dmr_homebrew_recvraw` to come. -/
structure auth_state where
  homebrew : dmr_homebrew_t
  sent : List (List Nat)
  sends : List Int
  recvs : List recv_event
  deriving DecidableEq, Repr

/-- How a piece of `dmr_homebrew_auth` ends: with a `return`, by falling through to the next
round of the outer loop, waiting for an answer of the socket that the run does not hold, or
in the abort of a failed `assert`. -/
inductive auth_flow where
  | returned (ret : Int)
  | next
  | waiting
  | aborted
  deriving DecidableEq, Repr

/-- The characters of `hex`, "0123456789abcdef". -/
def hex : List Nat := [48, 49, 50, 51, 52, 53, 54, 55, 56, 57, 97, 98, 99, 100, 101, 102]

/-- The eight bytes that `memcpy(buf + 4, homebrew->config.repeater_id, 8)` copies. -/
def config_repeater_id (h : dmr_homebrew_t) : List Nat :=
  (List.range 8).map (fun i => h.config.repeater_id.getD i 0)

/-- One call `dmr_homebrew_sendraw(homebrew, buf, len)`: the frame `buf[0..len-1]` is handed
to the socket and the call returns what the socket answers. -/
def auth_sendraw (st : auth_state) (frame : List Nat) : Option (auth_state × Int) :=
  match st.sends with
  | [] => none
  | r :: rest => some ({ st with sent := st.sent ++ [frame], sends := rest }, r)

/-- The loop `while (true)` of the case `DMR_HOMEBREW_AUTH_NONE`: replies are read until one
is a 14-byte "MSTNAK" or a 22-byte "MSTACK". -/
def auth_wait_login (X : dmr_error_env) (h : dmr_homebrew_t) :
    List recv_event → dmr_homebrew_t × List recv_event × auth_flow
  | [] => (h, [], auth_flow.waiting)
  | e :: es =>
    let h1 := { h with buffer := e.buffer }
    if e.ret < 0 then (h1, es, auth_flow.returned e.ret)
    else if e.len = 14 ∧ memcmp_zero h1.buffer dmr_homebrew_master_nak 6 = true then
      ({ h1 with auth := dmr_homebrew_auth_t.DMR_HOMEBREW_AUTH_FAIL }, es,
        auth_flow.returned X.error_set)
    else if e.len = 22 ∧ memcmp_zero h1.buffer dmr_homebrew_master_ack 6 = true then
      ({ h1 with
          random := (List.range 8).map (fun i => h1.buffer.getD (14 + i) 0)
          auth := dmr_homebrew_auth_t.DMR_HOMEBREW_AUTH_INIT }, es, auth_flow.next)
    else auth_wait_login X h1 es

/-- The loop `while (true)` of the case `DMR_HOMEBREW_AUTH_INIT`: replies are read until one
is a 14-byte "MSTNAK" or a 14-byte "MSTACK". -/
def auth_wait_key (X : dmr_error_env) (h : dmr_homebrew_t) :
    List recv_event → dmr_homebrew_t × List recv_event × auth_flow
  | [] => (h, [], auth_flow.waiting)
  | e :: es =>
    let h1 := { h with buffer := e.buffer }
    if e.ret < 0 then (h1, es, auth_flow.returned e.ret)
    else if e.len = 14 ∧ memcmp_zero h1.buffer dmr_homebrew_master_nak 6 = true then
      ({ h1 with auth := dmr_homebrew_auth_t.DMR_HOMEBREW_AUTH_FAIL }, es,
        auth_flow.returned X.error_set)
    else if e.len = 14 ∧ memcmp_zero h1.buffer dmr_homebrew_master_ack 6 = true then
      ({ h1 with auth := dmr_homebrew_auth_t.DMR_HOMEBREW_AUTH_CONF }, es, auth_flow.next)
    else auth_wait_key X h1 es

/-- The frame of the case `DMR_HOMEBREW_AUTH_NONE`: "RPTL" and the repeater id. -/
def auth_login_frame (h : dmr_homebrew_t) : List Nat :=
  dmr_homebrew_repeater_login ++ config_repeater_id h

/-- Modelled from the spec: `SHA256_DIGEST_LENGTH` of `sha256.h`, which is not among the
sources; a SHA-256 digest has 32 bytes. -/
def SHA256_DIGEST_LENGTH : Nat := 32

/-- The frame of the case `DMR_HOMEBREW_AUTH_INIT`, the 12 + 64 bytes of `buf` handed to
`dmr_homebrew_sendraw`: "RPTK", the repeater id and the two characters
`hex[digest[i] >> 4]`, `hex[digest[i] & 0x0f]` for each of the bytes of the digest of the
nonce followed by the secret. `sha256` stands for the SHA-256 library, which is not among the
sources, and `secret` holds the characters of the C string. The two `memcpy` calls that first
copy the nonce and the secret into `buf` write only bytes that are overwritten or never sent;
they stay inside the 328 bytes of `buf` while the secret has at most 320 characters. -/
def auth_key_frame (sha256 : List Nat → List Nat) (h : dmr_homebrew_t) (secret : List Nat) :
    List Nat :=
  let digest := sha256 ((List.range 8).map (fun i => h.random.getD i 0) ++ secret)
  dmr_homebrew_repeater_key ++ config_repeater_id h ++
    ((List.range SHA256_DIGEST_LENGTH).map
      (fun i => [hex.getD ((digest.getD i 0 % 256) >>> 4) 0,
                 hex.getD ((digest.getD i 0 % 256) &&& 0x0f) 0])).flatten

/-- One round of the loop `while (homebrew->auth != DMR_HOMEBREW_AUTH_DONE)`: the `switch` on
the phase. `now` is the time `gettimeofday` gives, and `DMR_DEBUG` tells whether the macro of
that name is defined, in which case the `assert` of the case `DMR_HOMEBREW_AUTH_CONF` is
compiled. -/
def auth_switch (X : dmr_error_env) (DMR_DEBUG : Bool) (sha256 : List Nat → List Nat)
    (now : Nat) (secret : List Nat) (st : auth_state) : auth_state × auth_flow :=
  match st.homebrew.auth with
  | dmr_homebrew_auth_t.DMR_HOMEBREW_AUTH_NONE =>
    match auth_sendraw st (auth_login_frame st.homebrew) with
    | none => (st, auth_flow.waiting)
    | some (st1, ret) =>
      if ret < 0 then (st1, auth_flow.returned ret)
      else
        let w := auth_wait_login X st1.homebrew st1.recvs
        ({ st1 with homebrew := w.1, recvs := w.2.1 }, w.2.2)
  | dmr_homebrew_auth_t.DMR_HOMEBREW_AUTH_INIT =>
    match auth_sendraw st (auth_key_frame sha256 st.homebrew secret) with
    | none => (st, auth_flow.waiting)
    | some (st1, ret) =>
      if ret < 0 then (st1, auth_flow.returned ret)
      else
        let w := auth_wait_key X st1.homebrew st1.recvs
        ({ st1 with homebrew := w.1, recvs := w.2.1 }, w.2.2)
  | dmr_homebrew_auth_t.DMR_HOMEBREW_AUTH_FAIL => (st, auth_flow.returned X.error_set)
  | dmr_homebrew_auth_t.DMR_HOMEBREW_AUTH_CONF =>
    -- assert(sizeof(dmr_homebrew_config_t) == 306);
    if DMR_DEBUG = true ∧ st.homebrew.config.bytes.length ≠ 306 then (st, auth_flow.aborted)
    else
      match auth_sendraw st st.homebrew.config.bytes with
      | none => (st, auth_flow.waiting)
      | some (st1, ret) =>
        if ret < 0 then (st1, auth_flow.returned ret)
        else
          ({ st1 with
              homebrew :=
                { st1.homebrew with
                  auth := dmr_homebrew_auth_t.DMR_HOMEBREW_AUTH_DONE
                  last_ping_sent := now } }, auth_flow.next)
  | dmr_homebrew_auth_t.DMR_HOMEBREW_AUTH_DONE => (st, auth_flow.next)

/-- The loop `while (homebrew->auth != DMR_HOMEBREW_AUTH_DONE)` followed by `return 0`. The
second component is the return value; it is `none` when the function has not returned: it
waits for an answer of the socket that the run does not hold, an `assert` has failed, or
`fuel` rounds did not reach the end of the loop. -/
def auth_loop (X : dmr_error_env) (DMR_DEBUG : Bool) (sha256 : List Nat → List Nat)
    (now : Nat) (secret : List Nat) : Nat → auth_state → auth_state × Option Int
  | fuel, st =>
    if st.homebrew.auth = dmr_homebrew_auth_t.DMR_HOMEBREW_AUTH_DONE then (st, some 0)
    else
      match fuel with
      | 0 => (st, none)
      | f + 1 =>
        match auth_switch X DMR_DEBUG sha256 now secret st with
        | (st1, auth_flow.returned ret) => (st1, some ret)
        | (st1, auth_flow.next) => auth_loop X DMR_DEBUG sha256 now secret f st1
        | (st1, auth_flow.waiting) => (st1, none)
        | (st1, auth_flow.aborted) => (st1, none)

/-- The function `dmr_homebrew_auth`, run against the answers `sends` and `recvs` of the
socket. Every round of the loop returns or moves the phase one step along NONE, INIT, CONF,
DONE, so three rounds reach the end of the loop. -/
def dmr_homebrew_auth (X : dmr_error_env) (DMR_DEBUG : Bool) (sha256 : List Nat → List Nat)
    (now : Nat) (homebrew : dmr_homebrew_t) (secret : List Nat) (sends : List Int)
    (recvs : List recv_event) : auth_state × Option Int :=
  auth_loop X DMR_DEBUG sha256 now secret 3
    { homebrew := homebrew, sent := [], sends := sends, recvs := recvs }

/-! ## Reed-Solomon codec (`src/dmr/fec/reed_solomon.c`)

The structure `dmr_rs_t` is declared in a header that is not among the sources. Its tables
`alpha_to`, `index_of` and `gg` are taken to be arrays of `int`, as the sentinel -1 of the
index form requires; a value in polynomial form and a value in index form are both an `Int`.
-/

/-- The conversion of an `int` to `unsigned int`. -/
def to_uint (x : Int) : Nat := (x % 2 ^ 32).toNat

/-- The conversion of an `int` to `unsigned char`. -/
def to_uchar (x : Int) : Nat := (x % 256).toNat

/-- The read `t[i]` of a table of `int` cells. A read outside the table, which C leaves
undefined, gives 0; the one read of `dmr_rs_decode` whose index is the content of a cell that
was never written is listed by `decode_table_reads`. -/
def tab_get (t : List Int) (i : Int) : Int :=
  if i < 0 then 0 else t.getD i.toNat 0

/-- The write `t[i] = v` into a table of `int` cells. A write outside the table, which C
leaves undefined, is dropped. -/
def tab_set (t : List Int) (i : Int) (v : Int) : List Int :=
  if i < 0 then t else t.set i.toNat v

/-- What the allocator does for `dmr_rs_new`; `dmr_malloc` and `dmr_malloc_child_size` are
macros of a header that is not among the sources. `alloc_ok` tells whether the allocations
succeed and `fresh` is the content of a table cell that has not been written yet. -/
structure rs_env where
  alloc_ok : Bool
  fresh : Int
  deriving DecidableEq, Repr

/-- Modelled from the spec: the context `dmr_rs_t`, declared in a header that is not among
the sources. The two lookup tables have 2^mm + 1 cells. -/
structure dmr_rs_t where
  mm : Nat
  nn : Nat
  tt : Nat
  n : Nat
  alpha_to : List Int
  index_of : List Int
  gg : List Int
  deriving DecidableEq, Repr

/-- The first part of `dmr_rs_new`: the tables `alpha_to` and `index_of` of GF(2^mm), built
from the polynomial `generator_polinomial` in memory whose cells hold `fresh`. -/
def rs_gf_tables (fresh : Int) (generator_polinomial : Nat) (mm : Nat) :
    List Int × List Int :=
  let nn : Nat := (1 <<< mm) - 1
  let alpha_to : List Int := List.replicate (2 ^ mm + 1) fresh
  let index_of : List Int := List.replicate (2 ^ mm + 1) fresh
  let alpha_to := tab_set alpha_to mm 0
  -- for (i = 0; i < rs->mm; i++), the state is (alpha_to, index_of, mask)
  let st1 : List Int × List Int × Int :=
    (List.range mm).foldl
      (fun (st : List Int × List Int × Int) (i : Nat) =>
        let alpha_to := tab_set st.1 i st.2.2
        let index_of := tab_set st.2.1 (tab_get alpha_to i) i
        let alpha_to :=
          if (generator_polinomial >>> i) &&& 1 ≠ 0 then
            tab_set alpha_to mm (Int.xor (tab_get alpha_to mm) st.2.2)
          else alpha_to
        (alpha_to, index_of, st.2.2 * 2))
      (alpha_to, index_of, 1)
  let alpha_to := st1.1
  let index_of := tab_set st1.2.1 (tab_get alpha_to mm) mm
  let mask : Int := st1.2.2 / 2
  -- for (i = rs->mm + 1; i < rs->nn; i++)
  let st2 : List Int × List Int :=
    ((List.range (nn - (mm + 1))).map (fun k => mm + 1 + k)).foldl
      (fun (st : List Int × List Int) (i : Nat) =>
        let prev := tab_get st.1 (i - 1 : Nat)
        let alpha_to :=
          if prev ≥ mask then
            tab_set st.1 i (Int.xor (tab_get st.1 mm) ((Int.xor prev mask) * 2))
          else tab_set st.1 i (prev * 2)
        (alpha_to, tab_set st.2 (tab_get alpha_to i) i))
      (alpha_to, index_of)
  (st2.1, tab_set st2.2 0 (-1))

/-- The second part of `dmr_rs_new`: the generator polynomial `gg[0..n]`, the product of the
`X + alpha^i` for `i = 1..n`, computed in polynomial form and put into index form. -/
def rs_generator (fresh : Int) (alpha_to index_of : List Int) (nn n : Nat) : List Int :=
  let gg : List Int := List.replicate (n + 1) fresh
  let gg := tab_set gg 0 2
  let gg := tab_set gg 1 1
  -- for (i = 2; i <= (int)rs->n; i++)
  let gg :=
    ((List.range (n + 1 - 2)).map (fun k => 2 + k)).foldl
      (fun (gg : List Int) (i : Nat) =>
        let gg := tab_set gg i 1
        -- for (j = i - 1; j > 0; j--)
        let gg :=
          ((List.range (i - 1)).map (fun k => i - 1 - k)).foldl
            (fun (gg : List Int) (j : Nat) =>
              if tab_get gg j ≠ 0 then
                tab_set gg j
                  (Int.xor (tab_get gg (j - 1 : Nat))
                    (tab_get alpha_to
                      (to_uint (tab_get index_of (tab_get gg j) + i) % nn : Nat)))
              else tab_set gg j (tab_get gg (j - 1 : Nat)))
            gg
        tab_set gg 0
          (tab_get alpha_to (to_uint (tab_get index_of (tab_get gg 0) + i) % nn : Nat)))
      gg
  -- for (i = 0; i <= (int)rs->n; i++)
  (List.range (n + 1)).foldl
    (fun (gg : List Int) (i : Nat) => tab_set gg i (tab_get index_of (tab_get gg i))) gg

/-- The function `dmr_rs_new`: the tables of GF(2^mm) and the generator polynomial. The
result is `none` where the C function returns `NULL`. -/
def dmr_rs_new (env : rs_env) (generator_polinomial : Nat) (mm : Nat) (tt : Nat) :
    Option dmr_rs_t :=
  if env.alloc_ok = false then none
  else
    let nn : Nat := (1 <<< mm) - 1
    let tt : Nat := tt % 256
    let n : Nat := 2 * tt
    let tables := rs_gf_tables env.fresh generator_polinomial mm
    some { mm := mm, nn := nn, tt := tt, n := n, alpha_to := tables.1, index_of := tables.2,
           gg := rs_generator env.fresh tables.1 tables.2 nn n }

/-- The function `dmr_rs_encode`: the feedback shift register over `data[0..k-1]`,
`k = nn - n`, which leaves the parity symbols in `bb[0..n-1]`. The result is `bb` after the
call. -/
def dmr_rs_encode (rs : dmr_rs_t) (data : List Nat) (bb : List Nat) : List Nat :=
  let k : Nat := rs.nn - rs.n
  -- for (i = 0; i < (int)rs->n; i++) bb[i] = 0;
  let bb := (List.range rs.n).foldl (fun (bb : List Nat) (i : Nat) => bb.set i 0) bb
  -- for (i = k - 1; i >= 0; i--)
  ((List.range k).map (fun m => k - 1 - m)).foldl
    (fun (bb : List Nat) (i : Nat) =>
      let feedback : Int :=
        tab_get rs.index_of ((data.getD i 0 ^^^ bb.getD (rs.n - 1) 0 : Nat) : Int)
      if feedback ≠ -1 then
        -- for (j = rs->n - 1; j > 0; j--)
        let bb :=
          ((List.range (rs.n - 1)).map (fun m => rs.n - 1 - m)).foldl
            (fun (bb : List Nat) (j : Nat) =>
              bb.set j
                (to_uchar
                  (Int.xor (bb.getD (j - 1) 0)
                    (tab_get rs.alpha_to
                      (to_uint (tab_get rs.gg j + feedback) % rs.nn : Nat)))))
            bb
        bb.set 0
          (to_uchar (tab_get rs.alpha_to (to_uint (tab_get rs.gg 0 + feedback) % rs.nn : Nat)))
      else
        let bb :=
          ((List.range (rs.n - 1)).map (fun m => rs.n - 1 - m)).foldl
            (fun (bb : List Nat) (j : Nat) => bb.set j (bb.getD (j - 1) 0)) bb
        bb.set 0 0)
    bb

/-- The function `dmr_rs_init` as it acts on the static `rs8`: the result is the content of
`rs8` after the call, `none` when the context could not be allocated and the function
returns an error. -/
def dmr_rs_init (env : rs_env) (rs8 : Option dmr_rs_t) : Option dmr_rs_t :=
  match rs8 with
  | none => dmr_rs_new env 0x11d 8 2
  | some rs => some rs

/-- The call `memcpy(dst, src, n)` on byte buffers. -/
def memcpy (dst src : List Nat) (n : Nat) : List Nat :=
  (List.range n).map (fun i => src.getD i 0) ++ dst.drop n

/-- The call `memcmp(a, b, n)`. The C standard fixes only the sign of a result that is not 0;
the model returns the difference of the first two bytes that differ. -/
def memcmp (a b : List Nat) (n : Nat) : Int :=
  match (List.range n).find? (fun i => a.getD i 0 ≠ b.getD i 0) with
  | some i => (a.getD i 0 : Int) - (b.getD i 0 : Int)
  | none => 0

/-- What a call of one of the three functions `dmr_rs_12_9_4_...` leaves behind once the
context is there: the content of the static `rs8`, the buffer `bytes` of the caller and the
return value. -/
structure rs_call_result where
  rs8 : dmr_rs_t
  bytes : List Nat
  ret : Int
  deriving DecidableEq, Repr

/-- The function `dmr_rs_12_9_4_encode`. The result is `none` on the error return taken when
the context cannot be set up. -/
def dmr_rs_12_9_4_encode (env : rs_env) (rs8 : Option dmr_rs_t) (bytes : List Nat)
    (crc_mask : Nat) : Option rs_call_result :=
  match dmr_rs_init env rs8 with
  | none => none
  | some rs =>
    let bb := List.replicate rs.nn 0
    let input := List.replicate rs.nn 0
    let input := memcpy input bytes 12
    let bb := dmr_rs_encode rs input bb
    let bytes := bytes.set 9 ((bb.getD 0 0 ^^^ crc_mask) % 256)
    let bytes := bytes.set 10 ((bb.getD 1 0 ^^^ crc_mask) % 256)
    let bytes := bytes.set 11 ((bb.getD 2 0 ^^^ crc_mask) % 256)
    some { rs8 := rs, bytes := bytes, ret := 0 }

/-- The function `dmr_rs_12_9_4_decode_and_verify`: the first nine bytes are encoded again in
the local buffer `check` and the parities are compared. -/
def dmr_rs_12_9_4_decode_and_verify (env : rs_env) (rs8 : Option dmr_rs_t)
    (bytes : List Nat) (crc_mask : Nat) : Option rs_call_result :=
  match dmr_rs_init env rs8 with
  | none => none
  | some rs =>
    let check := List.replicate 12 0
    let check := memcpy check bytes 9
    let check :=
      match dmr_rs_12_9_4_encode env (some rs) check crc_mask with
      | some r => r.bytes
      | none => check
    some { rs8 := rs, bytes := bytes, ret := memcmp (bytes.drop 9) (check.drop 9) 3 }

/-! ### The decoder `dmr_rs_decode` -/

/-- A local array of `int` cells, as a function from the index to the content. -/
abbrev cells := Int → Int

/-- The write `a[i] = v`. -/
def cells.set (a : cells) (i v : Int) : cells := fun k => if k = i then v else a k

/-- A local two-dimensional array of `int` cells. -/
abbrev cells2 := Int → Int → Int

/-- The write `a[r][i] = v`. -/
def cells2.set (a : cells2) (r i v : Int) : cells2 :=
  fun x k => if x = r ∧ k = i then v else a x k

/-- The content of the local arrays of `dmr_rs_decode` on entry: C does not initialise
them. -/
structure rs_stack where
  elp : cells2
  d : cells
  l : cells
  u_lu : cells
  s : cells
  root : cells
  loc : cells
  z : cells
  err : cells
  reg : cells

/-- The loop `for (i = 0; i < n; i++) buf[i] = f(i)` on a byte buffer, where `f(i)` reads no
cell that an earlier round of the loop has written. -/
def fill_bytes (buf : List Nat) (n : Nat) (f : Nat → Nat) : List Nat :=
  (List.range (min n buf.length)).map f ++ buf.drop n

/-- The syndromes of `dmr_rs_decode`: `s[1..n]` in index form, and `syn_error`, the number
of syndromes that are not zero. Every cell `recd[j]` enters the sum, through
`alpha_to[(recd[j] + i * j) % nn]`. -/
def rs_syndromes (rs : dmr_rs_t) (recd : List Nat) (s : cells) : cells × Nat :=
  ((List.range rs.n).map (fun k => k + 1)).foldl
    (fun (st : cells × Nat) (i : Nat) =>
      let si : Int :=
        (List.range rs.nn).foldl
          (fun (acc : Int) (j : Nat) =>
            Int.xor acc
              (tab_get rs.alpha_to
                (to_uint ((recd.getD j 0 : Int) + (i : Int) * j) % rs.nn : Nat)))
          0
      (st.1.set i (tab_get rs.index_of si), if si ≠ 0 then st.2 + 1 else st.2))
    (s, 0)

/-- The variables of the Berlekamp iteration. -/
structure berlekamp_t where
  u : Nat
  d : cells
  l : cells
  u_lu : cells
  elp : cells2

/-- The loop `while ((d[q] == -1) && (q > 0)) q--;`. -/
def berlekamp_find_q (d : cells) : Nat → Nat
  | 0 => 0
  | q + 1 => if d ((q + 1 : Nat) : Int) = -1 then berlekamp_find_q d q else q + 1

/-- The loop `do { j--; if ((d[j] != -1) && (u_lu[q] < u_lu[j])) q = j; } while (j > 0);`,
entered with `j` positive. -/
def berlekamp_best_q (d u_lu : cells) : Nat → Nat → Nat
  | 0, q => q
  | j + 1, q =>
    berlekamp_best_q d u_lu j
      (if d (j : Int) ≠ -1 ∧ u_lu (q : Int) < u_lu (j : Int) then j else q)

/-- One round of the `do ... while` loop of the Berlekamp iteration. -/
def berlekamp_step (rs : dmr_rs_t) (s : cells) (st : berlekamp_t) : berlekamp_t :=
  let u : Nat := st.u + 1
  let le : cells × cells2 :=
    if st.d u = -1 then
      let l := st.l.set (u + 1) (st.l u)
      let elp :=
        (List.range (st.l u + 1).toNat).foldl
          (fun (elp : cells2) (i : Nat) =>
            let elp := elp.set (u + 1) i (elp u i)
            elp.set u i (tab_get rs.index_of (elp u i)))
          st.elp
      (l, elp)
    else
      let q : Nat := berlekamp_find_q st.d (u - 1)
      let q : Nat := if q > 0 then berlekamp_best_q st.d st.u_lu q q else q
      let l :=
        if st.l u > st.l q + ((u : Int) - q) then st.l.set (u + 1) (st.l u)
        else st.l.set (u + 1) (st.l q + u - q)
      let elp :=
        (List.range rs.n).foldl (fun (elp : cells2) (i : Nat) => elp.set (u + 1) i 0) st.elp
      let elp :=
        (List.range (st.l q + 1).toNat).foldl
          (fun (elp : cells2) (i : Nat) =>
            if elp q i ≠ -1 then
              elp.set (u + 1) ((i : Int) + u - q)
                (tab_get rs.alpha_to
                  (to_uint (st.d u + rs.nn - st.d q + elp q i) % rs.nn : Nat))
            else elp)
          elp
      let elp :=
        (List.range (st.l u + 1).toNat).foldl
          (fun (elp : cells2) (i : Nat) =>
            let elp := elp.set (u + 1) i (Int.xor (elp (u + 1) i) (elp u i))
            elp.set u i (tab_get rs.index_of (elp u i)))
          elp
      (l, elp)
  let l := le.1
  let elp := le.2
  let u_lu := st.u_lu.set (u + 1) ((u : Int) - l (u + 1))
  let d :=
    if (u : Int) < rs.nn then
      let d1 : Int := if s (u + 1) ≠ -1 then tab_get rs.alpha_to (s (u + 1)) else 0
      let d1 : Int :=
        ((List.range (l (u + 1)).toNat).map (fun k => k + 1)).foldl
          (fun (d1 : Int) (i : Nat) =>
            if s ((u : Int) + 1 - i) ≠ -1 ∧ elp (u + 1) i ≠ 0 then
              Int.xor d1
                (tab_get rs.alpha_to
                  (to_uint (s ((u : Int) + 1 - i) + tab_get rs.index_of (elp (u + 1) i))
                    % rs.nn : Nat))
            else d1)
          d1
      st.d.set (u + 1) (tab_get rs.index_of d1)
    else st.d
  { u := u, d := d, l := l, u_lu := u_lu, elp := elp }

/-- The loop `do ... while ((u < (int)rs->n) && (l[u + 1] <= rs->tt))`: the body runs, and
runs again while the condition holds; `fuel` bounds the number of further rounds. -/
def berlekamp_loop (rs : dmr_rs_t) (s : cells) : Nat → berlekamp_t → berlekamp_t
  | 0, st => berlekamp_step rs s st
  | fuel + 1, st =>
    let st1 := berlekamp_step rs s st
    if (st1.u : Int) < rs.n ∧ st1.l ((st1.u : Int) + 1) ≤ rs.tt then
      berlekamp_loop rs s fuel st1
    else st1

/-- The Berlekamp iteration of `dmr_rs_decode`, from the initialisation of its tables to the
end of the `do ... while` loop. Every round adds 1 to `u` and the loop goes on only while
`u < n`, so the body never runs more than `n` times. -/
def rs_berlekamp (rs : dmr_rs_t) (s : cells) (stack : rs_stack) : berlekamp_t :=
  let d := (stack.d.set 0 0).set 1 (s 1)
  let elp := (stack.elp.set 0 0 0).set 1 0 1
  let elp :=
    ((List.range (rs.n - 1)).map (fun k => k + 1)).foldl
      (fun (elp : cells2) (i : Nat) => (elp.set 0 i (-1)).set 1 i 0) elp
  let l := (stack.l.set 0 0).set 1 0
  let u_lu := (stack.u_lu.set 0 (-1)).set 1 0
  berlekamp_loop rs s (rs.n - 1) { u := 0, d := d, l := l, u_lu := u_lu, elp := elp }

/-- The variables of the search for the roots. -/
structure chien_t where
  count : Nat
  root : cells
  loc : cells
  reg : cells

/-- The search for the roots of the error location polynomial, whose coefficients in index
form are `elp_u[0..lu]`. -/
def rs_chien (rs : dmr_rs_t) (elp_u : cells) (lu : Int) (stack : rs_stack) : chien_t :=
  let reg :=
    ((List.range lu.toNat).map (fun k => k + 1)).foldl
      (fun (reg : cells) (i : Nat) => reg.set i (elp_u i)) stack.reg
  -- for (i = 1; i <= rs->nn; i++)
  ((List.range rs.nn).map (fun k => k + 1)).foldl
    (fun (st : chien_t) (i : Nat) =>
      -- q = 1; for (j = 1; j <= l[u]; j++), the state is (q, reg)
      let qr : Int × cells :=
        ((List.range lu.toNat).map (fun k => k + 1)).foldl
          (fun (qr : Int × cells) (j : Nat) =>
            if qr.2 j ≠ -1 then
              let reg := qr.2.set j (to_uint (qr.2 j + j) % rs.nn : Nat)
              (to_uint (Int.xor qr.1 (tab_get rs.alpha_to (reg j))), reg)
            else qr)
          (1, st.reg)
      if qr.1 = 0 then
        { count := st.count + 1, root := st.root.set st.count i,
          loc := st.loc.set st.count ((rs.nn : Int) - i), reg := qr.2 }
      else { st with reg := qr.2 })
    { count := 0, root := stack.root, loc := stack.loc, reg := reg }

/-- The polynomial `z(x)` of `dmr_rs_decode`, in index form. -/
def rs_z (rs : dmr_rs_t) (s elp_u : cells) (lu : Int) (z : cells) : cells :=
  ((List.range lu.toNat).map (fun k => k + 1)).foldl
    (fun (z : cells) (i : Nat) =>
      let zi : Int :=
        if s i ≠ -1 ∧ elp_u i ≠ -1 then
          Int.xor (tab_get rs.alpha_to (s i)) (tab_get rs.alpha_to (elp_u i))
        else if s i ≠ -1 ∧ elp_u i = -1 then tab_get rs.alpha_to (s i)
        else if s i = -1 ∧ elp_u i ≠ -1 then tab_get rs.alpha_to (elp_u i)
        else 0
      let zi : Int :=
        ((List.range (i - 1)).map (fun k => k + 1)).foldl
          (fun (zi : Int) (j : Nat) =>
            if s j ≠ -1 ∧ elp_u ((i : Int) - j) ≠ -1 then
              Int.xor zi
                (tab_get rs.alpha_to (to_uint (elp_u ((i : Int) - j) + s j) % rs.nn : Nat))
            else zi)
          zi
      z.set i (tab_get rs.index_of zi))
    z

/-- The evaluation of the error values at the locations `loc[i]` and the correction of
`recd`; the state is (`err`, `recd`). -/
def rs_correct (rs : dmr_rs_t) (z root loc : cells) (lu : Int) (err : cells)
    (recd : List Nat) : cells × List Nat :=
  (List.range lu.toNat).foldl
    (fun (st : cells × List Nat) (i : Nat) =>
      let e : Int :=
        ((List.range lu.toNat).map (fun k => k + 1)).foldl
          (fun (e : Int) (j : Nat) =>
            if z j ≠ -1 then
              Int.xor e
                (tab_get rs.alpha_to (to_uint (z j + (j : Int) * root i) % rs.nn : Nat))
            else e)
          1
      if e ≠ 0 then
        let e := tab_get rs.index_of e
        let q : Nat :=
          (List.range lu.toNat).foldl
            (fun (q : Nat) (j : Nat) =>
              if j ≠ i then
                to_uint ((q : Int) +
                  tab_get rs.index_of
                    (Int.xor 1
                      (tab_get rs.alpha_to (to_uint (loc j + root i) % rs.nn : Nat))))
              else q)
            0
        let q := q % rs.nn
        let e := tab_get rs.alpha_to (to_uint (e - q + rs.nn) % rs.nn : Nat)
        (st.1.set (loc i) e,
          if loc i < 0 then st.2
          else st.2.set (loc i).toNat (to_uchar (Int.xor (st.2.getD (loc i).toNat 0) e)))
      else (st.1.set (loc i) e, st.2))
    (err, recd)

/-- What `dmr_rs_decode` leaves behind: the output block `recd` and the return value. -/
structure rs_decode_result where
  recd : List Nat
  ret : Int
  deriving DecidableEq, Repr

/-- The block `recd` after the first loop of `dmr_rs_decode`: the symbols of `input` in index
form, stored in cells of type `unsigned char`. -/
def rs_index_form (rs : dmr_rs_t) (input recd : List Nat) : List Nat :=
  fill_bytes recd rs.nn (fun i => to_uchar (tab_get rs.index_of (input.getD i 0)))

/-- The row `elp[u]` put into index form, for the search of the roots. -/
def rs_elp_index_form (rs : dmr_rs_t) (b : berlekamp_t) : cells2 :=
  (List.range (b.l ((b.u + 1 : Nat) : Int) + 1).toNat).foldl
    (fun (elp : cells2) (i : Nat) =>
      elp.set ((b.u + 1 : Nat) : Int) i
        (tab_get rs.index_of (elp ((b.u + 1 : Nat) : Int) i))) b.elp

/-- The function `dmr_rs_decode`. `stack` is the content of the local arrays on entry. -/
def dmr_rs_decode (rs : dmr_rs_t) (stack : rs_stack) (input : List Nat) (recd : List Nat) :
    rs_decode_result :=
  let recd := rs_index_form rs input recd
  let ss := rs_syndromes rs recd stack.s
  let s := ss.1
  let syn_error := ss.2
  -- the state is (recd, irrecoverable_error)
  let out : List Nat × Int :=
    if syn_error ≠ 0 then
      let b := rs_berlekamp rs s stack
      let u : Nat := b.u + 1
      if b.l u ≤ rs.tt then
        let elp := rs_elp_index_form rs b
        let c := rs_chien rs (elp u) (b.l u) stack
        if (c.count : Int) = b.l u then
          let z := rs_z rs s (elp u) (b.l u) stack.z
          let err : cells := fun k => if 0 ≤ k ∧ k < rs.nn then 0 else stack.err k
          let recd :=
            fill_bytes recd rs.nn (fun i => to_uchar (tab_get rs.alpha_to (recd.getD i 0)))
          ((rs_correct rs z c.root c.loc (b.l u) err recd).2, 0)
        else (recd, 1)
      else (recd, 2)
    else (fill_bytes recd rs.nn (fun i => to_uchar (tab_get rs.alpha_to (recd.getD i 0))), 0)
  let recd :=
    if out.2 ≠ 0 then
      fill_bytes out.1 rs.nn (fun i => to_uchar (tab_get rs.alpha_to (out.1.getD i 0)))
    else out.1
  { recd := recd, ret := out.2 }

/-- The block `input` that `dmr_rs_12_9_4_decode_and_repair` hands to `dmr_rs_decode`: the
twelve bytes of the caller, the three parities with the mask taken off, and zeros. -/
def rs_12_9_4_input (rs : dmr_rs_t) (bytes : List Nat) (crc_mask : Nat) : List Nat :=
  let input := List.replicate rs.nn 0
  let input := memcpy input bytes 12
  let input := input.set 9 ((input.getD 9 0 ^^^ crc_mask) % 256)
  let input := input.set 10 ((input.getD 10 0 ^^^ crc_mask) % 256)
  input.set 11 ((input.getD 11 0 ^^^ crc_mask) % 256)

/-- The function `dmr_rs_12_9_4_decode_and_repair`: it decodes a copy of the buffer into the
local block `output` and returns what `dmr_rs_decode` returns; nothing is written to the
buffer `bytes` of the caller. -/
def dmr_rs_12_9_4_decode_and_repair (env : rs_env) (stack : rs_stack)
    (rs8 : Option dmr_rs_t) (bytes : List Nat) (crc_mask : Nat) : Option rs_call_result :=
  match dmr_rs_init env rs8 with
  | none => none
  | some rs =>
    let input := rs_12_9_4_input rs bytes crc_mask
    let output := List.replicate rs.nn 0
    some { rs8 := rs, bytes := bytes, ret := (dmr_rs_decode rs stack input output).ret }

/-! ## The vtable operations init, start and active -/

/-- Modelled from the spec: `dmr_mutex_lock`, defined outside the sources, takes the mutex of
the session. -/
def dmr_mutex_lock (h : dmr_homebrew_t) : dmr_homebrew_t :=
  { h with proto := { h.proto with mutex_locked := true } }

/-- Modelled from the spec: `dmr_mutex_unlock`, defined outside the sources, releases the
mutex of the session. -/
def dmr_mutex_unlock (h : dmr_homebrew_t) : dmr_homebrew_t :=
  { h with proto := { h.proto with mutex_locked := false } }

/-- The function `homebrew_proto_init`: the session after the call and the return value. The
call `srand((unsigned int)time(NULL))`, which seeds the generator behind `rand()`, is left
out: the draws of `rand()` are an argument of the functions that use them. -/
def homebrew_proto_init (X : dmr_error_env) (homebrewptr : Option dmr_homebrew_t) :
    Option dmr_homebrew_t × Int :=
  match homebrewptr with
  | none => (none, X.error_einval)
  | some h =>
    if h.auth ≠ dmr_homebrew_auth_t.DMR_HOMEBREW_AUTH_DONE then (some h, X.error_einval)
    else (some { h with proto := { h.proto with init_done := true } }, 0)

/-- What the calls of `malloc` and `dmr_thread_create` in `homebrew_proto_start` do: whether
the allocation succeeds and whether the thread is created. -/
structure thread_env where
  malloc_ok : Bool
  create_ok : Bool
  deriving DecidableEq, Repr

/-- What a call of `homebrew_proto_start` leaves behind: the session, the return value, and
whether a thread that runs `homebrew_proto_start_thread` has been created. -/
structure homebrew_proto_start_result where
  homebrew : Option dmr_homebrew_t
  ret : Int
  started : Bool
  deriving DecidableEq, Repr

/-- The function `homebrew_proto_start`. -/
def homebrew_proto_start (X : dmr_error_env) (T : thread_env)
    (homebrewptr : Option dmr_homebrew_t) : homebrew_proto_start_result :=
  match homebrewptr with
  | none => { homebrew := none, ret := X.error_einval, started := false }
  | some h =>
    if h.proto.init_done = false then
      { homebrew := some h, ret := X.error_einval, started := false }
    else if h.proto.thread = true then
      { homebrew := some h, ret := X.error_einval, started := false }
    else if T.malloc_ok = false then
      { homebrew := some h, ret := X.error_enomem, started := false }
    else
      let h1 := { h with proto := { h.proto with thread := true } }
      if T.create_ok = false then
        { homebrew := some h1, ret := X.error_einval, started := false }
      else { homebrew := some h1, ret := 0, started := true }

/-- The function `homebrew_proto_active`: the session after the call, which takes and
releases the mutex, and the value returned. -/
def homebrew_proto_active (homebrewptr : Option dmr_homebrew_t) :
    Option dmr_homebrew_t × Bool :=
  match homebrewptr with
  | none => (none, false)
  | some h =>
    let h := dmr_mutex_lock h
    let active := h.proto.thread && h.proto.is_active
    (some (dmr_mutex_unlock h), active)

/-! ## Raw sends, closing the session and the loop -/

/-- The call `memcpy(dst + off, src, n)` on byte buffers. -/
def memcpy_at (dst : List Nat) (off : Nat) (src : List Nat) (n : Nat) : List Nat :=
  dst.take off ++ memcpy (dst.drop off) src n

/-- The function `dmr_homebrew_sendraw`: the return value, where `sendto_ret` is what
`sendto` returns for the `len` bytes of `buf`. -/
def dmr_homebrew_sendraw (X : dmr_error_env) (homebrew : Option dmr_homebrew_t)
    (sendto_ret : Int) (len : Int) : Int :=
  match homebrew with
  | none => X.error_einval
  | some _ => if sendto_ret ≠ len then X.error_set else 0

/-- What a call of `dmr_homebrew_close` that gets past its two tests leaves behind: the
session, the frames handed to `dmr_homebrew_sendraw` and the seconds slept. -/
structure dmr_homebrew_close_result where
  homebrew : dmr_homebrew_t
  sent : List (List Nat)
  slept : Nat
  deriving DecidableEq, Repr

/-- The function `dmr_homebrew_close`. `buf` is the content of the local array `buf` on
entry. The result is `none` when the function returns at once, for a `NULL` session or a
negative descriptor. The value that `dmr_homebrew_sendraw` returns is not used. -/
def dmr_homebrew_close (buf : List Nat) (homebrew : Option dmr_homebrew_t) :
    Option dmr_homebrew_close_result :=
  match homebrew with
  | none => none
  | some h =>
    if h.fd < 0 then none
    else
      let h := dmr_mutex_lock h
      let hs : dmr_homebrew_t × Nat :=
        if h.proto.is_active = true then
          (dmr_mutex_unlock { h with proto := { h.proto with is_active := false } }, 5)
        else (h, 0)
      let buf := memcpy buf dmr_homebrew_repeater_closing 4
      let buf := memcpy_at buf 4 hs.1.config.repeater_id 8
      -- dmr_homebrew_sendraw(homebrew, buf, 12);
      some { homebrew := hs.1, sent := [buf.take 12], slept := hs.2 }

/-- What the world does during one round of the loop of `dmr_homebrew_loop`. `stop` tells
whether another thread has cleared `is_active` since the last test of the loop condition.
`since` is the value of `dmr_time_since(homebrew->last_ping_sent)` and `now` the time that
`gettimeofday` gives. `ping_sendto` and `pong_sendto` are what `sendto` returns for a ping
and for a pong, `recv` is the outcome of the call of `dmr_homebrew_recvraw`, and `alloc_ok`
tells whether the allocation in `dmr_homebrew_parse_packet` succeeds. -/
structure loop_event where
  stop : Bool
  since : Rat
  now : Nat
  ping_sendto : Int
  recv : recv_event
  pong_sendto : Int
  alloc_ok : Bool
  deriving DecidableEq, Repr

/-- The state of a run of `dmr_homebrew_loop`: the session, the locals `buf` and `len`, the
frames handed to `dmr_homebrew_sendraw` so far, the rounds in which
`dmr_homebrew_recvraw` has delivered a datagram, and the packets handed to
`homebrew->proto.rx` so far. -/
structure loop_state where
  homebrew : dmr_homebrew_t
  buf : List Nat
  len : Int
  sent : List (List Nat)
  received : List loop_event
  rx : List dmr_packet_t
  deriving DecidableEq, Repr

/-- How one round of the loop ends: at the end of the body or with `continue`, with `break`,
or with `return`. -/
inductive loop_flow where
  | again
  | broke
  | returned
  deriving DecidableEq, Repr

/-- The first part of the body of the loop of `dmr_homebrew_loop`: the ping. The second
component tells whether the body goes on; it is `false` after the `break`. -/
def loop_ping (X : dmr_error_env) (ev : loop_event) (st : loop_state) : loop_state × Bool :=
  if ev.since > 3 then
    let buf := List.replicate 53 0
    let buf := memcpy buf dmr_homebrew_master_ping 7
    let buf := memcpy_at buf 7 st.homebrew.config.repeater_id 8
    let st1 := { st with buf := buf, sent := st.sent ++ [buf.take 15] }
    if dmr_homebrew_sendraw X (some st.homebrew) ev.ping_sendto 15 ≠ 0 then (st1, false)
    else ({ st1 with homebrew := { st1.homebrew with last_ping_sent := ev.now } }, true)
  else (st, true)

/-- The `switch` on the frame type in the body of the loop of `dmr_homebrew_loop`. -/
def loop_dispatch (X : dmr_error_env) (E : dmr_data_type_enum) (ev : loop_event)
    (st : loop_state) : loop_state × loop_flow :=
  let frame_type := dmr_homebrew_frame_type st.homebrew.buffer st.len
  if frame_type = DMR_HOMEBREW_MASTER_PING then
    let buf := memcpy st.buf st.homebrew.buffer 15
    let buf := memcpy buf dmr_homebrew_repeater_pong 7
    let st1 := { st with buf := buf, sent := st.sent ++ [buf.take 15] }
    -- if (!dmr_homebrew_sendraw(homebrew, buf, 15)) return;
    if dmr_homebrew_sendraw X (some st.homebrew) ev.pong_sendto 15 = 0 then
      (st1, loop_flow.returned)
    else (st1, loop_flow.again)
  else if frame_type = DMR_HOMEBREW_DMR_DATA_FRAME then
    match dmr_homebrew_parse_packet E ev.alloc_ok (some st.homebrew.buffer) st.len with
    | none => (st, loop_flow.returned)
    | some packet => ({ st with rx := st.rx ++ [packet] }, loop_flow.again)
  else (st, loop_flow.again)

/-- The body of the loop of `dmr_homebrew_loop`. -/
def loop_iteration (X : dmr_error_env) (E : dmr_data_type_enum) (ev : loop_event)
    (st : loop_state) : loop_state × loop_flow :=
  let pg := loop_ping X ev st
  if pg.2 = false then (pg.1, loop_flow.broke)
  else
    let st := pg.1
    -- dmr_homebrew_recvraw(homebrew, &len, &timeout)
    let st := { st with homebrew := { st.homebrew with buffer := ev.recv.buffer },
                        len := ev.recv.len }
    if ev.recv.ret ≠ 0 then
      if ev.recv.ret = -1 then (st, loop_flow.again) else (st, loop_flow.broke)
    else loop_dispatch X E ev { st with received := st.received ++ [ev] }

/-- How a run of `dmr_homebrew_loop` over a list of rounds ends: the function has returned,
or it is still in its loop when the list is used up. -/
inductive loop_end where
  | finished
  | running
  deriving DecidableEq, Repr

/-- The loop `while (homebrew_proto_active(homebrew))` over the rounds described by a list
of events. -/
def loop_run (X : dmr_error_env) (E : dmr_data_type_enum) :
    List loop_event → loop_state → loop_state × loop_end
  | [], st => (st, loop_end.running)
  | ev :: evs, st =>
    let h :=
      if ev.stop = true then
        { st.homebrew with proto := { st.homebrew.proto with is_active := false } }
      else st.homebrew
    match homebrew_proto_active (some h) with
    | (some h1, true) =>
      match loop_iteration X E ev { st with homebrew := h1 } with
      | (st1, loop_flow.again) => loop_run X E evs st1
      | (st1, _) => (st1, loop_end.finished)
    | (some h1, false) => ({ st with homebrew := h1 }, loop_end.finished)
    | (none, _) => (st, loop_end.finished)

/-- The function `dmr_homebrew_loop`, run over the rounds described by `events`. `buf` is
the content of the local array `buf` on entry. The result is `none` for a `NULL` session,
where the function returns at once. -/
def dmr_homebrew_loop (X : dmr_error_env) (E : dmr_data_type_enum) (buf : List Nat)
    (homebrew : Option dmr_homebrew_t) (events : List loop_event) :
    Option (loop_state × loop_end) :=
  match homebrew with
  | none => none
  | some h =>
    let h := dmr_mutex_lock h
    let h := { h with proto := { h.proto with is_active := true } }
    let h := dmr_mutex_unlock h
    some (loop_run X E events
      { homebrew := h, buf := buf, len := 0, sent := [], received := [], rx := [] })

/-! ## Vocabulary of the specification -/

/-- The `k` big-endian bytes of `n`: the byte of highest weight comes first (specification
side, stated with division and remainder). -/
def be_bytes : Nat → Nat → List Nat
  | 0, _ => []
  | k + 1, n => be_bytes k (n / 256) ++ [n % 256]

/-- The number a list of bytes denotes when read big-endian (specification side). -/
def be_value (bs : List Nat) : Nat :=
  bs.foldl (fun acc b => acc * 256 + b) 0

/-- The values a session can hold in C: the repeater id and the stream ids are `uint32_t`,
and `tx` is an array of two elements, one per timeslot. -/
def dmr_homebrew_t.wf (h : dmr_homebrew_t) : Prop :=
  h.id < 2 ^ 32 ∧ h.tx.length = 2 ∧ ∀ t ∈ h.tx, t.stream_id < 2 ^ 32

instance (h : dmr_homebrew_t) : Decidable h.wf := by
  unfold dmr_homebrew_t.wf
  exact inferInstance

/-- The twelve (length, magic, frame type) triples that the specification enumerates. -/
def enumerated_pairs : List (Int × List Nat × dmr_homebrew_frame_type_t) :=
  [(12, dmr_homebrew_repeater_login, DMR_HOMEBREW_REPEATER_LOGIN),
   (13, dmr_homebrew_master_closing, DMR_HOMEBREW_MASTER_CLOSING),
   (13, dmr_homebrew_repeater_closing, DMR_HOMEBREW_REPEATER_CLOSING),
   (14, dmr_homebrew_master_ack, DMR_HOMEBREW_MASTER_ACK),
   (14, dmr_homebrew_master_nak, DMR_HOMEBREW_MASTER_NAK),
   (15, dmr_homebrew_master_ping, DMR_HOMEBREW_MASTER_PING),
   (15, dmr_homebrew_repeater_pong, DMR_HOMEBREW_REPEATER_PONG),
   (15, dmr_homebrew_repeater_beacon, DMR_HOMEBREW_REPEATER_BEACON),
   (22, dmr_homebrew_master_ack, DMR_HOMEBREW_MASTER_ACK_NONCE),
   (23, dmr_homebrew_repeater_rssi, DMR_HOMEBREW_REPEATER_RSSI),
   (53, dmr_homebrew_data_signature, DMR_HOMEBREW_DMR_DATA_FRAME),
   (76, dmr_homebrew_repeater_key, DMR_HOMEBREW_REPEATER_KEY)]

/-- A buffer of length `len` matches an enumerated triple when `len` is the length of the
triple and the buffer starts with its magic. -/
def matches_pair (bytes : List Nat) (len : Int)
    (q : Int × List Nat × dmr_homebrew_frame_type_t) : Prop :=
  len = q.1 ∧ bytes.take q.2.1.length = q.2.1

instance (bytes : List Nat) (len : Int) (q : Int × List Nat × dmr_homebrew_frame_type_t) :
    Decidable (matches_pair bytes len q) := by
  unfold matches_pair
  exact inferInstance

/-- One call of `dmr_homebrew_send` in a run: the packet passed in, the `rand()` draws the
call would see, and the result of the socket write. -/
structure send_call where
  packet : dmr_packet_t
  rnd : rand_draws
  sendraw_ret : Int
  deriving DecidableEq, Repr

/-- Successive calls of `dmr_homebrew_send` on timeslot `ts`, each one on the session that
the call before it left behind; the results are listed in call order. -/
def send_run (E : dmr_data_type_enum) (ts : Nat) :
    dmr_homebrew_t → List send_call → List dmr_homebrew_send_result
  | _, [] => []
  | h, c :: cs =>
    match dmr_homebrew_send E c.rnd c.sendraw_ret (some h) ts (some c.packet) with
    | some r => r :: send_run E ts r.homebrew cs
    | none => send_run E ts h cs

/-- The packet starts a burst: its data type is `VOICE_LC` or `DATA` and its sequence is 0. -/
def new_burst (E : dmr_data_type_enum) (p : dmr_packet_t) : Prop :=
  (p.data_type = E.VOICE_LC ∨ p.data_type = E.DATA) ∧ p.meta.sequence = 0

instance (E : dmr_data_type_enum) (p : dmr_packet_t) : Decidable (new_burst E p) := by
  unfold new_burst
  exact inferInstance

/-- The stream id a frame carries: bytes 16..19 read big-endian. -/
def frame_stream_id (frame : List Nat) : Nat :=
  be_value ((frame.drop 16).take 4)

/-- The stream id rule for one call `c` with result `r`, where `prev_id` is the stream id of
the frame sent before it on the timeslot and `prev_h` the session that frame left behind.
A packet that starts a burst gets the generated id, in the frame, in the packet and in the
stored transmit state; any other packet gets `prev_id` in the frame and in the packet, and
the session, hence the stored id, stays as it was. -/
def stream_id_rule (E : dmr_data_type_enum) (ts : Nat) (prev_id : Nat)
    (prev_h : dmr_homebrew_t) (c : send_call) (r : dmr_homebrew_send_result) : Prop :=
  if new_burst E c.packet then
    frame_stream_id r.frame = dmr_homebrew_generate_stream_id c.rnd ∧
    r.packet.meta.stream_id = dmr_homebrew_generate_stream_id c.rnd ∧
    r.homebrew.tx_stream_id ts = dmr_homebrew_generate_stream_id c.rnd
  else
    frame_stream_id r.frame = prev_id ∧
    r.packet.meta.stream_id = prev_id ∧
    r.homebrew.tx_stream_id ts = prev_id ∧
    r.homebrew = prev_h

/-! ## Concrete inputs -/

/-- A session with repeater id 0x7b9 and a stored stream id on each timeslot. -/
def sample_session : dmr_homebrew_t :=
  { id := 0x7b9, tx := [{ stream_id := 0x11223344 }, { stream_id := 0x55667788 }] }

/-- Four `rand()` draws; packed by `DMR_UINT32_BE` they give 0xdeadbeef. -/
def sample_rnd : rand_draws := { r0 := 0xde, r1 := 0xad, r2 := 0xbe, r3 := 0xef }

/-- A voice LC header that opens a burst: first timeslot (`ts = 0`), `flco = 0`, sequence 0,
from id 10 to id 20, stamped with the repeater id 5 of another repeater. -/
def sample_voice_lc : dmr_packet_t :=
  { ts := 0, flco := 0, src_id := 10, dst_id := 20, repeater_id := 5,
    data_type := sample_enum.VOICE_LC, payload := List.replicate 33 0,
    meta := { sequence := 0, voice_frame := 0, stream_id := 0 } }

/-- A voice sync frame of the same call, sequence 1, with no repeater id set. -/
def sample_voice_sync : dmr_packet_t :=
  { ts := 0, flco := 0, src_id := 10, dst_id := 20, repeater_id := 0,
    data_type := sample_enum.VOICE_SYNC, payload := List.replicate 33 1,
    meta := { sequence := 1, voice_frame := 0, stream_id := 0 } }

/-- A voice frame of the same call, sequence 2, voice frame index 1. -/
def sample_voice : dmr_packet_t :=
  { ts := 0, flco := 0, src_id := 10, dst_id := 20, repeater_id := 0,
    data_type := sample_enum.VOICE, payload := List.replicate 33 2,
    meta := { sequence := 2, voice_frame := 1, stream_id := 0 } }

/-- A run of three calls on one timeslot: the LC header, the voice sync and a voice frame. -/
def sample_calls : List send_call :=
  [{ packet := sample_voice_lc, rnd := sample_rnd, sendraw_ret := 0 },
   { packet := sample_voice_sync, rnd := sample_rnd, sendraw_ret := 0 },
   { packet := sample_voice, rnd := sample_rnd, sendraw_ret := 0 }]

/-- The frame of the wire-decode scenario of the specification: `44 4d 52 44 05 00 00 0a 00
00 14 00 00 07 b9 03 de ad be ef` followed by 33 zero bytes. -/
def scenario_frame : List Nat :=
  [0x44, 0x4d, 0x52, 0x44, 0x05, 0x00, 0x00, 0x0a, 0x00, 0x00, 0x14, 0x00, 0x00, 0x07, 0xb9,
   0x03, 0xde, 0xad, 0xbe, 0xef] ++ List.replicate 33 0

/-- The login frame of repeater "00000001": "RPTL" followed by eight ASCII digits. -/
def sample_login_frame : List Nat :=
  [82, 80, 84, 76, 48, 48, 48, 48, 48, 48, 48, 49]

/-! ## Vocabulary for the Reed-Solomon codec and the authentication -/

/-- The parity symbols that `dmr_rs_12_9_4_encode` computes for the buffer `bytes`: the block
`bb` after the call of `dmr_rs_encode` on the block `input`. -/
def rs_12_9_4_parity (rs : dmr_rs_t) (bytes : List Nat) : List Nat :=
  dmr_rs_encode rs (memcpy (List.replicate rs.nn 0) bytes 12) (List.replicate rs.nn 0)

/-- The buffer `bytes` after the three stores `bytes[9 + i] = bb[i] ^ crc_mask`. -/
def rs_12_9_4_store (bytes bb : List Nat) (crc_mask : Nat) : List Nat :=
  ((bytes.set 9 ((bb.getD 0 0 ^^^ crc_mask) % 256)).set 10
    ((bb.getD 1 0 ^^^ crc_mask) % 256)).set 11 ((bb.getD 2 0 ^^^ crc_mask) % 256)

/-- The three masked parity bytes obtained by encoding bytes 0..8 of `bytes` again: the
content of positions 9..11 after `dmr_rs_12_9_4_encode` has run on a buffer that holds the
nine bytes and zeros. -/
def reencoded_parity (env : rs_env) (rs : dmr_rs_t) (bytes : List Nat) (crc_mask : Nat) :
    List Nat :=
  match dmr_rs_12_9_4_encode env (some rs) (bytes.take 9 ++ [0, 0, 0]) crc_mask with
  | some r => (r.bytes.drop 9).take 3
  | none => []

/-- The number of non-zero syndromes that `dmr_rs_decode` finds for the block `input`. -/
def decode_syn_error (rs : dmr_rs_t) (stack : rs_stack) (input : List Nat) : Nat :=
  (rs_syndromes rs (rs_index_form rs input (List.replicate rs.nn 0)) stack.s).2

/-- The state in which the Berlekamp iteration of `dmr_rs_decode` ends for the block
`input`. -/
def decode_berlekamp (rs : dmr_rs_t) (stack : rs_stack) (input : List Nat) : berlekamp_t :=
  rs_berlekamp rs
    (rs_syndromes rs (rs_index_form rs input (List.replicate rs.nn 0)) stack.s).1 stack

/-- The degree `l[u]` of the error location polynomial with which the Berlekamp iteration of
`dmr_rs_decode` ends for the block `input`. -/
def decode_degree (rs : dmr_rs_t) (stack : rs_stack) (input : List Nat) : Int :=
  (decode_berlekamp rs stack input).l (((decode_berlekamp rs stack input).u + 1 : Nat) : Int)

/-- The number `count` of roots that the search of `dmr_rs_decode` finds for that
polynomial. -/
def decode_root_count (rs : dmr_rs_t) (stack : rs_stack) (input : List Nat) : Nat :=
  (rs_chien rs
    ((rs_elp_index_form rs (decode_berlekamp rs stack input))
      (((decode_berlekamp rs stack input).u + 1 : Nat) : Int))
    (decode_degree rs stack input) stack).count

/-- The refusal of the master: a reply of 14 bytes that begins
with "MSTNAK". -/
def is_master_nak (e : recv_event) : Prop :=
  e.len = 14 ∧ e.buffer.take 6 = dmr_homebrew_master_nak

/-- A reply is relevant in a phase when the wait loop of that phase acts on it: a 14-byte
"MSTNAK" in both phases, a 22-byte "MSTACK" after the login frame (phase NONE) and a 14-byte
"MSTACK" after the key frame (phase INIT). -/
def relevant_reply (phase : dmr_homebrew_auth_t) (e : recv_event) : Prop :=
  is_master_nak e ∨
  (phase = dmr_homebrew_auth_t.DMR_HOMEBREW_AUTH_NONE ∧
    e.len = 22 ∧ e.buffer.take 6 = dmr_homebrew_master_ack) ∨
  (phase = dmr_homebrew_auth_t.DMR_HOMEBREW_AUTH_INIT ∧
    e.len = 14 ∧ e.buffer.take 6 = dmr_homebrew_master_ack)

instance (e : recv_event) : Decidable (is_master_nak e) := by
  unfold is_master_nak
  exact inferInstance

instance (phase : dmr_homebrew_auth_t) (e : recv_event) : Decidable (relevant_reply phase e) := by
  unfold relevant_reply
  exact inferInstance

/-- The frame that `dmr_homebrew_auth` sends on entering the wait of a phase. -/
def auth_phase_frame (sha256 : List Nat → List Nat) (h : dmr_homebrew_t) (secret : List Nat) :
    List Nat :=
  if h.auth = dmr_homebrew_auth_t.DMR_HOMEBREW_AUTH_NONE then auth_login_frame h
  else auth_key_frame sha256 h secret

/-! ## Concrete inputs of the Reed-Solomon codec -/

/-- An allocator that succeeds and hands out zero-filled memory. -/
def rs_env_zero : rs_env := { alloc_ok := true, fresh := 0 }

/-- A stack whose cells all hold 0 when `dmr_rs_decode` is entered. -/
def rs_stack_zero : rs_stack :=
  { elp := fun _ _ => 0, d := fun _ => 0, l := fun _ => 0, u_lu := fun _ => 0,
    s := fun _ => 0, root := fun _ => 0, loc := fun _ => 0, z := fun _ => 0,
    err := fun _ => 0, reg := fun _ => 0 }

/-- The context that `dmr_rs_new(0x11d, 8, 2)` builds in zero-filled memory, written out. -/
def rs8_zero_fill : dmr_rs_t where
  mm := 8
  nn := 255
  tt := 2
  n := 4
  alpha_to :=
    [1, 2, 4, 8, 16, 32, 64, 128, 29, 58, 116, 232, 205, 135, 19, 38, 76, 152, 45, 90, 180,
     117, 234, 201, 143, 3, 6, 12, 24, 48, 96, 192, 157, 39, 78, 156, 37, 74, 148, 53, 106,
     212, 181, 119, 238, 193, 159, 35, 70, 140, 5, 10, 20, 40, 80, 160, 93, 186, 105, 210,
     185, 111, 222, 161, 95, 190, 97, 194, 153, 47, 94, 188, 101, 202, 137, 15, 30, 60, 120,
     240, 253, 231, 211, 187, 107, 214, 177, 127, 254, 225, 223, 163, 91, 182, 113, 226, 217,
     175, 67, 134, 17, 34, 68, 136, 13, 26, 52, 104, 208, 189, 103, 206, 129, 31, 62, 124,
     248, 237, 199, 147, 59, 118, 236, 197, 151, 51, 102, 204, 133, 23, 46, 92, 184, 109, 218,
     169, 79, 158, 33, 66, 132, 21, 42, 84, 168, 77, 154, 41, 82, 164, 85, 170, 73, 146, 57,
     114, 228, 213, 183, 115, 230, 209, 191, 99, 198, 145, 63, 126, 252, 229, 215, 179, 123,
     246, 241, 255, 227, 219, 171, 75, 150, 49, 98, 196, 149, 55, 110, 220, 165, 87, 174, 65,
     130, 25, 50, 100, 200, 141, 7, 14, 28, 56, 112, 224, 221, 167, 83, 166, 81, 162, 89, 178,
     121, 242, 249, 239, 195, 155, 43, 86, 172, 69, 138, 9, 18, 36, 72, 144, 61, 122, 244,
     245, 247, 243, 251, 235, 203, 139, 11, 22, 44, 88, 176, 125, 250, 233, 207, 131, 27, 54,
     108, 216, 173, 71, 142, 0, 0]
  index_of :=
    [(-1), 0, 1, 25, 2, 50, 26, 198, 3, 223, 51, 238, 27, 104, 199, 75, 4, 100, 224, 14, 52,
     141, 239, 129, 28, 193, 105, 248, 200, 8, 76, 113, 5, 138, 101, 47, 225, 36, 15, 33, 53,
     147, 142, 218, 240, 18, 130, 69, 29, 181, 194, 125, 106, 39, 249, 185, 201, 154, 9, 120,
     77, 228, 114, 166, 6, 191, 139, 98, 102, 221, 48, 253, 226, 152, 37, 179, 16, 145, 34,
     136, 54, 208, 148, 206, 143, 150, 219, 189, 241, 210, 19, 92, 131, 56, 70, 64, 30, 66,
     182, 163, 195, 72, 126, 110, 107, 58, 40, 84, 250, 133, 186, 61, 202, 94, 155, 159, 10,
     21, 121, 43, 78, 212, 229, 172, 115, 243, 167, 87, 7, 112, 192, 247, 140, 128, 99, 13,
     103, 74, 222, 237, 49, 197, 254, 24, 227, 165, 153, 119, 38, 184, 180, 124, 17, 68, 146,
     217, 35, 32, 137, 46, 55, 63, 209, 91, 149, 188, 207, 205, 144, 135, 151, 178, 220, 252,
     190, 97, 242, 86, 211, 171, 20, 42, 93, 158, 132, 60, 57, 83, 71, 109, 65, 162, 31, 45,
     67, 216, 183, 123, 164, 118, 196, 23, 73, 236, 127, 12, 111, 246, 108, 161, 59, 82, 41,
     157, 85, 170, 251, 96, 134, 177, 187, 204, 62, 90, 203, 89, 95, 176, 156, 169, 160, 81,
     11, 245, 22, 235, 122, 117, 44, 215, 79, 174, 213, 233, 230, 231, 173, 232, 116, 214,
     244, 234, 168, 80, 88, 175, 0]
  gg := [10, 81, 251, 76, 0]

/-- The message `01 02 03 04 05 06 07 08 09` with zeros in the three parity positions. -/
def sample_rs_block : List Nat := [1, 2, 3, 4, 5, 6, 7, 8, 9, 0, 0, 0]

/-- The same message with the bytes `01 02 03` left over in the three parity positions. -/
def sample_rs_stale : List Nat := [1, 2, 3, 4, 5, 6, 7, 8, 9, 1, 2, 3]

/-- The buffer that `dmr_rs_12_9_4_encode` makes of `sample_rs_block` with mask 0x00. -/
def sample_rs_encoded : List Nat := [1, 2, 3, 4, 5, 6, 7, 8, 9, 122, 35, 158]

/-- The buffer `sample_rs_encoded` with bit 0 of byte 0 flipped. -/
def sample_rs_corrupted : List Nat := [0, 2, 3, 4, 5, 6, 7, 8, 9, 122, 35, 158]

/-! ## Concrete inputs of the authentication -/

/-- An error environment in which `dmr_error_set` and `dmr_error` return -1. -/
def sample_error_env : dmr_error_env :=
  { error_set := -1, error_set_ne_zero := by decide,
    error_einval := -1, error_einval_ne_zero := by decide,
    error_enomem := -1, error_enomem_ne_zero := by decide }

/-- A stand-in for the SHA-256 library that gives 32 zero bytes for every input. -/
def sample_sha256 : List Nat → List Nat := fun _ => List.replicate 32 0

/-- A session in phase NONE whose configuration carries the repeater id "00000001". -/
def sample_login_session : dmr_homebrew_t :=
  { id := 1, tx := [{ stream_id := 0 }, { stream_id := 0 }],
    config := { repeater_id := [48, 48, 48, 48, 48, 48, 48, 49], bytes := [] } }

/-- A reply that the wait loops ignore: the 15 bytes "MSTPING" and the repeater id. -/
def sample_ping_reply : recv_event :=
  { ret := 0, len := 15, buffer := [77, 83, 84, 80, 73, 78, 71, 48, 48, 48, 48, 48, 48, 48, 49] }

/-- The refusal: the 14 bytes "MSTNAK" and the repeater id. -/
def sample_nak_reply : recv_event :=
  { ret := 0, len := 14, buffer := [77, 83, 84, 78, 65, 75, 48, 48, 48, 48, 48, 48, 48, 49] }

/-- The state in which `dmr_homebrew_auth` enters its loop for `sample_login_session` when
the socket accepts one frame and then delivers a ping, the refusal and a second ping. -/
def sample_auth_state : auth_state :=
  { homebrew := sample_login_session, sent := [], sends := [0],
    recvs := [sample_ping_reply, sample_nak_reply, sample_ping_reply] }

/-! ## Vocabulary for the authentication steps, the loop and the vtable -/

/-- The lowercase character of a hexadecimal digit (specification side): '0'..'9' for the
digits 0..9 and 'a'..'f' for the digits 10..15. -/
def hex_char (d : Nat) : Nat := if d < 10 then 48 + d else 87 + d

/-- The lowercase hexadecimal encoding of a byte string, high nibble first (specification
side). -/
def lowercase_hex (bytes : List Nat) : List Nat :=
  (bytes.map (fun b => [hex_char (b / 16), hex_char (b % 16)])).flatten

/-- The changes of phase that the specification of the authentication allows. -/
def phase_edge (a b : dmr_homebrew_auth_t) : Prop :=
  (a = dmr_homebrew_auth_t.DMR_HOMEBREW_AUTH_NONE ∧
    b = dmr_homebrew_auth_t.DMR_HOMEBREW_AUTH_INIT) ∨
  (a = dmr_homebrew_auth_t.DMR_HOMEBREW_AUTH_INIT ∧
    b = dmr_homebrew_auth_t.DMR_HOMEBREW_AUTH_CONF) ∨
  (a = dmr_homebrew_auth_t.DMR_HOMEBREW_AUTH_CONF ∧
    b = dmr_homebrew_auth_t.DMR_HOMEBREW_AUTH_DONE) ∨
  (a = dmr_homebrew_auth_t.DMR_HOMEBREW_AUTH_NONE ∧
    b = dmr_homebrew_auth_t.DMR_HOMEBREW_AUTH_FAIL) ∨
  (a = dmr_homebrew_auth_t.DMR_HOMEBREW_AUTH_INIT ∧
    b = dmr_homebrew_auth_t.DMR_HOMEBREW_AUTH_FAIL)

instance (a b : dmr_homebrew_auth_t) : Decidable (phase_edge a b) := by
  unfold phase_edge
  exact inferInstance

/-- The number of rounds that the loop of `dmr_homebrew_auth` can still run from a phase. -/
def auth_rank : dmr_homebrew_auth_t → Nat
  | dmr_homebrew_auth_t.DMR_HOMEBREW_AUTH_NONE => 3
  | dmr_homebrew_auth_t.DMR_HOMEBREW_AUTH_INIT => 2
  | dmr_homebrew_auth_t.DMR_HOMEBREW_AUTH_FAIL => 1
  | dmr_homebrew_auth_t.DMR_HOMEBREW_AUTH_CONF => 1
  | dmr_homebrew_auth_t.DMR_HOMEBREW_AUTH_DONE => 0

/-- The state in which `dmr_homebrew_auth` enters its loop. -/
def auth_entry (homebrew : dmr_homebrew_t) (sends : List Int) (recvs : List recv_event) :
    auth_state :=
  { homebrew := homebrew, sent := [], sends := sends, recvs := recvs }

/-- A round of the loop of `dmr_homebrew_loop` reads a datagram: the ping, if one is due, is
sent, and `dmr_homebrew_recvraw` returns 0. -/
def loop_receives (X : dmr_error_env) (ev : loop_event) (st : loop_state) : Prop :=
  (ev.since > 3 → dmr_homebrew_sendraw X (some st.homebrew) ev.ping_sendto 15 = 0) ∧
  ev.recv.ret = 0

instance (X : dmr_error_env) (ev : loop_event) (st : loop_state) :
    Decidable (loop_receives X ev st) := by
  unfold loop_receives
  exact inferInstance

/-- The state of a run of `dmr_homebrew_loop` after the test of the loop condition at the
top of a round: another thread may have cleared `is_active`, and
`homebrew_proto_active` has taken and released the mutex. -/
def loop_tested (ev : loop_event) (st : loop_state) : loop_state :=
  { st with
    homebrew :=
      dmr_mutex_unlock
        (dmr_mutex_lock
          (if ev.stop = true then
            { st.homebrew with proto := { st.homebrew.proto with is_active := false } }
          else st.homebrew)) }

/-- The packet that `dmr_homebrew_parse_packet` yields for the datagram read in a round of
the loop, if it yields one. -/
def loop_packet (E : dmr_data_type_enum) (ev : loop_event) : Option dmr_packet_t :=
  dmr_homebrew_parse_packet E ev.alloc_ok (some ev.recv.buffer) ev.recv.len

/-- The state in which `dmr_homebrew_loop` enters its loop. -/
def loop_entry (buf : List Nat) (h : dmr_homebrew_t) : loop_state :=
  { homebrew :=
      dmr_mutex_unlock
        (let h1 := dmr_mutex_lock h
         { h1 with proto := { h1.proto with is_active := true } })
    buf := buf, len := 0, sent := [], received := [], rx := [] }

/-! ## Concrete inputs of the authentication steps, the loop and the vtable -/

/-- The acceptance of the login: the 22 bytes "MSTACK", the repeater id "00000001" and the
nonce `a1 b2 c3 d4 e5 f6 07 18`. -/
def sample_ack_nonce_reply : recv_event :=
  { ret := 0, len := 22,
    buffer := [77, 83, 84, 65, 67, 75, 48, 48, 48, 48, 48, 48, 48, 49,
               0xa1, 0xb2, 0xc3, 0xd4, 0xe5, 0xf6, 0x07, 0x18] }

/-- The state in which `dmr_homebrew_auth` enters its loop for `sample_login_session` when
the socket accepts one frame and then delivers a ping and the acceptance of the login. -/
def sample_login_state : auth_state :=
  { homebrew := sample_login_session, sent := [], sends := [0],
    recvs := [sample_ping_reply, sample_ack_nonce_reply] }

/-- A stand-in for the SHA-256 library whose digest is the 32 bytes `0b 30 55 7a ...`,
byte `i` being `37 * i + 11` modulo 256. -/
def sample_digest : List Nat → List Nat :=
  fun _ => (List.range 32).map (fun i => (37 * i + 11) % 256)

/-- The session `sample_login_session` in phase INIT, with the nonce
`a1 b2 c3 d4 e5 f6 07 18` stored. -/
def sample_init_session : dmr_homebrew_t :=
  { sample_login_session with
    auth := dmr_homebrew_auth_t.DMR_HOMEBREW_AUTH_INIT
    random := [0xa1, 0xb2, 0xc3, 0xd4, 0xe5, 0xf6, 0x07, 0x18] }

/-- The state in which the loop of `dmr_homebrew_auth` starts a round for
`sample_init_session` when the socket accepts one frame and delivers nothing yet. -/
def sample_init_state : auth_state :=
  { homebrew := sample_init_session, sent := [], sends := [0], recvs := [] }

/-- The bytes of "secret". -/
def sample_secret : List Nat := [115, 101, 99, 114, 101, 116]

/-- A session in phase CONF whose configuration object has 306 bytes, the size that the
`assert` of the case CONF requires. -/
def sample_conf_session : dmr_homebrew_t :=
  { id := 1, tx := [{ stream_id := 0 }, { stream_id := 0 }],
    auth := dmr_homebrew_auth_t.DMR_HOMEBREW_AUTH_CONF
    config := { repeater_id := [48, 48, 48, 48, 48, 48, 48, 49], bytes := List.replicate 306 32 } }

/-- The acceptance of the key: the 14 bytes "MSTACK" and the repeater id "00000001". -/
def sample_ack_reply : recv_event :=
  { ret := 0, len := 14,
    buffer := [77, 83, 84, 65, 67, 75, 48, 48, 48, 48, 48, 48, 48, 49] }

/-- A session in phase NONE with the repeater id "00000001" and a configuration object of
306 bytes. -/
def sample_auth_session : dmr_homebrew_t :=
  { sample_conf_session with auth := dmr_homebrew_auth_t.DMR_HOMEBREW_AUTH_NONE }

/-- A session in phase CONF whose configuration object has 302 bytes. -/
def sample_conf_302_session : dmr_homebrew_t :=
  { id := 1, tx := [{ stream_id := 0 }, { stream_id := 0 }],
    auth := dmr_homebrew_auth_t.DMR_HOMEBREW_AUTH_CONF
    config := { repeater_id := [48, 48, 48, 48, 48, 48, 48, 49], bytes := List.replicate 302 32 } }

/-- An authenticated session with the repeater id "00000001", an open socket and a thread,
whose last ping was sent at time 100. -/
def sample_loop_session : dmr_homebrew_t :=
  { id := 1, tx := [{ stream_id := 0 }, { stream_id := 0 }],
    auth := dmr_homebrew_auth_t.DMR_HOMEBREW_AUTH_DONE
    config := { repeater_id := [48, 48, 48, 48, 48, 48, 48, 49], bytes := [] }
    last_ping_sent := 100, fd := 3
    proto := { init_done := true, thread := true } }

/-- A round in which no ping is due, the master's ping "MSTPING00000001" arrives, and
`sendto` sends all 15 bytes of the pong. -/
def sample_ping_event : loop_event :=
  { stop := false, since := 1, now := 101, ping_sendto := 15, recv := sample_ping_reply,
    pong_sendto := 15, alloc_ok := true }

/-- The same round with a `sendto` that fails for the pong. -/
def sample_ping_fail_event : loop_event :=
  { sample_ping_event with pong_sendto := -1 }

/-- A round in which no ping is due and the DMR data frame `scenario_frame` arrives. -/
def sample_data_event : loop_event :=
  { stop := false, since := 2, now := 102, ping_sendto := 15,
    recv := { ret := 0, len := 53, buffer := scenario_frame },
    pong_sendto := 15, alloc_ok := true }

/-- A round that starts 3.5 seconds after the last ping: `sendto` sends all 15 bytes of the
ping, and the call of `dmr_homebrew_recvraw` times out. -/
def sample_late_event : loop_event :=
  { stop := false, since := mkRat 7 2, now := 104, ping_sendto := 15,
    recv := { ret := -1, len := 0, buffer := [] }, pong_sendto := 15, alloc_ok := true }

/-- The state in which `dmr_homebrew_loop` enters its loop for `sample_loop_session`. -/
def sample_loop_state : loop_state := loop_entry (List.replicate 53 0) sample_loop_session

/-! ## Vocabulary for the field GF(2^8) and for the working of the decoder -/

/-- The product of `x` and alpha = 2 in GF(2^8): a shift to the left by one bit, reduced by
the polynomial 0x11d. -/
def gf_xtime (x : Nat) : Nat := if x * 2 < 256 then x * 2 else (x * 2) ^^^ 0x11d

/-- The product of `x` and alpha^i in GF(2^8). -/
def gf_mul_alpha_pow (i : Nat) (x : Nat) : Nat := gf_xtime^[i] x

/-- The element alpha^i of GF(2^8). -/
def gf_alpha_pow (i : Nat) : Nat := gf_mul_alpha_pow i 1

/-- The value at alpha^i of the polynomial whose coefficient of X^m is `c[m]`: the sum in
GF(2^8), which is a bitwise exclusive or, of the products c[m] * alpha^(i*m). -/
def gf_poly_eval (c : List Nat) (i : Nat) : Nat :=
  (List.range c.length).foldl (fun acc m => acc ^^^ gf_mul_alpha_pow (i * m) (c.getD m 0)) 0

/-- The syndromes `s[1..n]` that `dmr_rs_decode` computes for the block `input`, with the
other cells of `s` as the stack holds them on entry. -/
def decode_syndromes (rs : dmr_rs_t) (stack : rs_stack) (input : List Nat) : cells :=
  (rs_syndromes rs (rs_index_form rs input (List.replicate rs.nn 0)) stack.s).1

/-- The state in which `dmr_rs_decode` enters the `do ... while` loop of the Berlekamp
iteration. -/
def berlekamp_entry (rs : dmr_rs_t) (s : cells) (stack : rs_stack) : berlekamp_t :=
  let d := (stack.d.set 0 0).set 1 (s 1)
  let elp := (stack.elp.set 0 0 0).set 1 0 1
  let elp :=
    ((List.range (rs.n - 1)).map (fun k => k + 1)).foldl
      (fun (elp : cells2) (i : Nat) => (elp.set 0 i (-1)).set 1 i 0) elp
  let l := (stack.l.set 0 0).set 1 0
  let u_lu := (stack.u_lu.set 0 (-1)).set 1 0
  { u := 0, d := d, l := l, u_lu := u_lu, elp := elp }

/-- The indices `k` of the cells `s[k]` that one round of the Berlekamp iteration reads while
it forms the discrepancy `d[u + 1]`: under the test `u < rs->nn` the cell `s[u + 1]`, and
the cells `s[u + 1 - i]` for `i = 1..l[u + 1]`. -/
def berlekamp_step_reads (rs : dmr_rs_t) (s : cells) (st : berlekamp_t) : List Int :=
  let st1 := berlekamp_step rs s st
  if (st1.u : Int) < rs.nn then
    ((st1.u : Int) + 1) ::
      ((List.range (st1.l ((st1.u : Int) + 1)).toNat).map (fun k => k + 1)).map
        (fun (i : Nat) => (st1.u : Int) + 1 - i)
  else []

/-- The indices of the cells of `s` read by the rounds of the `do ... while` loop, in the
order of the reads; the rounds are those of `berlekamp_loop`. -/
def berlekamp_loop_reads (rs : dmr_rs_t) (s : cells) : Nat → berlekamp_t → List Int
  | 0, st => berlekamp_step_reads rs s st
  | fuel + 1, st =>
    let st1 := berlekamp_step rs s st
    if (st1.u : Int) < rs.n ∧ st1.l ((st1.u : Int) + 1) ≤ rs.tt then
      berlekamp_step_reads rs s st ++ berlekamp_loop_reads rs s fuel st1
    else berlekamp_step_reads rs s st

/-- The indices of the cells of `s` that the Berlekamp iteration of `dmr_rs_decode` reads for
the block `input`: `s[1]` for `d[1]`, then the reads of the rounds of the loop. -/
def decode_syndrome_reads (rs : dmr_rs_t) (stack : rs_stack) (input : List Nat) : List Int :=
  1 :: berlekamp_loop_reads rs (decode_syndromes rs stack input) (rs.n - 1)
    (berlekamp_entry rs (decode_syndromes rs stack input) stack)

/-! ## Concrete inputs of the decoder and of closing the session -/

/-- A block of 255 zero symbols. -/
def sample_zero_block : List Nat := List.replicate 255 0

/-- The block `01 00 ... 00`: the symbol 1 in position 0 and 254 zero symbols. -/
def sample_unit_block : List Nat := 1 :: List.replicate 254 0

/-- A session with an open socket whose loop is not running: `is_active` is false. -/
def sample_idle_session : dmr_homebrew_t :=
  { sample_loop_session with proto := { init_done := true, is_active := false } }

/-- The same session while its loop is running. -/
def sample_active_session : dmr_homebrew_t :=
  { sample_loop_session with proto := { init_done := true, is_active := true, thread := true } }
/-- The context holds the tables of GF(2^8) with 255 symbols to a block: `alpha_to[i]` is
alpha^i and `index_of[alpha^i]` is `i` for `i = 0..254`, and `index_of[0]` is -1. -/
def rs_gf_context (rs : dmr_rs_t) : Prop :=
  rs.nn = 255 ∧
  (∀ i : Nat, i < 255 → tab_get rs.alpha_to (i : Int) = (gf_alpha_pow i : Int)) ∧
  (∀ i : Nat, i < 255 → tab_get rs.index_of (gf_alpha_pow i : Int) = (i : Int)) ∧
  tab_get rs.index_of 0 = -1
/-- The exponent `i` below 255 for which alpha^i is `x`, for `x` from 1 to 255; 0 for any
other `x`. -/
def gf_log (x : Nat) : Nat :=
  ((List.range 255).find? (fun i => gf_alpha_pow i = x)).getD 0

/-- The product of `a` and `b` in GF(2^8). -/
def gf_mul (a b : Nat) : Nat := if b = 0 then 0 else gf_mul_alpha_pow (gf_log b) a

/-- The inverse of `a` in GF(2^8), and 0 for 0. -/
def gf_inv (a : Nat) : Nat := if a = 0 then 0 else gf_alpha_pow (255 - gf_log a)
/-- A model of GF(2^8): a field `F` with a map `phi` of the values below 256 into `F` that
is injective on them, turns the bitwise exclusive or into the sum of `F` and turns the
product with alpha^i into the product with the i-th power of `phi 2`. -/
structure gf_model (F : Type) [Field F] where
  phi : Nat → F
  phi_zero : phi 0 = 0
  phi_one : phi 1 = 1
  phi_xor : ∀ a b : Nat, a < 256 → b < 256 → phi (a ^^^ b) = phi a + phi b
  phi_mul : ∀ i x : Nat, x < 256 → phi (gf_mul_alpha_pow i x) = phi 2 ^ i * phi x
  phi_inj : ∀ a b : Nat, a < 256 → b < 256 → phi a = phi b → a = b
/-- The coefficients of the product of X + alpha^i and the polynomial whose coefficient of
X^j is `p[j]`: the coefficient of X^j in the product is p[j - 1] + alpha^i * p[j]. -/
def gf_poly_mul_root (p : List Nat) (i : Nat) : List Nat :=
  (List.range (p.length + 1)).map
    (fun j => (if j = 0 then 0 else p.getD (j - 1) 0) ^^^ gf_mul_alpha_pow i (p.getD j 0))

/-- The coefficients of the product of the polynomials X + alpha^i for `i = 1..n` over
GF(2^8), that of X^0 first. -/
def gf_generator (n : Nat) : List Nat :=
  ((List.range n).map (fun k => k + 1)).foldl gf_poly_mul_root [1]

/-- A coefficient read back from index form to polynomial form: 0 for the index -1, and
`alpha_to[e]` for any other index `e`. -/
def rs_poly_form (rs : dmr_rs_t) (e : Int) : Int :=
  if e = -1 then 0 else tab_get rs.alpha_to e

/-- The state in which the search for the roots of `dmr_rs_decode` ends for the block
`input`, on the branch where the degree `l[u]` is at most `tt`: `count`, and the arrays
`root`, `loc` and `reg`. -/
def decode_chien (rs : dmr_rs_t) (stack : rs_stack) (input : List Nat) : chien_t :=
  rs_chien rs
    ((rs_elp_index_form rs (decode_berlekamp rs stack input))
      (((decode_berlekamp rs stack input).u + 1 : Nat) : Int))
    (decode_degree rs stack input) stack

/-- A data block of 251 symbols for the encoder of the context with `tt = 2`. -/
def sample_rs_data : List Nat := (List.range 251).map (fun i => (7 * i + 1) % 256)

/-- The coefficients `gg[0..n]` of the context, read back from index form to polynomial
form. -/
def rs_generator_poly (rs : dmr_rs_t) : List Nat :=
  (List.range (rs.n + 1)).map
    (fun (j : Nat) => (rs_poly_form rs (tab_get rs.gg (j : Int))).toNat)

/-! ## Vocabulary and concrete inputs for the decoder in memory that is not zero -/

/-- The index with which one round of the Berlekamp iteration reads the table `alpha_to` in
`d[u + 1] = rs->alpha_to[s[u + 1]]`: under the tests `u < rs->nn` and `s[u + 1] != -1`, the
content of the cell `s[u + 1]`. The model answers the read with `tab_get`, which gives 0 for
an index outside the table, where C leaves the read undefined. -/
def berlekamp_step_table_reads (rs : dmr_rs_t) (s : cells) (st : berlekamp_t) : List Int :=
  let st1 := berlekamp_step rs s st
  if (st1.u : Int) < rs.nn ∧ s ((st1.u : Int) + 1) ≠ -1 then [s ((st1.u : Int) + 1)] else []

/-- The indices of those reads of `alpha_to` in the rounds of the `do ... while` loop, in the
order of the reads; the rounds are those of `berlekamp_loop`. -/
def berlekamp_loop_table_reads (rs : dmr_rs_t) (s : cells) : Nat → berlekamp_t → List Int
  | 0, st => berlekamp_step_table_reads rs s st
  | fuel + 1, st =>
    let st1 := berlekamp_step rs s st
    if (st1.u : Int) < rs.n ∧ st1.l ((st1.u : Int) + 1) ≤ rs.tt then
      berlekamp_step_table_reads rs s st ++ berlekamp_loop_table_reads rs s fuel st1
    else berlekamp_step_table_reads rs s st

/-- The indices with which the Berlekamp iteration of `dmr_rs_decode` reads `alpha_to` in
`rs->alpha_to[s[u + 1]]` for the block `input`. -/
def decode_table_reads (rs : dmr_rs_t) (stack : rs_stack) (input : List Nat) : List Int :=
  berlekamp_loop_table_reads rs (decode_syndromes rs stack input) (rs.n - 1)
    (berlekamp_entry rs (decode_syndromes rs stack input) stack)

/-- A stack whose cells hold 0 when `dmr_rs_decode` is entered, except the cell `s[5]`, which
holds 100000. -/
def sample_stale_stack : rs_stack :=
  { rs_stack_zero with s := fun k => if k = 5 then 100000 else 0 }

/-- Memory in which the allocations succeed and every cell that has not been written yet
holds 170, that is 0xaa. -/
def rs_env_aa : rs_env := { alloc_ok := true, fresh := 170 }

/-- The context that `dmr_rs_new(0x11d, 8, 2)` builds in memory whose cells hold 170, written
out: the cells `alpha_to[255]`, `alpha_to[256]` and `index_of[256]`, which the function never
writes, hold 170. -/
def rs8_aa_fill : dmr_rs_t where
  mm := 8
  nn := 255
  tt := 2
  n := 4
  alpha_to :=
    [1, 2, 4, 8, 16, 32, 64, 128, 29, 58, 116, 232, 205, 135, 19, 38, 76, 152, 45, 90, 180,
     117, 234, 201, 143, 3, 6, 12, 24, 48, 96, 192, 157, 39, 78, 156, 37, 74, 148, 53, 106,
     212, 181, 119, 238, 193, 159, 35, 70, 140, 5, 10, 20, 40, 80, 160, 93, 186, 105, 210, 185,
     111, 222, 161, 95, 190, 97, 194, 153, 47, 94, 188, 101, 202, 137, 15, 30, 60, 120, 240,
     253, 231, 211, 187, 107, 214, 177, 127, 254, 225, 223, 163, 91, 182, 113, 226, 217, 175,
     67, 134, 17, 34, 68, 136, 13, 26, 52, 104, 208, 189, 103, 206, 129, 31, 62, 124, 248, 237,
     199, 147, 59, 118, 236, 197, 151, 51, 102, 204, 133, 23, 46, 92, 184, 109, 218, 169, 79,
     158, 33, 66, 132, 21, 42, 84, 168, 77, 154, 41, 82, 164, 85, 170, 73, 146, 57, 114, 228,
     213, 183, 115, 230, 209, 191, 99, 198, 145, 63, 126, 252, 229, 215, 179, 123, 246, 241,
     255, 227, 219, 171, 75, 150, 49, 98, 196, 149, 55, 110, 220, 165, 87, 174, 65, 130, 25,
     50, 100, 200, 141, 7, 14, 28, 56, 112, 224, 221, 167, 83, 166, 81, 162, 89, 178, 121, 242,
     249, 239, 195, 155, 43, 86, 172, 69, 138, 9, 18, 36, 72, 144, 61, 122, 244, 245, 247, 243,
     251, 235, 203, 139, 11, 22, 44, 88, 176, 125, 250, 233, 207, 131, 27, 54, 108, 216, 173,
     71, 142, 170, 170]
  index_of :=
    [(-1), 0, 1, 25, 2, 50, 26, 198, 3, 223, 51, 238, 27, 104, 199, 75, 4, 100, 224, 14, 52,
     141, 239, 129, 28, 193, 105, 248, 200, 8, 76, 113, 5, 138, 101, 47, 225, 36, 15, 33, 53,
     147, 142, 218, 240, 18, 130, 69, 29, 181, 194, 125, 106, 39, 249, 185, 201, 154, 9, 120,
     77, 228, 114, 166, 6, 191, 139, 98, 102, 221, 48, 253, 226, 152, 37, 179, 16, 145, 34,
     136, 54, 208, 148, 206, 143, 150, 219, 189, 241, 210, 19, 92, 131, 56, 70, 64, 30, 66,
     182, 163, 195, 72, 126, 110, 107, 58, 40, 84, 250, 133, 186, 61, 202, 94, 155, 159, 10,
     21, 121, 43, 78, 212, 229, 172, 115, 243, 167, 87, 7, 112, 192, 247, 140, 128, 99, 13,
     103, 74, 222, 237, 49, 197, 254, 24, 227, 165, 153, 119, 38, 184, 180, 124, 17, 68, 146,
     217, 35, 32, 137, 46, 55, 63, 209, 91, 149, 188, 207, 205, 144, 135, 151, 178, 220, 252,
     190, 97, 242, 86, 211, 171, 20, 42, 93, 158, 132, 60, 57, 83, 71, 109, 65, 162, 31, 45,
     67, 216, 183, 123, 164, 118, 196, 23, 73, 236, 127, 12, 111, 246, 108, 161, 59, 82, 41,
     157, 85, 170, 251, 96, 134, 177, 187, 204, 62, 90, 203, 89, 95, 176, 156, 169, 160, 81,
     11, 245, 22, 235, 122, 117, 44, 215, 79, 174, 213, 233, 230, 231, 173, 232, 116, 214, 244,
     234, 168, 80, 88, 175, 170]
  gg := [10, 81, 251, 76, 0]

/-! ## Lemmas -/

/-- A buffer that matches an enumerated triple gets the frame type of that triple. -/
theorem frame_type_of_matches_pair (q : Int × List Nat × dmr_homebrew_frame_type_t)
    (hq : q ∈ enumerated_pairs) (bytes : List Nat) (len : Int)
    (hm : matches_pair bytes len q) : dmr_homebrew_frame_type bytes len = q.2.2 := by
  obtain ⟨hl, hp⟩ := hm
  simp only [enumerated_pairs, List.mem_cons, List.mem_singleton, List.not_mem_nil, or_false] at hq
  rcases hq with rfl | rfl | rfl | rfl | rfl | rfl | rfl | rfl | rfl | rfl | rfl | rfl <;>
    simp [dmr_homebrew_master_closing, dmr_homebrew_repeater_closing, dmr_homebrew_master_ack,
      dmr_homebrew_master_nak, dmr_homebrew_master_ping, dmr_homebrew_repeater_pong,
      dmr_homebrew_repeater_beacon, dmr_homebrew_repeater_rssi, dmr_homebrew_data_signature,
      dmr_homebrew_repeater_key, dmr_homebrew_repeater_login] at hl hp <;>
    subst hl <;>
    simp [dmr_homebrew_frame_type, memcmp_zero, hp,
      dmr_homebrew_master_closing, dmr_homebrew_repeater_closing, dmr_homebrew_master_ack,
      dmr_homebrew_master_nak, dmr_homebrew_master_ping, dmr_homebrew_repeater_pong,
      dmr_homebrew_repeater_beacon, dmr_homebrew_repeater_rssi, dmr_homebrew_data_signature,
      dmr_homebrew_repeater_key, dmr_homebrew_repeater_login]

/-- Different enumerated triples carry different frame types. -/
theorem enumerated_types_distinct :
    ∀ q1 ∈ enumerated_pairs, ∀ q2 ∈ enumerated_pairs, q1 ≠ q2 → q1.2.2 ≠ q2.2.2 := by
  decide

/-- A buffer that matches no enumerated triple is classified `UNKNOWN`. -/
theorem frame_type_unknown_of_no_pair (bytes : List Nat) (len : Int)
    (h : ∀ q ∈ enumerated_pairs, ¬ matches_pair bytes len q) :
    dmr_homebrew_frame_type bytes len = DMR_HOMEBREW_UNKNOWN := by
  simp only [enumerated_pairs, List.mem_cons, List.mem_singleton, List.not_mem_nil, or_false,
    forall_eq_or_imp, forall_eq, matches_pair, not_and] at h
  obtain ⟨h1, h2, h3, h4, h5, h6, h7, h8, h9, h10, h11, h12⟩ := h
  unfold dmr_homebrew_frame_type memcmp_zero
  by_cases c12 : len = 12
  · have a1 := h1 c12
    simp_all [dmr_homebrew_repeater_login]
  by_cases c13 : len = 13
  · have a1 := h2 c13
    have a2 := h3 c13
    simp_all [dmr_homebrew_master_closing, dmr_homebrew_repeater_closing]
  by_cases c14 : len = 14
  · have a1 := h4 c14
    have a2 := h5 c14
    simp_all [dmr_homebrew_master_ack, dmr_homebrew_master_nak]
  by_cases c15 : len = 15
  · have a1 := h6 c15
    have a2 := h7 c15
    have a3 := h8 c15
    simp_all [dmr_homebrew_master_ping, dmr_homebrew_repeater_pong, dmr_homebrew_repeater_beacon]
  by_cases c22 : len = 22
  · have a1 := h9 c22
    simp_all [dmr_homebrew_master_ack]
  by_cases c23 : len = 23
  · have a1 := h10 c23
    simp_all [dmr_homebrew_repeater_rssi]
  by_cases c53 : len = 53
  · have a1 := h11 c53
    simp_all [dmr_homebrew_data_signature]
  by_cases c76 : len = 76
  · have a1 := h12 c76
    simp_all [dmr_homebrew_repeater_key]
  simp [c12, c13, c14, c15, c22, c23, c53, c76]

/-- Three bytes joined by shifts and bitwise or are their big-endian sum. -/
theorem or_shift_bytes3 (a b c : Nat) (hb : b < 256) (hc : c < 256) :
    (a <<< 16) ||| (b <<< 8) ||| c = (a * 256 + b) * 256 + c := by
  have e1 : (a <<< 16) ||| (b <<< 8) = 2 ^ 16 * a + b * 2 ^ 8 := by
    rw [Nat.shiftLeft_eq, Nat.shiftLeft_eq, Nat.mul_comm a, ← Nat.mul_add_lt_is_or (by omega)]
  have e2 : 2 ^ 16 * a + b * 2 ^ 8 = 2 ^ 8 * (a * 256 + b) := by omega
  rw [e1, e2, ← Nat.mul_add_lt_is_or (by omega)]
  omega

/-- Four bytes joined by shifts and bitwise or are their big-endian sum. -/
theorem or_shift_bytes4 (a b c d : Nat) (hb : b < 256) (hc : c < 256) (hd : d < 256) :
    (a <<< 24) ||| (b <<< 16) ||| (c <<< 8) ||| d = ((a * 256 + b) * 256 + c) * 256 + d := by
  have e1 : (a <<< 24) ||| (b <<< 16) = 2 ^ 24 * a + b * 2 ^ 16 := by
    rw [Nat.shiftLeft_eq, Nat.shiftLeft_eq, Nat.mul_comm a, ← Nat.mul_add_lt_is_or (by omega)]
  have e2 : 2 ^ 24 * a + b * 2 ^ 16 = 2 ^ 16 * (a * 256 + b) := by omega
  have e3 : 2 ^ 16 * (a * 256 + b) ||| (c <<< 8) = 2 ^ 16 * (a * 256 + b) + c * 2 ^ 8 := by
    rw [Nat.shiftLeft_eq, ← Nat.mul_add_lt_is_or (by omega)]
  have e4 : 2 ^ 16 * (a * 256 + b) + c * 2 ^ 8 = 2 ^ 8 * ((a * 256 + b) * 256 + c) := by omega
  rw [e1, e2, e3, e4, ← Nat.mul_add_lt_is_or (by omega)]
  omega

theorem tx_stream_id_lt (h : dmr_homebrew_t) (hw : h.wf) (ts : Nat) :
    h.tx_stream_id ts < 2 ^ 32 := by
  unfold dmr_homebrew_t.tx_stream_id
  rw [List.getD_eq_getElem?_getD]
  cases hts : h.tx[ts]? with
  | none => simp
  | some t =>
    have := hw.2.2 t (List.getElem?_mem hts)
    simpa using this

theorem tx_stream_id_set (h : dmr_homebrew_t) (hw : h.wf) (ts v : Nat) (hts : ts ≤ DMR_TS2) :
    (h.set_tx_stream_id ts v).tx_stream_id ts = v := by
  have hl : ts < h.tx.length := by
    rw [hw.2.1]; unfold DMR_TS2 at hts; omega
  simp [dmr_homebrew_t.tx_stream_id, dmr_homebrew_t.set_tx_stream_id, List.getD_eq_getElem?_getD, hl]

theorem generate_stream_id_lt (rnd : rand_draws) : dmr_homebrew_generate_stream_id rnd < 2 ^ 32 := by
  unfold dmr_homebrew_generate_stream_id DMR_UINT32_BE
  exact Nat.mod_lt _ (by norm_num)

theorem be_bytes3_shift (x : Nat) :
    [(x >>> 16) % 256, (x >>> 8) % 256, (x >>> 0) % 256] = be_bytes 3 (x % 2 ^ 24) := by
  simp only [be_bytes, Nat.shiftRight_eq_div_pow, List.nil_append, List.cons_append,
    List.cons.injEq, and_true]
  refine ⟨?_, ?_, ?_⟩ <;> omega

theorem be_bytes4_shift (x : Nat) :
    [(x >>> 24) % 256, (x >>> 16) % 256, (x >>> 8) % 256, (x >>> 0) % 256] = be_bytes 4 x := by
  simp only [be_bytes, Nat.shiftRight_eq_div_pow, List.nil_append, List.cons_append,
    List.cons.injEq, and_true, Nat.pow_zero, Nat.div_one, true_and]
  refine ⟨?_, ?_⟩ <;> omega

/-- What `dmr_homebrew_send` returns once the argument check has passed, by the three
branches of the `switch` on the data type. -/
theorem send_cases (E : dmr_data_type_enum) (rnd : rand_draws) (ret : Int)
    (h : dmr_homebrew_t) (ts : Nat) (p : dmr_packet_t) (hts : ts ≤ DMR_TS2) :
    ∃ b15 h2,
      dmr_homebrew_send E rnd ret (some h) ts (some p) =
        some
          { homebrew := h2
            packet :=
              { p with
                repeater_id := if p.repeater_id = 0 then h.id else p.repeater_id
                meta := { p.meta with stream_id := h2.tx_stream_id ts } }
            frame :=
              [68, 77, 82, 68, p.meta.sequence % 256,
               (p.src_id >>> 16) % 256, (p.src_id >>> 8) % 256, (p.src_id >>> 0) % 256,
               (p.dst_id >>> 16) % 256, (p.dst_id >>> 8) % 256, (p.dst_id >>> 0) % 256,
               ((if p.repeater_id = 0 then h.id else p.repeater_id) >>> 24) % 256,
               ((if p.repeater_id = 0 then h.id else p.repeater_id) >>> 16) % 256,
               ((if p.repeater_id = 0 then h.id else p.repeater_id) >>> 8) % 256,
               ((if p.repeater_id = 0 then h.id else p.repeater_id) >>> 0) % 256,
               b15,
               (h2.tx_stream_id ts >>> 24) % 256, (h2.tx_stream_id ts >>> 16) % 256,
               (h2.tx_stream_id ts >>> 8) % 256, (h2.tx_stream_id ts >>> 0) % 256]
              ++ p.payload.take DMR_PAYLOAD_BYTES
            ret := ret } ∧
      ((p.data_type = E.VOICE ∧ h2 = h ∧
          b15 = ((((p.ts &&& 0x01) <<< 0) % 256 ||| ((p.flco &&& 0x01) <<< 1)) % 256 |||
                  ((p.meta.voice_frame &&& 0x0f) <<< 4)) % 256) ∨
       (p.data_type ≠ E.VOICE ∧ p.data_type = E.VOICE_SYNC ∧ h2 = h ∧
          b15 = ((((p.ts &&& 0x01) <<< 0) % 256 ||| ((p.flco &&& 0x01) <<< 1)) % 256 |||
                  0x04) % 256) ∨
       (p.data_type ≠ E.VOICE ∧ p.data_type ≠ E.VOICE_SYNC ∧
          h2 = (if (p.data_type = E.VOICE_LC ∨ p.data_type = E.DATA) ∧ p.meta.sequence = 0 then
                  h.set_tx_stream_id ts (dmr_homebrew_generate_stream_id rnd)
                else h) ∧
          b15 = (((((p.ts &&& 0x01) <<< 0) % 256 ||| ((p.flco &&& 0x01) <<< 1)) % 256 |||
                  0x0b) % 256 ||| ((p.data_type &&& 0x0f) <<< 4)) % 256)) := by
  have hts2 : ¬ ts > DMR_TS2 := by omega
  have hne : ¬ E.VOICE_SYNC = E.VOICE := fun e => E.voice_ne_voice_sync e.symm
  by_cases hrep : p.repeater_id = 0
  · by_cases hv : p.data_type = E.VOICE
    · refine ⟨_, _, ?_, Or.inl ⟨hv, rfl, rfl⟩⟩
      simp [dmr_homebrew_send, hts2, hrep, hv]
    · by_cases hvs : p.data_type = E.VOICE_SYNC
      · refine ⟨_, _, ?_, Or.inr (Or.inl ⟨hv, hvs, rfl, rfl⟩)⟩
        simp [dmr_homebrew_send, hts2, hrep, hvs, hne]
      · refine ⟨_, _, ?_, Or.inr (Or.inr ⟨hv, hvs, rfl, rfl⟩)⟩
        simp [dmr_homebrew_send, hts2, hrep, hv, hvs]
  · by_cases hv : p.data_type = E.VOICE
    · refine ⟨_, _, ?_, Or.inl ⟨hv, rfl, rfl⟩⟩
      simp [dmr_homebrew_send, hts2, hrep, hv]
    · by_cases hvs : p.data_type = E.VOICE_SYNC
      · refine ⟨_, _, ?_, Or.inr (Or.inl ⟨hv, hvs, rfl, rfl⟩)⟩
        simp [dmr_homebrew_send, hts2, hrep, hvs, hne]
      · refine ⟨_, _, ?_, Or.inr (Or.inr ⟨hv, hvs, rfl, rfl⟩)⟩
        simp [dmr_homebrew_send, hts2, hrep, hv, hvs]

theorem flags_voice_bits : ∀ a < 2, ∀ c < 2, ∀ d < 16,
    (((((a <<< 0) % 256 ||| (c <<< 1)) % 256 ||| (d <<< 4)) % 256) % 2 = a ∧
     ((((a <<< 0) % 256 ||| (c <<< 1)) % 256 ||| (d <<< 4)) % 256) / 2 % 2 = c ∧
     ((((a <<< 0) % 256 ||| (c <<< 1)) % 256 ||| (d <<< 4)) % 256) / 4 % 4 = 0 ∧
     ((((a <<< 0) % 256 ||| (c <<< 1)) % 256 ||| (d <<< 4)) % 256) / 16 = d) := by
  decide

theorem flags_voice_sync_bits : ∀ a < 2, ∀ c < 2,
    (((((a <<< 0) % 256 ||| (c <<< 1)) % 256 ||| 0x04) % 256) % 2 = a ∧
     ((((a <<< 0) % 256 ||| (c <<< 1)) % 256 ||| 0x04) % 256) / 2 % 2 = c ∧
     ((((a <<< 0) % 256 ||| (c <<< 1)) % 256 ||| 0x04) % 256) / 4 % 4 = 1 ∧
     ((((a <<< 0) % 256 ||| (c <<< 1)) % 256 ||| 0x04) % 256) / 16 = 0) := by
  decide

theorem flags_other_bits : ∀ a < 2, ∀ c < 2, ∀ d < 16,
    ((((((a <<< 0) % 256 ||| (c <<< 1)) % 256 ||| 0x0b) % 256 ||| (d <<< 4)) % 256) % 2 = 1 ∧
     (((((a <<< 0) % 256 ||| (c <<< 1)) % 256 ||| 0x0b) % 256 ||| (d <<< 4)) % 256) / 2 % 2 = 1 ∧
     (((((a <<< 0) % 256 ||| (c <<< 1)) % 256 ||| 0x0b) % 256 ||| (d <<< 4)) % 256) / 4 % 4 = 2 ∧
     (((((a <<< 0) % 256 ||| (c <<< 1)) % 256 ||| 0x0b) % 256 ||| (d <<< 4)) % 256) / 16 = d) := by
  decide

theorem and_one_mod (x : Nat) : x &&& 0x01 = x % 2 := Nat.and_one_is_mod x

theorem and_0f_mod (x : Nat) : x &&& 0x0f = x % 16 := Nat.and_pow_two_sub_one_eq_mod x 4

theorem send_voice_flags_aux (E : dmr_data_type_enum) (rnd : rand_draws) (ret : Int)
    (h : dmr_homebrew_t) (ts : Nat) (p : dmr_packet_t) (hts : ts ≤ DMR_TS2)
    (hd : p.data_type = E.VOICE_SYNC ∨ p.data_type = E.VOICE) :
    ∃ r, dmr_homebrew_send E rnd ret (some h) ts (some p) = some r ∧
      r.frame.getD 15 0 % 2 = p.ts % 2 ∧
      r.frame.getD 15 0 / 2 % 2 = p.flco % 2 ∧
      r.frame.getD 15 0 / 4 % 4 = (if p.data_type = E.VOICE_SYNC then 1 else 0) ∧
      r.frame.getD 15 0 / 16 =
        (if p.data_type = E.VOICE_SYNC then 0 else p.meta.voice_frame % 16) := by
  obtain ⟨b15, h2, hs, hc⟩ := send_cases E rnd ret h ts p hts
  refine ⟨_, hs, ?_⟩
  have ha : p.ts % 2 < 2 := Nat.mod_lt _ (by norm_num)
  have hc2 : p.flco % 2 < 2 := Nat.mod_lt _ (by norm_num)
  have hv : p.meta.voice_frame % 16 < 16 := Nat.mod_lt _ (by norm_num)
  simp only [List.cons_append, List.getD_cons_succ, List.getD_cons_zero]
  rcases hc with ⟨hv1, -, hb⟩ | ⟨hv1, hv2, -, hb⟩ | ⟨hv1, hv2, -, -⟩
  · have hne : ¬ p.data_type = E.VOICE_SYNC := fun e => E.voice_ne_voice_sync (hv1.symm.trans e)
    rw [hb, and_one_mod, and_one_mod, and_0f_mod]
    simpa [hne] using flags_voice_bits _ ha _ hc2 _ hv
  · rw [hb, and_one_mod, and_one_mod]
    simpa [hv2] using flags_voice_sync_bits _ ha _ hc2
  · rcases hd with hd | hd
    · exact absurd hd hv2
    · exact absurd hd hv1

theorem send_frame_layout_aux (E : dmr_data_type_enum) (rnd : rand_draws) (ret : Int)
    (h : dmr_homebrew_t) (ts : Nat) (p : dmr_packet_t) (hts : ts ≤ DMR_TS2) (hp : p.wf) :
    ∃ r, dmr_homebrew_send E rnd ret (some h) ts (some p) = some r ∧
      r.frame.length = 53 ∧
      r.frame.take 4 = [68, 77, 82, 68] ∧
      r.frame.getD 4 0 = p.meta.sequence ∧
      (r.frame.drop 5).take 3 = be_bytes 3 (p.src_id % 2 ^ 24) ∧
      (r.frame.drop 8).take 3 = be_bytes 3 (p.dst_id % 2 ^ 24) ∧
      (r.frame.drop 11).take 4 = be_bytes 4 r.packet.repeater_id ∧
      r.packet.repeater_id = (if p.repeater_id = 0 then h.id else p.repeater_id) ∧
      (r.frame.drop 16).take 4 = be_bytes 4 (r.homebrew.tx_stream_id ts) ∧
      r.frame.drop 20 = p.payload := by
  obtain ⟨b15, h2, hs, -⟩ := send_cases E rnd ret h ts p hts
  obtain ⟨-, -, -, h4, -, -, h7, -⟩ := hp
  refine ⟨_, hs, ?_, ?_, ?_, ?_, ?_, ?_, ?_, ?_, ?_⟩
  · simp [h7, DMR_PAYLOAD_BYTES]
  · simp
  · simp [Nat.mod_eq_of_lt h4]
  · simpa using be_bytes3_shift p.src_id
  · simpa using be_bytes3_shift p.dst_id
  · simpa using be_bytes4_shift (if p.repeater_id = 0 then h.id else p.repeater_id)
  · rfl
  · simpa using be_bytes4_shift (h2.tx_stream_id ts)
  · simp [← h7]

/-- Byte 15 of a frame whose data type is neither `VOICE` nor `VOICE_SYNC`: the constant
`0x0b` sets bits 0 and 1 whatever the timeslot and the flco of the packet are. -/
theorem send_other_flags (E : dmr_data_type_enum) (rnd : rand_draws) (ret : Int)
    (h : dmr_homebrew_t) (ts : Nat) (p : dmr_packet_t) (hts : ts ≤ DMR_TS2)
    (hv : p.data_type ≠ E.VOICE) (hvs : p.data_type ≠ E.VOICE_SYNC) :
    ∃ r, dmr_homebrew_send E rnd ret (some h) ts (some p) = some r ∧
      r.frame.getD 15 0 % 2 = 1 ∧
      r.frame.getD 15 0 / 2 % 2 = 1 ∧
      r.frame.getD 15 0 / 4 % 4 = 2 ∧
      r.frame.getD 15 0 / 16 = p.data_type % 16 := by
  obtain ⟨b15, h2, hs, hc⟩ := send_cases E rnd ret h ts p hts
  refine ⟨_, hs, ?_⟩
  have ha : p.ts % 2 < 2 := Nat.mod_lt _ (by norm_num)
  have hc2 : p.flco % 2 < 2 := Nat.mod_lt _ (by norm_num)
  have hd : p.data_type % 16 < 16 := Nat.mod_lt _ (by norm_num)
  simp only [List.cons_append, List.getD_cons_succ, List.getD_cons_zero]
  rcases hc with ⟨hv1, -, -⟩ | ⟨-, hv2, -, -⟩ | ⟨-, -, -, hb⟩
  · exact absurd hv1 hv
  · exact absurd hv2 hvs
  · rw [hb, and_one_mod, and_one_mod, and_0f_mod]
    exact flags_other_bits _ ha _ hc2 _ hd

/-- The buffers classified as DMR data frames: length 53 and first four bytes "DMRD". -/
theorem frame_type_data_iff (data : List Nat) (len : Int) :
    dmr_homebrew_frame_type data len = DMR_HOMEBREW_DMR_DATA_FRAME ↔
      (len = 53 ∧ data.take 4 = dmr_homebrew_data_signature) := by
  constructor
  · intro hft
    unfold dmr_homebrew_frame_type at hft
    by_cases c53 : len = 53
    · refine ⟨c53, ?_⟩
      subst c53
      simp only [memcmp_zero, dmr_homebrew_data_signature] at hft
      by_contra hne
      simp [dmr_homebrew_data_signature] at hne
      simp [hne] at hft
    · exfalso
      split_ifs at hft
  · rintro ⟨rfl, hs⟩
    simp [dmr_homebrew_frame_type, memcmp_zero, hs, dmr_homebrew_data_signature]

theorem getD_lt_of_all_lt (l : List Nat) (hb : ∀ b ∈ l, b < 256) (i : Nat) :
    l.getD i 0 < 256 := by
  rw [List.getD_eq_getElem?_getD]
  cases hi : l[i]? with
  | none => simp
  | some t => simpa using hb t (List.getElem?_mem hi)

theorem getD_eq_of_lt (l : List Nat) (i : Nat) (hi : i < l.length) : l.getD i 0 = l[i] := by
  simp [List.getD_eq_getElem?_getD, hi]

theorem drop_take3 (l : List Nat) (i : Nat) (hi : i + 3 ≤ l.length) :
    (l.drop i).take 3 = [l.getD i 0, l.getD (i + 1) 0, l.getD (i + 2) 0] := by
  have h0 : i < l.length := by omega
  have h1 : i + 1 < l.length := by omega
  have h2 : i + 2 < l.length := by omega
  rw [getD_eq_of_lt l i h0, getD_eq_of_lt l (i + 1) h1, getD_eq_of_lt l (i + 2) h2,
    List.drop_eq_getElem_cons h0, List.drop_eq_getElem_cons h1, List.drop_eq_getElem_cons h2]
  rfl

theorem drop_take4 (l : List Nat) (i : Nat) (hi : i + 4 ≤ l.length) :
    (l.drop i).take 4 =
      [l.getD i 0, l.getD (i + 1) 0, l.getD (i + 2) 0, l.getD (i + 3) 0] := by
  have h0 : i < l.length := by omega
  have h1 : i + 1 < l.length := by omega
  have h2 : i + 2 < l.length := by omega
  have h3 : i + 3 < l.length := by omega
  rw [getD_eq_of_lt l i h0, getD_eq_of_lt l (i + 1) h1, getD_eq_of_lt l (i + 2) h2,
    getD_eq_of_lt l (i + 3) h3,
    List.drop_eq_getElem_cons h0, List.drop_eq_getElem_cons h1, List.drop_eq_getElem_cons h2,
    List.drop_eq_getElem_cons h3]
  rfl

set_option maxRecDepth 100000 in
theorem parse_flag_bits : ∀ b < 256,
    ((b &&& 0x01) >>> 0 = b % 2 ∧ (b &&& 0x02) >>> 1 = b / 2 % 2 ∧
     (b &&& 0x0c) >>> 2 = b / 4 % 4 ∧ (b &&& 0xf0) >>> 4 = b / 16) := by
  decide

theorem parse_packet_fields_aux (E : dmr_data_type_enum) (data : List Nat)
    (hl : data.length = 53) (hs : data.take 4 = dmr_homebrew_data_signature)
    (hb : ∀ b ∈ data, b < 256) :
    ∃ p, dmr_homebrew_parse_packet E true (some data) 53 = some p ∧
      p.meta.sequence = data.getD 4 0 ∧
      p.src_id = be_value ((data.drop 5).take 3) ∧
      p.dst_id = be_value ((data.drop 8).take 3) ∧
      p.repeater_id = be_value ((data.drop 11).take 4) ∧
      p.ts = data.getD 15 0 % 2 ∧
      p.flco = data.getD 15 0 / 2 % 2 ∧
      p.meta.stream_id = be_value ((data.drop 16).take 4) ∧
      p.payload = data.drop 20 ∧
      (data.getD 15 0 / 4 % 4 = 0 →
        p.data_type = E.VOICE ∧ p.meta.voice_frame = data.getD 15 0 / 16) ∧
      (data.getD 15 0 / 4 % 4 = 1 → p.data_type = E.VOICE_SYNC ∧ p.meta.voice_frame = 0) ∧
      (data.getD 15 0 / 4 % 4 = 2 → p.data_type = data.getD 15 0 / 16) := by
  have hft : dmr_homebrew_frame_type data 53 = DMR_HOMEBREW_DMR_DATA_FRAME :=
    (frame_type_data_iff data 53).2 ⟨rfl, hs⟩
  have hd : ∀ i, data.getD i 0 < 256 := getD_lt_of_all_lt data hb
  obtain ⟨f0, f1, f2, f3⟩ := parse_flag_bits _ (hd 15)
  simp only [dmr_homebrew_parse_packet, hft, ne_eq, not_true_eq_false, if_false,
    Bool.true_eq_false]
  refine ⟨_, rfl, ?_, ?_, ?_, ?_, ?_, ?_, ?_, ?_, ?_, ?_, ?_⟩
  · exact Nat.mod_eq_of_lt (hd 4)
  · rw [drop_take3 data 5 (by omega)]
    have := or_shift_bytes3 (data.getD 5 0) (data.getD 6 0) (data.getD 7 0) (hd 6) (hd 7)
    have h5 := hd 5
    have h6 := hd 6
    have h7 := hd 7
    simp only [be_value, List.foldl_cons, List.foldl_nil, Nat.reduceAdd, this]
    omega
  · rw [drop_take3 data 8 (by omega)]
    have := or_shift_bytes3 (data.getD 8 0) (data.getD 9 0) (data.getD 10 0) (hd 9) (hd 10)
    have h5 := hd 8
    have h6 := hd 9
    have h7 := hd 10
    simp only [be_value, List.foldl_cons, List.foldl_nil, Nat.reduceAdd, this]
    omega
  · rw [drop_take4 data 11 (by omega)]
    have := or_shift_bytes4 (data.getD 11 0) (data.getD 12 0) (data.getD 13 0)
      (data.getD 14 0) (hd 12) (hd 13) (hd 14)
    have h5 := hd 11
    have h6 := hd 12
    have h7 := hd 13
    have h8 := hd 14
    simp only [be_value, List.foldl_cons, List.foldl_nil, Nat.shiftLeft_zero, Nat.reduceAdd, this]
    omega
  · exact f0
  · exact f1
  · rw [drop_take4 data 16 (by omega)]
    have := or_shift_bytes4 (data.getD 16 0) (data.getD 17 0) (data.getD 18 0)
      (data.getD 19 0) (hd 17) (hd 18) (hd 19)
    have h5 := hd 16
    have h6 := hd 17
    have h7 := hd 18
    have h8 := hd 19
    simp only [be_value, List.foldl_cons, List.foldl_nil, DMR_UINT32_BE, Nat.reduceAdd, this]
    omega
  · simp [DMR_PAYLOAD_BYTES, hl]
  · intro hk
    simp only [f2, f3, hk]
    simp
  · intro hk
    simp only [f2, f3, hk]
    simp
  · intro hk
    simp only [f2, f3, hk]
    simp

theorem be_value_be_bytes4 (x : Nat) (hx : x < 2 ^ 32) : be_value (be_bytes 4 x) = x := by
  simp only [be_bytes, be_value, List.nil_append, List.cons_append, List.foldl_cons,
    List.foldl_nil]
  omega

theorem set_tx_stream_id_wf (h : dmr_homebrew_t) (hw : h.wf) (ts v : Nat) (hv : v < 2 ^ 32) :
    (h.set_tx_stream_id ts v).wf := by
  obtain ⟨h1, h2, h3⟩ := hw
  refine ⟨h1, ?_, ?_⟩
  · simp [dmr_homebrew_t.set_tx_stream_id, h2]
  · intro t ht
    simp only [dmr_homebrew_t.set_tx_stream_id] at ht
    rcases List.mem_or_eq_of_mem_set ht with hm | rfl
    · exact h3 t hm
    · exact hv

/-- One call of `dmr_homebrew_send`: the frame and the packet carry the stream id stored
after the call, and the session changes only when the packet starts a burst. -/
theorem send_stream_step (E : dmr_data_type_enum) (rnd : rand_draws) (ret : Int)
    (h : dmr_homebrew_t) (ts : Nat) (p : dmr_packet_t) (hts : ts ≤ DMR_TS2) (hw : h.wf) :
    ∃ r, dmr_homebrew_send E rnd ret (some h) ts (some p) = some r ∧
      r.homebrew.wf ∧
      frame_stream_id r.frame = r.homebrew.tx_stream_id ts ∧
      r.packet.meta.stream_id = r.homebrew.tx_stream_id ts ∧
      r.homebrew =
        (if new_burst E p then h.set_tx_stream_id ts (dmr_homebrew_generate_stream_id rnd)
         else h) := by
  obtain ⟨b15, h2, hs, hc⟩ := send_cases E rnd ret h ts p hts
  have hh : h2 = (if new_burst E p then
      h.set_tx_stream_id ts (dmr_homebrew_generate_stream_id rnd) else h) := by
    rcases hc with ⟨hv, rfl, -⟩ | ⟨-, hvs, rfl, -⟩ | ⟨-, -, hh, -⟩
    · have : ¬ new_burst E p := by
        rintro ⟨hlc | hda, -⟩
        · exact E.voice_lc_other.1 (hlc.symm.trans hv)
        · exact E.data_other.1 (hda.symm.trans hv)
      simp [this]
    · have : ¬ new_burst E p := by
        rintro ⟨hlc | hda, -⟩
        · exact E.voice_lc_other.2 (hlc.symm.trans hvs)
        · exact E.data_other.2 (hda.symm.trans hvs)
      simp [this]
    · exact hh
  have hw2 : h2.wf := by
    rw [hh]
    split
    · exact set_tx_stream_id_wf h hw ts _ (generate_stream_id_lt rnd)
    · exact hw
  refine ⟨_, hs, hw2, ?_, rfl, hh⟩
  have hlt := tx_stream_id_lt h2 hw2 ts
  have e := be_bytes4_shift (h2.tx_stream_id ts)
  simp only [frame_stream_id]
  have : (List.drop 16 ([68, 77, 82, 68, p.meta.sequence % 256,
               (p.src_id >>> 16) % 256, (p.src_id >>> 8) % 256, (p.src_id >>> 0) % 256,
               (p.dst_id >>> 16) % 256, (p.dst_id >>> 8) % 256, (p.dst_id >>> 0) % 256,
               ((if p.repeater_id = 0 then h.id else p.repeater_id) >>> 24) % 256,
               ((if p.repeater_id = 0 then h.id else p.repeater_id) >>> 16) % 256,
               ((if p.repeater_id = 0 then h.id else p.repeater_id) >>> 8) % 256,
               ((if p.repeater_id = 0 then h.id else p.repeater_id) >>> 0) % 256,
               b15,
               (h2.tx_stream_id ts >>> 24) % 256, (h2.tx_stream_id ts >>> 16) % 256,
               (h2.tx_stream_id ts >>> 8) % 256, (h2.tx_stream_id ts >>> 0) % 256]
              ++ p.payload.take DMR_PAYLOAD_BYTES)).take 4 =
      [(h2.tx_stream_id ts >>> 24) % 256, (h2.tx_stream_id ts >>> 16) % 256,
               (h2.tx_stream_id ts >>> 8) % 256, (h2.tx_stream_id ts >>> 0) % 256] := by
    simp
  rw [this, e, be_value_be_bytes4 _ hlt]

theorem stream_id_rule_of_step (E : dmr_data_type_enum) (ts : Nat) (h : dmr_homebrew_t)
    (c : send_call) (r : dmr_homebrew_send_result) (hts : ts ≤ DMR_TS2) (hw : h.wf)
    (hs : dmr_homebrew_send E c.rnd c.sendraw_ret (some h) ts (some c.packet) = some r) :
    r.homebrew.wf ∧ frame_stream_id r.frame = r.homebrew.tx_stream_id ts ∧
      stream_id_rule E ts (h.tx_stream_id ts) h c r := by
  obtain ⟨r1, hs1, hw1, hf, hm, hh⟩ := send_stream_step E c.rnd c.sendraw_ret h ts c.packet hts hw
  rw [hs] at hs1
  obtain rfl : r = r1 := Option.some.inj hs1
  refine ⟨hw1, hf, ?_⟩
  unfold stream_id_rule
  by_cases hn : new_burst E c.packet
  · have hv : r.homebrew.tx_stream_id ts = dmr_homebrew_generate_stream_id c.rnd := by
      rw [hh, if_pos hn]
      exact tx_stream_id_set h hw ts _ hts
    rw [if_pos hn]
    exact ⟨hf.trans hv, hm.trans hv, hv⟩
  · have hv : r.homebrew = h := by rw [hh, if_neg hn]
    rw [if_neg hn]
    exact ⟨by rw [hf, hv], by rw [hm, hv], by rw [hv], hv⟩

/-- The stream id rule along a run of calls, by induction on the run. -/
theorem send_run_spec (E : dmr_data_type_enum) (ts : Nat) (hts : ts ≤ DMR_TS2) :
    ∀ (calls : List send_call) (h : dmr_homebrew_t), h.wf →
      (send_run E ts h calls).length = calls.length ∧
      (∀ c r, calls[0]? = some c → (send_run E ts h calls)[0]? = some r →
        stream_id_rule E ts (h.tx_stream_id ts) h c r) ∧
      (∀ j r0 c r, (send_run E ts h calls)[j]? = some r0 → calls[j + 1]? = some c →
        (send_run E ts h calls)[j + 1]? = some r →
        stream_id_rule E ts (frame_stream_id r0.frame) r0.homebrew c r) := by
  intro calls
  induction calls with
  | nil =>
    intro h _
    simp [send_run]
  | cons c cs ih =>
    intro h hw
    obtain ⟨r1, hs1, -⟩ := send_stream_step E c.rnd c.sendraw_ret h ts c.packet hts hw
    obtain ⟨hw1, hf, hrule⟩ := stream_id_rule_of_step E ts h c r1 hts hw hs1
    obtain ⟨il, ifirst, ipairs⟩ := ih r1.homebrew hw1
    have hrun : send_run E ts h (c :: cs) = r1 :: send_run E ts r1.homebrew cs := by
      simp [send_run, hs1]
    rw [hrun]
    refine ⟨by simp [il], ?_, ?_⟩
    · intro c2 r2 hc2 hr2
      simp only [List.getElem?_cons_zero, Option.some.injEq] at hc2 hr2
      subst hc2 hr2
      exact hrule
    · intro j r0 c2 r2 hr0 hc2 hr2
      simp only [List.getElem?_cons_succ] at hc2 hr2
      cases j with
      | zero =>
        simp only [List.getElem?_cons_zero, Option.some.injEq] at hr0
        subst hr0
        rw [hf]
        exact ifirst c2 r2 hc2 hr2
      | succ j =>
        simp only [List.getElem?_cons_succ] at hr0
        exact ipairs j r0 c2 r2 hr0 hc2 hr2

theorem be_value_be_bytes3 (x : Nat) (hx : x < 2 ^ 24) : be_value (be_bytes 3 x) = x := by
  simp only [be_bytes, be_value, List.nil_append, List.cons_append, List.foldl_cons,
    List.foldl_nil]
  omega

theorem send_frame_bytes_lt (E : dmr_data_type_enum) (rnd : rand_draws) (ret : Int)
    (h : dmr_homebrew_t) (ts : Nat) (p : dmr_packet_t) (hts : ts ≤ DMR_TS2) (hp : p.wf) :
    ∃ r, dmr_homebrew_send E rnd ret (some h) ts (some p) = some r ∧
      ∀ b ∈ r.frame, b < 256 := by
  obtain ⟨b15, h2, hs, hc⟩ := send_cases E rnd ret h ts p hts
  have hb15 : b15 < 256 := by
    rcases hc with ⟨-, -, hb⟩ | ⟨-, -, -, hb⟩ | ⟨-, -, -, hb⟩ <;>
      · rw [hb]
        exact Nat.mod_lt _ (by norm_num)
  obtain ⟨-, -, -, -, -, -, -, hpl⟩ := hp
  refine ⟨_, hs, ?_⟩
  intro b hb
  simp only [List.cons_append, List.nil_append, List.mem_cons] at hb
  rcases hb with rfl | rfl | rfl | rfl | rfl | rfl | rfl | rfl | rfl | rfl | rfl | rfl | rfl |
    rfl | rfl | rfl | rfl | rfl | rfl | rfl | hb
  all_goals first
    | exact hb15
    | exact Nat.mod_lt _ (by norm_num)
    | exact hpl b (List.mem_of_mem_take hb)
    | omega

/-- Wire round trip for voice frames: a packet of data type `VOICE` or `VOICE_SYNC` whose
fields fit the wire widths is parsed back, field by field, from the frame sent for it. -/
theorem send_parse_voice (E : dmr_data_type_enum) (rnd : rand_draws) (ret : Int)
    (h : dmr_homebrew_t) (ts : Nat) (p : dmr_packet_t) (hts : ts ≤ DMR_TS2) (hp : p.wf)
    (hsrc : p.src_id < 2 ^ 24) (hdst : p.dst_id < 2 ^ 24) (hpts : p.ts ≤ 1)
    (hflco : p.flco ≤ 1) (hvf : p.meta.voice_frame < 16) (hrep : p.repeater_id ≠ 0)
    (hd : p.data_type = E.VOICE_SYNC ∨ p.data_type = E.VOICE) :
    ∃ r q, dmr_homebrew_send E rnd ret (some h) ts (some p) = some r ∧
      dmr_homebrew_parse_packet E true (some r.frame) 53 = some q ∧
      q.meta.sequence = p.meta.sequence ∧ q.src_id = p.src_id ∧ q.dst_id = p.dst_id ∧
      q.repeater_id = p.repeater_id ∧ q.ts = p.ts ∧ q.flco = p.flco ∧
      q.data_type = p.data_type ∧ q.payload = p.payload ∧
      (p.data_type = E.VOICE → q.meta.voice_frame = p.meta.voice_frame) := by
  obtain ⟨r, hs, l1, l2, l3, l4, l5, l6, l7, l8, l9⟩ := send_frame_layout_aux E rnd ret h ts p hts hp
  obtain ⟨r2, hs2, hlt⟩ := send_frame_bytes_lt E rnd ret h ts p hts hp
  obtain ⟨r3, hs3, v1, v2, v3, v4⟩ := send_voice_flags_aux E rnd ret h ts p hts hd
  rw [hs] at hs2 hs3
  obtain rfl : r = r2 := Option.some.inj hs2
  obtain rfl : r = r3 := Option.some.inj hs3
  obtain ⟨q, hq, q1, q2, q3, q4, q5, q6, q7, q8, q9, q10, q11⟩ :=
    parse_packet_fields_aux E r.frame l1 l2 hlt
  have hrid : r.packet.repeater_id = p.repeater_id := by rw [l7, if_neg hrep]
  obtain ⟨-, -, hrlt, -, -, -, -, -⟩ := hp
  refine ⟨r, q, hs, hq, ?_, ?_, ?_, ?_, ?_, ?_, ?_, ?_, ?_⟩
  · rw [q1, l3]
  · rw [q2, l4, Nat.mod_eq_of_lt hsrc, be_value_be_bytes3 _ hsrc]
  · rw [q3, l5, Nat.mod_eq_of_lt hdst, be_value_be_bytes3 _ hdst]
  · rw [q4, l6, hrid, be_value_be_bytes4 _ hrlt]
  · rw [q5, v1]; omega
  · rw [q6, v2]; omega
  · rcases hd with hd | hd
    · rw [if_pos hd] at v3
      rw [(q10 v3).1, hd]
    · have hne : ¬ p.data_type = E.VOICE_SYNC := fun e => E.voice_ne_voice_sync (hd.symm.trans e)
      rw [if_neg hne] at v3
      rw [(q9 v3).1, hd]
  · rw [q8, l9]
  · intro hv
    have hne : ¬ p.data_type = E.VOICE_SYNC := fun e => E.voice_ne_voice_sync (hv.symm.trans e)
    rw [if_neg hne] at v3 v4
    rw [(q9 v3).2, v4]
    omega

/-! ## The claims -/

/-- C1 (wire round trip), evaluated at a packet the claim covers. The voice LC header
`sample_voice_lc` fits the wire widths and has timeslot 0 and flco 0, yet parsing the frame
that `dmr_homebrew_send` emits for it yields timeslot 1 and flco 1: the round trip fails on
frames that are neither voice nor voice sync. -/
theorem roundtrip_voice_lc_flags :
    sample_voice_lc.wf ∧ sample_voice_lc.src_id < 2 ^ 24 ∧ sample_voice_lc.dst_id < 2 ^ 24 ∧
    sample_voice_lc.data_type < 16 ∧ sample_voice_lc.repeater_id ≠ 0 ∧
    sample_voice_lc.ts = 0 ∧ sample_voice_lc.flco = 0 ∧
    ((dmr_homebrew_send sample_enum sample_rnd 0 (some sample_session) 0
        (some sample_voice_lc)).bind
      (fun r => dmr_homebrew_parse_packet sample_enum true (some r.frame) 53)).map
      (fun q => (q.ts, q.flco)) = some (1, 1) := by
  decide

/-- C2 (byte 15 of a frame that is neither voice nor voice sync), evaluated at the voice LC
header `sample_voice_lc`, whose timeslot and flco are 0: byte 15 of the emitted frame is
0x1b, with bit 0 and bit 1 set. -/
theorem send_voice_lc_byte15 :
    sample_voice_lc.data_type ≠ sample_enum.VOICE ∧
    sample_voice_lc.data_type ≠ sample_enum.VOICE_SYNC ∧
    sample_voice_lc.ts = 0 ∧ sample_voice_lc.flco = 0 ∧
    (dmr_homebrew_send sample_enum sample_rnd 0 (some sample_session) 0
        (some sample_voice_lc)).map (fun r => r.frame.getD 15 0) = some 0x1b ∧
    0x1b % 2 = 1 ∧ 0x1b / 2 % 2 = 1 := by
  decide

/-- C3 (layout of the emitted frame). For every session, every timeslot argument that
passes the argument check and every packet, `dmr_homebrew_send` emits a frame of exactly 53
bytes: bytes 0..3 are "DMRD", byte 4 is the sequence, bytes 5..7 and 8..10 are the low 24
bits of `src_id` and `dst_id` big-endian, bytes 11..14 are the repeater id of the packet
big-endian (the session id when the packet came with repeater id 0), bytes 16..19 are the
stream id the session stores for the timeslot big-endian, and bytes 20..52 are the payload. -/
theorem send_frame_layout (E : dmr_data_type_enum) (rnd : rand_draws) (ret : Int)
    (h : dmr_homebrew_t) (ts : Nat) (p : dmr_packet_t) (hts : ts ≤ DMR_TS2) (hp : p.wf) :
    ∃ r, dmr_homebrew_send E rnd ret (some h) ts (some p) = some r ∧
      r.frame.length = 53 ∧
      r.frame.take 4 = [68, 77, 82, 68] ∧
      r.frame.getD 4 0 = p.meta.sequence ∧
      (r.frame.drop 5).take 3 = be_bytes 3 (p.src_id % 2 ^ 24) ∧
      (r.frame.drop 8).take 3 = be_bytes 3 (p.dst_id % 2 ^ 24) ∧
      (r.frame.drop 11).take 4 = be_bytes 4 r.packet.repeater_id ∧
      r.packet.repeater_id = (if p.repeater_id = 0 then h.id else p.repeater_id) ∧
      (r.frame.drop 16).take 4 = be_bytes 4 (r.homebrew.tx_stream_id ts) ∧
      r.frame.drop 20 = p.payload :=
  send_frame_layout_aux E rnd ret h ts p hts hp

/-- Witness of C3: the layout of the frame sent for `sample_voice`. -/
theorem send_frame_layout_witness :
    0 ≤ DMR_TS2 ∧ sample_voice.wf ∧
    ∃ r, dmr_homebrew_send sample_enum sample_rnd 0 (some sample_session) 0
        (some sample_voice) = some r ∧
      r.frame.length = 53 ∧
      r.frame.take 4 = [68, 77, 82, 68] ∧
      r.frame.getD 4 0 = sample_voice.meta.sequence ∧
      (r.frame.drop 5).take 3 = be_bytes 3 (sample_voice.src_id % 2 ^ 24) ∧
      (r.frame.drop 8).take 3 = be_bytes 3 (sample_voice.dst_id % 2 ^ 24) ∧
      (r.frame.drop 11).take 4 = be_bytes 4 r.packet.repeater_id ∧
      r.packet.repeater_id =
        (if sample_voice.repeater_id = 0 then sample_session.id
         else sample_voice.repeater_id) ∧
      (r.frame.drop 16).take 4 = be_bytes 4 (r.homebrew.tx_stream_id 0) ∧
      r.frame.drop 20 = sample_voice.payload :=
  ⟨by decide, by decide,
    send_frame_layout sample_enum sample_rnd 0 sample_session 0 sample_voice
      (by decide) (by decide)⟩

/-- C4 (byte 15 of voice and voice sync frames). For a packet of data type `VOICE_SYNC`
bits 2..3 of byte 15 are 0b01 and bits 4..7 are 0; for a packet of data type `VOICE` bits
2..3 are 0b00 and bits 4..7 are the low four bits of the voice frame index; in both cases
bit 0 is the low bit of the timeslot and bit 1 the low bit of flco, which are the timeslot
and flco themselves when these are 0 or 1. -/
theorem send_voice_flags (E : dmr_data_type_enum) (rnd : rand_draws) (ret : Int)
    (h : dmr_homebrew_t) (ts : Nat) (p : dmr_packet_t) (hts : ts ≤ DMR_TS2)
    (hd : p.data_type = E.VOICE_SYNC ∨ p.data_type = E.VOICE) :
    ∃ r, dmr_homebrew_send E rnd ret (some h) ts (some p) = some r ∧
      r.frame.getD 15 0 % 2 = p.ts % 2 ∧
      r.frame.getD 15 0 / 2 % 2 = p.flco % 2 ∧
      r.frame.getD 15 0 / 4 % 4 = (if p.data_type = E.VOICE_SYNC then 1 else 0) ∧
      r.frame.getD 15 0 / 16 =
        (if p.data_type = E.VOICE_SYNC then 0 else p.meta.voice_frame % 16) :=
  send_voice_flags_aux E rnd ret h ts p hts hd

/-- Witness of C4: byte 15 of the frames sent for `sample_voice_sync` and `sample_voice`. -/
theorem send_voice_flags_witness :
    (0 ≤ DMR_TS2 ∧ sample_voice_sync.data_type = sample_enum.VOICE_SYNC ∧
      ∃ r, dmr_homebrew_send sample_enum sample_rnd 0 (some sample_session) 0
          (some sample_voice_sync) = some r ∧
        r.frame.getD 15 0 % 2 = sample_voice_sync.ts % 2 ∧
        r.frame.getD 15 0 / 2 % 2 = sample_voice_sync.flco % 2 ∧
        r.frame.getD 15 0 / 4 % 4 =
          (if sample_voice_sync.data_type = sample_enum.VOICE_SYNC then 1 else 0) ∧
        r.frame.getD 15 0 / 16 =
          (if sample_voice_sync.data_type = sample_enum.VOICE_SYNC then 0
           else sample_voice_sync.meta.voice_frame % 16)) ∧
    (sample_voice.data_type = sample_enum.VOICE ∧
      ∃ r, dmr_homebrew_send sample_enum sample_rnd 0 (some sample_session) 0
          (some sample_voice) = some r ∧
        r.frame.getD 15 0 % 2 = sample_voice.ts % 2 ∧
        r.frame.getD 15 0 / 2 % 2 = sample_voice.flco % 2 ∧
        r.frame.getD 15 0 / 4 % 4 =
          (if sample_voice.data_type = sample_enum.VOICE_SYNC then 1 else 0) ∧
        r.frame.getD 15 0 / 16 =
          (if sample_voice.data_type = sample_enum.VOICE_SYNC then 0
           else sample_voice.meta.voice_frame % 16)) :=
  ⟨⟨by decide, by decide,
      send_voice_flags sample_enum sample_rnd 0 sample_session 0 sample_voice_sync
        (by decide) (Or.inl (by decide))⟩,
    ⟨by decide,
      send_voice_flags sample_enum sample_rnd 0 sample_session 0 sample_voice
        (by decide) (Or.inr (by decide))⟩⟩

/-- C5 (fields of a parsed frame). For every 53-byte buffer that begins with "DMRD",
`dmr_homebrew_parse_packet` returns a packet whose sequence is byte 4, whose `src_id`,
`dst_id` and `repeater_id` are bytes 5..7, 8..10 and 11..14 big-endian, whose timeslot and
flco are bits 0 and 1 of byte 15, whose stream id is bytes 16..19 big-endian and whose
payload is bytes 20..52; bits 2..3 of byte 15 select the data type: 00 gives `VOICE` with
the voice frame index in bits 4..7, 01 gives `VOICE_SYNC` with voice frame 0, and 10 gives
the data type held in bits 4..7. -/
theorem parse_packet_fields (E : dmr_data_type_enum) (data : List Nat)
    (hl : data.length = 53) (hs : data.take 4 = dmr_homebrew_data_signature)
    (hb : ∀ b ∈ data, b < 256) :
    ∃ p, dmr_homebrew_parse_packet E true (some data) 53 = some p ∧
      p.meta.sequence = data.getD 4 0 ∧
      p.src_id = be_value ((data.drop 5).take 3) ∧
      p.dst_id = be_value ((data.drop 8).take 3) ∧
      p.repeater_id = be_value ((data.drop 11).take 4) ∧
      p.ts = data.getD 15 0 % 2 ∧
      p.flco = data.getD 15 0 / 2 % 2 ∧
      p.meta.stream_id = be_value ((data.drop 16).take 4) ∧
      p.payload = data.drop 20 ∧
      (data.getD 15 0 / 4 % 4 = 0 →
        p.data_type = E.VOICE ∧ p.meta.voice_frame = data.getD 15 0 / 16) ∧
      (data.getD 15 0 / 4 % 4 = 1 → p.data_type = E.VOICE_SYNC ∧ p.meta.voice_frame = 0) ∧
      (data.getD 15 0 / 4 % 4 = 2 → p.data_type = data.getD 15 0 / 16) :=
  parse_packet_fields_aux E data hl hs hb

/-- Witness of C5: the wire-decode scenario of the specification. The frame parses to
`src_id` 10, `dst_id` 20, `repeater_id` 0x7b9, timeslot 1, flco 1, data type `VOICE`, voice
frame 0 and stream id 0xdeadbeef. -/
theorem parse_packet_fields_witness :
    (scenario_frame.length = 53 ∧ scenario_frame.take 4 = dmr_homebrew_data_signature ∧
      (∀ b ∈ scenario_frame, b < 256)) ∧
    (∃ p, dmr_homebrew_parse_packet sample_enum true (some scenario_frame) 53 = some p ∧
      p.meta.sequence = scenario_frame.getD 4 0) ∧
    dmr_homebrew_parse_packet sample_enum true (some scenario_frame) 53 =
      some
        { ts := 1, flco := 1, src_id := 10, dst_id := 20, repeater_id := 0x7b9,
          data_type := sample_enum.VOICE, payload := List.replicate 33 0,
          meta := { sequence := 5, voice_frame := 0, stream_id := 0xdeadbeef } } :=
  ⟨⟨by decide, by decide, by decide⟩,
    (let ⟨p, hp, hq, _⟩ :=
      parse_packet_fields sample_enum scenario_frame (by decide) (by decide) (by decide)
     ⟨p, hp, hq⟩),
    by decide⟩

/-- C6 (frame types of the enumerated pairs). A buffer whose length and leading bytes match
one of the twelve enumerated (length, magic) pairs gets the frame type listed with that
pair; and two buffers that match different pairs never get the same frame type. -/
theorem frame_type_enumerated (q1 q2 : Int × List Nat × dmr_homebrew_frame_type_t)
    (h1 : q1 ∈ enumerated_pairs) (h2 : q2 ∈ enumerated_pairs)
    (b1 b2 : List Nat) (l1 l2 : Int)
    (m1 : matches_pair b1 l1 q1) (m2 : matches_pair b2 l2 q2) :
    dmr_homebrew_frame_type b1 l1 = q1.2.2 ∧
    (q1 ≠ q2 → dmr_homebrew_frame_type b1 l1 ≠ dmr_homebrew_frame_type b2 l2) := by
  refine ⟨frame_type_of_matches_pair q1 h1 b1 l1 m1, fun hne => ?_⟩
  rw [frame_type_of_matches_pair q1 h1 b1 l1 m1, frame_type_of_matches_pair q2 h2 b2 l2 m2]
  exact enumerated_types_distinct q1 h1 q2 h2 hne

/-- Witness of C6: a login frame and the scenario data frame. -/
theorem frame_type_enumerated_witness :
    dmr_homebrew_frame_type sample_login_frame 12 = DMR_HOMEBREW_REPEATER_LOGIN ∧
    dmr_homebrew_frame_type sample_login_frame 12 ≠
      dmr_homebrew_frame_type scenario_frame 53 :=
  have h :=
    frame_type_enumerated (12, dmr_homebrew_repeater_login, DMR_HOMEBREW_REPEATER_LOGIN)
      (53, dmr_homebrew_data_signature, DMR_HOMEBREW_DMR_DATA_FRAME)
      (by decide) (by decide) sample_login_frame scenario_frame 12 53
      (by decide) (by decide)
  ⟨h.1, h.2 (by decide)⟩

/-- C7 (unknown frames). A buffer whose length is none of 12, 13, 14, 15, 22, 23, 53, 76,
whatever its content, or more generally a buffer whose length and leading bytes match none
of the enumerated (length, magic) pairs, is classified `UNKNOWN`. -/
theorem frame_type_unknown (bytes : List Nat) (len : Int)
    (h : len ∉ [12, 13, 14, 15, 22, 23, 53, 76] ∨
      ∀ q ∈ enumerated_pairs, ¬ matches_pair bytes len q) :
    dmr_homebrew_frame_type bytes len = DMR_HOMEBREW_UNKNOWN := by
  apply frame_type_unknown_of_no_pair
  rcases h with h | h
  · intro q hq hm
    apply h
    rw [hm.1]
    simp only [enumerated_pairs, List.mem_cons, List.mem_singleton, List.not_mem_nil,
      or_false] at hq
    rcases hq with rfl | rfl | rfl | rfl | rfl | rfl | rfl | rfl | rfl | rfl | rfl | rfl <;>
      simp
  · exact h

/-- Witness of C7: the login frame cut to 11 bytes, and a 12-byte buffer whose leading
bytes are "DMRD" instead of the magic of that length. -/
theorem frame_type_unknown_witness :
    dmr_homebrew_frame_type (sample_login_frame.take 11) 11 = DMR_HOMEBREW_UNKNOWN ∧
    dmr_homebrew_frame_type (scenario_frame.take 12) 12 = DMR_HOMEBREW_UNKNOWN :=
  ⟨frame_type_unknown (sample_login_frame.take 11) 11 (Or.inl (by decide)),
    frame_type_unknown (scenario_frame.take 12) 12 (Or.inr (by decide))⟩

/-- C8 (when parsing yields a packet). For every non-null buffer,
`dmr_homebrew_parse_packet` returns a packet exactly when the length is 53, the first four
bytes are "DMRD" and the allocation succeeds; so it returns no packet whenever the length is
not 53 or the first four bytes are not "DMRD". -/
theorem parse_packet_some_iff (E : dmr_data_type_enum) (alloc_ok : Bool) (data : List Nat)
    (len : Int) :
    (dmr_homebrew_parse_packet E alloc_ok (some data) len).isSome = true ↔
      (alloc_ok = true ∧ len = 53 ∧ data.take 4 = dmr_homebrew_data_signature) := by
  rw [← frame_type_data_iff]
  unfold dmr_homebrew_parse_packet
  by_cases hft : dmr_homebrew_frame_type data len = DMR_HOMEBREW_DMR_DATA_FRAME
  · cases alloc_ok <;> simp [hft]
  · simp [hft]

/-- C9 (stream id per burst). Along every run of `dmr_homebrew_send` calls on one timeslot
of a session, every call emits a frame; the first frame obeys the stream id rule with
respect to the id the session stored before the run, and every later frame obeys it with
respect to the stream id carried by the frame sent before it: a frame that starts a burst
carries the newly generated id, which is stored in the session, and every other frame
carries the id of the frame before it and leaves the session as it was. -/
theorem stream_id_per_burst (E : dmr_data_type_enum) (ts : Nat) (h : dmr_homebrew_t)
    (calls : List send_call) (hts : ts ≤ DMR_TS2) (hw : h.wf) :
    (send_run E ts h calls).length = calls.length ∧
    (∀ c r, calls[0]? = some c → (send_run E ts h calls)[0]? = some r →
      stream_id_rule E ts (h.tx_stream_id ts) h c r) ∧
    (∀ j r0 c r, (send_run E ts h calls)[j]? = some r0 → calls[j + 1]? = some c →
      (send_run E ts h calls)[j + 1]? = some r →
      stream_id_rule E ts (frame_stream_id r0.frame) r0.homebrew c r) :=
  send_run_spec E ts hts calls h hw

/-- Witness of C9: the run `sample_calls` on timeslot 0. The LC header starts a burst and
the three frames all carry the generated id 0xdeadbeef. -/
theorem stream_id_per_burst_witness :
    (0 ≤ DMR_TS2 ∧ sample_session.wf) ∧
    (send_run sample_enum 0 sample_session sample_calls).length = sample_calls.length ∧
    (send_run sample_enum 0 sample_session sample_calls).map
      (fun r => frame_stream_id r.frame) = [0xdeadbeef, 0xdeadbeef, 0xdeadbeef] :=
  ⟨⟨by decide, by decide⟩,
    (stream_id_per_burst sample_enum 0 sample_session sample_calls (by decide) (by decide)).1,
    by decide⟩

/-- C10 as stated fails. The packet `sample_voice_lc` comes with repeater id 5 and the
session id is 0x7b9: bytes 11..14 of the emitted frame are those of 5, not those of the
session id. -/
theorem send_keeps_packet_repeater_id :
    sample_voice_lc.repeater_id = 5 ∧ sample_session.id = 0x7b9 ∧
    (dmr_homebrew_send sample_enum sample_rnd 0 (some sample_session) 0
        (some sample_voice_lc)).map (fun r => (r.frame.drop 11).take 4) =
      some (be_bytes 4 5) ∧
    be_bytes 4 5 ≠ be_bytes 4 sample_session.id := by
  decide

/-- C10 as amended. Every frame emitted by `dmr_homebrew_send` carries in bytes 11..14,
big-endian, the session id when the packet was passed in with repeater id 0, and otherwise
the repeater id the packet held when it was passed in. -/
theorem send_repeater_id_bytes (E : dmr_data_type_enum) (rnd : rand_draws) (ret : Int)
    (h : dmr_homebrew_t) (ts : Nat) (p : dmr_packet_t) (hts : ts ≤ DMR_TS2) :
    ∃ r, dmr_homebrew_send E rnd ret (some h) ts (some p) = some r ∧
      (r.frame.drop 11).take 4 =
        be_bytes 4 (if p.repeater_id = 0 then h.id else p.repeater_id) := by
  obtain ⟨b15, h2, hs, -⟩ := send_cases E rnd ret h ts p hts
  refine ⟨_, hs, ?_⟩
  simpa using be_bytes4_shift (if p.repeater_id = 0 then h.id else p.repeater_id)

/-- Witness of the amended C10: `sample_voice_sync` comes with repeater id 0 and its frame
carries the session id. -/
theorem send_repeater_id_bytes_witness :
    0 ≤ DMR_TS2 ∧
    ∃ r, dmr_homebrew_send sample_enum sample_rnd 0 (some sample_session) 0
        (some sample_voice_sync) = some r ∧
      (r.frame.drop 11).take 4 =
        be_bytes 4 (if sample_voice_sync.repeater_id = 0 then sample_session.id
          else sample_voice_sync.repeater_id) :=
  ⟨by decide,
    send_repeater_id_bytes sample_enum sample_rnd 0 sample_session 0 sample_voice_sync
      (by decide)⟩

/-! ## Lemmas on the Reed-Solomon codec -/

/-- A list of twelve bytes, written out. -/
theorem list_of_length_12 (l : List Nat) (h : l.length = 12) :
    ∃ b0 b1 b2 b3 b4 b5 b6 b7 b8 b9 b10 b11,
      l = [b0, b1, b2, b3, b4, b5, b6, b7, b8, b9, b10, b11] := by
  match l, h with
  | [b0, b1, b2, b3, b4, b5, b6, b7, b8, b9, b10, b11], _ =>
    exact ⟨b0, b1, b2, b3, b4, b5, b6, b7, b8, b9, b10, b11, rfl⟩

/-- A list of nine bytes, written out. -/
theorem list_of_length_9 (l : List Nat) (h : l.length = 9) :
    ∃ b0 b1 b2 b3 b4 b5 b6 b7 b8, l = [b0, b1, b2, b3, b4, b5, b6, b7, b8] := by
  match l, h with
  | [b0, b1, b2, b3, b4, b5, b6, b7, b8], _ =>
    exact ⟨b0, b1, b2, b3, b4, b5, b6, b7, b8, rfl⟩

/-- The call `memcmp(a, b, n)` returns 0 exactly when the first `n` bytes agree. -/
theorem memcmp_eq_zero_iff (a b : List Nat) (n : Nat) :
    memcmp a b n = 0 ↔ ∀ i < n, a.getD i 0 = b.getD i 0 := by
  unfold memcmp
  cases hf : (List.range n).find? (fun i => a.getD i 0 ≠ b.getD i 0) with
  | none =>
    simp only [List.find?_eq_none, List.mem_range, ne_eq, decide_eq_true_eq,
      Decidable.not_not] at hf
    simpa using hf
  | some i =>
    have hp := List.find?_some hf
    have hm := List.mem_of_find?_eq_some hf
    simp only [ne_eq, decide_eq_true_eq] at hp
    simp only [List.mem_range] at hm
    constructor
    · intro h0
      exfalso
      apply hp
      have h1 : (a.getD i 0 : Int) - (b.getD i 0 : Int) = 0 := h0
      have : (a.getD i 0 : Int) = (b.getD i 0 : Int) := by omega
      exact_mod_cast this
    · intro hall
      exact absurd (hall i hm) hp

/-- The remainder modulo 256 distributes over the bitwise exclusive or. -/
theorem xor_mod_256 (a b : Nat) : (a ^^^ b) % 256 = (a % 256) ^^^ (b % 256) := by
  apply Nat.eq_of_testBit_eq
  intro i
  have h256 : (256 : Nat) = 2 ^ 8 := rfl
  rw [h256]
  simp only [Nat.testBit_mod_two_pow, Nat.testBit_xor]
  by_cases h : i < 8 <;> simp [h]

/-- What `dmr_rs_12_9_4_encode` returns once the context is there. -/
theorem encode_12_9_4_eq (env : rs_env) (rs8 : Option dmr_rs_t) (rs : dmr_rs_t)
    (bytes : List Nat) (crc_mask : Nat) (hinit : dmr_rs_init env rs8 = some rs) :
    dmr_rs_12_9_4_encode env rs8 bytes crc_mask =
      some
        { rs8 := rs
          bytes := rs_12_9_4_store bytes (rs_12_9_4_parity rs bytes) crc_mask
          ret := 0 } := by
  simp only [dmr_rs_12_9_4_encode, hinit, rs_12_9_4_store, rs_12_9_4_parity]

/-- Once the static `rs8` holds a context, `dmr_rs_init` leaves it as it is. -/
theorem dmr_rs_init_some (env : rs_env) (rs : dmr_rs_t) :
    dmr_rs_init env (some rs) = some rs := rfl

/-- What `dmr_rs_12_9_4_decode_and_verify` returns once the context is there. -/
theorem verify_12_9_4_eq (env : rs_env) (rs8 : Option dmr_rs_t) (rs : dmr_rs_t)
    (bytes : List Nat) (crc_mask : Nat) (hinit : dmr_rs_init env rs8 = some rs) :
    dmr_rs_12_9_4_decode_and_verify env rs8 bytes crc_mask =
      some
        { rs8 := rs
          bytes := bytes
          ret :=
            memcmp (bytes.drop 9)
              ((rs_12_9_4_store (memcpy (List.replicate 12 0) bytes 9)
                (rs_12_9_4_parity rs (memcpy (List.replicate 12 0) bytes 9)) crc_mask).drop 9)
              3 } := by
  simp only [dmr_rs_12_9_4_decode_and_verify, hinit,
    encode_12_9_4_eq env (some rs) rs _ crc_mask (dmr_rs_init_some env rs)]

/-- A buffer that `dmr_rs_12_9_4_encode` has filled from a message and three zeros passes
`dmr_rs_12_9_4_decode_and_verify` with the same mask. -/
theorem encode_verify_aux (env : rs_env) (rs8 : Option dmr_rs_t) (rs : dmr_rs_t)
    (msg : List Nat) (crc_mask : Nat) (hinit : dmr_rs_init env rs8 = some rs)
    (hmsg : msg.length = 9) :
    ∃ r v, dmr_rs_12_9_4_encode env rs8 (msg ++ [0, 0, 0]) crc_mask = some r ∧
      dmr_rs_12_9_4_decode_and_verify env (some r.rs8) r.bytes crc_mask = some v ∧
      v.ret = 0 := by
  obtain ⟨b0, b1, b2, b3, b4, b5, b6, b7, b8, rfl⟩ := list_of_length_9 msg hmsg
  refine ⟨_, _, encode_12_9_4_eq env rs8 rs _ crc_mask hinit,
    verify_12_9_4_eq env (some rs) rs _ crc_mask (dmr_rs_init_some env rs), ?_⟩
  simp only []
  rw [memcmp_eq_zero_iff]
  intro i _
  rfl

/-- The return value of `dmr_rs_12_9_4_decode_and_verify` is 0 exactly when bytes 9..11 are
the masked parities of bytes 0..8; the buffer stays as it is. -/
theorem verify_iff_aux (env : rs_env) (rs8 : Option dmr_rs_t) (rs : dmr_rs_t)
    (bytes : List Nat) (crc_mask : Nat) (hinit : dmr_rs_init env rs8 = some rs)
    (hlen : bytes.length = 12) :
    ∃ v, dmr_rs_12_9_4_decode_and_verify env rs8 bytes crc_mask = some v ∧
      v.bytes = bytes ∧
      (v.ret = 0 ↔ (bytes.drop 9).take 3 = reencoded_parity env rs bytes crc_mask) := by
  obtain ⟨b0, b1, b2, b3, b4, b5, b6, b7, b8, b9, b10, b11, rfl⟩ :=
    list_of_length_12 bytes hlen
  refine ⟨_, verify_12_9_4_eq env rs8 rs _ crc_mask hinit, rfl, ?_⟩
  have hm : memcpy (List.replicate 12 0) [b0, b1, b2, b3, b4, b5, b6, b7, b8, b9, b10, b11] 9 =
      [b0, b1, b2, b3, b4, b5, b6, b7, b8, 0, 0, 0] := rfl
  have ht : List.take 9 [b0, b1, b2, b3, b4, b5, b6, b7, b8, b9, b10, b11] ++ [0, 0, 0] =
      [b0, b1, b2, b3, b4, b5, b6, b7, b8, 0, 0, 0] := rfl
  simp only [reencoded_parity, ht, hm,
    encode_12_9_4_eq env (some rs) rs _ crc_mask (dmr_rs_init_some env rs)]
  generalize rs_12_9_4_parity rs [b0, b1, b2, b3, b4, b5, b6, b7, b8, 0, 0, 0] = bb
  rw [memcmp_eq_zero_iff]
  have hs : rs_12_9_4_store [b0, b1, b2, b3, b4, b5, b6, b7, b8, 0, 0, 0] bb crc_mask =
      [b0, b1, b2, b3, b4, b5, b6, b7, b8, (bb.getD 0 0 ^^^ crc_mask) % 256,
        (bb.getD 1 0 ^^^ crc_mask) % 256, (bb.getD 2 0 ^^^ crc_mask) % 256] := rfl
  rw [hs]
  generalize (bb.getD 0 0 ^^^ crc_mask) % 256 = x
  generalize (bb.getD 1 0 ^^^ crc_mask) % 256 = y
  generalize (bb.getD 2 0 ^^^ crc_mask) % 256 = z
  have hd1 : List.drop 9 [b0, b1, b2, b3, b4, b5, b6, b7, b8, b9, b10, b11] = [b9, b10, b11] :=
    rfl
  have hd2 : List.drop 9 [b0, b1, b2, b3, b4, b5, b6, b7, b8, x, y, z] = [x, y, z] := rfl
  rw [hd1, hd2]
  constructor
  · intro h
    have h0 : b9 = x := h 0 (by norm_num)
    have h1 : b10 = y := h 1 (by norm_num)
    have h2 : b11 = z := h 2 (by norm_num)
    rw [h0, h1, h2]
  · intro h i hi
    have h3 : [b9, b10, b11] = [x, y, z] := h
    rw [h3]

/-- A property that every round of a loop keeps holds when the loop ends. -/
theorem foldl_invariant {α β : Type} (P : α → Prop) (f : α → β → α) (l : List β) (a : α)
    (h0 : P a) (hstep : ∀ a x, P a → P (f a x)) : P (l.foldl f a) := by
  induction l generalizing a with
  | nil => exact h0
  | cons x xs ih => exact ih (f a x) (hstep a x h0)

/-- A write into a table keeps its length. -/
theorem tab_set_length (t : List Int) (i v : Int) : (tab_set t i v).length = t.length := by
  unfold tab_set
  split
  · rfl
  · exact List.length_set _ _ _

/-- The cell 0 of a table after the write `t[0] = v`. -/
theorem tab_get_set_zero (t : List Int) (v : Int) (ht : 0 < t.length) :
    tab_get (tab_set t 0 v) 0 = v := by
  cases t with
  | nil => exact absurd ht (by simp)
  | cons x xs => rfl

/-- The cell `index_of[0]` of the tables that `dmr_rs_new` builds holds -1, whatever the
polynomial, the width and the content of fresh memory. -/
theorem rs_gf_tables_index_of_zero (fresh : Int) (generator_polinomial mm : Nat) :
    tab_get (rs_gf_tables fresh generator_polinomial mm).2 0 = -1 := by
  unfold rs_gf_tables
  apply tab_get_set_zero
  refine foldl_invariant (fun st : List Int × List Int => 0 < st.2.length) _ _ _ ?_
    (fun a x ha => by simp only [tab_set_length]; exact ha)
  simp only [tab_set_length]
  refine foldl_invariant (fun st : List Int × List Int × Int => 0 < st.2.1.length) _ _ _ ?_
    (fun a x ha => by simp only [tab_set_length]; exact ha)
  simp

/-- A read of a block of zeros gives 0. -/
theorem getD_replicate_zero (m i : Nat) : (List.replicate m 0).getD i 0 = 0 := by
  by_cases h : i < m
  · simp [List.getD_eq_getElem?_getD, h]
  · simp [List.getD_eq_getElem?_getD, h]

/-- A write of 0 into a block of zeros leaves it as it is. -/
theorem set_replicate_zero (m i : Nat) : (List.replicate m (0 : Nat)).set i 0 =
    List.replicate m 0 := by
  apply List.ext_getElem
  · simp
  · intro k h1 h2
    simp [List.getElem_set]

/-- The encoder leaves a block of zeros in `bb` when every symbol of `data` is zero: the
feedback is `index_of[0]`, which is -1, in every round. -/
theorem dmr_rs_encode_zero (rs : dmr_rs_t) (h0 : tab_get rs.index_of 0 = -1)
    (data : List Nat) (hdata : ∀ i, data.getD i 0 = 0) (m : Nat) :
    dmr_rs_encode rs data (List.replicate m 0) = List.replicate m 0 := by
  unfold dmr_rs_encode
  simp only []
  have hclear : (List.range rs.n).foldl (fun (bb : List Nat) (i : Nat) => bb.set i 0)
      (List.replicate m 0) = List.replicate m 0 :=
    foldl_invariant (fun bb : List Nat => bb = List.replicate m 0) _ _ _ rfl
      (fun a x ha => by rw [ha]; exact set_replicate_zero m x)
  rw [hclear]
  refine foldl_invariant (fun bb : List Nat => bb = List.replicate m 0) _ _ _ rfl ?_
  intro a x ha
  subst ha
  have hfb : tab_get rs.index_of
      ((data.getD x 0 ^^^ (List.replicate m 0).getD (rs.n - 1) 0 : Nat) : Int) = -1 := by
    rw [hdata, getD_replicate_zero]
    exact h0
  simp only [hfb, ne_eq, not_true_eq_false, if_false]
  have hshift : ((List.range (rs.n - 1)).map (fun k => rs.n - 1 - k)).foldl
      (fun (bb : List Nat) (j : Nat) => bb.set j (bb.getD (j - 1) 0))
      (List.replicate m 0) = List.replicate m 0 :=
    foldl_invariant (fun bb : List Nat => bb = List.replicate m 0) _ _ _ rfl
      (fun a x ha => by rw [ha, getD_replicate_zero]; exact set_replicate_zero m x)
  rw [hshift]
  exact set_replicate_zero m 0

/-- The context that `dmr_rs_new` builds for the Reed-Solomon (12,9,4) code has 255 symbols,
and its cell `index_of[0]` holds -1. -/
theorem dmr_rs_new_shape (env : rs_env) (rs : dmr_rs_t)
    (hrs : dmr_rs_new env 0x11d 8 2 = some rs) :
    rs.nn = 255 ∧ rs.n = 4 ∧ rs.tt = 2 ∧ tab_get rs.index_of 0 = -1 := by
  unfold dmr_rs_new at hrs
  split at hrs
  · exact absurd hrs (by simp)
  · have h := (Option.some.inj hrs).symm
    have hnn : rs.nn = 255 := by rw [h]; rfl
    have hn : rs.n = 4 := by rw [h]
    have htt : rs.tt = 2 := by rw [h]
    have hio : rs.index_of = (rs_gf_tables env.fresh 0x11d 8).2 := by rw [h]
    refine ⟨hnn, hn, htt, ?_⟩
    rw [hio]
    exact rs_gf_tables_index_of_zero env.fresh 0x11d 8

/-- The encoder writes the mask into bytes 9..11 of a buffer of twelve zeros. -/
theorem encode_zero_buffer_aux (env : rs_env) (rs8 : Option dmr_rs_t) (rs : dmr_rs_t)
    (crc_mask : Nat) (hrs : dmr_rs_new env 0x11d 8 2 = some rs)
    (h8 : rs8 = none ∨ rs8 = some rs) (hmask : crc_mask < 256) :
    dmr_rs_12_9_4_encode env rs8 (List.replicate 12 0) crc_mask =
      some
        { rs8 := rs
          bytes := List.replicate 9 0 ++ [crc_mask, crc_mask, crc_mask]
          ret := 0 } := by
  have hinit : dmr_rs_init env rs8 = some rs := by
    rcases h8 with h | h
    · rw [h]; exact hrs
    · rw [h]; rfl
  obtain ⟨hnn, _, _, h0⟩ := dmr_rs_new_shape env rs hrs
  rw [encode_12_9_4_eq env rs8 rs _ crc_mask hinit]
  have hpar : rs_12_9_4_parity rs (List.replicate 12 0) = List.replicate rs.nn 0 := by
    unfold rs_12_9_4_parity
    apply dmr_rs_encode_zero rs h0
    intro i
    rw [hnn]
    have hm : memcpy (List.replicate 255 0) (List.replicate 12 0) 12 = List.replicate 255 0 := by
      set_option maxRecDepth 100000 in decide
    rw [hm]
    exact getD_replicate_zero 255 i
  rw [hpar]
  simp only [rs_12_9_4_store, getD_replicate_zero, Nat.zero_xor, Nat.mod_eq_of_lt hmask]
  rfl

/-- The bytes 9..11 that the encoder writes are those of the mask 0x00, XORed with the
mask. -/
theorem encode_mask_aux (env : rs_env) (rs8 : Option dmr_rs_t) (rs : dmr_rs_t)
    (bytes : List Nat) (crc_mask : Nat) (hinit : dmr_rs_init env rs8 = some rs)
    (hlen : bytes.length = 12) (hmask : crc_mask < 256) :
    ∃ r r0, dmr_rs_12_9_4_encode env rs8 bytes crc_mask = some r ∧
      dmr_rs_12_9_4_encode env rs8 bytes 0 = some r0 ∧
      r.ret = 0 ∧ r.bytes.length = 12 ∧ r.bytes.take 9 = bytes.take 9 ∧
      ∀ i, 9 ≤ i → i < 12 → r.bytes.getD i 0 = r0.bytes.getD i 0 ^^^ crc_mask := by
  obtain ⟨b0, b1, b2, b3, b4, b5, b6, b7, b8, b9, b10, b11, rfl⟩ :=
    list_of_length_12 bytes hlen
  refine ⟨_, _, encode_12_9_4_eq env rs8 rs _ crc_mask hinit,
    encode_12_9_4_eq env rs8 rs _ 0 hinit, rfl, rfl, rfl, ?_⟩
  generalize rs_12_9_4_parity rs [b0, b1, b2, b3, b4, b5, b6, b7, b8, b9, b10, b11] = bb
  intro i h9 h12
  have hx : ∀ v : Nat, (v ^^^ crc_mask) % 256 = ((v ^^^ 0) % 256) ^^^ crc_mask := by
    intro v
    rw [xor_mod_256, Nat.mod_eq_of_lt hmask, Nat.xor_zero]
  have hi : i = 9 ∨ i = 10 ∨ i = 11 := by omega
  rcases hi with h | h | h <;> subst h <;> exact hx _

/-! ## Lemmas on the decoder -/

/-- The buffer of the caller and the return value of `dmr_rs_12_9_4_decode_and_repair` once
the context is there. -/
theorem repair_12_9_4_eq (env : rs_env) (stack : rs_stack) (rs8 : Option dmr_rs_t)
    (rs : dmr_rs_t) (bytes : List Nat) (crc_mask : Nat)
    (hinit : dmr_rs_init env rs8 = some rs) :
    dmr_rs_12_9_4_decode_and_repair env stack rs8 bytes crc_mask =
      some
        { rs8 := rs
          bytes := bytes
          ret :=
            (dmr_rs_decode rs stack (rs_12_9_4_input rs bytes crc_mask)
              (List.replicate rs.nn 0)).ret } := by
  simp only [dmr_rs_12_9_4_decode_and_repair, hinit]

/-- Every round of the Berlekamp iteration adds 1 to `u`. -/
theorem berlekamp_step_u (rs : dmr_rs_t) (s : cells) (st : berlekamp_t) :
    (berlekamp_step rs s st).u = st.u + 1 := rfl

/-- With `n - u` rounds allowed, the Berlekamp iteration ends because the condition of its
`do ... while` loop fails. -/
theorem berlekamp_loop_exit (rs : dmr_rs_t) (s : cells) (fuel : Nat) (st : berlekamp_t)
    (hfuel : rs.n ≤ st.u + fuel + 1) :
    ¬ (((berlekamp_loop rs s fuel st).u : Int) < rs.n ∧
      (berlekamp_loop rs s fuel st).l (((berlekamp_loop rs s fuel st).u : Int) + 1) ≤ rs.tt) := by
  induction fuel generalizing st with
  | zero =>
    intro h
    have hu : (berlekamp_loop rs s 0 st).u = st.u + 1 := rfl
    rw [hu] at h
    omega
  | succ k ih =>
    unfold berlekamp_loop
    simp only []
    split
    · apply ih
      rw [berlekamp_step_u]
      omega
    · assumption

/-- The return value of `dmr_rs_decode` in terms of the number of syndromes that are not
zero, the degree with which the Berlekamp iteration ends and the number of roots found. -/
theorem decode_ret_cases (rs : dmr_rs_t) (stack : rs_stack) (input : List Nat) :
    (dmr_rs_decode rs stack input (List.replicate rs.nn 0)).ret =
      if decode_syn_error rs stack input ≠ 0 then
        if decode_degree rs stack input ≤ rs.tt then
          if (decode_root_count rs stack input : Int) = decode_degree rs stack input then 0
          else 1
        else 2
      else 0 := by
  unfold dmr_rs_decode decode_syn_error decode_degree decode_root_count decode_berlekamp
  simp only []
  split_ifs <;> first | rfl | contradiction

/-- The return values of `dmr_rs_12_9_4_decode_and_repair` and when each of them occurs. -/
theorem repair_ret_aux (env : rs_env) (stack : rs_stack) (rs8 : Option dmr_rs_t)
    (rs : dmr_rs_t) (bytes : List Nat) (crc_mask : Nat)
    (hinit : dmr_rs_init env rs8 = some rs) :
    ∃ r, dmr_rs_12_9_4_decode_and_repair env stack rs8 bytes crc_mask = some r ∧
      r.bytes = bytes ∧
      (r.ret = 0 ∨ r.ret = 1 ∨ r.ret = 2) ∧
      (r.ret = 2 ↔
        decode_syn_error rs stack (rs_12_9_4_input rs bytes crc_mask) ≠ 0 ∧
          (rs.tt : Int) < decode_degree rs stack (rs_12_9_4_input rs bytes crc_mask)) ∧
      (r.ret = 1 ↔
        decode_syn_error rs stack (rs_12_9_4_input rs bytes crc_mask) ≠ 0 ∧
          decode_degree rs stack (rs_12_9_4_input rs bytes crc_mask) ≤ rs.tt ∧
          (decode_root_count rs stack (rs_12_9_4_input rs bytes crc_mask) : Int) ≠
            decode_degree rs stack (rs_12_9_4_input rs bytes crc_mask)) ∧
      (r.ret = 0 ↔
        decode_syn_error rs stack (rs_12_9_4_input rs bytes crc_mask) = 0 ∨
          (decode_degree rs stack (rs_12_9_4_input rs bytes crc_mask) ≤ rs.tt ∧
            (decode_root_count rs stack (rs_12_9_4_input rs bytes crc_mask) : Int) =
              decode_degree rs stack (rs_12_9_4_input rs bytes crc_mask))) := by
  refine ⟨_, repair_12_9_4_eq env stack rs8 rs bytes crc_mask hinit, rfl, ?_⟩
  simp only [decode_ret_cases]
  generalize decode_syn_error rs stack (rs_12_9_4_input rs bytes crc_mask) = syn
  generalize decode_degree rs stack (rs_12_9_4_input rs bytes crc_mask) = deg
  generalize decode_root_count rs stack (rs_12_9_4_input rs bytes crc_mask) = count
  by_cases h1 : syn = 0
  · simp [h1]
  · by_cases h2 : deg ≤ (rs.tt : Int)
    · by_cases h3 : (count : Int) = deg
      · simp [h1, h2, h3]
      · simp [h1, h2, h3]
    · have h4 : (rs.tt : Int) < deg := by omega
      simp [h1, h2, h4]

/-- The Berlekamp iteration of `dmr_rs_decode` ends because the condition of its loop
fails, not because the rounds allowed by the model are used up. -/
theorem decode_berlekamp_exit (rs : dmr_rs_t) (stack : rs_stack) (input : List Nat) :
    ¬ (((decode_berlekamp rs stack input).u : Int) < rs.n ∧
      (decode_berlekamp rs stack input).l (((decode_berlekamp rs stack input).u : Int) + 1) ≤
        rs.tt) := by
  unfold decode_berlekamp rs_berlekamp
  apply berlekamp_loop_exit
  simp only []
  omega

/-! ## Evaluations of the Reed-Solomon codec -/

/-- The function `dmr_rs_new(0x11d, 8, 2)`, run in zero-filled memory, builds the tables
written out in `rs8_zero_fill`. -/
theorem dmr_rs_new_zero_fill : dmr_rs_new rs_env_zero 0x11d 8 2 = some rs8_zero_fill := by
  decide!

/-- The first call of `dmr_rs_init` in zero-filled memory leaves `rs8_zero_fill` in the
static `rs8`. -/
theorem dmr_rs_init_zero_fill : dmr_rs_init rs_env_zero none = some rs8_zero_fill :=
  dmr_rs_new_zero_fill

/-- The encoder gives the parities `7a 23 9e` for the message 01..09 followed by zeros. -/
theorem encode_sample_rs_block :
    dmr_rs_12_9_4_encode rs_env_zero none sample_rs_block 0 =
      some { rs8 := rs8_zero_fill, bytes := sample_rs_encoded, ret := 0 } := by
  rw [encode_12_9_4_eq rs_env_zero none rs8_zero_fill _ 0 dmr_rs_init_zero_fill]
  decide!

/-- The encoder gives the parities `71 10 e4` for the same message followed by `01 02 03`. -/
theorem encode_sample_rs_stale :
    dmr_rs_12_9_4_encode rs_env_zero none sample_rs_stale 0 =
      some
        { rs8 := rs8_zero_fill
          bytes := [1, 2, 3, 4, 5, 6, 7, 8, 9, 113, 16, 228]
          ret := 0 } := by
  rw [encode_12_9_4_eq rs_env_zero none rs8_zero_fill _ 0 dmr_rs_init_zero_fill]
  decide!

/-- The decoder returns 1 for the buffer that the encoder has just produced. -/
theorem decode_sample_rs_encoded :
    (dmr_rs_decode rs8_zero_fill rs_stack_zero (rs_12_9_4_input rs8_zero_fill sample_rs_encoded 0)
      (List.replicate rs8_zero_fill.nn 0)).ret = 1 := by
  decide!

/-- The decoder returns 1 for that buffer with one bit flipped. -/
theorem decode_sample_rs_corrupted :
    (dmr_rs_decode rs8_zero_fill rs_stack_zero
      (rs_12_9_4_input rs8_zero_fill sample_rs_corrupted 0)
      (List.replicate rs8_zero_fill.nn 0)).ret = 1 := by
  decide!

/-! ## Lemmas on the vtable operation tx and on the authentication -/

/-- After `homebrew_proto_tx` the packet and bytes 11..14 of the frame carry the session
id. -/
theorem proto_tx_aux (E : dmr_data_type_enum) (rnd : rand_draws) (ret : Int)
    (h : dmr_homebrew_t) (p : dmr_packet_t) (hts : p.ts ≤ DMR_TS2) :
    ∃ r f, homebrew_proto_tx E rnd ret (some h) (some p) = some r ∧
      r.packet.repeater_id = h.id ∧ r.frame = some f ∧
      (f.drop 11).take 4 = be_bytes 4 h.id := by
  obtain ⟨b15, h2, hs, -⟩ := send_cases E rnd ret h p.ts { p with repeater_id := h.id } hts
  have hid : (if h.id = 0 then h.id else h.id) = h.id := by split <;> rfl
  simp only [hid] at hs
  simp only [homebrew_proto_tx]
  rw [hs]
  refine ⟨_, _, rfl, rfl, rfl, ?_⟩
  simpa using be_bytes4_shift h.id

/-- The string "MSTNAK" has six characters. -/
theorem master_nak_take : dmr_homebrew_master_nak.take 6 = dmr_homebrew_master_nak := rfl

/-- The string "MSTACK" has six characters. -/
theorem master_ack_take : dmr_homebrew_master_ack.take 6 = dmr_homebrew_master_ack := rfl

/-- The wait loop of the phase NONE skips the replies that are not relevant and ends on the
refusal. -/
theorem auth_wait_login_nak (X : dmr_error_env) (nak : recv_event) (post : List recv_event)
    (hret : 0 ≤ nak.ret) (hnak : is_master_nak nak) (pre : List recv_event) :
    ∀ h : dmr_homebrew_t,
      (∀ e ∈ pre, 0 ≤ e.ret ∧
        ¬ relevant_reply dmr_homebrew_auth_t.DMR_HOMEBREW_AUTH_NONE e) →
      auth_wait_login X h (pre ++ nak :: post) =
        ({ h with buffer := nak.buffer, auth := dmr_homebrew_auth_t.DMR_HOMEBREW_AUTH_FAIL },
          post, auth_flow.returned X.error_set) := by
  induction pre with
  | nil =>
    intro h _
    have h1 : ¬ nak.ret < 0 := by omega
    simp only [List.nil_append, auth_wait_login, h1, if_false, memcmp_zero, master_nak_take,
      hnak.1, hnak.2, decide_True, and_self, if_true]
  | cons e es ih =>
    intro h hpre
    have he := hpre e (List.mem_cons_self e es)
    have h1 : ¬ e.ret < 0 := by omega
    have h2 : ¬ (e.len = 14 ∧ e.buffer.take 6 = dmr_homebrew_master_nak) :=
      fun hc => he.2 (Or.inl hc)
    have h3 : ¬ (e.len = 22 ∧ e.buffer.take 6 = dmr_homebrew_master_ack) :=
      fun hc => he.2 (Or.inr (Or.inl ⟨rfl, hc⟩))
    have hrec := ih { h with buffer := e.buffer }
      (fun x hx => hpre x (List.mem_cons_of_mem e hx))
    simp only [List.cons_append, auth_wait_login, h1, if_false, memcmp_zero, master_nak_take,
      master_ack_take, decide_eq_true_eq, h2, h3]
    exact hrec

/-- The wait loop of the phase INIT skips the replies that are not relevant and ends on the
refusal. -/
theorem auth_wait_key_nak (X : dmr_error_env) (nak : recv_event) (post : List recv_event)
    (hret : 0 ≤ nak.ret) (hnak : is_master_nak nak) (pre : List recv_event) :
    ∀ h : dmr_homebrew_t,
      (∀ e ∈ pre, 0 ≤ e.ret ∧
        ¬ relevant_reply dmr_homebrew_auth_t.DMR_HOMEBREW_AUTH_INIT e) →
      auth_wait_key X h (pre ++ nak :: post) =
        ({ h with buffer := nak.buffer, auth := dmr_homebrew_auth_t.DMR_HOMEBREW_AUTH_FAIL },
          post, auth_flow.returned X.error_set) := by
  induction pre with
  | nil =>
    intro h _
    have h1 : ¬ nak.ret < 0 := by omega
    simp only [List.nil_append, auth_wait_key, h1, if_false, memcmp_zero, master_nak_take,
      hnak.1, hnak.2, decide_True, and_self, if_true]
  | cons e es ih =>
    intro h hpre
    have he := hpre e (List.mem_cons_self e es)
    have h1 : ¬ e.ret < 0 := by omega
    have h2 : ¬ (e.len = 14 ∧ e.buffer.take 6 = dmr_homebrew_master_nak) :=
      fun hc => he.2 (Or.inl hc)
    have h3 : ¬ (e.len = 14 ∧ e.buffer.take 6 = dmr_homebrew_master_ack) :=
      fun hc => he.2 (Or.inr (Or.inr ⟨rfl, hc⟩))
    have hrec := ih { h with buffer := e.buffer }
      (fun x hx => hpre x (List.mem_cons_of_mem e hx))
    simp only [List.cons_append, auth_wait_key, h1, if_false, memcmp_zero, master_nak_take,
      master_ack_take, decide_eq_true_eq, h2, h3]
    exact hrec

/-- One round of the loop of `dmr_homebrew_auth` in phase NONE or INIT that meets the refusal
of the master. -/
theorem auth_refused_aux (X : dmr_error_env) (DMR_DEBUG : Bool)
    (sha256 : List Nat → List Nat) (now : Nat)
    (secret : List Nat) (fuel : Nat) (st : auth_state) (r0 : Int) (sends : List Int)
    (pre post : List recv_event) (nak : recv_event)
    (hphase : st.homebrew.auth = dmr_homebrew_auth_t.DMR_HOMEBREW_AUTH_NONE ∨
      st.homebrew.auth = dmr_homebrew_auth_t.DMR_HOMEBREW_AUTH_INIT)
    (hsends : st.sends = r0 :: sends) (hr0 : 0 ≤ r0)
    (hrecvs : st.recvs = pre ++ nak :: post)
    (hpre : ∀ e ∈ pre, 0 ≤ e.ret ∧ ¬ relevant_reply st.homebrew.auth e)
    (hret : 0 ≤ nak.ret) (hnak : is_master_nak nak) :
    auth_loop X DMR_DEBUG sha256 now secret (fuel + 1) st =
      ({ homebrew :=
           { st.homebrew with
             buffer := nak.buffer, auth := dmr_homebrew_auth_t.DMR_HOMEBREW_AUTH_FAIL }
         sent := st.sent ++ [auth_phase_frame sha256 st.homebrew secret]
         sends := sends
         recvs := post },
        some X.error_set) := by
  have hr : ¬ r0 < 0 := by omega
  rcases hphase with hp | hp
  · rw [hp] at hpre
    have hw := auth_wait_login_nak X nak post hret hnak pre st.homebrew hpre
    unfold auth_loop
    simp only [hp, auth_switch, auth_sendraw, hsends, hr, hrecvs, hw, auth_phase_frame,
      if_false, if_true, reduceCtorEq]
  · rw [hp] at hpre
    have hw := auth_wait_key_nak X nak post hret hnak pre st.homebrew hpre
    unfold auth_loop
    simp only [hp, auth_switch, auth_sendraw, hsends, hr, hrecvs, hw, auth_phase_frame,
      if_false, if_true, reduceCtorEq]

/-! ## The claims on the vtable operation tx, the Reed-Solomon codec and the login -/

/-- C11 as stated fails. The packet `sample_voice_lc` comes with repeater id 5 and the
session id is 0x7b9: after `homebrew_proto_tx` the packet holds 0x7b9, and bytes 11..14 of
the emitted frame are `00 00 07 b9`, not those of 5. -/
theorem proto_tx_overwrites_repeater_id :
    sample_voice_lc.repeater_id = 5 ∧ sample_session.id = 0x7b9 ∧
    (homebrew_proto_tx sample_enum sample_rnd 0 (some sample_session)
        (some sample_voice_lc)).map
      (fun r => (r.packet.repeater_id, r.frame.map (fun f => (f.drop 11).take 4))) =
      some (0x7b9, some [0, 0, 7, 0xb9]) ∧
    be_bytes 4 5 ≠ [0, 0, 7, 0xb9] := by
  decide

/-- C11 as amended. The vtable operation `homebrew_proto_tx` sets the repeater id of the
packet to the session id whatever the packet held: for a packet on a valid timeslot, the
packet after the call and bytes 11..14 of the emitted frame, big-endian, carry the session
id. -/
theorem proto_tx_repeater_id (E : dmr_data_type_enum) (rnd : rand_draws) (ret : Int)
    (h : dmr_homebrew_t) (p : dmr_packet_t) (hts : p.ts ≤ DMR_TS2) :
    ∃ r f, homebrew_proto_tx E rnd ret (some h) (some p) = some r ∧
      r.packet.repeater_id = h.id ∧ r.frame = some f ∧
      (f.drop 11).take 4 = be_bytes 4 h.id :=
  proto_tx_aux E rnd ret h p hts

/-- Witness of the amended C11: `sample_voice_lc`, which comes with repeater id 5, sent on
`sample_session`. -/
theorem proto_tx_repeater_id_witness :
    sample_voice_lc.ts ≤ DMR_TS2 ∧
    ∃ r f, homebrew_proto_tx sample_enum sample_rnd 0 (some sample_session)
        (some sample_voice_lc) = some r ∧
      r.packet.repeater_id = sample_session.id ∧ r.frame = some f ∧
      (f.drop 11).take 4 = be_bytes 4 sample_session.id :=
  ⟨by decide,
    proto_tx_repeater_id sample_enum sample_rnd 0 sample_session sample_voice_lc (by decide)⟩

/-- C12. Encode/verify round trip: for every 9-byte message and every mask, when the context
is there or can be set up, `dmr_rs_12_9_4_encode` on the message followed by three zeros
returns, and `dmr_rs_12_9_4_decode_and_verify` with the same mask on the resulting buffer
returns 0. -/
theorem encode_verify_round_trip (env : rs_env) (rs8 : Option dmr_rs_t) (rs : dmr_rs_t)
    (msg : List Nat) (crc_mask : Nat) (hinit : dmr_rs_init env rs8 = some rs)
    (hmsg : msg.length = 9) :
    ∃ r v, dmr_rs_12_9_4_encode env rs8 (msg ++ [0, 0, 0]) crc_mask = some r ∧
      dmr_rs_12_9_4_decode_and_verify env (some r.rs8) r.bytes crc_mask = some v ∧
      v.ret = 0 :=
  encode_verify_aux env rs8 rs msg crc_mask hinit hmsg

/-- Witness of C12: the message 01..09 with the mask 0x96. -/
theorem encode_verify_round_trip_witness :
    dmr_rs_init rs_env_zero (some rs8_zero_fill) = some rs8_zero_fill ∧
    [1, 2, 3, 4, 5, 6, 7, 8, 9].length = 9 ∧
    ∃ r v, dmr_rs_12_9_4_encode rs_env_zero (some rs8_zero_fill)
        ([1, 2, 3, 4, 5, 6, 7, 8, 9] ++ [0, 0, 0]) 0x96 = some r ∧
      dmr_rs_12_9_4_decode_and_verify rs_env_zero (some r.rs8) r.bytes 0x96 = some v ∧
      v.ret = 0 :=
  ⟨rfl, rfl,
    encode_verify_round_trip rs_env_zero (some rs8_zero_fill) rs8_zero_fill
      [1, 2, 3, 4, 5, 6, 7, 8, 9] 0x96 rfl rfl⟩

/-- C13. For every 12-byte buffer and every mask, `dmr_rs_12_9_4_decode_and_verify` returns
0 if and only if bytes 9..11 of the buffer equal the three masked parity bytes obtained by
encoding bytes 0..8 again with that mask, and the buffer is not modified. -/
theorem verify_zero_iff_parity (env : rs_env) (rs8 : Option dmr_rs_t) (rs : dmr_rs_t)
    (bytes : List Nat) (crc_mask : Nat) (hinit : dmr_rs_init env rs8 = some rs)
    (hlen : bytes.length = 12) :
    ∃ v, dmr_rs_12_9_4_decode_and_verify env rs8 bytes crc_mask = some v ∧
      v.bytes = bytes ∧
      (v.ret = 0 ↔ (bytes.drop 9).take 3 = reencoded_parity env rs bytes crc_mask) :=
  verify_iff_aux env rs8 rs bytes crc_mask hinit hlen

/-- Witness of C13: the buffer `sample_rs_stale` with the mask 0x96. -/
theorem verify_zero_iff_parity_witness :
    dmr_rs_init rs_env_zero (some rs8_zero_fill) = some rs8_zero_fill ∧
    sample_rs_stale.length = 12 ∧
    ∃ v, dmr_rs_12_9_4_decode_and_verify rs_env_zero (some rs8_zero_fill) sample_rs_stale
        0x96 = some v ∧
      v.bytes = sample_rs_stale ∧
      (v.ret = 0 ↔
        (sample_rs_stale.drop 9).take 3 =
          reencoded_parity rs_env_zero rs8_zero_fill sample_rs_stale 0x96) :=
  ⟨rfl, rfl,
    verify_zero_iff_parity rs_env_zero (some rs8_zero_fill) rs8_zero_fill sample_rs_stale 0x96
      rfl rfl⟩

/-- C14 fails in the code. The buffers `sample_rs_block` and `sample_rs_stale` hold the same
nine message bytes 01..09 and differ only in positions 9..11 (`00 00 00` and `01 02 03`);
encoded with the same mask 0x00, the first gets the parity bytes `7a 23 9e` and the second
`71 10 e4`: `memcpy(input, bytes, 12)` feeds the old bytes 9..11 to the encoder. -/
theorem encode_parity_from_stale_bytes :
    sample_rs_block.take 9 = sample_rs_stale.take 9 ∧
    (dmr_rs_12_9_4_encode rs_env_zero none sample_rs_block 0).map
        (fun r => (r.bytes.drop 9).take 3) = some [122, 35, 158] ∧
    (dmr_rs_12_9_4_encode rs_env_zero none sample_rs_stale 0).map
        (fun r => (r.bytes.drop 9).take 3) = some [113, 16, 228] := by
  refine ⟨by decide, ?_, ?_⟩
  · rw [encode_sample_rs_block]
    decide
  · rw [encode_sample_rs_stale]
    decide

/-- C15. For every 12-byte buffer and every 8-bit mask, `dmr_rs_12_9_4_encode` returns 0,
leaves bytes 0..8 unchanged, and writes to each of positions 9..11 the byte it would write
with the mask 0x00, XORed with the mask. -/
theorem encode_parity_xor_mask (env : rs_env) (rs8 : Option dmr_rs_t) (rs : dmr_rs_t)
    (bytes : List Nat) (crc_mask : Nat) (hinit : dmr_rs_init env rs8 = some rs)
    (hlen : bytes.length = 12) (hmask : crc_mask < 256) :
    ∃ r r0, dmr_rs_12_9_4_encode env rs8 bytes crc_mask = some r ∧
      dmr_rs_12_9_4_encode env rs8 bytes 0 = some r0 ∧
      r.ret = 0 ∧ r.bytes.length = 12 ∧ r.bytes.take 9 = bytes.take 9 ∧
      ∀ i, 9 ≤ i → i < 12 → r.bytes.getD i 0 = r0.bytes.getD i 0 ^^^ crc_mask :=
  encode_mask_aux env rs8 rs bytes crc_mask hinit hlen hmask

/-- Witness of C15: the buffer `sample_rs_block` with the mask 0x96. -/
theorem encode_parity_xor_mask_witness :
    dmr_rs_init rs_env_zero (some rs8_zero_fill) = some rs8_zero_fill ∧
    sample_rs_block.length = 12 ∧ 0x96 < 256 ∧
    ∃ r r0, dmr_rs_12_9_4_encode rs_env_zero (some rs8_zero_fill) sample_rs_block 0x96 =
        some r ∧
      dmr_rs_12_9_4_encode rs_env_zero (some rs8_zero_fill) sample_rs_block 0 = some r0 ∧
      r.ret = 0 ∧ r.bytes.length = 12 ∧ r.bytes.take 9 = sample_rs_block.take 9 ∧
      ∀ i, 9 ≤ i → i < 12 → r.bytes.getD i 0 = r0.bytes.getD i 0 ^^^ 0x96 :=
  ⟨rfl, rfl, by decide,
    encode_parity_xor_mask rs_env_zero (some rs8_zero_fill) rs8_zero_fill sample_rs_block 0x96
      rfl rfl (by decide)⟩

/-- C16 fails in the code. The message 01..09 is encoded with the mask 0x00, which gives
`sample_rs_encoded`, and bit 0 of byte 0 is flipped, which gives `sample_rs_corrupted`.
Whatever the local arrays of the decoder hold on entry, `dmr_rs_12_9_4_decode_and_repair`
leaves the buffer as it was passed in, with byte 0 still wrong: the function decodes into its
local block `output` and never copies it back. With zero-filled local arrays it returns 1,
not 0. -/
theorem repair_leaves_buffer :
    dmr_rs_12_9_4_encode rs_env_zero none sample_rs_block 0 =
      some { rs8 := rs8_zero_fill, bytes := sample_rs_encoded, ret := 0 } ∧
    sample_rs_corrupted = sample_rs_encoded.set 0 0 ∧
    (∀ stack : rs_stack,
      (dmr_rs_12_9_4_decode_and_repair rs_env_zero stack (some rs8_zero_fill)
        sample_rs_corrupted 0).map (fun r => r.bytes) = some sample_rs_corrupted) ∧
    sample_rs_corrupted.take 9 ≠ sample_rs_block.take 9 ∧
    (dmr_rs_12_9_4_decode_and_repair rs_env_zero rs_stack_zero (some rs8_zero_fill)
      sample_rs_corrupted 0).map (fun r => r.ret) = some 1 := by
  have h := repair_12_9_4_eq rs_env_zero rs_stack_zero (some rs8_zero_fill) rs8_zero_fill
    sample_rs_corrupted 0 rfl
  rw [decode_sample_rs_corrupted] at h
  refine ⟨encode_sample_rs_block, by decide, fun stack => ?_, by decide, ?_⟩
  · rw [repair_12_9_4_eq rs_env_zero stack (some rs8_zero_fill) rs8_zero_fill _ 0 rfl]
    rfl
  · rw [h]
    rfl

/-- C17 fails in the code. The message 01..09 followed by zeros is encoded with the mask
0x00, which gives `sample_rs_encoded`; `dmr_rs_12_9_4_decode_and_repair`, applied with the
same mask to that unmodified buffer, returns 1 (with zero-filled local arrays), not 0. -/
theorem repair_rejects_encoder_output :
    dmr_rs_12_9_4_encode rs_env_zero none sample_rs_block 0 =
      some { rs8 := rs8_zero_fill, bytes := sample_rs_encoded, ret := 0 } ∧
    (dmr_rs_12_9_4_decode_and_repair rs_env_zero rs_stack_zero (some rs8_zero_fill)
      sample_rs_encoded 0).map (fun r => r.ret) = some 1 := by
  have h := repair_12_9_4_eq rs_env_zero rs_stack_zero (some rs8_zero_fill) rs8_zero_fill
    sample_rs_encoded 0 rfl
  rw [decode_sample_rs_encoded] at h
  rw [h]
  exact ⟨encode_sample_rs_block, rfl⟩

/-- C19. For a 12-byte buffer that is all zero, `dmr_rs_12_9_4_encode` with an 8-bit mask
leaves the nine message bytes zero and sets each of the bytes 9..11 to the mask; with the
mask 0x00 the three parity bytes are zero. This holds whatever fresh memory contains when
`dmr_rs_new(0x11d, 8, 2)` builds the context. -/
theorem encode_zero_buffer (env : rs_env) (rs8 : Option dmr_rs_t) (rs : dmr_rs_t)
    (crc_mask : Nat) (hrs : dmr_rs_new env 0x11d 8 2 = some rs)
    (h8 : rs8 = none ∨ rs8 = some rs) (hmask : crc_mask < 256) :
    dmr_rs_12_9_4_encode env rs8 (List.replicate 12 0) crc_mask =
        some
          { rs8 := rs
            bytes := List.replicate 9 0 ++ [crc_mask, crc_mask, crc_mask]
            ret := 0 } ∧
    dmr_rs_12_9_4_encode env rs8 (List.replicate 12 0) 0 =
        some { rs8 := rs, bytes := List.replicate 12 0, ret := 0 } :=
  ⟨encode_zero_buffer_aux env rs8 rs crc_mask hrs h8 hmask,
    encode_zero_buffer_aux env rs8 rs 0 hrs h8 (by decide)⟩

/-- Witness of C19: the first call in zero-filled memory, with the mask 0x96. -/
theorem encode_zero_buffer_witness :
    dmr_rs_new rs_env_zero 0x11d 8 2 = some rs8_zero_fill ∧
    ((none : Option dmr_rs_t) = none ∨ (none : Option dmr_rs_t) = some rs8_zero_fill) ∧
    0x96 < 256 ∧
    dmr_rs_12_9_4_encode rs_env_zero none (List.replicate 12 0) 0x96 =
        some
          { rs8 := rs8_zero_fill
            bytes := List.replicate 9 0 ++ [0x96, 0x96, 0x96]
            ret := 0 } ∧
    dmr_rs_12_9_4_encode rs_env_zero none (List.replicate 12 0) 0 =
        some { rs8 := rs8_zero_fill, bytes := List.replicate 12 0, ret := 0 } :=
  ⟨dmr_rs_new_zero_fill, Or.inl rfl, by decide,
    encode_zero_buffer rs_env_zero none rs8_zero_fill 0x96 dmr_rs_new_zero_fill (Or.inl rfl)
      (by decide)⟩

/-- C20. Login refused: let the loop of `dmr_homebrew_auth` be in phase NONE or INIT, let the
socket accept the frame of that phase, and let the replies that follow be received without
error, the first relevant one being a 14-byte frame that begins with "MSTNAK". Then
`dmr_homebrew_auth` returns the value of `dmr_error_set`, which is not zero, the phase is
FAIL, and the frame of the phase is the only frame sent: nothing is sent after the refusal.
A run of `dmr_homebrew_auth` is `auth_loop` from the state on entry. -/
theorem auth_refused (X : dmr_error_env) (DMR_DEBUG : Bool)
    (sha256 : List Nat → List Nat) (now : Nat)
    (secret : List Nat) (fuel : Nat) (st : auth_state) (r0 : Int) (sends : List Int)
    (pre post : List recv_event) (nak : recv_event)
    (hphase : st.homebrew.auth = dmr_homebrew_auth_t.DMR_HOMEBREW_AUTH_NONE ∨
      st.homebrew.auth = dmr_homebrew_auth_t.DMR_HOMEBREW_AUTH_INIT)
    (hsends : st.sends = r0 :: sends) (hr0 : 0 ≤ r0)
    (hrecvs : st.recvs = pre ++ nak :: post)
    (hpre : ∀ e ∈ pre, 0 ≤ e.ret ∧ ¬ relevant_reply st.homebrew.auth e)
    (hret : 0 ≤ nak.ret) (hnak : is_master_nak nak) :
    auth_loop X DMR_DEBUG sha256 now secret (fuel + 1) st =
      ({ homebrew :=
           { st.homebrew with
             buffer := nak.buffer, auth := dmr_homebrew_auth_t.DMR_HOMEBREW_AUTH_FAIL }
         sent := st.sent ++ [auth_phase_frame sha256 st.homebrew secret]
         sends := sends
         recvs := post },
        some X.error_set) ∧
    X.error_set ≠ 0 :=
  ⟨auth_refused_aux X DMR_DEBUG sha256 now secret fuel st r0 sends pre post nak hphase hsends
      hr0 hrecvs hpre hret hnak,
    X.error_set_ne_zero⟩

/-- Witness of C20: `dmr_homebrew_auth` is run for `sample_login_session`; the socket accepts
the login frame and then delivers a ping, the refusal and a second ping. The function
returns -1 in phase FAIL, the login frame "RPTL00000001" is the only frame sent, and the
second ping is not read. -/
theorem auth_refused_witness :
    (sample_auth_state.homebrew.auth = dmr_homebrew_auth_t.DMR_HOMEBREW_AUTH_NONE ∨
      sample_auth_state.homebrew.auth = dmr_homebrew_auth_t.DMR_HOMEBREW_AUTH_INIT) ∧
    sample_auth_state.sends = 0 :: [] ∧ (0 : Int) ≤ 0 ∧
    sample_auth_state.recvs = [sample_ping_reply] ++ sample_nak_reply :: [sample_ping_reply] ∧
    (∀ e ∈ [sample_ping_reply],
      0 ≤ e.ret ∧ ¬ relevant_reply sample_auth_state.homebrew.auth e) ∧
    0 ≤ sample_nak_reply.ret ∧ is_master_nak sample_nak_reply ∧
    dmr_homebrew_auth sample_error_env false sample_sha256 0 sample_login_session [] [0]
        [sample_ping_reply, sample_nak_reply, sample_ping_reply] =
      ({ homebrew :=
           { sample_login_session with
             buffer := sample_nak_reply.buffer
             auth := dmr_homebrew_auth_t.DMR_HOMEBREW_AUTH_FAIL }
         sent := [[82, 80, 84, 76, 48, 48, 48, 48, 48, 48, 48, 49]]
         sends := []
         recvs := [sample_ping_reply] },
        some (-1)) ∧
    sample_error_env.error_set ≠ 0 :=
  ⟨by decide, rfl, by decide, rfl, by decide, by decide, by decide,
    auth_refused sample_error_env false sample_sha256 0 [] 2 sample_auth_state 0 []
      [sample_ping_reply] [sample_ping_reply] sample_nak_reply (by decide) rfl (by decide) rfl
      (by decide) (by decide) (by decide)⟩

/-! ## Lemmas on the steps of the authentication -/

/-- The eight bytes copied from a repeater id of eight characters are that id. -/
theorem config_repeater_id_eq (h : dmr_homebrew_t) (hid : h.config.repeater_id.length = 8) :
    config_repeater_id h = h.config.repeater_id := by
  unfold config_repeater_id
  match hc : h.config.repeater_id, hid with
  | [b0, b1, b2, b3, b4, b5, b6, b7], _ => rfl

/-- The eight bytes copied from offset 14 of a buffer of at least 22 bytes. -/
theorem nonce_of_buffer (buffer : List Nat) (hbuf : 22 ≤ buffer.length) :
    (List.range 8).map (fun i => buffer.getD (14 + i) 0) = (buffer.drop 14).take 8 := by
  apply List.ext_getElem
  · simp
    omega
  · intro i h1 h2
    simp at h1
    simp [List.getD_eq_getElem?_getD, List.getElem?_eq_getElem (show 14 + i < buffer.length by omega)]

/-- The wait loop of the phase NONE skips the replies that are not relevant and ends on the
acceptance of the login, whose nonce it stores. -/
theorem auth_wait_login_ack (X : dmr_error_env) (ack : recv_event) (post : List recv_event)
    (hret : 0 ≤ ack.ret) (hlen : ack.len = 22)
    (hack : ack.buffer.take 6 = dmr_homebrew_master_ack) (pre : List recv_event) :
    ∀ h : dmr_homebrew_t,
      (∀ e ∈ pre, 0 ≤ e.ret ∧
        ¬ relevant_reply dmr_homebrew_auth_t.DMR_HOMEBREW_AUTH_NONE e) →
      auth_wait_login X h (pre ++ ack :: post) =
        ({ h with
            buffer := ack.buffer
            random := (List.range 8).map (fun i => ack.buffer.getD (14 + i) 0)
            auth := dmr_homebrew_auth_t.DMR_HOMEBREW_AUTH_INIT },
          post, auth_flow.next) := by
  induction pre with
  | nil =>
    intro h _
    have h1 : ¬ ack.ret < 0 := by omega
    have h2 : ¬ ((22 : Int) = 14) := by decide
    simp only [List.nil_append, auth_wait_login, h1, if_false, memcmp_zero, master_nak_take,
      master_ack_take, hlen, hack, h2, false_and, decide_True, and_self, if_true]
  | cons e es ih =>
    intro h hpre
    have he := hpre e (List.mem_cons_self e es)
    have h1 : ¬ e.ret < 0 := by omega
    have h2 : ¬ (e.len = 14 ∧ e.buffer.take 6 = dmr_homebrew_master_nak) :=
      fun hc => he.2 (Or.inl hc)
    have h3 : ¬ (e.len = 22 ∧ e.buffer.take 6 = dmr_homebrew_master_ack) :=
      fun hc => he.2 (Or.inr (Or.inl ⟨rfl, hc⟩))
    have hrec := ih { h with buffer := e.buffer }
      (fun x hx => hpre x (List.mem_cons_of_mem e hx))
    simp only [List.cons_append, auth_wait_login, h1, if_false, memcmp_zero, master_nak_take,
      master_ack_take, decide_eq_true_eq, h2, h3]
    exact hrec

/-- The round of the phase NONE: the login frame is sent, and the acceptance of the login
moves the session to the phase INIT with the nonce stored. -/
theorem login_step_aux (X : dmr_error_env) (DMR_DEBUG : Bool) (sha256 : List Nat → List Nat)
    (now : Nat) (secret : List Nat) (st : auth_state) (r0 : Int) (sends : List Int)
    (pre post : List recv_event) (ack : recv_event)
    (hphase : st.homebrew.auth = dmr_homebrew_auth_t.DMR_HOMEBREW_AUTH_NONE)
    (hid : st.homebrew.config.repeater_id.length = 8)
    (hsends : st.sends = r0 :: sends) (hr0 : 0 ≤ r0)
    (hrecvs : st.recvs = pre ++ ack :: post)
    (hpre : ∀ e ∈ pre, 0 ≤ e.ret ∧
      ¬ relevant_reply dmr_homebrew_auth_t.DMR_HOMEBREW_AUTH_NONE e)
    (hret : 0 ≤ ack.ret) (hlen : ack.len = 22)
    (hack : ack.buffer.take 6 = dmr_homebrew_master_ack) (hbuf : 22 ≤ ack.buffer.length) :
    auth_switch X DMR_DEBUG sha256 now secret st =
      ({ homebrew :=
           { st.homebrew with
             buffer := ack.buffer
             random := (ack.buffer.drop 14).take 8
             auth := dmr_homebrew_auth_t.DMR_HOMEBREW_AUTH_INIT }
         sent := st.sent ++ [dmr_homebrew_repeater_login ++ st.homebrew.config.repeater_id]
         sends := sends
         recvs := post },
        auth_flow.next) ∧
    (dmr_homebrew_repeater_login ++ st.homebrew.config.repeater_id).length = 12 := by
  have hr : ¬ r0 < 0 := by omega
  have hw := auth_wait_login_ack X ack post hret hlen hack pre st.homebrew hpre
  rw [nonce_of_buffer ack.buffer hbuf] at hw
  constructor
  · simp only [auth_switch, hphase, auth_sendraw, hsends, hr, hrecvs, hw, auth_login_frame,
      config_repeater_id_eq st.homebrew hid, if_false]
  · simp [dmr_homebrew_repeater_login, hid]

/-- The two characters that the key frame holds for a byte are its two hexadecimal digits,
lowercase, high nibble first. -/
theorem hex_of_byte : ∀ b < 256,
    hex.getD ((b % 256) >>> 4) 0 = hex_char (b / 16) ∧
    hex.getD ((b % 256) &&& 0x0f) 0 = hex_char (b % 16) := by
  set_option maxRecDepth 100000 in decide

/-- A lowercase hexadecimal digit is one of the characters of "0123456789abcdef". -/
theorem hex_char_mem : ∀ d < 16, hex_char d ∈ hex := by
  decide

/-- A list of 32 bytes is the list of its bytes 0..31. -/
theorem list_of_length_32 (l : List Nat) (hl : l.length = 32) :
    (List.range 32).map (fun i => l.getD i 0) = l := by
  apply List.ext_getElem
  · simp [hl]
  · intro i h1 h2
    simp [List.getD_eq_getElem?_getD, List.getElem?_eq_getElem h2]

/-- The 64 characters of the key frame are the lowercase hexadecimal encoding of a digest
of 32 bytes. -/
theorem key_frame_hex (digest : List Nat) (hl : digest.length = 32)
    (hb : ∀ b ∈ digest, b < 256) :
    ((List.range SHA256_DIGEST_LENGTH).map
      (fun i => [hex.getD ((digest.getD i 0 % 256) >>> 4) 0,
                 hex.getD ((digest.getD i 0 % 256) &&& 0x0f) 0])).flatten =
      lowercase_hex digest := by
  unfold lowercase_hex
  congr 1
  have h1 : (List.range SHA256_DIGEST_LENGTH).map
      (fun i => [hex.getD ((digest.getD i 0 % 256) >>> 4) 0,
                 hex.getD ((digest.getD i 0 % 256) &&& 0x0f) 0]) =
      ((List.range 32).map (fun i => digest.getD i 0)).map
        (fun b => [hex.getD ((b % 256) >>> 4) 0, hex.getD ((b % 256) &&& 0x0f) 0]) := by
    rw [List.map_map]
    rfl
  rw [h1, list_of_length_32 digest hl]
  apply List.map_congr_left
  intro b hmem
  have := hex_of_byte b (hb b hmem)
  rw [this.1, this.2]

/-- The lowercase hexadecimal encoding has two characters per byte. -/
theorem lowercase_hex_length (bytes : List Nat) :
    (lowercase_hex bytes).length = 2 * bytes.length := by
  unfold lowercase_hex
  induction bytes with
  | nil => rfl
  | cons b bs ih =>
    simp only [List.map_cons, List.flatten_cons, List.length_append, List.length_cons,
      List.length_nil, ih]
    omega

/-- The lowercase hexadecimal encoding of bytes consists of characters of
"0123456789abcdef". -/
theorem lowercase_hex_chars (bytes : List Nat) (hb : ∀ b ∈ bytes, b < 256) :
    ∀ c ∈ lowercase_hex bytes, c ∈ hex := by
  unfold lowercase_hex
  intro c hc
  simp only [List.mem_flatten, List.mem_map] at hc
  obtain ⟨l, ⟨b, hmem, rfl⟩, hcl⟩ := hc
  simp only [List.mem_cons, List.mem_singleton, List.not_mem_nil, or_false] at hcl
  have hlt := hb b hmem
  rcases hcl with rfl | rfl
  · exact hex_char_mem _ (by omega)
  · exact hex_char_mem _ (Nat.mod_lt _ (by decide))

/-- The round of the phase INIT sends one frame, the key frame, whatever the socket answers. -/
theorem key_step_aux (X : dmr_error_env) (DMR_DEBUG : Bool) (sha256 : List Nat → List Nat)
    (now : Nat) (secret : List Nat) (st : auth_state) (r0 : Int) (sends : List Int)
    (hphase : st.homebrew.auth = dmr_homebrew_auth_t.DMR_HOMEBREW_AUTH_INIT)
    (hid : st.homebrew.config.repeater_id.length = 8)
    (hnonce : st.homebrew.random.length = 8)
    (hsends : st.sends = r0 :: sends)
    (hl : (sha256 (st.homebrew.random ++ secret)).length = 32)
    (hb : ∀ b ∈ sha256 (st.homebrew.random ++ secret), b < 256) :
    (auth_switch X DMR_DEBUG sha256 now secret st).1.sent =
      st.sent ++
        [dmr_homebrew_repeater_key ++ st.homebrew.config.repeater_id ++
          lowercase_hex (sha256 (st.homebrew.random ++ secret))] ∧
    (dmr_homebrew_repeater_key ++ st.homebrew.config.repeater_id ++
      lowercase_hex (sha256 (st.homebrew.random ++ secret))).length = 76 ∧
    ∀ c ∈ lowercase_hex (sha256 (st.homebrew.random ++ secret)), c ∈ hex := by
  have hrand : (List.range 8).map (fun i => st.homebrew.random.getD i 0) =
      st.homebrew.random := by
    match hc : st.homebrew.random, hnonce with
    | [b0, b1, b2, b3, b4, b5, b6, b7], _ => rfl
  have hframe : auth_key_frame sha256 st.homebrew secret =
      dmr_homebrew_repeater_key ++ st.homebrew.config.repeater_id ++
        lowercase_hex (sha256 (st.homebrew.random ++ secret)) := by
    unfold auth_key_frame
    simp only [hrand, config_repeater_id_eq st.homebrew hid]
    rw [key_frame_hex _ hl hb]
  refine ⟨?_, ?_, lowercase_hex_chars _ hb⟩
  · by_cases hr : r0 < 0
    · simp only [auth_switch, hphase, auth_sendraw, hsends, hr, hframe, if_true]
    · simp only [auth_switch, hphase, auth_sendraw, hsends, hr, hframe, if_false]
  · simp [lowercase_hex_length, hl, hid, dmr_homebrew_repeater_key]

/-! ## Lemmas on the phases of the authentication -/

/-- What the wait loop of the phase NONE does to the phase: it ends in INIT, or returns the
error of a refusal in FAIL, or returns a negative result or waits with the phase as it
was. -/
theorem auth_wait_login_flow (X : dmr_error_env) (recvs : List recv_event) :
    ∀ h : dmr_homebrew_t,
      ((auth_wait_login X h recvs).2.2 = auth_flow.next ∧
        (auth_wait_login X h recvs).1.auth = dmr_homebrew_auth_t.DMR_HOMEBREW_AUTH_INIT) ∨
      ((auth_wait_login X h recvs).2.2 = auth_flow.returned X.error_set ∧
        (auth_wait_login X h recvs).1.auth = dmr_homebrew_auth_t.DMR_HOMEBREW_AUTH_FAIL) ∨
      ((∃ r : Int, r < 0 ∧ (auth_wait_login X h recvs).2.2 = auth_flow.returned r) ∧
        (auth_wait_login X h recvs).1.auth = h.auth) ∨
      ((auth_wait_login X h recvs).2.2 = auth_flow.waiting ∧
        (auth_wait_login X h recvs).1.auth = h.auth) := by
  induction recvs with
  | nil =>
    intro h
    exact Or.inr (Or.inr (Or.inr ⟨rfl, rfl⟩))
  | cons e es ih =>
    intro h
    unfold auth_wait_login
    simp only []
    split_ifs with h1 h2 h3
    · exact Or.inr (Or.inr (Or.inl ⟨⟨e.ret, h1, rfl⟩, rfl⟩))
    · exact Or.inr (Or.inl ⟨rfl, rfl⟩)
    · exact Or.inl ⟨rfl, rfl⟩
    · exact ih { h with buffer := e.buffer }

/-- What the wait loop of the phase INIT does to the phase: it ends in CONF, or returns the
error of a refusal in FAIL, or returns a negative result or waits with the phase as it
was. -/
theorem auth_wait_key_flow (X : dmr_error_env) (recvs : List recv_event) :
    ∀ h : dmr_homebrew_t,
      ((auth_wait_key X h recvs).2.2 = auth_flow.next ∧
        (auth_wait_key X h recvs).1.auth = dmr_homebrew_auth_t.DMR_HOMEBREW_AUTH_CONF) ∨
      ((auth_wait_key X h recvs).2.2 = auth_flow.returned X.error_set ∧
        (auth_wait_key X h recvs).1.auth = dmr_homebrew_auth_t.DMR_HOMEBREW_AUTH_FAIL) ∨
      ((∃ r : Int, r < 0 ∧ (auth_wait_key X h recvs).2.2 = auth_flow.returned r) ∧
        (auth_wait_key X h recvs).1.auth = h.auth) ∨
      ((auth_wait_key X h recvs).2.2 = auth_flow.waiting ∧
        (auth_wait_key X h recvs).1.auth = h.auth) := by
  induction recvs with
  | nil =>
    intro h
    exact Or.inr (Or.inr (Or.inr ⟨rfl, rfl⟩))
  | cons e es ih =>
    intro h
    unfold auth_wait_key
    simp only []
    split_ifs with h1 h2 h3
    · exact Or.inr (Or.inr (Or.inl ⟨⟨e.ret, h1, rfl⟩, rfl⟩))
    · exact Or.inr (Or.inl ⟨rfl, rfl⟩)
    · exact Or.inl ⟨rfl, rfl⟩
    · exact ih { h with buffer := e.buffer }

/-- What one round of the loop of `dmr_homebrew_auth` does to the phase. A round that falls
through to the next one has moved the phase one step along NONE, INIT, CONF, DONE; a round
that returns, returns a result other than 0, with the phase as it was or moved to FAIL from
NONE or INIT; a round that waits or aborts leaves the phase as it was. -/
theorem auth_switch_flow (X : dmr_error_env) (DMR_DEBUG : Bool)
    (sha256 : List Nat → List Nat) (now : Nat) (secret : List Nat) (st : auth_state)
    (hd : st.homebrew.auth ≠ dmr_homebrew_auth_t.DMR_HOMEBREW_AUTH_DONE) :
    ((auth_switch X DMR_DEBUG sha256 now secret st).2 = auth_flow.next ∧
      phase_edge st.homebrew.auth (auth_switch X DMR_DEBUG sha256 now secret st).1.homebrew.auth ∧
      auth_rank (auth_switch X DMR_DEBUG sha256 now secret st).1.homebrew.auth <
        auth_rank st.homebrew.auth) ∨
    ((∃ r : Int, r ≠ 0 ∧
        (auth_switch X DMR_DEBUG sha256 now secret st).2 = auth_flow.returned r) ∧
      ((auth_switch X DMR_DEBUG sha256 now secret st).1.homebrew.auth = st.homebrew.auth ∨
        phase_edge st.homebrew.auth
          (auth_switch X DMR_DEBUG sha256 now secret st).1.homebrew.auth)) ∨
    (((auth_switch X DMR_DEBUG sha256 now secret st).2 = auth_flow.waiting ∨
        (auth_switch X DMR_DEBUG sha256 now secret st).2 = auth_flow.aborted) ∧
      (auth_switch X DMR_DEBUG sha256 now secret st).1.homebrew.auth = st.homebrew.auth) := by
  have hx := X.error_set_ne_zero
  cases hp : st.homebrew.auth with
  | DMR_HOMEBREW_AUTH_NONE =>
    cases hs : st.sends with
    | nil => simp [auth_switch, hp, auth_sendraw, hs]
    | cons r0 rest =>
      by_cases hr : r0 < 0
      · have h0 : r0 ≠ 0 := by omega
        simp [auth_switch, hp, auth_sendraw, hs, hr, h0]
      · simp only [auth_switch, hp, auth_sendraw, hs, hr, if_false]
        rcases auth_wait_login_flow X st.recvs st.homebrew with h | h | h | h
        · simp [h.1, h.2, phase_edge, auth_rank]
        · simp [h.1, h.2, phase_edge, auth_rank, hx]
        · obtain ⟨⟨r, hr0, hfl⟩, ha⟩ := h
          have h0 : r ≠ 0 := by omega
          simp [hfl, ha, hp, h0]
        · simp [h.1, h.2, hp]
  | DMR_HOMEBREW_AUTH_INIT =>
    cases hs : st.sends with
    | nil => simp [auth_switch, hp, auth_sendraw, hs]
    | cons r0 rest =>
      by_cases hr : r0 < 0
      · have h0 : r0 ≠ 0 := by omega
        simp [auth_switch, hp, auth_sendraw, hs, hr, h0]
      · simp only [auth_switch, hp, auth_sendraw, hs, hr, if_false]
        rcases auth_wait_key_flow X st.recvs st.homebrew with h | h | h | h
        · simp [h.1, h.2, phase_edge, auth_rank]
        · simp [h.1, h.2, phase_edge, auth_rank, hx]
        · obtain ⟨⟨r, hr0, hfl⟩, ha⟩ := h
          have h0 : r ≠ 0 := by omega
          simp [hfl, ha, hp, h0]
        · simp [h.1, h.2, hp]
  | DMR_HOMEBREW_AUTH_FAIL => simp [auth_switch, hp, hx]
  | DMR_HOMEBREW_AUTH_CONF =>
    by_cases ha : DMR_DEBUG = true ∧ st.homebrew.config.bytes.length ≠ 306
    · simp [auth_switch, hp, ha]
    · cases hs : st.sends with
      | nil => simp [auth_switch, hp, ha, auth_sendraw, hs]
      | cons r0 rest =>
        by_cases hr : r0 < 0
        · have h0 : r0 ≠ 0 := by omega
          simp [auth_switch, hp, ha, auth_sendraw, hs, hr, h0]
        · simp [auth_switch, hp, ha, auth_sendraw, hs, hr, phase_edge, auth_rank]
  | DMR_HOMEBREW_AUTH_DONE => exact absurd hp hd

/-- A round of the loop of `dmr_homebrew_auth` leaves the phase as it was or moves it along
one of the changes that the specification allows. -/
theorem auth_switch_edge (X : dmr_error_env) (DMR_DEBUG : Bool)
    (sha256 : List Nat → List Nat) (now : Nat) (secret : List Nat) (st : auth_state) :
    (auth_switch X DMR_DEBUG sha256 now secret st).1.homebrew.auth = st.homebrew.auth ∨
    phase_edge st.homebrew.auth
      (auth_switch X DMR_DEBUG sha256 now secret st).1.homebrew.auth := by
  by_cases hd : st.homebrew.auth = dmr_homebrew_auth_t.DMR_HOMEBREW_AUTH_DONE
  · left
    simp only [auth_switch, hd]
  · rcases auth_switch_flow X DMR_DEBUG sha256 now secret st hd with h | h | h
    · exact Or.inr h.2.1
    · exact h.2
    · exact Or.inl h.2

/-- Along the loop of `dmr_homebrew_auth` the phase moves only along the changes that the
specification allows, and the result 0 is returned only in the phase DONE. -/
theorem auth_loop_phase (X : dmr_error_env) (DMR_DEBUG : Bool)
    (sha256 : List Nat → List Nat) (now : Nat) (secret : List Nat) (fuel : Nat) :
    ∀ st : auth_state,
      Relation.ReflTransGen phase_edge st.homebrew.auth
        (auth_loop X DMR_DEBUG sha256 now secret fuel st).1.homebrew.auth ∧
      ((auth_loop X DMR_DEBUG sha256 now secret fuel st).2 = some 0 →
        (auth_loop X DMR_DEBUG sha256 now secret fuel st).1.homebrew.auth =
          dmr_homebrew_auth_t.DMR_HOMEBREW_AUTH_DONE) := by
  induction fuel with
  | zero =>
    intro st
    unfold auth_loop
    by_cases hd : st.homebrew.auth = dmr_homebrew_auth_t.DMR_HOMEBREW_AUTH_DONE
    · simp only [hd, if_true]
      exact ⟨Relation.ReflTransGen.refl, fun _ => trivial⟩
    · simp only [hd, if_false]
      exact ⟨Relation.ReflTransGen.refl, fun h => by cases h⟩
  | succ f ih =>
    intro st
    unfold auth_loop
    by_cases hd : st.homebrew.auth = dmr_homebrew_auth_t.DMR_HOMEBREW_AUTH_DONE
    · simp only [hd, if_true]
      exact ⟨Relation.ReflTransGen.refl, fun _ => trivial⟩
    · simp only [hd, if_false]
      have hflow := auth_switch_flow X DMR_DEBUG sha256 now secret st hd
      rcases hsw : auth_switch X DMR_DEBUG sha256 now secret st with ⟨st1, flow⟩
      rw [hsw] at hflow
      simp only [] at hflow
      rcases hflow with h | h | h
      · obtain ⟨hfl, hedge, _⟩ := h
        subst hfl
        simp only []
        exact ⟨Relation.ReflTransGen.head hedge (ih st1).1, (ih st1).2⟩
      · obtain ⟨⟨r, hr, hfl⟩, hph⟩ := h
        subst hfl
        simp only []
        refine ⟨?_, fun h0 => ?_⟩
        · rcases hph with h1 | h1
          · rw [h1]
          · exact Relation.ReflTransGen.single h1
        · exact absurd (Option.some.inj h0) hr
      · obtain ⟨hfl, hph⟩ := h
        rcases hfl with hfl | hfl <;> subst hfl <;> simp only [] <;>
          exact ⟨by rw [hph], fun h0 => by cases h0⟩

/-- The loop of `dmr_homebrew_auth` never runs more rounds than the rank of the phase in
which it starts: with that many rounds allowed, the result does not depend on the number of
rounds allowed. -/
theorem auth_loop_fuel (X : dmr_error_env) (DMR_DEBUG : Bool)
    (sha256 : List Nat → List Nat) (now : Nat) (secret : List Nat) (n : Nat) :
    ∀ (fuel : Nat) (st : auth_state), auth_rank st.homebrew.auth ≤ n → n ≤ fuel →
      auth_loop X DMR_DEBUG sha256 now secret fuel st =
        auth_loop X DMR_DEBUG sha256 now secret n st := by
  induction n with
  | zero =>
    intro fuel st hrank _
    have hd : st.homebrew.auth = dmr_homebrew_auth_t.DMR_HOMEBREW_AUTH_DONE := by
      cases hp : st.homebrew.auth <;> rw [hp] at hrank <;> simp [auth_rank] at hrank
    unfold auth_loop
    simp only [hd, if_true]
  | succ m ih =>
    intro fuel st hrank hfuel
    obtain ⟨f, rfl⟩ : ∃ f, fuel = f + 1 := ⟨fuel - 1, by omega⟩
    by_cases hd : st.homebrew.auth = dmr_homebrew_auth_t.DMR_HOMEBREW_AUTH_DONE
    · unfold auth_loop
      simp only [hd, if_true]
    · have hflow := auth_switch_flow X DMR_DEBUG sha256 now secret st hd
      rw [auth_loop, auth_loop.eq_def X DMR_DEBUG sha256 now secret (m + 1)]
      simp only [hd, if_false]
      rcases hsw : auth_switch X DMR_DEBUG sha256 now secret st with ⟨st1, flow⟩
      rw [hsw] at hflow
      simp only [] at hflow
      cases flow with
      | next =>
        simp only []
        rcases hflow with h | h | h
        · exact ih f st1 (by omega) (by omega)
        · obtain ⟨⟨r, _, hfl⟩, _⟩ := h
          cases hfl
        · rcases h.1 with hfl | hfl <;> cases hfl
      | returned r => rfl
      | waiting => rfl
      | aborted => rfl

/-- The round of the phase CONF sends nothing, or sends one frame, the configuration object;
when `DMR_DEBUG` is defined, a frame is sent only if the object has 306 bytes. -/
theorem conf_step_aux (X : dmr_error_env) (DMR_DEBUG : Bool) (sha256 : List Nat → List Nat)
    (now : Nat) (secret : List Nat) (st : auth_state)
    (hphase : st.homebrew.auth = dmr_homebrew_auth_t.DMR_HOMEBREW_AUTH_CONF) :
    (auth_switch X DMR_DEBUG sha256 now secret st).1.sent = st.sent ∨
    ((auth_switch X DMR_DEBUG sha256 now secret st).1.sent =
        st.sent ++ [st.homebrew.config.bytes] ∧
      (DMR_DEBUG = true → st.homebrew.config.bytes.length = 306)) := by
  by_cases ha : DMR_DEBUG = true ∧ st.homebrew.config.bytes.length ≠ 306
  · left
    simp [auth_switch, hphase, ha]
  · cases hs : st.sends with
    | nil =>
      left
      simp [auth_switch, hphase, ha, auth_sendraw, hs]
    | cons r0 rest =>
      right
      constructor
      · by_cases hr : r0 < 0
        · simp [auth_switch, hphase, ha, auth_sendraw, hs, hr]
        · simp [auth_switch, hphase, ha, auth_sendraw, hs, hr]
      · intro hdbg
        by_contra hne
        exact ha ⟨hdbg, hne⟩

/-! ## Lemmas on closing the session, on the loop and on the vtable -/

/-- The result of `dmr_homebrew_sendraw` on a session is 0 exactly when `sendto` has sent
all the bytes. -/
theorem sendraw_eq_zero_iff (X : dmr_error_env) (h : dmr_homebrew_t) (sendto_ret len : Int) :
    dmr_homebrew_sendraw X (some h) sendto_ret len = 0 ↔ sendto_ret = len := by
  unfold dmr_homebrew_sendraw
  by_cases hs : sendto_ret = len
  · simp [hs]
  · simp [hs, X.error_set_ne_zero]

/-- The frame that `dmr_homebrew_close` hands to `dmr_homebrew_sendraw`: the first four
characters of "RPTCL" and the repeater id, 12 bytes. -/
theorem close_frame_aux (buf : List Nat) (h : dmr_homebrew_t) (hfd : 0 ≤ h.fd)
    (hid : h.config.repeater_id.length = 8) :
    ∃ r, dmr_homebrew_close buf (some h) = some r ∧
      r.sent = [dmr_homebrew_repeater_closing.take 4 ++ h.config.repeater_id] ∧
      (dmr_homebrew_repeater_closing.take 4 ++ h.config.repeater_id).length = 12 := by
  have hfd2 : ¬ h.fd < 0 := by omega
  have hframe : ∀ h2 : dmr_homebrew_t, h2.config = h.config →
      (memcpy_at (memcpy buf dmr_homebrew_repeater_closing 4) 4 h2.config.repeater_id 8).take 12 =
        dmr_homebrew_repeater_closing.take 4 ++ h.config.repeater_id := by
    intro h2 hc
    rw [hc]
    match hm : h.config.repeater_id, hid with
    | [b0, b1, b2, b3, b4, b5, b6, b7], _ => rfl
  simp only [dmr_homebrew_close, hfd2, if_false]
  refine ⟨_, rfl, ?_, by simp [dmr_homebrew_repeater_closing, hid]⟩
  simp only []
  rw [hframe _ (by split <;> rfl)]

/-- The ping frame: "MSTPING" and the repeater id, 15 bytes. -/
theorem ping_frame_eq (id : List Nat) (hid : id.length = 8) :
    (memcpy_at (memcpy (List.replicate 53 0) dmr_homebrew_master_ping 7) 7 id 8).take 15 =
      dmr_homebrew_master_ping ++ id := by
  match id, hid with
  | [b0, b1, b2, b3, b4, b5, b6, b7], _ => rfl

/-- The first part of the body of the loop when a ping is due and `sendto` sends it. -/
theorem loop_ping_sent (X : dmr_error_env) (ev : loop_event) (st : loop_state)
    (hid : st.homebrew.config.repeater_id.length = 8) (hdue : ev.since > 3)
    (hok : ev.ping_sendto = 15) :
    (loop_ping X ev st).2 = true ∧
    (loop_ping X ev st).1.sent =
      st.sent ++ [dmr_homebrew_master_ping ++ st.homebrew.config.repeater_id] ∧
    (loop_ping X ev st).1.homebrew.last_ping_sent = ev.now ∧
    (loop_ping X ev st).1.received = st.received ∧ (loop_ping X ev st).1.rx = st.rx := by
  have hs : dmr_homebrew_sendraw X (some st.homebrew) ev.ping_sendto 15 = 0 :=
    (sendraw_eq_zero_iff X st.homebrew ev.ping_sendto 15).2 hok
  simp only [loop_ping, hdue, hs, if_true, ne_eq, not_true_eq_false, if_false,
    ping_frame_eq _ hid, and_self]

/-- The first part of the body of the loop when a ping is due and `sendto` fails. -/
theorem loop_ping_failed (X : dmr_error_env) (ev : loop_event) (st : loop_state)
    (hid : st.homebrew.config.repeater_id.length = 8) (hdue : ev.since > 3)
    (hfail : ev.ping_sendto ≠ 15) :
    (loop_ping X ev st).2 = false ∧
    (loop_ping X ev st).1.sent =
      st.sent ++ [dmr_homebrew_master_ping ++ st.homebrew.config.repeater_id] ∧
    (loop_ping X ev st).1.homebrew = st.homebrew ∧
    (loop_ping X ev st).1.received = st.received ∧ (loop_ping X ev st).1.rx = st.rx := by
  have hs : dmr_homebrew_sendraw X (some st.homebrew) ev.ping_sendto 15 ≠ 0 :=
    fun h0 => hfail ((sendraw_eq_zero_iff X st.homebrew ev.ping_sendto 15).1 h0)
  simp only [loop_ping, hdue, hs, if_true, ne_eq, not_false_eq_true,
    ping_frame_eq _ hid, and_self]

/-- The first part of the body of the loop when no ping is due. -/
theorem loop_ping_not_due (X : dmr_error_env) (ev : loop_event) (st : loop_state)
    (hdue : ¬ ev.since > 3) : loop_ping X ev st = (st, true) := by
  simp only [loop_ping, hdue, if_false]

/-- A round that reads a datagram gets past the ping. -/
theorem loop_ping_of_receives (X : dmr_error_env) (ev : loop_event) (st : loop_state)
    (hrecv : loop_receives X ev st) : (loop_ping X ev st).2 = true := by
  unfold loop_ping
  by_cases hdue : ev.since > 3
  · have hs := hrecv.1 hdue
    simp only [hdue, hs, if_true, ne_eq, not_true_eq_false, if_false]
  · simp only [hdue, if_false]

/-- The pong frame begins with "RPTPONG", whatever the buffers hold. -/
theorem pong_frame_take (buf buffer : List Nat) :
    ((memcpy (memcpy buf buffer 15) dmr_homebrew_repeater_pong 7).take 15).take 7 =
      dmr_homebrew_repeater_pong := rfl

/-- The pong frame for a datagram of at least 15 bytes. -/
theorem pong_frame_eq (buf buffer : List Nat) (hbuf : 15 ≤ buffer.length) :
    (memcpy (memcpy buf buffer 15) dmr_homebrew_repeater_pong 7).take 15 =
      dmr_homebrew_repeater_pong ++ (buffer.drop 7).take 8 := by
  match buffer, hbuf with
  | c0 :: c1 :: c2 :: c3 :: c4 :: c5 :: c6 :: c7 :: c8 :: c9 :: c10 :: c11 :: c12 :: c13 ::
      c14 :: rest, _ => rfl

/-- What the `switch` of the loop does: the session stays as it is, and a frame is sent only
in answer to the master's ping, the pong. -/
theorem loop_dispatch_sent (X : dmr_error_env) (E : dmr_data_type_enum) (ev : loop_event)
    (st : loop_state) :
    (loop_dispatch X E ev st).1.homebrew = st.homebrew ∧
    (loop_dispatch X E ev st).1.received = st.received ∧
    (((loop_dispatch X E ev st).1.sent = st.sent ∧
        dmr_homebrew_frame_type st.homebrew.buffer st.len ≠ DMR_HOMEBREW_MASTER_PING) ∨
     ((loop_dispatch X E ev st).1.sent =
        st.sent ++
          [(memcpy (memcpy st.buf st.homebrew.buffer 15) dmr_homebrew_repeater_pong 7).take 15] ∧
        dmr_homebrew_frame_type st.homebrew.buffer st.len = DMR_HOMEBREW_MASTER_PING)) := by
  by_cases h1 : dmr_homebrew_frame_type st.homebrew.buffer st.len = DMR_HOMEBREW_MASTER_PING
  · by_cases h2 : dmr_homebrew_sendraw X (some st.homebrew) ev.pong_sendto 15 = 0
    · simp [loop_dispatch, h1, h2]
    · simp [loop_dispatch, h1, h2]
  · by_cases h3 : dmr_homebrew_frame_type st.homebrew.buffer st.len =
        DMR_HOMEBREW_DMR_DATA_FRAME
    · cases hpk : dmr_homebrew_parse_packet E ev.alloc_ok (some st.homebrew.buffer) st.len with
      | none => simp [loop_dispatch, h3, hpk]
      | some p => simp [loop_dispatch, h3, hpk]
    · simp [loop_dispatch, h1, h3]

/-- The flow of the `switch` of the loop on the master's ping: the function returns exactly
when `dmr_homebrew_sendraw` returns 0 for the pong, and the loop goes on exactly when it
returns something else. -/
theorem pong_flow_aux (X : dmr_error_env) (E : dmr_data_type_enum) (ev : loop_event)
    (st : loop_state)
    (hft : dmr_homebrew_frame_type st.homebrew.buffer st.len = DMR_HOMEBREW_MASTER_PING) :
    ((loop_dispatch X E ev st).2 = loop_flow.returned ↔ ev.pong_sendto = 15) ∧
    ((loop_dispatch X E ev st).2 = loop_flow.again ↔ ev.pong_sendto ≠ 15) := by
  by_cases hs : ev.pong_sendto = 15
  · have h0 := (sendraw_eq_zero_iff X st.homebrew ev.pong_sendto 15).2 hs
    simp only [loop_dispatch, hft, if_true, h0]
    simp [hs]
  · have h0 : dmr_homebrew_sendraw X (some st.homebrew) ev.pong_sendto 15 ≠ 0 :=
      fun h0 => hs ((sendraw_eq_zero_iff X st.homebrew ev.pong_sendto 15).1 h0)
    simp only [loop_dispatch, hft, if_true, h0, if_false]
    simp [hs]

/-- The pong: a round that reads a datagram classified as the master's ping sends, after
the ping part, one frame of 15 bytes, "RPTPONG" followed by bytes 7..14 of the datagram. -/
theorem pong_content_aux (X : dmr_error_env) (E : dmr_data_type_enum) (ev : loop_event)
    (st : loop_state) (hrecv : loop_receives X ev st)
    (hft : dmr_homebrew_frame_type ev.recv.buffer ev.recv.len = DMR_HOMEBREW_MASTER_PING)
    (hbuf : 15 ≤ ev.recv.buffer.length) :
    (loop_iteration X E ev st).1.sent =
      (loop_ping X ev st).1.sent ++
        [dmr_homebrew_repeater_pong ++ (ev.recv.buffer.drop 7).take 8] ∧
    (dmr_homebrew_repeater_pong ++ (ev.recv.buffer.drop 7).take 8).length = 15 ∧
    dmr_homebrew_frame_type (dmr_homebrew_repeater_pong ++ (ev.recv.buffer.drop 7).take 8) 15 =
      DMR_HOMEBREW_REPEATER_PONG := by
  have hp := loop_ping_of_receives X ev st hrecv
  have hr : ¬ ev.recv.ret ≠ 0 := by simp [hrecv.2]
  refine ⟨?_, ?_, ?_⟩
  · unfold loop_iteration
    simp only [hp, hr, if_false, Bool.true_eq_false]
    rcases (loop_dispatch_sent X E ev
      { (loop_ping X ev st).1 with
        homebrew := { (loop_ping X ev st).1.homebrew with buffer := ev.recv.buffer }
        len := ev.recv.len
        received := (loop_ping X ev st).1.received ++ [ev] }).2.2 with h | h
    · exact absurd hft h.2
    · rw [h.1, pong_frame_eq _ _ hbuf]
  · simp [dmr_homebrew_repeater_pong]
    omega
  · simp [dmr_homebrew_frame_type, memcmp_zero, dmr_homebrew_repeater_pong,
      dmr_homebrew_master_ping]

/-- After the ping part, a round of the loop leaves `last_ping_sent` as it is and sends at
most one more frame, which begins with "RPTPONG". -/
theorem loop_after_ping (X : dmr_error_env) (E : dmr_data_type_enum) (ev : loop_event)
    (st : loop_state) (hp : (loop_ping X ev st).2 = true) :
    (loop_iteration X E ev st).1.homebrew.last_ping_sent =
      (loop_ping X ev st).1.homebrew.last_ping_sent ∧
    ∃ rest, (loop_iteration X E ev st).1.sent = (loop_ping X ev st).1.sent ++ rest ∧
      rest.length ≤ 1 ∧ ∀ f ∈ rest, f.take 7 = dmr_homebrew_repeater_pong := by
  unfold loop_iteration
  simp only [hp, if_false, Bool.true_eq_false]
  by_cases hr : ev.recv.ret = 0
  swap
  · simp only [ne_eq, hr, not_false_eq_true, if_true]
    split <;> exact ⟨rfl, [], by simp, by simp, by simp⟩
  · simp only [ne_eq, hr, not_true_eq_false, if_false]
    have hd := loop_dispatch_sent X E ev
      { (loop_ping X ev st).1 with
        homebrew := { (loop_ping X ev st).1.homebrew with buffer := ev.recv.buffer }
        len := ev.recv.len
        received := (loop_ping X ev st).1.received ++ [ev] }
    refine ⟨by rw [hd.1], ?_⟩
    rcases hd.2.2 with h | h
    · exact ⟨[], by rw [h.1]; simp, by simp, by simp⟩
    · refine ⟨_, h.1, by simp, ?_⟩
      intro f hf
      simp only [List.mem_singleton] at hf
      rw [hf]
      exact pong_frame_take _ _

/-- One round of the loop of `dmr_homebrew_loop`: the test of the loop condition, and the
body if the session is active. -/
theorem loop_run_cons (X : dmr_error_env) (E : dmr_data_type_enum) (ev : loop_event)
    (evs : List loop_event) (st : loop_state) :
    loop_run X E (ev :: evs) st =
      if (loop_tested ev st).homebrew.proto.thread = true ∧
          (loop_tested ev st).homebrew.proto.is_active = true then
        if (loop_iteration X E ev (loop_tested ev st)).2 = loop_flow.again then
          loop_run X E evs (loop_iteration X E ev (loop_tested ev st)).1
        else ((loop_iteration X E ev (loop_tested ev st)).1, loop_end.finished)
      else (loop_tested ev st, loop_end.finished) := by
  rw [loop_run]
  simp only [homebrew_proto_active]
  have hth : (loop_tested ev st).homebrew.proto.thread =
      (dmr_mutex_lock
        (if ev.stop = true then
          { st.homebrew with proto := { st.homebrew.proto with is_active := false } }
        else st.homebrew)).proto.thread := rfl
  have hac : (loop_tested ev st).homebrew.proto.is_active =
      (dmr_mutex_lock
        (if ev.stop = true then
          { st.homebrew with proto := { st.homebrew.proto with is_active := false } }
        else st.homebrew)).proto.is_active := rfl
  rw [hth, hac]
  cases h1 : (dmr_mutex_lock
        (if ev.stop = true then
          { st.homebrew with proto := { st.homebrew.proto with is_active := false } }
        else st.homebrew)).proto.thread <;>
    cases h2 : (dmr_mutex_lock
        (if ev.stop = true then
          { st.homebrew with proto := { st.homebrew.proto with is_active := false } }
        else st.homebrew)).proto.is_active
  · simp [loop_tested]
  · simp [loop_tested]
  · simp [loop_tested]
  · simp only [Bool.and_self, and_self, if_true]
    have ht : loop_tested ev st =
        { st with
          homebrew :=
            dmr_mutex_unlock
              (dmr_mutex_lock
                (if ev.stop = true then
                  { st.homebrew with proto := { st.homebrew.proto with is_active := false } }
                else st.homebrew)) } := rfl
    rw [← ht]
    rcases hit : loop_iteration X E ev (loop_tested ev st) with ⟨st1, fl⟩
    cases fl <;> simp

/-! ## Lemmas on the rounds of the loop -/

/-- The test of the loop condition changes only the members `is_active` and `mutex_locked`
of the session. -/
theorem loop_tested_fields (ev : loop_event) (st : loop_state) :
    (loop_tested ev st).homebrew.config = st.homebrew.config ∧
    (loop_tested ev st).homebrew.last_ping_sent = st.homebrew.last_ping_sent ∧
    (loop_tested ev st).sent = st.sent ∧ (loop_tested ev st).received = st.received ∧
    (loop_tested ev st).rx = st.rx := by
  unfold loop_tested
  cases ev.stop <;> exact ⟨rfl, rfl, rfl, rfl, rfl⟩

/-- The ping part of a round neither reads a datagram nor delivers a packet. -/
theorem loop_ping_keeps (X : dmr_error_env) (ev : loop_event) (st : loop_state) :
    (loop_ping X ev st).1.received = st.received ∧ (loop_ping X ev st).1.rx = st.rx := by
  unfold loop_ping
  by_cases hdue : ev.since > 3
  · by_cases hs : dmr_homebrew_sendraw X (some st.homebrew) ev.ping_sendto 15 = 0
    · simp [hdue, hs]
    · simp [hdue, hs]
  · simp [hdue]

/-- The ping part of a round lets the body go on exactly when the ping, if one is due, is
sent. -/
theorem loop_ping_continues (X : dmr_error_env) (ev : loop_event) (st : loop_state) :
    (loop_ping X ev st).2 = true ↔
      (ev.since > 3 → dmr_homebrew_sendraw X (some st.homebrew) ev.ping_sendto 15 = 0) := by
  unfold loop_ping
  by_cases hdue : ev.since > 3
  · by_cases hs : dmr_homebrew_sendraw X (some st.homebrew) ev.ping_sendto 15 = 0
    · simp [hdue, hs]
    · simp [hdue, hs]
  · simp [hdue]

/-- The `switch` of the loop hands to `homebrew->proto.rx` the packet that
`dmr_homebrew_parse_packet` yields for the datagram, if it yields one. -/
theorem loop_dispatch_rx (X : dmr_error_env) (E : dmr_data_type_enum) (ev : loop_event)
    (st : loop_state) :
    (loop_dispatch X E ev st).1.rx =
      st.rx ++
        (dmr_homebrew_parse_packet E ev.alloc_ok (some st.homebrew.buffer) st.len).toList := by
  by_cases h1 : dmr_homebrew_frame_type st.homebrew.buffer st.len = DMR_HOMEBREW_MASTER_PING
  · have hne : dmr_homebrew_frame_type st.homebrew.buffer st.len ≠
        DMR_HOMEBREW_DMR_DATA_FRAME := by rw [h1]; decide
    have hpk : dmr_homebrew_parse_packet E ev.alloc_ok (some st.homebrew.buffer) st.len =
        none := by simp [dmr_homebrew_parse_packet, hne]
    rw [hpk]
    by_cases h2 : dmr_homebrew_sendraw X (some st.homebrew) ev.pong_sendto 15 = 0
    · simp [loop_dispatch, h1, h2]
    · simp [loop_dispatch, h1, h2]
  · by_cases h3 : dmr_homebrew_frame_type st.homebrew.buffer st.len =
        DMR_HOMEBREW_DMR_DATA_FRAME
    · cases hpk : dmr_homebrew_parse_packet E ev.alloc_ok (some st.homebrew.buffer) st.len with
      | none => simp [loop_dispatch, h3, hpk]
      | some p => simp [loop_dispatch, h3, hpk]
    · have hpk : dmr_homebrew_parse_packet E ev.alloc_ok (some st.homebrew.buffer) st.len =
          none := by simp [dmr_homebrew_parse_packet, h3]
      rw [hpk]
      simp [loop_dispatch, h1, h3]

/-- What one round of the loop does to the log of the datagrams and to the log of the
packets delivered: a round that reads a datagram adds it to the first log and adds the
packet that `dmr_homebrew_parse_packet` yields for it, if there is one, to the second; any
other round leaves both logs as they are. -/
theorem loop_iteration_delivery (X : dmr_error_env) (E : dmr_data_type_enum)
    (ev : loop_event) (st : loop_state) :
    (loop_receives X ev st →
      (loop_iteration X E ev st).1.received = st.received ++ [ev] ∧
      (loop_iteration X E ev st).1.rx = st.rx ++ (loop_packet E ev).toList) ∧
    (¬ loop_receives X ev st →
      (loop_iteration X E ev st).1.received = st.received ∧
      (loop_iteration X E ev st).1.rx = st.rx) := by
  have hk := loop_ping_keeps X ev st
  have hc := loop_ping_continues X ev st
  constructor
  · intro hrecv
    have hp : (loop_ping X ev st).2 = true := hc.2 hrecv.1
    unfold loop_iteration
    simp only [hp, Bool.true_eq_false, if_false, ne_eq, hrecv.2, not_true_eq_false]
    rw [(loop_dispatch_sent X E ev _).2.1, loop_dispatch_rx]
    simp only [hk.1, hk.2, loop_packet, and_self]
  · intro hn
    unfold loop_iteration
    by_cases hp : (loop_ping X ev st).2 = true
    · have hr : ev.recv.ret ≠ 0 := fun h0 => hn ⟨hc.1 hp, h0⟩
      simp only [hp, Bool.true_eq_false, if_false, ne_eq, hr, not_false_eq_true, if_true]
      split <;> exact ⟨hk.1, hk.2⟩
    · have hp2 : (loop_ping X ev st).2 = false := by
        cases h : (loop_ping X ev st).2
        · rfl
        · exact absurd h hp
      simp only [hp2, if_true]
      exact ⟨hk.1, hk.2⟩

/-- The packets delivered by one element of the log of datagrams. -/
theorem filterMap_singleton (E : dmr_data_type_enum) (ev : loop_event) :
    [ev].filterMap (loop_packet E) = (loop_packet E ev).toList := by
  cases h : loop_packet E ev <;> simp [List.filterMap, h]

/-- Along a run of the loop, the datagrams read are rounds of the run in their order, and
the packets delivered are the packets that `dmr_homebrew_parse_packet` yields for them, in
that order. -/
theorem loop_run_delivery (X : dmr_error_env) (E : dmr_data_type_enum)
    (evs : List loop_event) :
    ∀ st : loop_state, ∃ ds : List loop_event,
      ds.Sublist evs ∧ (∀ e ∈ ds, e.recv.ret = 0) ∧
      (loop_run X E evs st).1.received = st.received ++ ds ∧
      (loop_run X E evs st).1.rx = st.rx ++ ds.filterMap (loop_packet E) := by
  induction evs with
  | nil =>
    intro st
    exact ⟨[], List.Sublist.refl _, by simp, by simp [loop_run], by simp [loop_run]⟩
  | cons ev evs ih =>
    intro st
    rw [loop_run_cons]
    have ht := loop_tested_fields ev st
    by_cases hact : (loop_tested ev st).homebrew.proto.thread = true ∧
        (loop_tested ev st).homebrew.proto.is_active = true
    · simp only [hact, and_self, if_true]
      have hd := loop_iteration_delivery X E ev (loop_tested ev st)
      rw [ht.2.2.2.1, ht.2.2.2.2] at hd
      by_cases hrecv : loop_receives X ev (loop_tested ev st)
      · obtain ⟨h1, h2⟩ := hd.1 hrecv
        by_cases hfl : (loop_iteration X E ev (loop_tested ev st)).2 = loop_flow.again
        · simp only [hfl, if_true]
          obtain ⟨ds, hsub, hret, hrc, hrx⟩ :=
            ih (loop_iteration X E ev (loop_tested ev st)).1
          refine ⟨ev :: ds, hsub.cons₂ ev, ?_, ?_, ?_⟩
          · intro e he
            rcases List.mem_cons.1 he with rfl | h
            · exact hrecv.2
            · exact hret e h
          · rw [hrc, h1]
            simp
          · rw [hrx, h2, ← filterMap_singleton, List.append_assoc, ← List.filterMap_append]
            rfl
        · simp only [hfl, if_false]
          refine ⟨[ev], ?_, ?_, h1, ?_⟩
          · exact (List.Sublist.cons₂ ev (List.nil_sublist evs))
          · intro e he
            rw [List.mem_singleton.1 he]
            exact hrecv.2
          · rw [h2, filterMap_singleton]
      · obtain ⟨h1, h2⟩ := hd.2 hrecv
        by_cases hfl : (loop_iteration X E ev (loop_tested ev st)).2 = loop_flow.again
        · simp only [hfl, if_true]
          obtain ⟨ds, hsub, hret, hrc, hrx⟩ :=
            ih (loop_iteration X E ev (loop_tested ev st)).1
          exact ⟨ds, hsub.cons ev, hret, by rw [hrc, h1], by rw [hrx, h2]⟩
        · simp only [hfl, if_false]
          exact ⟨[], List.nil_sublist _, by simp, by simp [h1], by simp [h2]⟩
    · simp only [hact, if_false]
      exact ⟨[], List.nil_sublist _, by simp, by simp [ht.2.2.2.1], by simp [ht.2.2.2.2]⟩

/-- The function `dmr_homebrew_parse_packet` yields a packet for the datagram of a round
exactly when the datagram is classified as a DMR data frame and the allocation succeeds. -/
theorem loop_packet_some_iff (E : dmr_data_type_enum) (ev : loop_event) :
    (loop_packet E ev).isSome = true ↔
      (dmr_homebrew_frame_type ev.recv.buffer ev.recv.len = DMR_HOMEBREW_DMR_DATA_FRAME ∧
        ev.alloc_ok = true) := by
  unfold loop_packet dmr_homebrew_parse_packet
  by_cases hft : dmr_homebrew_frame_type ev.recv.buffer ev.recv.len =
      DMR_HOMEBREW_DMR_DATA_FRAME
  · cases ha : ev.alloc_ok <;> simp [hft]
  · simp [hft]

/-- The ping of a round of the loop: when it is sent, when the send fails, and when none is
due. -/
theorem ping_cadence_aux (X : dmr_error_env) (E : dmr_data_type_enum) (ev : loop_event)
    (st : loop_state) (hid : st.homebrew.config.repeater_id.length = 8) :
    (ev.since > 3 → ev.ping_sendto = 15 →
      (loop_iteration X E ev st).1.homebrew.last_ping_sent = ev.now ∧
      ∃ rest, (loop_iteration X E ev st).1.sent =
          st.sent ++ [dmr_homebrew_master_ping ++ st.homebrew.config.repeater_id] ++ rest ∧
        rest.length ≤ 1 ∧ ∀ f ∈ rest, f.take 7 = dmr_homebrew_repeater_pong) ∧
    (ev.since > 3 → ev.ping_sendto ≠ 15 →
      (loop_iteration X E ev st).2 = loop_flow.broke ∧
      (loop_iteration X E ev st).1.homebrew = st.homebrew ∧
      (loop_iteration X E ev st).1.sent =
        st.sent ++ [dmr_homebrew_master_ping ++ st.homebrew.config.repeater_id] ∧
      (loop_iteration X E ev st).1.received = st.received) ∧
    (¬ ev.since > 3 →
      (loop_iteration X E ev st).1.homebrew.last_ping_sent = st.homebrew.last_ping_sent ∧
      ∃ rest, (loop_iteration X E ev st).1.sent = st.sent ++ rest ∧
        rest.length ≤ 1 ∧ ∀ f ∈ rest, f.take 7 = dmr_homebrew_repeater_pong) ∧
    (dmr_homebrew_master_ping ++ st.homebrew.config.repeater_id).length = 15 := by
  refine ⟨?_, ?_, ?_, by simp [dmr_homebrew_master_ping, hid]⟩
  · intro hdue hok
    obtain ⟨hp, hsent, hlast, -, -⟩ := loop_ping_sent X ev st hid hdue hok
    obtain ⟨h1, rest, h2, h3, h4⟩ := loop_after_ping X E ev st hp
    exact ⟨by rw [h1, hlast], rest, by rw [h2, hsent], h3, h4⟩
  · intro hdue hfail
    obtain ⟨hp, hsent, hhb, hrc, -⟩ := loop_ping_failed X ev st hid hdue hfail
    unfold loop_iteration
    simp only [hp, if_true]
    exact ⟨trivial, hhb, hsent, hrc⟩
  · intro hdue
    have hp := loop_ping_not_due X ev st hdue
    obtain ⟨h1, rest, h2, h3, h4⟩ := loop_after_ping X E ev st (by rw [hp])
    rw [hp] at h1 h2
    exact ⟨h1, rest, h2, h3, h4⟩

/-- A round in which the send of the ping fails is the last one of the run, and the run ends
with `last_ping_sent` as it was. -/
theorem ping_failure_exit (X : dmr_error_env) (E : dmr_data_type_enum) (ev : loop_event)
    (evs : List loop_event) (st : loop_state)
    (hid : st.homebrew.config.repeater_id.length = 8) (hdue : ev.since > 3)
    (hfail : ev.ping_sendto ≠ 15) :
    (loop_run X E (ev :: evs) st).2 = loop_end.finished ∧
    (loop_run X E (ev :: evs) st).1.homebrew.last_ping_sent = st.homebrew.last_ping_sent := by
  have ht := loop_tested_fields ev st
  have hid2 : (loop_tested ev st).homebrew.config.repeater_id.length = 8 := by
    rw [ht.1]; exact hid
  obtain ⟨hfl, hhb, -, -⟩ :=
    (ping_cadence_aux X E ev (loop_tested ev st) hid2).2.1 hdue hfail
  rw [loop_run_cons]
  by_cases hact : (loop_tested ev st).homebrew.proto.thread = true ∧
      (loop_tested ev st).homebrew.proto.is_active = true
  · simp only [hact, and_self, if_true, hfl, reduceCtorEq, if_false, hhb]
    exact ⟨trivial, ht.2.1⟩
  · simp only [hact, if_false]
    exact ⟨trivial, ht.2.1⟩

/-! ## Lemmas on the vtable operations init and start -/

/-- When `homebrew_proto_init` succeeds and what it leaves behind. -/
theorem proto_init_aux (X : dmr_error_env) (p : Option dmr_homebrew_t) :
    ((homebrew_proto_init X p).2 = 0 ↔
      ∃ h, p = some h ∧ h.auth = dmr_homebrew_auth_t.DMR_HOMEBREW_AUTH_DONE) ∧
    (∀ h, p = some h → h.auth = dmr_homebrew_auth_t.DMR_HOMEBREW_AUTH_DONE →
      homebrew_proto_init X p =
        (some { h with proto := { h.proto with init_done := true } }, 0)) ∧
    (∀ h, p = some h → h.auth ≠ dmr_homebrew_auth_t.DMR_HOMEBREW_AUTH_DONE →
      homebrew_proto_init X p = (some h, X.error_einval)) ∧
    (p = none → homebrew_proto_init X p = (none, X.error_einval)) ∧
    X.error_einval ≠ 0 := by
  have hx := X.error_einval_ne_zero
  refine ⟨?_, ?_, ?_, ?_, hx⟩
  · cases p with
    | none => simp [homebrew_proto_init, hx]
    | some h =>
      by_cases hd : h.auth = dmr_homebrew_auth_t.DMR_HOMEBREW_AUTH_DONE
      · simp [homebrew_proto_init, hd]
      · simp [homebrew_proto_init, hd, hx]
  · intro h hp hd
    subst hp
    simp [homebrew_proto_init, hd]
  · intro h hp hd
    subst hp
    simp [homebrew_proto_init, hd]
  · intro hp
    subst hp
    rfl

/-- The operation `homebrew_proto_start` creates a thread, or returns 0, only for a session
whose `init_done` is set. -/
theorem proto_start_aux (X : dmr_error_env) (T : thread_env) (p : Option dmr_homebrew_t)
    (hs : (homebrew_proto_start X T p).started = true ∨ (homebrew_proto_start X T p).ret = 0) :
    ∃ h, p = some h ∧ h.proto.init_done = true := by
  have h1 := X.error_einval_ne_zero
  have h2 := X.error_enomem_ne_zero
  cases p with
  | none => simp [homebrew_proto_start, h1] at hs
  | some h =>
    refine ⟨h, rfl, ?_⟩
    by_contra hne
    have hf : h.proto.init_done = false := by
      cases hi : h.proto.init_done
      · rfl
      · exact absurd hi hne
    simp [homebrew_proto_start, hf, h1] at hs

/-- After `homebrew_proto_init` on a session that is not in the phase DONE and whose
`init_done` is not set, `homebrew_proto_start` returns the invalid-argument error and
creates no thread. -/
theorem init_then_start_aux (X : dmr_error_env) (T : thread_env) (h : dmr_homebrew_t)
    (hinit : h.proto.init_done = false)
    (hph : h.auth ≠ dmr_homebrew_auth_t.DMR_HOMEBREW_AUTH_DONE) :
    homebrew_proto_init X (some h) = (some h, X.error_einval) ∧
    homebrew_proto_start X T (homebrew_proto_init X (some h)).1 =
      { homebrew := some h, ret := X.error_einval, started := false } := by
  have hi : homebrew_proto_init X (some h) = (some h, X.error_einval) := by
    simp [homebrew_proto_init, hph]
  refine ⟨hi, ?_⟩
  rw [hi]
  simp [homebrew_proto_start, hinit]

/-! ## The claims on the steps of the authentication, on closing, on the loop and on init -/

/-- C21. Login step: in the phase NONE, `dmr_homebrew_auth` sends the 12-byte frame "RPTL"
followed by the eight bytes of the repeater id; when the socket accepts the frame and the
first relevant reply is a 22-byte frame that begins with "MSTACK", bytes 14..21 of that
reply are stored as the nonce and the phase becomes INIT. -/
theorem login_step (X : dmr_error_env) (DMR_DEBUG : Bool) (sha256 : List Nat → List Nat)
    (now : Nat) (secret : List Nat) (st : auth_state) (r0 : Int) (sends : List Int)
    (pre post : List recv_event) (ack : recv_event)
    (hphase : st.homebrew.auth = dmr_homebrew_auth_t.DMR_HOMEBREW_AUTH_NONE)
    (hid : st.homebrew.config.repeater_id.length = 8)
    (hsends : st.sends = r0 :: sends) (hr0 : 0 ≤ r0)
    (hrecvs : st.recvs = pre ++ ack :: post)
    (hpre : ∀ e ∈ pre, 0 ≤ e.ret ∧
      ¬ relevant_reply dmr_homebrew_auth_t.DMR_HOMEBREW_AUTH_NONE e)
    (hret : 0 ≤ ack.ret) (hlen : ack.len = 22)
    (hack : ack.buffer.take 6 = dmr_homebrew_master_ack) (hbuf : 22 ≤ ack.buffer.length) :
    auth_switch X DMR_DEBUG sha256 now secret st =
      ({ homebrew :=
           { st.homebrew with
             buffer := ack.buffer
             random := (ack.buffer.drop 14).take 8
             auth := dmr_homebrew_auth_t.DMR_HOMEBREW_AUTH_INIT }
         sent := st.sent ++ [dmr_homebrew_repeater_login ++ st.homebrew.config.repeater_id]
         sends := sends
         recvs := post },
        auth_flow.next) ∧
    (dmr_homebrew_repeater_login ++ st.homebrew.config.repeater_id).length = 12 :=
  login_step_aux X DMR_DEBUG sha256 now secret st r0 sends pre post ack hphase hid hsends hr0
    hrecvs hpre hret hlen hack hbuf

/-- Witness of C21: the repeater id "00000001"; after a ping, which is ignored, the reply
"MSTACK" + "00000001" + `a1 b2 c3 d4 e5 f6 07 18` gives the nonce
`a1 b2 c3 d4 e5 f6 07 18`, and the frame sent is "RPTL00000001". -/
theorem login_step_witness :
    sample_login_state.homebrew.auth = dmr_homebrew_auth_t.DMR_HOMEBREW_AUTH_NONE ∧
    sample_login_state.homebrew.config.repeater_id.length = 8 ∧
    sample_login_state.sends = 0 :: [] ∧ (0 : Int) ≤ 0 ∧
    sample_login_state.recvs = [sample_ping_reply] ++ sample_ack_nonce_reply :: [] ∧
    (∀ e ∈ [sample_ping_reply],
      0 ≤ e.ret ∧ ¬ relevant_reply dmr_homebrew_auth_t.DMR_HOMEBREW_AUTH_NONE e) ∧
    0 ≤ sample_ack_nonce_reply.ret ∧ sample_ack_nonce_reply.len = 22 ∧
    sample_ack_nonce_reply.buffer.take 6 = dmr_homebrew_master_ack ∧
    22 ≤ sample_ack_nonce_reply.buffer.length ∧
    auth_switch sample_error_env false sample_sha256 0 [] sample_login_state =
      ({ homebrew :=
           { sample_login_session with
             buffer := sample_ack_nonce_reply.buffer
             random := [0xa1, 0xb2, 0xc3, 0xd4, 0xe5, 0xf6, 0x07, 0x18]
             auth := dmr_homebrew_auth_t.DMR_HOMEBREW_AUTH_INIT }
         sent := [] ++ [sample_login_frame]
         sends := []
         recvs := [] },
        auth_flow.next) ∧
    sample_login_frame.length = 12 :=
  ⟨by decide, by decide, rfl, by decide, rfl, by decide, by decide, by decide, by decide,
    by decide,
    login_step sample_error_env false sample_sha256 0 [] sample_login_state 0 []
      [sample_ping_reply] [] sample_ack_nonce_reply (by decide) (by decide) rfl (by decide) rfl
      (by decide) (by decide) (by decide) (by decide) (by decide)⟩

/-- C22. Key frame: in the phase INIT, one round of `dmr_homebrew_auth` sends exactly one
frame, whatever the socket answers: 76 bytes, made of "RPTK", the eight bytes of the
repeater id, and the 64 characters of the lowercase hexadecimal encoding, high nibble first,
of the 32-byte digest that SHA-256 gives for the eight stored nonce bytes followed by the
bytes of the secret; each of the 64 characters is one of "0123456789abcdef". -/
theorem init_key_frame (X : dmr_error_env) (DMR_DEBUG : Bool) (sha256 : List Nat → List Nat)
    (now : Nat) (secret : List Nat) (st : auth_state) (r0 : Int) (sends : List Int)
    (hphase : st.homebrew.auth = dmr_homebrew_auth_t.DMR_HOMEBREW_AUTH_INIT)
    (hid : st.homebrew.config.repeater_id.length = 8)
    (hnonce : st.homebrew.random.length = 8)
    (hsends : st.sends = r0 :: sends)
    (hl : (sha256 (st.homebrew.random ++ secret)).length = 32)
    (hb : ∀ b ∈ sha256 (st.homebrew.random ++ secret), b < 256) :
    (auth_switch X DMR_DEBUG sha256 now secret st).1.sent =
      st.sent ++
        [dmr_homebrew_repeater_key ++ st.homebrew.config.repeater_id ++
          lowercase_hex (sha256 (st.homebrew.random ++ secret))] ∧
    (dmr_homebrew_repeater_key ++ st.homebrew.config.repeater_id ++
      lowercase_hex (sha256 (st.homebrew.random ++ secret))).length = 76 ∧
    ∀ c ∈ lowercase_hex (sha256 (st.homebrew.random ++ secret)), c ∈ hex :=
  key_step_aux X DMR_DEBUG sha256 now secret st r0 sends hphase hid hnonce hsends hl hb

/-- Witness of C22: the repeater id "00000001", the nonce `a1 b2 c3 d4 e5 f6 07 18`, the
secret "secret" and a digest that begins `0b 30`: the frame begins "RPTK00000001" and goes
on with "0b30". -/
theorem init_key_frame_witness :
    sample_init_state.homebrew.auth = dmr_homebrew_auth_t.DMR_HOMEBREW_AUTH_INIT ∧
    sample_init_state.homebrew.config.repeater_id.length = 8 ∧
    sample_init_state.homebrew.random.length = 8 ∧
    sample_init_state.sends = 0 :: [] ∧
    (sample_digest (sample_init_state.homebrew.random ++ sample_secret)).length = 32 ∧
    (∀ b ∈ sample_digest (sample_init_state.homebrew.random ++ sample_secret), b < 256) ∧
    ((auth_switch sample_error_env false sample_digest 0 sample_secret sample_init_state).1.sent =
        sample_init_state.sent ++
          [dmr_homebrew_repeater_key ++ sample_init_state.homebrew.config.repeater_id ++
            lowercase_hex (sample_digest (sample_init_state.homebrew.random ++ sample_secret))] ∧
      (dmr_homebrew_repeater_key ++ sample_init_state.homebrew.config.repeater_id ++
        lowercase_hex
          (sample_digest (sample_init_state.homebrew.random ++ sample_secret))).length = 76 ∧
      ∀ c ∈ lowercase_hex (sample_digest (sample_init_state.homebrew.random ++ sample_secret)),
        c ∈ hex) ∧
    (dmr_homebrew_repeater_key ++ sample_init_state.homebrew.config.repeater_id ++
      lowercase_hex (sample_digest (sample_init_state.homebrew.random ++ sample_secret))).take 16 =
      [82, 80, 84, 75, 48, 48, 48, 48, 48, 48, 48, 49, 48, 98, 51, 48] :=
  ⟨by decide, by decide, by decide, rfl, by decide, by decide,
    init_key_frame sample_error_env false sample_digest 0 sample_secret sample_init_state 0 []
      (by decide) (by decide) (by decide) rfl (by decide) (by decide),
    by decide⟩

/-- C23 as stated fails. The frame of the phase CONF is the configuration object, of
`sizeof(dmr_homebrew_config_t)` bytes, and the `assert` of the case CONF, compiled when
`DMR_DEBUG` is defined, requires that size to be 306: a session whose configuration object
has 306 bytes sends a frame of 306 bytes, not 302, and reaches the phase DONE; with an
object of 302 bytes the assertion fails and no frame is sent. -/
theorem conf_frame_306 :
    sample_conf_session.config.bytes.length = 306 ∧
    dmr_homebrew_auth sample_error_env true sample_sha256 7 sample_conf_session [] [0] [] =
      ({ homebrew :=
           { sample_conf_session with
             auth := dmr_homebrew_auth_t.DMR_HOMEBREW_AUTH_DONE, last_ping_sent := 7 }
         sent := [List.replicate 306 32]
         sends := []
         recvs := [] },
        some 0) ∧
    sample_conf_302_session.config.bytes.length = 302 ∧
    dmr_homebrew_auth sample_error_env true sample_sha256 7 sample_conf_302_session [] [0] [] =
      ({ homebrew := sample_conf_302_session, sent := [], sends := [0], recvs := [] },
        none) := by
  set_option maxRecDepth 100000 in decide

/-- C24. Authentication phase invariant: a run of `dmr_homebrew_auth` moves the phase only
along NONE→INIT, INIT→CONF, CONF→DONE, NONE→FAIL and INIT→FAIL, and so does each round of
its loop; a session in FAIL stays in FAIL, and the function returns the error of
`dmr_error_set`, which is not 0, and sends nothing; a session in DONE stays in DONE, and the
function returns 0 and sends nothing; the function returns 0 only with the phase DONE; and
three rounds of the loop are all a run can take. -/
theorem auth_phase_invariant (X : dmr_error_env) (DMR_DEBUG : Bool)
    (sha256 : List Nat → List Nat) (now : Nat) (h : dmr_homebrew_t) (secret : List Nat)
    (sends : List Int) (recvs : List recv_event) :
    Relation.ReflTransGen phase_edge h.auth
      (dmr_homebrew_auth X DMR_DEBUG sha256 now h secret sends recvs).1.homebrew.auth ∧
    (∀ st : auth_state,
      (auth_switch X DMR_DEBUG sha256 now secret st).1.homebrew.auth = st.homebrew.auth ∨
      phase_edge st.homebrew.auth
        (auth_switch X DMR_DEBUG sha256 now secret st).1.homebrew.auth) ∧
    (h.auth = dmr_homebrew_auth_t.DMR_HOMEBREW_AUTH_FAIL →
      dmr_homebrew_auth X DMR_DEBUG sha256 now h secret sends recvs =
        (auth_entry h sends recvs, some X.error_set) ∧ X.error_set ≠ 0) ∧
    (h.auth = dmr_homebrew_auth_t.DMR_HOMEBREW_AUTH_DONE →
      dmr_homebrew_auth X DMR_DEBUG sha256 now h secret sends recvs =
        (auth_entry h sends recvs, some 0)) ∧
    ((dmr_homebrew_auth X DMR_DEBUG sha256 now h secret sends recvs).2 = some 0 →
      (dmr_homebrew_auth X DMR_DEBUG sha256 now h secret sends recvs).1.homebrew.auth =
        dmr_homebrew_auth_t.DMR_HOMEBREW_AUTH_DONE) ∧
    (∀ k : Nat,
      auth_loop X DMR_DEBUG sha256 now secret (3 + k) (auth_entry h sends recvs) =
        dmr_homebrew_auth X DMR_DEBUG sha256 now h secret sends recvs) := by
  have hp := auth_loop_phase X DMR_DEBUG sha256 now secret 3 (auth_entry h sends recvs)
  refine ⟨hp.1, auth_switch_edge X DMR_DEBUG sha256 now secret, ?_, ?_, hp.2, ?_⟩
  · intro hf
    refine ⟨?_, X.error_set_ne_zero⟩
    have hne : h.auth ≠ dmr_homebrew_auth_t.DMR_HOMEBREW_AUTH_DONE := by rw [hf]; decide
    simp only [dmr_homebrew_auth, auth_entry]
    rw [auth_loop]
    simp only [hne, if_false, auth_switch, hf, reduceCtorEq]
  · intro hd
    simp only [dmr_homebrew_auth, auth_entry]
    rw [auth_loop]
    simp only [hd, if_true]
  · intro k
    exact auth_loop_fuel X DMR_DEBUG sha256 now secret 3 (3 + k) (auth_entry h sends recvs)
      (by cases hph : h.auth <;> simp [auth_entry, hph, auth_rank]) (by omega)

/-- Witness of C24: the run of `sample_auth_session` in which the master accepts the login
and the key goes from NONE through INIT and CONF to DONE, sends the three frames, of 12, 76
and 306 bytes, and returns 0. -/
theorem auth_phase_invariant_witness :
    Relation.ReflTransGen phase_edge sample_auth_session.auth
      (dmr_homebrew_auth sample_error_env true sample_sha256 7 sample_auth_session
        sample_secret [0, 0, 0]
        [sample_ack_nonce_reply, sample_ping_reply, sample_ack_reply]).1.homebrew.auth ∧
    sample_auth_session.auth = dmr_homebrew_auth_t.DMR_HOMEBREW_AUTH_NONE ∧
    (dmr_homebrew_auth sample_error_env true sample_sha256 7 sample_auth_session
        sample_secret [0, 0, 0]
        [sample_ack_nonce_reply, sample_ping_reply, sample_ack_reply]).2 = some 0 ∧
    (dmr_homebrew_auth sample_error_env true sample_sha256 7 sample_auth_session
        sample_secret [0, 0, 0]
        [sample_ack_nonce_reply, sample_ping_reply, sample_ack_reply]).1.homebrew.auth =
      dmr_homebrew_auth_t.DMR_HOMEBREW_AUTH_DONE ∧
    (dmr_homebrew_auth sample_error_env true sample_sha256 7 sample_auth_session
        sample_secret [0, 0, 0]
        [sample_ack_nonce_reply, sample_ping_reply, sample_ack_reply]).1.sent.map
        List.length = [12, 76, 306] :=
  ⟨(auth_phase_invariant sample_error_env true sample_sha256 7 sample_auth_session
      sample_secret [0, 0, 0] [sample_ack_nonce_reply, sample_ping_reply, sample_ack_reply]).1,
    by decide, by set_option maxRecDepth 100000 in decide,
    by set_option maxRecDepth 100000 in decide,
    by set_option maxRecDepth 100000 in decide⟩

/-- C25 fails in the code. On `sample_loop_session`, whose socket is open and whose repeater
id is "00000001", `dmr_homebrew_close` sends one frame of 12 bytes, "RPTC00000001": the
local array has 12 bytes, only four characters of "RPTCL" are copied and 12 bytes are sent.
The frame is not the 13 bytes "RPTCL00000001", and `dmr_homebrew_frame_type` classifies it
as UNKNOWN, not as REPEATER_CLOSING. -/
theorem close_frame_rptc :
    sample_loop_session.fd = 3 ∧
    (dmr_homebrew_close (List.replicate 12 0) (some sample_loop_session)).map
        (fun r => r.sent) =
      some [[82, 80, 84, 67, 48, 48, 48, 48, 48, 48, 48, 49]] ∧
    dmr_homebrew_repeater_closing ++ sample_loop_session.config.repeater_id =
      [82, 80, 84, 67, 76, 48, 48, 48, 48, 48, 48, 48, 49] ∧
    dmr_homebrew_frame_type [82, 80, 84, 67, 48, 48, 48, 48, 48, 48, 48, 49] 12 =
      DMR_HOMEBREW_UNKNOWN ∧
    dmr_homebrew_frame_type [82, 80, 84, 67, 76, 48, 48, 48, 48, 48, 48, 48, 49] 13 =
      DMR_HOMEBREW_REPEATER_CLOSING := by
  decide

/-- C26 fails in the code. In the round `sample_ping_event` the master's ping arrives and
`sendto` sends all 15 bytes of the pong, so `dmr_homebrew_sendraw` returns 0: the round ends
with `return`, and `dmr_homebrew_loop` is finished before the data frame of the next round
is read. In the round `sample_ping_fail_event` the send of the pong fails, and the loop goes
on: the data frame of the next round is read and delivered. -/
theorem pong_success_exits :
    dmr_homebrew_frame_type sample_ping_event.recv.buffer sample_ping_event.recv.len =
      DMR_HOMEBREW_MASTER_PING ∧
    dmr_homebrew_sendraw sample_error_env (some sample_loop_session)
      sample_ping_event.pong_sendto 15 = 0 ∧
    (loop_iteration sample_error_env sample_enum sample_ping_event sample_loop_state).2 =
      loop_flow.returned ∧
    (dmr_homebrew_loop sample_error_env sample_enum (List.replicate 53 0)
        (some sample_loop_session) [sample_ping_event, sample_data_event]).map
      (fun r => (r.2, r.1.received, r.1.rx)) =
      some (loop_end.finished, [sample_ping_event], []) ∧
    dmr_homebrew_sendraw sample_error_env (some sample_loop_session)
      sample_ping_fail_event.pong_sendto 15 = -1 ∧
    (loop_iteration sample_error_env sample_enum sample_ping_fail_event sample_loop_state).2 =
      loop_flow.again ∧
    (dmr_homebrew_loop sample_error_env sample_enum (List.replicate 53 0)
        (some sample_loop_session) [sample_ping_fail_event, sample_data_event]).map
      (fun r => (r.2, r.1.received, r.1.rx.length)) =
      some (loop_end.running, [sample_ping_fail_event, sample_data_event], 1) := by
  set_option maxRecDepth 100000 in decide

/-- C27. Pong content: when a round of the loop of `dmr_homebrew_loop` reads a datagram that
is classified MASTER_PING, it sends, after the ping part of the round, exactly one frame: 15
bytes, of which the first 7 are "RPTPONG" and bytes 7..14 are bytes 7..14 of the datagram;
`dmr_homebrew_frame_type` classifies that frame as REPEATER_PONG. -/
theorem pong_content (X : dmr_error_env) (E : dmr_data_type_enum) (ev : loop_event)
    (st : loop_state) (hrecv : loop_receives X ev st)
    (hft : dmr_homebrew_frame_type ev.recv.buffer ev.recv.len = DMR_HOMEBREW_MASTER_PING)
    (hbuf : 15 ≤ ev.recv.buffer.length) :
    (loop_iteration X E ev st).1.sent =
      (loop_ping X ev st).1.sent ++
        [dmr_homebrew_repeater_pong ++ (ev.recv.buffer.drop 7).take 8] ∧
    (dmr_homebrew_repeater_pong ++ (ev.recv.buffer.drop 7).take 8).length = 15 ∧
    dmr_homebrew_frame_type (dmr_homebrew_repeater_pong ++ (ev.recv.buffer.drop 7).take 8) 15 =
      DMR_HOMEBREW_REPEATER_PONG :=
  pong_content_aux X E ev st hrecv hft hbuf

/-- Witness of C27: the ping "MSTPING00000001" is answered by "RPTPONG00000001". -/
theorem pong_content_witness :
    loop_receives sample_error_env sample_ping_event sample_loop_state ∧
    dmr_homebrew_frame_type sample_ping_event.recv.buffer sample_ping_event.recv.len =
      DMR_HOMEBREW_MASTER_PING ∧
    15 ≤ sample_ping_event.recv.buffer.length ∧
    ((loop_iteration sample_error_env sample_enum sample_ping_event sample_loop_state).1.sent =
        (loop_ping sample_error_env sample_ping_event sample_loop_state).1.sent ++
          [dmr_homebrew_repeater_pong ++ (sample_ping_event.recv.buffer.drop 7).take 8] ∧
      (dmr_homebrew_repeater_pong ++
        (sample_ping_event.recv.buffer.drop 7).take 8).length = 15 ∧
      dmr_homebrew_frame_type
        (dmr_homebrew_repeater_pong ++ (sample_ping_event.recv.buffer.drop 7).take 8) 15 =
        DMR_HOMEBREW_REPEATER_PONG) ∧
    dmr_homebrew_repeater_pong ++ (sample_ping_event.recv.buffer.drop 7).take 8 =
      [82, 80, 84, 80, 79, 78, 71, 48, 48, 48, 48, 48, 48, 48, 49] :=
  ⟨by decide, by decide, by decide,
    pong_content sample_error_env sample_enum sample_ping_event sample_loop_state (by decide)
      (by decide) (by decide),
    by decide⟩

/-- C28. Ping cadence: in one round of the loop of `dmr_homebrew_loop`, let `since` be the
value of `dmr_time_since(homebrew->last_ping_sent)`. If `since > 3` and `sendto` sends the
frame, the round sends one 15-byte frame "MSTPING" followed by the eight bytes of the
repeater id, sets `last_ping_sent` to the current time, and sends nothing else but at most
one pong. If `since > 3` and the send fails, the round ends with `break` after that frame,
nothing is read, the session is as it was, and the run of the loop is finished with
`last_ping_sent` unchanged. If `since` is not greater than 3, no ping is sent and
`last_ping_sent` stays as it was. -/
theorem ping_cadence (X : dmr_error_env) (E : dmr_data_type_enum) (ev : loop_event)
    (st : loop_state) (hid : st.homebrew.config.repeater_id.length = 8) :
    (ev.since > 3 → ev.ping_sendto = 15 →
      (loop_iteration X E ev st).1.homebrew.last_ping_sent = ev.now ∧
      ∃ rest, (loop_iteration X E ev st).1.sent =
          st.sent ++ [dmr_homebrew_master_ping ++ st.homebrew.config.repeater_id] ++ rest ∧
        rest.length ≤ 1 ∧ ∀ f ∈ rest, f.take 7 = dmr_homebrew_repeater_pong) ∧
    (ev.since > 3 → ev.ping_sendto ≠ 15 →
      ((loop_iteration X E ev st).2 = loop_flow.broke ∧
        (loop_iteration X E ev st).1.homebrew = st.homebrew ∧
        (loop_iteration X E ev st).1.sent =
          st.sent ++ [dmr_homebrew_master_ping ++ st.homebrew.config.repeater_id] ∧
        (loop_iteration X E ev st).1.received = st.received) ∧
      ∀ evs : List loop_event,
        (loop_run X E (ev :: evs) st).2 = loop_end.finished ∧
        (loop_run X E (ev :: evs) st).1.homebrew.last_ping_sent =
          st.homebrew.last_ping_sent) ∧
    (¬ ev.since > 3 →
      (loop_iteration X E ev st).1.homebrew.last_ping_sent = st.homebrew.last_ping_sent ∧
      ∃ rest, (loop_iteration X E ev st).1.sent = st.sent ++ rest ∧
        rest.length ≤ 1 ∧ ∀ f ∈ rest, f.take 7 = dmr_homebrew_repeater_pong) ∧
    (dmr_homebrew_master_ping ++ st.homebrew.config.repeater_id).length = 15 := by
  obtain ⟨h1, h2, h3, h4⟩ := ping_cadence_aux X E ev st hid
  exact ⟨h1,
    fun hdue hfail =>
      ⟨h2 hdue hfail, fun evs => ping_failure_exit X E ev evs st hid hdue hfail⟩,
    h3, h4⟩

/-- Witness of C28: the round `sample_late_event` starts 3.5 seconds after the last ping of
`sample_loop_session`, sent at time 100: the round sends "MSTPING00000001" and nothing else,
and sets `last_ping_sent` to the current time 104. -/
theorem ping_cadence_witness :
    sample_loop_state.homebrew.config.repeater_id.length = 8 ∧
    sample_late_event.since > 3 ∧ sample_late_event.ping_sendto = 15 ∧
    sample_loop_state.homebrew.last_ping_sent = 100 ∧
    ((loop_iteration sample_error_env sample_enum sample_late_event
        sample_loop_state).1.homebrew.last_ping_sent = sample_late_event.now ∧
      ∃ rest, (loop_iteration sample_error_env sample_enum sample_late_event
          sample_loop_state).1.sent =
          sample_loop_state.sent ++
            [dmr_homebrew_master_ping ++ sample_loop_state.homebrew.config.repeater_id] ++
            rest ∧
        rest.length ≤ 1 ∧ ∀ f ∈ rest, f.take 7 = dmr_homebrew_repeater_pong) ∧
    (loop_iteration sample_error_env sample_enum sample_late_event sample_loop_state).1.sent =
      [[77, 83, 84, 80, 73, 78, 71, 48, 48, 48, 48, 48, 48, 48, 49]] :=
  ⟨by decide, by decide, by decide, by decide,
    (ping_cadence sample_error_env sample_enum sample_late_event sample_loop_state
      (by decide)).1 (by decide) (by decide),
    by decide⟩

/-- C29. In-order delivery: along every run of `dmr_homebrew_loop`, the datagrams read are
rounds of the run in their order of arrival, and the packets handed to `homebrew->proto.rx`
are, in that order, the packets that `dmr_homebrew_parse_packet` yields for them; it yields a
packet exactly for a datagram classified DMR_DATA_FRAME for which its allocation succeeds.
A round that reads a datagram logs it and delivers the packet of that datagram, if there is
one, exactly once; a round that reads none delivers nothing. -/
theorem in_order_delivery (X : dmr_error_env) (E : dmr_data_type_enum) (buf : List Nat)
    (h : dmr_homebrew_t) (events : List loop_event) :
    (∃ r, dmr_homebrew_loop X E buf (some h) events = some r ∧
      r.1.received.Sublist events ∧ (∀ e ∈ r.1.received, e.recv.ret = 0) ∧
      r.1.rx = r.1.received.filterMap (loop_packet E)) ∧
    (∀ e : loop_event, (loop_packet E e).isSome = true ↔
      (dmr_homebrew_frame_type e.recv.buffer e.recv.len = DMR_HOMEBREW_DMR_DATA_FRAME ∧
        e.alloc_ok = true)) ∧
    (∀ (ev : loop_event) (st : loop_state),
      (loop_receives X ev st →
        (loop_iteration X E ev st).1.received = st.received ++ [ev] ∧
        (loop_iteration X E ev st).1.rx = st.rx ++ (loop_packet E ev).toList) ∧
      (¬ loop_receives X ev st →
        (loop_iteration X E ev st).1.received = st.received ∧
        (loop_iteration X E ev st).1.rx = st.rx)) := by
  refine ⟨?_, loop_packet_some_iff E, loop_iteration_delivery X E⟩
  obtain ⟨ds, hsub, hret, hrc, hrx⟩ := loop_run_delivery X E events (loop_entry buf h)
  refine ⟨_, rfl, ?_, ?_, ?_⟩
  · show (loop_run X E events (loop_entry buf h)).1.received.Sublist events
    rw [hrc]
    exact hsub
  · show ∀ e ∈ (loop_run X E events (loop_entry buf h)).1.received, e.recv.ret = 0
    rw [hrc]
    exact hret
  · show (loop_run X E events (loop_entry buf h)).1.rx =
      (loop_run X E events (loop_entry buf h)).1.received.filterMap (loop_packet E)
    rw [hrc, hrx]
    rfl

/-- Witness of C29: a data frame, a ping whose pong cannot be sent, a round that times out
and a second data frame: three datagrams are read, and the two data frames are delivered,
in that order. -/
theorem in_order_delivery_witness :
    (∃ r, dmr_homebrew_loop sample_error_env sample_enum (List.replicate 53 0)
        (some sample_loop_session)
        [sample_data_event, sample_ping_fail_event, sample_late_event, sample_data_event] =
        some r ∧
      r.1.received.Sublist
        [sample_data_event, sample_ping_fail_event, sample_late_event, sample_data_event] ∧
      (∀ e ∈ r.1.received, e.recv.ret = 0) ∧
      r.1.rx = r.1.received.filterMap (loop_packet sample_enum)) ∧
    (dmr_homebrew_loop sample_error_env sample_enum (List.replicate 53 0)
        (some sample_loop_session)
        [sample_data_event, sample_ping_fail_event, sample_late_event,
          sample_data_event]).map (fun r => (r.1.received, r.1.rx)) =
      some ([sample_data_event, sample_ping_fail_event, sample_data_event],
        (loop_packet sample_enum sample_data_event).toList ++
          (loop_packet sample_enum sample_data_event).toList) ∧
    (loop_packet sample_enum sample_data_event).isSome = true :=
  ⟨(in_order_delivery sample_error_env sample_enum (List.replicate 53 0) sample_loop_session
      [sample_data_event, sample_ping_fail_event, sample_late_event, sample_data_event]).1,
    by set_option maxRecDepth 100000 in decide, by decide⟩

/-- C30. The vtable operation `homebrew_proto_init` returns 0 if and only if the session is
not `NULL` and its phase is DONE, and then it sets `init_done`; for a session in another
phase, and for `NULL`, it returns the invalid-argument error, which is not 0, and leaves the
session as it is. The operation `homebrew_proto_start` creates a thread, or returns 0, only
for a session whose `init_done` is set; so after `homebrew_proto_init` on a session that has
not reached DONE and whose `init_done` is not set, `homebrew_proto_start` returns the
invalid-argument error and starts nothing. -/
theorem proto_init_iff_done (X : dmr_error_env) (T : thread_env)
    (p : Option dmr_homebrew_t) :
    (((homebrew_proto_init X p).2 = 0 ↔
        ∃ h, p = some h ∧ h.auth = dmr_homebrew_auth_t.DMR_HOMEBREW_AUTH_DONE) ∧
      (∀ h, p = some h → h.auth = dmr_homebrew_auth_t.DMR_HOMEBREW_AUTH_DONE →
        homebrew_proto_init X p =
          (some { h with proto := { h.proto with init_done := true } }, 0)) ∧
      (∀ h, p = some h → h.auth ≠ dmr_homebrew_auth_t.DMR_HOMEBREW_AUTH_DONE →
        homebrew_proto_init X p = (some h, X.error_einval)) ∧
      (p = none → homebrew_proto_init X p = (none, X.error_einval)) ∧
      X.error_einval ≠ 0) ∧
    ((homebrew_proto_start X T p).started = true ∨ (homebrew_proto_start X T p).ret = 0 →
      ∃ h, p = some h ∧ h.proto.init_done = true) ∧
    (∀ h, p = some h → h.proto.init_done = false →
      h.auth ≠ dmr_homebrew_auth_t.DMR_HOMEBREW_AUTH_DONE →
      homebrew_proto_init X p = (some h, X.error_einval) ∧
      homebrew_proto_start X T (homebrew_proto_init X p).1 =
        { homebrew := some h, ret := X.error_einval, started := false }) :=
  ⟨proto_init_aux X p, proto_start_aux X T p,
    fun h hp hinit hph => by
      subst hp
      exact init_then_start_aux X T h hinit hph⟩

/-- Witness of C30: `sample_login_session` is in the phase NONE: init returns -1 and start
starts nothing; `sample_conf_session` moved to DONE is initialised and started. -/
theorem proto_init_iff_done_witness :
    ((homebrew_proto_init sample_error_env (some sample_login_session)).2 = 0 ↔
      ∃ h, some sample_login_session = some h ∧
        h.auth = dmr_homebrew_auth_t.DMR_HOMEBREW_AUTH_DONE) ∧
    homebrew_proto_init sample_error_env (some sample_login_session) =
      (some sample_login_session, -1) ∧
    (homebrew_proto_start sample_error_env { malloc_ok := true, create_ok := true }
      (homebrew_proto_init sample_error_env (some sample_login_session)).1).started = false ∧
    (homebrew_proto_start sample_error_env { malloc_ok := true, create_ok := true }
      (homebrew_proto_init sample_error_env
        (some { sample_conf_session with
          auth := dmr_homebrew_auth_t.DMR_HOMEBREW_AUTH_DONE })).1).started = true :=
  ⟨(proto_init_iff_done sample_error_env { malloc_ok := true, create_ok := true }
      (some sample_login_session)).1.1,
    by decide, by decide, by decide⟩

/-! ## Lemmas on the reads of the Berlekamp iteration -/

/-- The Berlekamp iteration of `dmr_rs_decode` starts its loop in the state
`berlekamp_entry`. -/
theorem rs_berlekamp_eq (rs : dmr_rs_t) (s : cells) (stack : rs_stack) :
    rs_berlekamp rs s stack = berlekamp_loop rs s (rs.n - 1) (berlekamp_entry rs s stack) :=
  rfl

/-- The loop of the Berlekamp iteration never runs more rounds than the model allows. -/
theorem berlekamp_loop_u_le (rs : dmr_rs_t) (s : cells) (fuel : Nat) (st : berlekamp_t) :
    (berlekamp_loop rs s fuel st).u ≤ st.u + fuel + 1 := by
  induction fuel generalizing st with
  | zero => exact Nat.le_of_eq rfl
  | succ k ih =>
    unfold berlekamp_loop
    simp only []
    split
    · have h := ih (berlekamp_step rs s st)
      rw [berlekamp_step_u] at h
      omega
    · rw [berlekamp_step_u]
      omega

/-- The last round of the loop reads the cell `s[u + 1]`, where `u` is the value with which
the loop ends, whenever `u < nn`. -/
theorem berlekamp_loop_reads_last (rs : dmr_rs_t) (s : cells) (fuel : Nat) (st : berlekamp_t)
    (h : ((berlekamp_loop rs s fuel st).u : Int) < rs.nn) :
    ((berlekamp_loop rs s fuel st).u : Int) + 1 ∈ berlekamp_loop_reads rs s fuel st := by
  induction fuel generalizing st with
  | zero =>
    have h0 : berlekamp_loop rs s 0 st = berlekamp_step rs s st := rfl
    rw [h0] at h ⊢
    unfold berlekamp_loop_reads berlekamp_step_reads
    simp only [h, if_true]
    exact List.mem_cons_self _ _
  | succ k ih =>
    unfold berlekamp_loop at h ⊢
    unfold berlekamp_loop_reads
    simp only [] at h ⊢
    split
    · rename_i hc
      simp only [hc, and_self, if_true] at h ⊢
      exact List.mem_append_right _ (ih _ h)
    · rename_i hc
      simp only [hc, if_false] at h ⊢
      unfold berlekamp_step_reads
      simp only [h, if_true]
      exact List.mem_cons_self _ _

/-- When the Berlekamp iteration ends with a degree of at most `tt`, it has run all its
rounds: it ends with `u = n`. -/
theorem decode_berlekamp_full (rs : dmr_rs_t) (stack : rs_stack) (input : List Nat)
    (hn : 0 < rs.n) (hdeg : decode_degree rs stack input ≤ rs.tt) :
    (decode_berlekamp rs stack input).u = rs.n := by
  have hex := decode_berlekamp_exit rs stack input
  have hle : (decode_berlekamp rs stack input).u ≤ rs.n := by
    have h := berlekamp_loop_u_le rs
      (rs_syndromes rs (rs_index_form rs input (List.replicate rs.nn 0)) stack.s).1 (rs.n - 1)
      (berlekamp_entry rs
        (rs_syndromes rs (rs_index_form rs input (List.replicate rs.nn 0)) stack.s).1 stack)
    have hu : (berlekamp_entry rs
        (rs_syndromes rs (rs_index_form rs input (List.replicate rs.nn 0)) stack.s).1 stack).u
          = 0 := rfl
    rw [hu] at h
    unfold decode_berlekamp
    rw [rs_berlekamp_eq]
    omega
  unfold decode_degree at hdeg
  have hcast : (((decode_berlekamp rs stack input).u + 1 : Nat) : Int) =
      ((decode_berlekamp rs stack input).u : Int) + 1 := by push_cast; rfl
  rw [hcast] at hdeg
  have h2 : ¬ (((decode_berlekamp rs stack input).u : Int) < rs.n) := fun h => hex ⟨h, hdeg⟩
  omega

/-- When the Berlekamp iteration ends with a degree of at most `tt` in a context with
`0 < n < nn`, it has read the cell `s[n + 1]`. -/
theorem decode_reads_past_aux (rs : dmr_rs_t) (stack : rs_stack) (input : List Nat)
    (hn : 0 < rs.n) (hnn : rs.n < rs.nn) (hdeg : decode_degree rs stack input ≤ rs.tt) :
    (rs.n : Int) + 1 ∈ decode_syndrome_reads rs stack input := by
  have hu := decode_berlekamp_full rs stack input hn hdeg
  unfold decode_berlekamp at hu
  rw [rs_berlekamp_eq] at hu
  unfold decode_syndrome_reads decode_syndromes
  apply List.mem_cons_of_mem
  have h := berlekamp_loop_reads_last rs
    (rs_syndromes rs (rs_index_form rs input (List.replicate rs.nn 0)) stack.s).1 (rs.n - 1)
    (berlekamp_entry rs
      (rs_syndromes rs (rs_index_form rs input (List.replicate rs.nn 0)) stack.s).1 stack)
    (by rw [hu]; exact_mod_cast hnn)
  rw [hu] at h
  exact h

/-- The degree with which the Berlekamp iteration ends for the buffer `sample_rs_encoded` is
at most `tt`: the decoder returns 1, not 2. -/
theorem decode_sample_degree_aux :
    decode_degree rs8_zero_fill rs_stack_zero
      (rs_12_9_4_input rs8_zero_fill sample_rs_encoded 0) ≤ rs8_zero_fill.tt := by
  have h := decode_ret_cases rs8_zero_fill rs_stack_zero
    (rs_12_9_4_input rs8_zero_fill sample_rs_encoded 0)
  rw [decode_sample_rs_encoded] at h
  by_contra hc
  by_cases h1 : decode_syn_error rs8_zero_fill rs_stack_zero
      (rs_12_9_4_input rs8_zero_fill sample_rs_encoded 0) ≠ 0
  · rw [if_pos h1, if_neg hc] at h
    exact absurd h (by decide)
  · rw [if_neg h1] at h
    exact absurd h (by decide)

/-- The generator polynomial of `dmr_rs_new` has `n + 1` coefficients `gg[0..n]`. -/
theorem rs_generator_length (fresh : Int) (alpha_to index_of : List Int) (nn n : Nat) :
    (rs_generator fresh alpha_to index_of nn n).length = n + 1 := by
  unfold rs_generator
  simp only []
  refine foldl_invariant (fun gg : List Int => gg.length = n + 1) _ _ _ ?_
    (fun a x ha => by simp only [tab_set_length]; exact ha)
  refine foldl_invariant (fun gg : List Int => gg.length = n + 1) _ _ _ ?_ ?_
  · simp only [tab_set_length, List.length_replicate]
  · intro a x ha
    simp only [tab_set_length]
    refine foldl_invariant (fun gg : List Int => gg.length = n + 1) _ _ _ ?_ ?_
    · simp only [tab_set_length]; exact ha
    · intro b y hb
      split
      · simp only [tab_set_length]; exact hb
      · simp only [tab_set_length]; exact hb

/-- The context that `dmr_rs_init` builds: two errors to correct, a shift register of four
cells and a generator polynomial with the five coefficients `gg[0..4]`. -/
theorem dmr_rs_init_shape_aux (env : rs_env) (rs : dmr_rs_t)
    (hinit : dmr_rs_init env none = some rs) :
    rs.tt = 2 ∧ rs.n = 4 ∧ rs.nn = 255 ∧ rs.gg.length = 5 := by
  have hrs : dmr_rs_new env 0x11d 8 2 = some rs := hinit
  obtain ⟨hnn, hn, htt, -⟩ := dmr_rs_new_shape env rs hrs
  refine ⟨htt, hn, hnn, ?_⟩
  unfold dmr_rs_new at hrs
  split at hrs
  · exact absurd hrs (by simp)
  · have h := (Option.some.inj hrs).symm
    have hgg : rs.gg = rs_generator env.fresh (rs_gf_tables env.fresh 0x11d 8).1
        (rs_gf_tables env.fresh 0x11d 8).2 ((1 <<< 8) - 1) (2 * (2 % 256)) := by rw [h]
    rw [hgg, rs_generator_length]

/-- The syndrome loop writes the cells `s[1..n]` and no other cell of `s`. -/
theorem rs_syndromes_other (rs : dmr_rs_t) (recd : List Nat) (s : cells) (k : Int)
    (hk : k < 1 ∨ (rs.n : Int) < k) : (rs_syndromes rs recd s).1 k = s k := by
  unfold rs_syndromes
  have hgen : ∀ (l : List Nat) (st : cells × Nat), (∀ i ∈ l, (i : Int) ≠ k) →
      (l.foldl
        (fun (st : cells × Nat) (i : Nat) =>
          let si : Int :=
            (List.range rs.nn).foldl
              (fun (acc : Int) (j : Nat) =>
                Int.xor acc
                  (tab_get rs.alpha_to
                    (to_uint ((recd.getD j 0 : Int) + (i : Int) * j) % rs.nn : Nat)))
              0
          (st.1.set i (tab_get rs.index_of si), if si ≠ 0 then st.2 + 1 else st.2))
        st).1 k = st.1 k := by
    intro l
    induction l with
    | nil => intro st _; rfl
    | cons x xs ih =>
      intro st hx
      rw [List.foldl_cons, ih _ (fun i hi => hx i (List.mem_cons_of_mem _ hi))]
      have hxk : (x : Int) ≠ k := hx x (List.mem_cons_self _ _)
      simp only [cells.set]
      rw [if_neg (fun h => hxk h.symm)]
  apply hgen
  intro i hi
  rw [List.mem_map] at hi
  obtain ⟨a, ha, rfl⟩ := hi
  rw [List.mem_range] at ha
  push_cast
  omega

/-- The product of 0 and a power of alpha is 0. -/
theorem gf_mul_alpha_pow_zero (i : Nat) : gf_mul_alpha_pow i 0 = 0 := by
  unfold gf_mul_alpha_pow
  exact Function.iterate_fixed (by decide) i

/-- A polynomial whose coefficients are all zero has the value 0. -/
theorem gf_poly_eval_zero (n i : Nat) : gf_poly_eval (List.replicate n 0) i = 0 := by
  unfold gf_poly_eval
  refine foldl_invariant (fun acc : Nat => acc = 0) _ _ _ rfl ?_
  intro a x ha
  rw [ha, getD_replicate_zero, gf_mul_alpha_pow_zero]
  rfl

/-- A polynomial whose only coefficient that is not zero is that of X^0 has that coefficient
as its value. -/
theorem gf_poly_eval_const (c n i : Nat) : gf_poly_eval (c :: List.replicate n 0) i = c := by
  unfold gf_poly_eval
  rw [List.length_cons, List.range_succ_eq_map, List.foldl_cons, List.foldl_map]
  have h0 : (0 : Nat) ^^^ gf_mul_alpha_pow (i * 0) ((c :: List.replicate n 0).getD 0 0) = c := by
    simp [gf_mul_alpha_pow]
  rw [h0]
  refine foldl_invariant (fun acc : Nat => acc = c) _ _ _ rfl ?_
  intro a x ha
  have hx : (c :: List.replicate n 0).getD (Nat.succ x) 0 = 0 := by
    rw [List.getD_cons_succ, getD_replicate_zero]
  rw [ha, hx, gf_mul_alpha_pow_zero]
  exact Nat.xor_zero c

/-- The syndrome loop computes the same for two blocks in index form when the cells of the
two blocks give the same index into `alpha_to` in every term of every sum. -/
theorem rs_syndromes_congr (rs : dmr_rs_t) (recd1 recd2 : List Nat) (s : cells)
    (h : ∀ i j : Nat, j < rs.nn →
      to_uint ((recd1.getD j 0 : Int) + (i : Int) * j) % rs.nn =
        to_uint ((recd2.getD j 0 : Int) + (i : Int) * j) % rs.nn) :
    rs_syndromes rs recd1 s = rs_syndromes rs recd2 s := by
  unfold rs_syndromes
  have hin : ∀ i : Nat,
      (List.range rs.nn).foldl
        (fun (acc : Int) (j : Nat) =>
          Int.xor acc
            (tab_get rs.alpha_to
              (to_uint ((recd1.getD j 0 : Int) + (i : Int) * j) % rs.nn : Nat))) 0 =
      (List.range rs.nn).foldl
        (fun (acc : Int) (j : Nat) =>
          Int.xor acc
            (tab_get rs.alpha_to
              (to_uint ((recd2.getD j 0 : Int) + (i : Int) * j) % rs.nn : Nat))) 0 := by
    intro i
    apply List.foldl_ext
    intro a j hj
    rw [h i j (List.mem_range.mp hj)]
  simp only [hin]

/-- A cell that the loop of `fill_bytes` has written holds the value computed for it. -/
theorem fill_bytes_getD (buf : List Nat) (n : Nat) (f : Nat → Nat) (j : Nat) (hj : j < n)
    (hlen : n ≤ buf.length) : (fill_bytes buf n f).getD j 0 = f j := by
  unfold fill_bytes
  have hm : min n buf.length = n := Nat.min_eq_left hlen
  rw [hm, List.getD_eq_getElem?_getD, List.getElem?_append_left (by simpa using hj)]
  simp [hj]

/-- The loop of `fill_bytes` keeps the length of the buffer. -/
theorem fill_bytes_length (buf : List Nat) (n : Nat) (f : Nat → Nat) :
    (fill_bytes buf n f).length = buf.length := by
  unfold fill_bytes
  simp only [List.length_append, List.length_map, List.length_range, List.length_drop]
  omega

/-- The cell `recd[j]` after the first loop of `dmr_rs_decode`: the index of the symbol
`input[j]`, cut to an `unsigned char`. -/
theorem rs_index_form_getD (rs : dmr_rs_t) (input recd : List Nat) (j : Nat) (hj : j < rs.nn)
    (hlen : rs.nn ≤ recd.length) :
    (rs_index_form rs input recd).getD j 0 = to_uchar (tab_get rs.index_of (input.getD j 0)) :=
  fill_bytes_getD recd rs.nn _ j hj hlen

/-- The decoder computes the same syndromes for the block `01 00 ... 00` and for the block of
zeros. -/
theorem sample_syndromes_aux (stack : rs_stack) :
    decode_syndromes rs8_zero_fill stack sample_unit_block =
      decode_syndromes rs8_zero_fill stack sample_zero_block := by
  unfold decode_syndromes
  apply congrArg Prod.fst
  apply rs_syndromes_congr
  intro i j hj
  have hlen : rs8_zero_fill.nn ≤ (List.replicate rs8_zero_fill.nn 0).length := by
    rw [List.length_replicate]
  rw [rs_index_form_getD _ _ _ j hj hlen, rs_index_form_getD _ _ _ j hj hlen]
  cases j with
  | zero =>
    have ha : to_uchar (tab_get rs8_zero_fill.index_of (sample_unit_block.getD 0 0)) = 0 := by
      decide
    have hb : to_uchar (tab_get rs8_zero_fill.index_of (sample_zero_block.getD 0 0)) = 255 := by
      decide
    rw [ha, hb]
    simp only [Nat.cast_zero, mul_zero, add_zero]
    decide
  | succ k =>
    have h1 : sample_unit_block.getD (k + 1) 0 = sample_zero_block.getD (k + 1) 0 := by
      unfold sample_unit_block sample_zero_block
      have hr : List.replicate 255 0 = 0 :: List.replicate 254 0 := rfl
      rw [hr, List.getD_cons_succ, List.getD_cons_succ]
    rw [h1]

/-! ## Lemmas on the field GF(2^8) -/

/-- The product with alpha of a value below 256 is below 256. -/
theorem gf_xtime_lt (x : Nat) (hx : x < 256) : gf_xtime x < 256 := by
  revert x
  decide!

/-- The product with alpha written with the operations on bits. -/
theorem gf_xtime_bits (x : Nat) (hx : x < 256) :
    gf_xtime x = ((x % 128) <<< 1) ^^^ (if x.testBit 7 then 29 else 0) := by
  revert x
  decide!

/-- The product with alpha has an inverse on the values below 256. -/
theorem gf_xtime_left_inverse (x : Nat) (hx : x < 256) :
    (fun y : Nat => if y % 2 = 0 then y / 2 else (y ^^^ 0x11d) / 2) (gf_xtime x) = x := by
  revert x
  decide!

/-- The product with alpha is injective on the values below 256. -/
theorem gf_xtime_inj (a b : Nat) (ha : a < 256) (hb : b < 256) (h : gf_xtime a = gf_xtime b) :
    a = b := by
  have h1 := gf_xtime_left_inverse a ha
  have h2 := gf_xtime_left_inverse b hb
  rw [h] at h1
  exact h1.symm.trans h2

/-- The remainder modulo 128 distributes over the bitwise exclusive or. -/
theorem xor_mod_128 (a b : Nat) : (a ^^^ b) % 128 = (a % 128) ^^^ (b % 128) := by
  apply Nat.eq_of_testBit_eq
  intro i
  have h128 : (128 : Nat) = 2 ^ 7 := rfl
  rw [h128]
  simp only [Nat.testBit_mod_two_pow, Nat.testBit_xor]
  by_cases h : i < 7 <;> simp [h]

/-- The shift to the left distributes over the bitwise exclusive or. -/
theorem xor_shiftLeft (a b k : Nat) : (a ^^^ b) <<< k = (a <<< k) ^^^ (b <<< k) := by
  apply Nat.eq_of_testBit_eq
  intro i
  simp only [Nat.testBit_shiftLeft, Nat.testBit_xor]
  by_cases h : k ≤ i <;> simp [h]

/-- The product with alpha distributes over the sum of GF(2^8). -/
theorem gf_xtime_xor (a b : Nat) (ha : a < 256) (hb : b < 256) :
    gf_xtime (a ^^^ b) = gf_xtime a ^^^ gf_xtime b := by
  have hab : a ^^^ b < 256 := Nat.xor_lt_two_pow (n := 8) ha hb
  rw [gf_xtime_bits _ hab, gf_xtime_bits a ha, gf_xtime_bits b hb, xor_mod_128, xor_shiftLeft,
    Nat.testBit_xor]
  generalize (a % 128) <<< 1 = u
  generalize (b % 128) <<< 1 = v
  cases a.testBit 7 <;> cases b.testBit 7
  · simp
  · simp [Nat.xor_assoc]
  · simp only [Bool.true_xor, Bool.not_false, if_true, Bool.false_eq_true, if_false,
      Nat.xor_zero]
    rw [Nat.xor_assoc, Nat.xor_assoc, Nat.xor_comm v 29]
  · simp only [Bool.xor_self, Bool.false_eq_true, if_false, if_true, Nat.xor_zero]
    rw [Nat.xor_assoc, ← Nat.xor_assoc 29 v 29, Nat.xor_comm 29 v, Nat.xor_assoc v 29 29,
      Nat.xor_self, Nat.xor_zero]

/-- The product of a value below 256 and a power of alpha is below 256. -/
theorem gf_mul_alpha_pow_lt (i x : Nat) (hx : x < 256) : gf_mul_alpha_pow i x < 256 := by
  unfold gf_mul_alpha_pow
  induction i generalizing x with
  | zero => exact hx
  | succ k ih =>
    rw [Function.iterate_succ_apply]
    exact ih _ (gf_xtime_lt x hx)

/-- The product with alpha^(i + j) is the product with alpha^j followed by that with
alpha^i. -/
theorem gf_mul_alpha_pow_add (i j x : Nat) :
    gf_mul_alpha_pow (i + j) x = gf_mul_alpha_pow i (gf_mul_alpha_pow j x) := by
  unfold gf_mul_alpha_pow
  exact Function.iterate_add_apply _ i j x

/-- The product with alpha^(i + 1) is that with alpha^i followed by that with alpha. -/
theorem gf_mul_alpha_pow_succ (i x : Nat) :
    gf_mul_alpha_pow (i + 1) x = gf_xtime (gf_mul_alpha_pow i x) := by
  unfold gf_mul_alpha_pow
  exact Function.iterate_succ_apply' _ i x

/-- The product with a power of alpha distributes over the sum of GF(2^8). -/
theorem gf_mul_alpha_pow_xor (i a b : Nat) (ha : a < 256) (hb : b < 256) :
    gf_mul_alpha_pow i (a ^^^ b) = gf_mul_alpha_pow i a ^^^ gf_mul_alpha_pow i b := by
  induction i with
  | zero => rfl
  | succ k ih =>
    rw [gf_mul_alpha_pow_succ, gf_mul_alpha_pow_succ, gf_mul_alpha_pow_succ, ih,
      gf_xtime_xor _ _ (gf_mul_alpha_pow_lt k a ha) (gf_mul_alpha_pow_lt k b hb)]

/-- The product with a power of alpha is injective on the values below 256. -/
theorem gf_mul_alpha_pow_inj (i a b : Nat) (ha : a < 256) (hb : b < 256)
    (h : gf_mul_alpha_pow i a = gf_mul_alpha_pow i b) : a = b := by
  induction i with
  | zero => exact h
  | succ k ih =>
    rw [gf_mul_alpha_pow_succ, gf_mul_alpha_pow_succ] at h
    exact ih (gf_xtime_inj _ _ (gf_mul_alpha_pow_lt k a ha) (gf_mul_alpha_pow_lt k b hb) h)

/-- A power of alpha is below 256. -/
theorem gf_alpha_pow_lt (i : Nat) : gf_alpha_pow i < 256 :=
  gf_mul_alpha_pow_lt i 1 (by decide)

/-- A power of alpha is not zero. -/
theorem gf_alpha_pow_ne_zero (i : Nat) : gf_alpha_pow i ≠ 0 := by
  intro h
  have h0 : gf_mul_alpha_pow i 1 = gf_mul_alpha_pow i 0 := by
    rw [gf_mul_alpha_pow_zero]
    exact h
  exact absurd (gf_mul_alpha_pow_inj i 1 0 (by decide) (by decide) h0) (by decide)

/-- The power alpha^(i + 1) is the product of alpha^i and alpha. -/
theorem gf_alpha_pow_succ (i : Nat) : gf_alpha_pow (i + 1) = gf_xtime (gf_alpha_pow i) :=
  gf_mul_alpha_pow_succ i 1

/-- The product of alpha^j and alpha^i is alpha^(i + j). -/
theorem gf_mul_alpha_pow_pow (i j : Nat) :
    gf_mul_alpha_pow i (gf_alpha_pow j) = gf_alpha_pow (i + j) :=
  (gf_mul_alpha_pow_add i j 1).symm

/-- The order of alpha divides 255: alpha^255 = 1. -/
theorem gf_alpha_pow_255 : gf_alpha_pow 255 = 1 := by
  decide!

/-- The order of alpha divides none of 85, 51 and 15. -/
theorem gf_alpha_pow_proper :
    gf_alpha_pow 85 ≠ 1 ∧ gf_alpha_pow 51 ≠ 1 ∧ gf_alpha_pow 15 ≠ 1 := by
  decide!

/-- The order of alpha is 255. -/
theorem gf_alpha_order : Function.minimalPeriod gf_xtime 1 = 255 := by
  have hp : Function.IsPeriodicPt gf_xtime 255 1 := gf_alpha_pow_255
  have hd : Function.minimalPeriod gf_xtime 1 ∣ 255 := hp.minimalPeriod_dvd
  have hmin := Function.isPeriodicPt_minimalPeriod gf_xtime 1
  obtain ⟨h85, h51, h15⟩ := gf_alpha_pow_proper
  have hmem : Function.minimalPeriod gf_xtime 1 ∈ Nat.divisors 255 :=
    Nat.mem_divisors.mpr ⟨hd, by decide⟩
  have hdiv : Nat.divisors 255 = {1, 3, 5, 15, 17, 51, 85, 255} := by decide
  rw [hdiv] at hmem
  simp only [Finset.mem_insert, Finset.mem_singleton] at hmem
  have hno : ∀ m : Nat, Function.minimalPeriod gf_xtime 1 ∣ m → gf_alpha_pow m = 1 :=
    fun m hm => hmin.trans_dvd hm
  rcases hmem with h | h | h | h | h | h | h | h
  · exact absurd (hno 15 (by rw [h]; decide)) h15
  · exact absurd (hno 15 (by rw [h]; decide)) h15
  · exact absurd (hno 15 (by rw [h]; decide)) h15
  · exact absurd (hno 15 (by rw [h])) h15
  · exact absurd (hno 51 (by rw [h]; decide)) h51
  · exact absurd (hno 51 (by rw [h])) h51
  · exact absurd (hno 85 (by rw [h])) h85
  · exact h

/-- The powers alpha^0, ..., alpha^254 are pairwise distinct. -/
theorem gf_alpha_pow_inj (i j : Nat) (hi : i < 255) (hj : j < 255)
    (h : gf_alpha_pow i = gf_alpha_pow j) : i = j := by
  have hinj := Function.iterate_injOn_Iio_minimalPeriod (f := gf_xtime) (x := 1)
  rw [gf_alpha_order] at hinj
  exact hinj (Set.mem_Iio.mpr hi) (Set.mem_Iio.mpr hj) h

/-- The powers of alpha repeat with the period 255. -/
theorem gf_alpha_pow_mod (i : Nat) : gf_alpha_pow (i % 255) = gf_alpha_pow i := by
  have h := Function.iterate_mod_minimalPeriod_eq (f := gf_xtime) (x := 1) (n := i)
  rw [gf_alpha_order] at h
  exact h

/-- Every value from 1 to 255 is one of the powers alpha^0, ..., alpha^254. -/
theorem gf_alpha_pow_surj (x : Nat) (h0 : x ≠ 0) (hx : x < 256) :
    ∃ i, i < 255 ∧ gf_alpha_pow i = x := by
  have hsub : (Finset.range 255).image gf_alpha_pow ⊆ Finset.Icc 1 255 := by
    intro y hy
    rw [Finset.mem_image] at hy
    obtain ⟨i, -, rfl⟩ := hy
    rw [Finset.mem_Icc]
    have h1 := gf_alpha_pow_lt i
    have h2 := gf_alpha_pow_ne_zero i
    omega
  have hcard : ((Finset.range 255).image gf_alpha_pow).card = 255 := by
    rw [Finset.card_image_of_injOn, Finset.card_range]
    intro i hi j hj hij
    exact gf_alpha_pow_inj i j (Finset.mem_range.mp (Finset.mem_coe.mp hi))
      (Finset.mem_range.mp (Finset.mem_coe.mp hj)) hij
  have heq := Finset.eq_of_subset_of_card_le hsub (by rw [hcard]; simp)
  have hmem : x ∈ Finset.Icc 1 255 := by
    rw [Finset.mem_Icc]
    omega
  rw [← heq, Finset.mem_image] at hmem
  obtain ⟨i, hi, rfl⟩ := hmem
  exact ⟨i, Finset.mem_range.mp hi, rfl⟩

/-- The product with alpha^255 leaves every value below 256 as it is. -/
theorem gf_mul_alpha_pow_255 (x : Nat) (hx : x < 256) : gf_mul_alpha_pow 255 x = x := by
  by_cases h0 : x = 0
  · rw [h0, gf_mul_alpha_pow_zero]
  · obtain ⟨i, -, rfl⟩ := gf_alpha_pow_surj x h0 hx
    rw [gf_mul_alpha_pow_pow, Nat.add_comm, ← gf_mul_alpha_pow_pow, gf_alpha_pow_255]
    rfl

/-- The product with a power of alpha depends on the exponent modulo 255 only. -/
theorem gf_mul_alpha_pow_mod (i x : Nat) (hx : x < 256) :
    gf_mul_alpha_pow (i % 255) x = gf_mul_alpha_pow i x := by
  by_cases h0 : x = 0
  · rw [h0, gf_mul_alpha_pow_zero, gf_mul_alpha_pow_zero]
  · obtain ⟨j, -, rfl⟩ := gf_alpha_pow_surj x h0 hx
    rw [gf_mul_alpha_pow_pow, gf_mul_alpha_pow_pow, ← gf_alpha_pow_mod (i + j),
      ← gf_alpha_pow_mod (i % 255 + j), Nat.add_mod, Nat.mod_mod, ← Nat.add_mod]

/-! ## Lemmas on the tables that `dmr_rs_new` builds -/

/-- A property `P i` that holds before round 0 and that round `i` carries over to `P (i + 1)`
holds with `n` after the `n` rounds of a loop over `0, ..., n - 1`. -/
theorem foldl_range_invariant {α : Type} (P : Nat → α → Prop) (f : α → Nat → α) (n : Nat)
    (a : α) (h0 : P 0 a) (hstep : ∀ i st, i < n → P i st → P (i + 1) (f st i)) :
    P n ((List.range n).foldl f a) := by
  induction n with
  | zero => exact h0
  | succ k ih =>
    rw [List.range_succ, List.foldl_append]
    exact hstep k _ (Nat.lt_succ_self k)
      (ih (fun i st hi hp => hstep i st (Nat.lt_succ_of_lt hi) hp))

/-- The read of a cell with an index that is not negative. -/
theorem tab_get_nat (t : List Int) (i : Nat) : tab_get t (i : Int) = t.getD i 0 := by
  unfold tab_get
  rw [if_neg (by omega)]
  rfl

/-- A cell of a table holds what has just been written to it. -/
theorem tab_get_set_eq (t : List Int) (i : Nat) (v : Int) (h : i < t.length) :
    tab_get (tab_set t (i : Int) v) (i : Int) = v := by
  unfold tab_get tab_set
  rw [if_neg (by omega), if_neg (by omega)]
  simp [List.getD_eq_getElem?_getD, h]

/-- A write to a cell of a table leaves the other cells as they are. -/
theorem tab_get_set_ne (t : List Int) (i j : Int) (v : Int) (h : i ≠ j) :
    tab_get (tab_set t i v) j = tab_get t j := by
  unfold tab_get tab_set
  by_cases hj : j < 0
  · rw [if_pos hj, if_pos hj]
  · rw [if_neg hj, if_neg hj]
    by_cases hi : i < 0
    · rw [if_pos hi]
    · rw [if_neg hi]
      have hne : i.toNat ≠ j.toNat := by omega
      simp [List.getD_eq_getElem?_getD, List.getElem?_set, hne]

/-- The value that the second loop of `dmr_rs_new` writes to `alpha_to[i]` is the product of
`alpha_to[i - 1]` and alpha. -/
theorem gf_xtime_int (p : Nat) (hp : p < 256) :
    (if (p : Int) ≥ 128 then Int.xor 29 ((Int.xor (p : Int) 128) * 2) else (p : Int) * 2) =
      (gf_xtime p : Int) := by
  revert p
  decide!

/-- The first loop of `dmr_rs_new` for the polynomial 0x11d: the powers alpha^0, ..., alpha^7
and their indices, and alpha^8 in `alpha_to[8]`. -/
theorem rs_gf_tables_loop1 (fresh : Int) :
    ∀ st, st = (List.range 8).foldl
      (fun (st : List Int × List Int × Int) (i : Nat) =>
        let alpha_to := tab_set st.1 i st.2.2
        let index_of := tab_set st.2.1 (tab_get alpha_to i) i
        let alpha_to :=
          if (0x11d >>> i) &&& 1 ≠ 0 then
            tab_set alpha_to (8 : Nat) (Int.xor (tab_get alpha_to (8 : Nat)) st.2.2)
          else alpha_to
        (alpha_to, index_of, st.2.2 * 2))
      (tab_set (List.replicate (2 ^ 8 + 1) fresh) (8 : Nat) 0,
        List.replicate (2 ^ 8 + 1) fresh, 1) →
    st.2.2 = 256 ∧ st.1.length = 257 ∧ st.2.1.length = 257 ∧
      (∀ k : Nat, k < 8 → tab_get st.1 (k : Int) = ((2 ^ k : Nat) : Int)) ∧
      tab_get st.1 (8 : Nat) = 29 ∧
      (∀ k : Nat, k < 8 → tab_get st.2.1 ((2 ^ k : Nat) : Int) = (k : Int)) ∧
      tab_get st.1 (255 : Nat) = fresh := by
  intro st hst
  have key := foldl_range_invariant
    (fun (m : Nat) (st : List Int × List Int × Int) =>
      st.2.2 = ((2 ^ m : Nat) : Int) ∧ st.1.length = 257 ∧ st.2.1.length = 257 ∧
      (∀ k : Nat, k < m → tab_get st.1 (k : Int) = ((2 ^ k : Nat) : Int)) ∧
      tab_get st.1 (8 : Nat) = ((0x11d % 2 ^ m : Nat) : Int) ∧
      (∀ k : Nat, k < m → tab_get st.2.1 ((2 ^ k : Nat) : Int) = (k : Int)) ∧
      tab_get st.1 (255 : Nat) = fresh)
    (fun (st : List Int × List Int × Int) (i : Nat) =>
        let alpha_to := tab_set st.1 i st.2.2
        let index_of := tab_set st.2.1 (tab_get alpha_to i) i
        let alpha_to :=
          if (0x11d >>> i) &&& 1 ≠ 0 then
            tab_set alpha_to (8 : Nat) (Int.xor (tab_get alpha_to (8 : Nat)) st.2.2)
          else alpha_to
        (alpha_to, index_of, st.2.2 * 2))
    8
    (tab_set (List.replicate (2 ^ 8 + 1) fresh) (8 : Nat) 0,
        List.replicate (2 ^ 8 + 1) fresh, 1)
    ?_ ?_
  · rw [← hst] at key
    obtain ⟨h1, h2, h3, h4, h5, h6, h7⟩ := key
    exact ⟨h1, h2, h3, h4, h5, h6, h7⟩
  · have hlen : (List.replicate (2 ^ 8 + 1) fresh).length = 257 := List.length_replicate _ _
    refine ⟨rfl, ?_, hlen, ?_, ?_, ?_, ?_⟩
    · rw [tab_set_length]
      exact hlen
    · intro k hk
      exact absurd hk (Nat.not_lt_zero k)
    · exact tab_get_set_eq _ 8 0 (by rw [hlen]; decide)
    · intro k hk
      exact absurd hk (Nat.not_lt_zero k)
    · rw [tab_get_set_ne _ _ _ _ (by decide), tab_get_nat, List.getD_eq_getElem?_getD,
        List.getElem?_replicate]
      rfl
  · intro i st hi ⟨h1, h2, h3, h4, h5, h6, h7⟩
    have hpow : (2 : Nat) ^ i < 257 := by
      have : (2 : Nat) ^ i ≤ 2 ^ 7 := Nat.pow_le_pow_right (by decide) (by omega)
      omega
    have hi8 : ((i : Nat) : Int) ≠ ((8 : Nat) : Int) := by omega
    have hget : tab_get (tab_set st.1 (i : Nat) st.2.2) (i : Nat) = st.2.2 :=
      tab_get_set_eq _ i _ (by omega)
    have hget8 : tab_get (tab_set st.1 (i : Nat) st.2.2) (8 : Nat) =
        ((0x11d % 2 ^ i : Nat) : Int) := by
      rw [tab_get_set_ne _ _ _ _ hi8, h5]
    rw [h1] at hget hget8
    simp only [hget, hget8, h1]
    refine ⟨by push_cast; ring, ?_, ?_, ?_, ?_, ?_, ?_⟩
    · split <;> simp [tab_set_length, h2]
    · simp [tab_set_length, h3]
    · intro k hk
      have hk8 : ((8 : Nat) : Int) ≠ ((k : Nat) : Int) := by omega
      have hki : tab_get (tab_set st.1 (i : Nat) ((2 ^ i : Nat) : Int)) (k : Nat) =
          ((2 ^ k : Nat) : Int) := by
        by_cases hik : k = i
        · rw [hik]
          exact tab_get_set_eq _ i _ (by omega)
        · rw [tab_get_set_ne _ _ _ _ (by omega)]
          exact h4 k (by omega)
      split
      · rw [tab_get_set_ne _ _ _ _ hk8]
        exact hki
      · exact hki
    · have hsz : 8 < (tab_set st.1 (i : Nat) ((2 ^ i : Nat) : Int)).length := by
        rw [tab_set_length]; omega
      split
      · rename_i hb
        rw [tab_get_set_eq _ 8 _ hsz]
        interval_cases i <;> first | decide | exact absurd hb (by decide)
      · rename_i hb
        rw [hget8]
        interval_cases i <;> first | decide | exact absurd (by decide) hb
    · intro k hk
      by_cases hik : k = i
      · rw [hik]
        exact tab_get_set_eq _ (2 ^ i) _ (by rw [h3]; exact hpow)
      · have hne : (((2 ^ i : Nat) : Nat) : Int) ≠ (((2 ^ k : Nat) : Nat) : Int) := by
          intro h
          have h' : (2 : Nat) ^ i = 2 ^ k := by exact_mod_cast h
          exact hik (Nat.pow_right_injective (le_refl 2) h').symm
        rw [tab_get_set_ne _ _ _ _ hne]
        exact h6 k (by omega)
    · have h255 : ((i : Nat) : Int) ≠ ((255 : Nat) : Int) := by omega
      split
      · rw [tab_get_set_ne _ _ _ _ (by decide), tab_get_set_ne _ _ _ _ h255]
        exact h7
      · rw [tab_get_set_ne _ _ _ _ h255]
        exact h7

/-- The powers alpha^0, ..., alpha^8. -/
theorem gf_alpha_pow_small :
    (∀ k : Nat, k < 8 → gf_alpha_pow k = 2 ^ k) ∧ gf_alpha_pow 8 = 29 := by
  decide!

/-- The second loop of `dmr_rs_new` for the polynomial 0x11d: it goes on from the powers
alpha^0, ..., alpha^8 to alpha^254 and leaves `alpha_to[255]` as it is. -/
theorem rs_gf_tables_loop2 (fresh mask : Int) (hmask : mask = 128) (A I : List Int)
    (hA : A.length = 257) (hI : I.length = 257)
    (h4 : ∀ k : Nat, k < 9 → tab_get A (k : Int) = (gf_alpha_pow k : Int))
    (h6 : ∀ k : Nat, k < 9 → tab_get I (gf_alpha_pow k : Int) = (k : Int))
    (h7 : tab_get A (255 : Nat) = fresh) (N : Nat) (hN : N ≤ 246) :
    ∀ st, st = ((List.range N).map (fun k => 8 + 1 + k)).foldl
      (fun (st : List Int × List Int) (i : Nat) =>
        let prev := tab_get st.1 (i - 1 : Nat)
        let alpha_to :=
          if prev ≥ mask then
            tab_set st.1 i (Int.xor (tab_get st.1 (8 : Nat)) ((Int.xor prev mask) * 2))
          else tab_set st.1 i (prev * 2)
        (alpha_to, tab_set st.2 (tab_get alpha_to i) i))
      (A, I) →
    st.1.length = 257 ∧ st.2.length = 257 ∧
      (∀ k : Nat, k < 9 + N → tab_get st.1 (k : Int) = (gf_alpha_pow k : Int)) ∧
      (∀ k : Nat, k < 9 + N → tab_get st.2 (gf_alpha_pow k : Int) = (k : Int)) ∧
      tab_get st.1 (255 : Nat) = fresh := by
  intro st hst
  rw [List.foldl_map] at hst
  have key := foldl_range_invariant
    (fun (m : Nat) (st : List Int × List Int) =>
      st.1.length = 257 ∧ st.2.length = 257 ∧
      (∀ k : Nat, k < 9 + m → tab_get st.1 (k : Int) = (gf_alpha_pow k : Int)) ∧
      (∀ k : Nat, k < 9 + m → tab_get st.2 (gf_alpha_pow k : Int) = (k : Int)) ∧
      tab_get st.1 (255 : Nat) = fresh)
    (fun (st : List Int × List Int) (k : Nat) =>
        let prev := tab_get st.1 ((8 + 1 + k) - 1 : Nat)
        let alpha_to :=
          if prev ≥ mask then
            tab_set st.1 ((8 + 1 + k : Nat) : Int)
              (Int.xor (tab_get st.1 (8 : Nat)) ((Int.xor prev mask) * 2))
          else tab_set st.1 ((8 + 1 + k : Nat) : Int) (prev * 2)
        (alpha_to, tab_set st.2 (tab_get alpha_to ((8 + 1 + k : Nat) : Int))
          ((8 + 1 + k : Nat) : Int)))
    N (A, I) ⟨hA, hI, h4, h6, h7⟩ ?_
  · rw [← hst] at key
    exact key
  · intro m st hm ⟨h1, h2, h3, h5, h8⟩
    have hprev : tab_get st.1 ((8 + 1 + m - 1 : Nat) : Int) = (gf_alpha_pow (8 + m) : Int) := by
      have he : 8 + 1 + m - 1 = 8 + m := by omega
      rw [he]
      exact h3 (8 + m) (by omega)
    have h8get : tab_get st.1 ((8 : Nat) : Int) = 29 := by
      rw [h3 8 (by omega), gf_alpha_pow_small.2]
      rfl
    have hnew : (if (gf_alpha_pow (8 + m) : Int) ≥ mask then
          tab_set st.1 ((8 + 1 + m : Nat) : Int)
            (Int.xor 29 ((Int.xor (gf_alpha_pow (8 + m) : Int) mask) * 2))
        else tab_set st.1 ((8 + 1 + m : Nat) : Int) ((gf_alpha_pow (8 + m) : Int) * 2)) =
        tab_set st.1 ((8 + 1 + m : Nat) : Int) (gf_alpha_pow (8 + 1 + m) : Int) := by
      have hx := gf_xtime_int (gf_alpha_pow (8 + m)) (gf_alpha_pow_lt _)
      have hs : gf_alpha_pow (8 + 1 + m) = gf_xtime (gf_alpha_pow (8 + m)) := by
        have he : 8 + 1 + m = (8 + m) + 1 := by omega
        rw [he, gf_alpha_pow_succ]
      rw [hs, ← hx, hmask]
      split <;> rfl
    simp only [hprev, h8get, hnew]
    have hget : tab_get (tab_set st.1 ((8 + 1 + m : Nat) : Int) (gf_alpha_pow (8 + 1 + m) : Int))
        ((8 + 1 + m : Nat) : Int) = (gf_alpha_pow (8 + 1 + m) : Int) :=
      tab_get_set_eq _ _ _ (by omega)
    rw [hget]
    refine ⟨by rw [tab_set_length]; exact h1, by rw [tab_set_length]; exact h2, ?_, ?_, ?_⟩
    · intro k hk
      by_cases hkm : k = 8 + 1 + m
      · rw [hkm]
        exact hget
      · rw [tab_get_set_ne _ _ _ _ (by omega)]
        exact h3 k (by omega)
    · intro k hk
      by_cases hkm : k = 8 + 1 + m
      · rw [hkm]
        exact tab_get_set_eq _ _ _ (by have := gf_alpha_pow_lt (8 + 1 + m); omega)
      · have hne : ((gf_alpha_pow (8 + 1 + m) : Nat) : Int) ≠ ((gf_alpha_pow k : Nat) : Int) := by
          intro h
          have h' : gf_alpha_pow (8 + 1 + m) = gf_alpha_pow k := by exact_mod_cast h
          exact hkm (gf_alpha_pow_inj _ _ (by omega) (by omega) h').symm
        rw [tab_get_set_ne _ _ _ _ hne]
        exact h5 k (by omega)
    · rw [tab_get_set_ne _ _ _ _ (by omega)]
      exact h8

/-- The tables of `dmr_rs_new` for the polynomial 0x11d and 8 bits in terms of the state
`st1` in which the first loop ends. -/
theorem rs_gf_tables_glue (fresh : Int) (st1 : List Int × List Int × Int)
    (h : st1.2.2 = 256 ∧ st1.1.length = 257 ∧ st1.2.1.length = 257 ∧
      (∀ k : Nat, k < 8 → tab_get st1.1 (k : Int) = ((2 ^ k : Nat) : Int)) ∧
      tab_get st1.1 (8 : Nat) = 29 ∧
      (∀ k : Nat, k < 8 → tab_get st1.2.1 ((2 ^ k : Nat) : Int) = (k : Int)) ∧
      tab_get st1.1 (255 : Nat) = fresh) :
    ∀ T : List Int × List Int,
      T = ((((List.range 246).map (fun k => 8 + 1 + k)).foldl
          (fun (st : List Int × List Int) (i : Nat) =>
            let prev := tab_get st.1 (i - 1 : Nat)
            let alpha_to :=
              if prev ≥ st1.2.2 / 2 then
                tab_set st.1 i (Int.xor (tab_get st.1 (8 : Nat)) ((Int.xor prev (st1.2.2 / 2)) * 2))
              else tab_set st.1 i (prev * 2)
            (alpha_to, tab_set st.2 (tab_get alpha_to i) i))
          (st1.1, tab_set st1.2.1 (tab_get st1.1 (8 : Nat)) (8 : Nat))).1,
        tab_set (((List.range 246).map (fun k => 8 + 1 + k)).foldl
          (fun (st : List Int × List Int) (i : Nat) =>
            let prev := tab_get st.1 (i - 1 : Nat)
            let alpha_to :=
              if prev ≥ st1.2.2 / 2 then
                tab_set st.1 i (Int.xor (tab_get st.1 (8 : Nat)) ((Int.xor prev (st1.2.2 / 2)) * 2))
              else tab_set st.1 i (prev * 2)
            (alpha_to, tab_set st.2 (tab_get alpha_to i) i))
          (st1.1, tab_set st1.2.1 (tab_get st1.1 (8 : Nat)) (8 : Nat))).2 0 (-1)) →
    T.1.length = 257 ∧ T.2.length = 257 ∧
    (∀ i : Nat, i < 255 → tab_get T.1 (i : Int) = (gf_alpha_pow i : Int)) ∧
    (∀ i : Nat, i < 255 → tab_get T.2 (gf_alpha_pow i : Int) = (i : Int)) ∧
    tab_get T.2 0 = -1 ∧ tab_get T.1 (255 : Nat) = fresh := by
  obtain ⟨l1, l2, l3, l4, l5, l6, l7⟩ := h
  obtain ⟨p8, p9⟩ := gf_alpha_pow_small
  intro T hT
  have hloop := rs_gf_tables_loop2 fresh (st1.2.2 / 2) (by rw [l1]; norm_num) st1.1
    (tab_set st1.2.1 (tab_get st1.1 (8 : Nat)) (8 : Nat)) l2
    (by rw [tab_set_length]; exact l3)
    (by
      intro k hk
      by_cases h8 : k = 8
      · rw [h8, p9]; exact l5
      · rw [p8 k (by omega)]; exact l4 k (by omega))
    (by
      intro k hk
      rw [l5]
      by_cases h8 : k = 8
      · rw [h8, p9]
        exact tab_get_set_eq _ 29 _ (by rw [l3]; decide)
      · have hk8 : k < 8 := by omega
        have hne : (29 : Int) ≠ ((2 ^ k : Nat) : Int) := by
          intro h
          have h' : (29 : Nat) = 2 ^ k := by exact_mod_cast h
          interval_cases k <;> exact absurd h' (by decide)
        rw [p8 k hk8, tab_get_set_ne _ _ _ _ hne]
        exact l6 k hk8)
    l7 246 (le_refl _) _ rfl
  obtain ⟨q1, q2, q3, q4, q5⟩ := hloop
  have hT1 : T.1 = _ := congrArg Prod.fst hT
  have hT2 : T.2 = _ := congrArg Prod.snd hT
  simp only [] at hT1 hT2
  rw [hT1, hT2]
  refine ⟨q1, by rw [tab_set_length]; exact q2, fun i hi => q3 i (by omega), ?_,
    tab_get_set_zero _ _ (by rw [q2]; decide), q5⟩
  intro i hi
  rw [tab_get_set_ne _ _ _ _ (by
    have := gf_alpha_pow_ne_zero i
    omega)]
  exact q4 i (by omega)

/-- The tables that `dmr_rs_new` builds for the polynomial 0x11d and 8 bits, whatever fresh
memory holds: `alpha_to[i]` is alpha^i and `index_of[alpha^i]` is `i` for `i = 0..254`,
`index_of[0]` is -1, and the cell `alpha_to[255]` is never written. -/
theorem rs_gf_tables_spec (fresh : Int) :
    (rs_gf_tables fresh 0x11d 8).1.length = 257 ∧ (rs_gf_tables fresh 0x11d 8).2.length = 257 ∧
    (∀ i : Nat, i < 255 →
      tab_get (rs_gf_tables fresh 0x11d 8).1 (i : Int) = (gf_alpha_pow i : Int)) ∧
    (∀ i : Nat, i < 255 →
      tab_get (rs_gf_tables fresh 0x11d 8).2 (gf_alpha_pow i : Int) = (i : Int)) ∧
    tab_get (rs_gf_tables fresh 0x11d 8).2 0 = -1 ∧
    tab_get (rs_gf_tables fresh 0x11d 8).1 (255 : Nat) = fresh :=
  rs_gf_tables_glue fresh _ (rs_gf_tables_loop1 fresh _ rfl) _ rfl

/-! ## Lemmas on the context that `dmr_rs_new` builds -/

/-- The context that `dmr_rs_new(0x11d, 8, t)` builds: the tables of GF(2^8), the number of
parities `n = 2 * tt`, the generator polynomial computed from those tables, and the cell
`alpha_to[255]`, which holds what fresh memory holds. -/
theorem dmr_rs_new_context (env : rs_env) (t : Nat) (rs : dmr_rs_t)
    (hrs : dmr_rs_new env 0x11d 8 t = some rs) :
    rs_gf_context rs ∧ rs.tt = t % 256 ∧ rs.n = 2 * (t % 256) ∧
    rs.gg = rs_generator env.fresh rs.alpha_to rs.index_of 255 rs.n ∧
    tab_get rs.alpha_to (255 : Nat) = env.fresh := by
  unfold dmr_rs_new at hrs
  split at hrs
  · exact absurd hrs (by simp)
  · have h := (Option.some.inj hrs).symm
    obtain ⟨-, -, s3, s4, s5, s6⟩ := rs_gf_tables_spec env.fresh
    have hnn : rs.nn = 255 := by rw [h]; rfl
    have htt : rs.tt = t % 256 := by rw [h]
    have hn : rs.n = 2 * (t % 256) := by rw [h]
    have ha : rs.alpha_to = (rs_gf_tables env.fresh 0x11d 8).1 := by rw [h]
    have hi : rs.index_of = (rs_gf_tables env.fresh 0x11d 8).2 := by rw [h]
    have hg : rs.gg = rs_generator env.fresh (rs_gf_tables env.fresh 0x11d 8).1
        (rs_gf_tables env.fresh 0x11d 8).2 ((1 <<< 8) - 1) (2 * (t % 256)) := by rw [h]
    refine ⟨⟨hnn, ?_, ?_, ?_⟩, htt, hn, ?_, ?_⟩
    · rw [ha]; exact s3
    · rw [hi]; exact s4
    · rw [hi]; exact s5
    · rw [hg, ha, hi, hn]; rfl
    · rw [ha]; exact s6

/-- In a context with the tables of GF(2^8) the index of a value from 1 to 255 is the
exponent, below 255, of the power of alpha that the value is. -/
theorem rs_index_of_spec (rs : dmr_rs_t) (hctx : rs_gf_context rs) (x : Nat) (h0 : x ≠ 0)
    (hx : x < 256) :
    ∃ k : Nat, k < 255 ∧ tab_get rs.index_of (x : Int) = (k : Int) ∧ gf_alpha_pow k = x := by
  obtain ⟨k, hk, rfl⟩ := gf_alpha_pow_surj x h0 hx
  exact ⟨k, hk, hctx.2.2.1 k hk, rfl⟩

/-- The conversion to `unsigned int` of a value that is not negative and below 2^32. -/
theorem to_uint_nat (k : Nat) (hk : k < 2 ^ 32) : to_uint (k : Int) = k := by
  unfold to_uint
  have h : ((k : Int) % 2 ^ 32) = (k : Int) := Int.emod_eq_of_lt (by omega) (by exact_mod_cast hk)
  rw [h]
  rfl

/-- The conversion to `unsigned char` of a value that is not negative and below 256. -/
theorem to_uchar_nat (k : Nat) (hk : k < 256) : to_uchar (k : Int) = k := by
  unfold to_uchar
  have h : ((k : Int) % 256) = (k : Int) := Int.emod_eq_of_lt (by omega) (by exact_mod_cast hk)
  rw [h]
  rfl

/-- The read `alpha_to[(index + e) % nn]` at a sum of two exponents. -/
theorem rs_alpha_to_sum (rs : dmr_rs_t) (hctx : rs_gf_context rs) (k e : Nat) (hk : k < 255)
    (he : e < 2 ^ 31) :
    tab_get rs.alpha_to ((to_uint ((k : Int) + (e : Int)) % rs.nn : Nat) : Int) =
      (gf_alpha_pow (k + e) : Int) := by
  have hcast : (k : Int) + (e : Int) = ((k + e : Nat) : Int) := by push_cast; rfl
  rw [hcast, to_uint_nat _ (by omega), hctx.1, hctx.2.1 _ (Nat.mod_lt _ (by decide)),
    gf_alpha_pow_mod]

/-- The read `alpha_to[(index_of[x] + e) % nn]` gives the product of `x` and alpha^e when `x`
is not zero. -/
theorem rs_alpha_to_index (rs : dmr_rs_t) (hctx : rs_gf_context rs) (x e : Nat) (h0 : x ≠ 0)
    (hx : x < 256) (he : e < 2 ^ 31) :
    tab_get rs.alpha_to
        ((to_uint (tab_get rs.index_of (x : Int) + (e : Int)) % rs.nn : Nat) : Int) =
      (gf_mul_alpha_pow e x : Int) := by
  obtain ⟨k, hk, hkx, hpow⟩ := rs_index_of_spec rs hctx x h0 hx
  rw [hkx, rs_alpha_to_sum rs hctx k e hk he, Nat.add_comm, ← gf_mul_alpha_pow_pow, hpow]

/-- In a context with the tables of GF(2^8), `alpha_to[index_of[v]]` is `v` for every value
from 1 to 255. -/
theorem rs_alpha_to_index_of (rs : dmr_rs_t) (hctx : rs_gf_context rs) (x : Nat) (h0 : x ≠ 0)
    (hx : x < 256) :
    tab_get rs.alpha_to (tab_get rs.index_of (x : Int)) = (x : Int) := by
  obtain ⟨k, hk, hkx, hpow⟩ := rs_index_of_spec rs hctx x h0 hx
  rw [hkx, hctx.2.1 k hk, hpow]

/-- The symbol that `dmr_rs_decode` gets back when it puts a symbol below 256 into index
form, stores the index in a cell of type `unsigned char` and reads `alpha_to` at that cell:
the symbol itself when it is not zero, and the content of `alpha_to[255]` for the symbol 0,
whose index -1 is stored as 255. -/
theorem rs_symbol_round_trip (rs : dmr_rs_t) (hctx : rs_gf_context rs) (x : Nat)
    (hx : x < 256) :
    to_uchar (tab_get rs.alpha_to
        ((to_uchar (tab_get rs.index_of (x : Int)) : Nat) : Int)) =
      if x = 0 then to_uchar (tab_get rs.alpha_to (255 : Nat)) else x := by
  by_cases h0 : x = 0
  · rw [if_pos h0, h0]
    have h1 : tab_get rs.index_of ((0 : Nat) : Int) = -1 := hctx.2.2.2
    rw [h1]
    rfl
  · rw [if_neg h0]
    obtain ⟨k, hk, hkx, hpow⟩ := rs_index_of_spec rs hctx x h0 hx
    rw [hkx, to_uchar_nat k (by omega), hctx.2.1 k hk, hpow, to_uchar_nat x hx]

/-- The block that `dmr_rs_decode` leaves in `recd` when it returns 1 or 2: the symbols of
`input` put into index form and back. -/
theorem dmr_rs_decode_failure (rs : dmr_rs_t) (stack : rs_stack) (input recd : List Nat)
    (hret : (dmr_rs_decode rs stack input recd).ret ≠ 0) :
    (dmr_rs_decode rs stack input recd).recd =
      fill_bytes (rs_index_form rs input recd) rs.nn
        (fun i => to_uchar (tab_get rs.alpha_to ((rs_index_form rs input recd).getD i 0))) := by
  unfold dmr_rs_decode at hret ⊢
  simp only [] at hret ⊢
  split_ifs at hret ⊢ <;> first | rfl | exact absurd rfl hret

/-- The symbols that `dmr_rs_decode` leaves in `recd` when it returns 1 or 2. -/
theorem decode_failure_aux (env : rs_env) (t : Nat) (rs : dmr_rs_t)
    (hrs : dmr_rs_new env 0x11d 8 t = some rs) (stack : rs_stack) (input recd : List Nat)
    (hin : ∀ i, i < 255 → input.getD i 0 < 256) (hlen : 255 ≤ recd.length)
    (hret : (dmr_rs_decode rs stack input recd).ret ≠ 0) (i : Nat) (hi : i < 255) :
    (dmr_rs_decode rs stack input recd).recd.getD i 0 =
      if input.getD i 0 = 0 then to_uchar env.fresh else input.getD i 0 := by
  obtain ⟨hctx, -, -, -, hfresh⟩ := dmr_rs_new_context env t rs hrs
  have hnn : rs.nn = 255 := hctx.1
  rw [dmr_rs_decode_failure rs stack input recd hret]
  have hl1 : rs.nn ≤ (rs_index_form rs input recd).length := by
    unfold rs_index_form
    rw [fill_bytes_length, hnn]
    exact hlen
  rw [fill_bytes_getD _ _ _ i (by rw [hnn]; exact hi) hl1,
    rs_index_form_getD rs input recd i (by rw [hnn]; exact hi) (by rw [hnn]; exact hlen),
    rs_symbol_round_trip rs hctx _ (hin i hi), hfresh]

/-! ## The field GF(2^8) -/

/-- The exponent `gf_log x` is below 255, and alpha to that exponent is `x`. -/
theorem gf_log_spec (x : Nat) (h0 : x ≠ 0) (hx : x < 256) :
    gf_log x < 255 ∧ gf_alpha_pow (gf_log x) = x := by
  obtain ⟨i, hi, hpow⟩ := gf_alpha_pow_surj x h0 hx
  unfold gf_log
  cases hf : (List.range 255).find? (fun i => gf_alpha_pow i = x) with
  | none =>
    rw [List.find?_eq_none] at hf
    exact absurd (by simpa using hpow) (hf i (List.mem_range.mpr hi))
  | some j =>
    have h1 := List.find?_some hf
    have h2 := List.mem_of_find?_eq_some hf
    exact ⟨List.mem_range.mp h2, by simpa using h1⟩

/-- The exponent of alpha^i is `i` modulo 255. -/
theorem gf_log_pow (i : Nat) : gf_log (gf_alpha_pow i) = i % 255 := by
  obtain ⟨h1, h2⟩ := gf_log_spec (gf_alpha_pow i) (gf_alpha_pow_ne_zero i) (gf_alpha_pow_lt i)
  exact gf_alpha_pow_inj _ _ h1 (Nat.mod_lt _ (by decide)) (h2.trans (gf_alpha_pow_mod i).symm)

/-- The product of two values below 256 is below 256. -/
theorem gf_mul_lt (a b : Nat) (ha : a < 256) : gf_mul a b < 256 := by
  unfold gf_mul
  split
  · decide
  · exact gf_mul_alpha_pow_lt _ a ha

/-- The product of alpha^i and alpha^j is alpha^(i + j). -/
theorem gf_mul_pow (i j : Nat) : gf_mul (gf_alpha_pow i) (gf_alpha_pow j) = gf_alpha_pow (i + j) := by
  unfold gf_mul
  rw [if_neg (gf_alpha_pow_ne_zero j), gf_log_pow, gf_mul_alpha_pow_mod _ _ (gf_alpha_pow_lt i),
    gf_mul_alpha_pow_pow, Nat.add_comm]

/-- The product with zero is zero. -/
theorem gf_mul_zero_left (b : Nat) : gf_mul 0 b = 0 := by
  unfold gf_mul
  split
  · rfl
  · exact gf_mul_alpha_pow_zero _

/-- The product with zero as the second factor is zero. -/
theorem gf_mul_zero_right (a : Nat) : gf_mul a 0 = 0 := by
  unfold gf_mul
  exact if_pos rfl

/-- The product with alpha^i as the second factor. -/
theorem gf_mul_alpha (a i : Nat) (ha : a < 256) :
    gf_mul a (gf_alpha_pow i) = gf_mul_alpha_pow i a := by
  unfold gf_mul
  rw [if_neg (gf_alpha_pow_ne_zero i), gf_log_pow, gf_mul_alpha_pow_mod _ _ ha]

/-- The product of GF(2^8) is commutative. -/
theorem gf_mul_comm (a b : Nat) (ha : a < 256) (hb : b < 256) : gf_mul a b = gf_mul b a := by
  by_cases ha0 : a = 0
  · rw [ha0, gf_mul_zero_left, gf_mul_zero_right]
  · by_cases hb0 : b = 0
    · rw [hb0, gf_mul_zero_left, gf_mul_zero_right]
    · obtain ⟨i, -, rfl⟩ := gf_alpha_pow_surj a ha0 ha
      obtain ⟨j, -, rfl⟩ := gf_alpha_pow_surj b hb0 hb
      rw [gf_mul_pow, gf_mul_pow, Nat.add_comm]

/-- The product of GF(2^8) is associative. -/
theorem gf_mul_assoc (a b c : Nat) (ha : a < 256) (hb : b < 256) (hc : c < 256) :
    gf_mul (gf_mul a b) c = gf_mul a (gf_mul b c) := by
  by_cases hc0 : c = 0
  · rw [hc0, gf_mul_zero_right, gf_mul_zero_right, gf_mul_zero_right]
  · by_cases hb0 : b = 0
    · rw [hb0, gf_mul_zero_left, gf_mul_zero_right, gf_mul_zero_left]
    · by_cases ha0 : a = 0
      · rw [ha0, gf_mul_zero_left, gf_mul_zero_left, gf_mul_zero_left]
      · obtain ⟨i, -, rfl⟩ := gf_alpha_pow_surj a ha0 ha
        obtain ⟨j, -, rfl⟩ := gf_alpha_pow_surj b hb0 hb
        obtain ⟨k, -, rfl⟩ := gf_alpha_pow_surj c hc0 hc
        rw [gf_mul_pow, gf_mul_pow, gf_mul_pow, gf_mul_pow, Nat.add_assoc]

/-- The product of GF(2^8) distributes over the sum. -/
theorem gf_mul_xor (a b c : Nat) (ha : a < 256) (hb : b < 256) (hc : c < 256) :
    gf_mul a (b ^^^ c) = gf_mul a b ^^^ gf_mul a c := by
  have hbc : b ^^^ c < 256 := Nat.xor_lt_two_pow (n := 8) hb hc
  rw [gf_mul_comm a _ ha hbc, gf_mul_comm a b ha hb, gf_mul_comm a c ha hc]
  unfold gf_mul
  split
  · rfl
  · exact gf_mul_alpha_pow_xor _ b c hb hc

/-- The product of a value from 1 to 255 and its inverse is 1. -/
theorem gf_mul_inv (a : Nat) (h0 : a ≠ 0) (ha : a < 256) : gf_mul a (gf_inv a) = 1 := by
  obtain ⟨h1, h2⟩ := gf_log_spec a h0 ha
  unfold gf_inv
  rw [if_neg h0]
  nth_rewrite 1 [← h2]
  rw [gf_mul_pow]
  have h3 : gf_log a + (255 - gf_log a) = 255 := by omega
  rw [h3, gf_alpha_pow_255]

/-- The values below 256 form a field, GF(2^8), in which the sum is the bitwise exclusive or
and the product with alpha^i is `gf_mul_alpha_pow i`: `phi` maps the values to the elements
of that field. -/
theorem gf_field_aux :
    ∃ (F : Type) (_ : Field F) (phi : Nat → F),
      phi 0 = 0 ∧ phi 1 = 1 ∧
      (∀ a b : Nat, a < 256 → b < 256 → phi (a ^^^ b) = phi a + phi b) ∧
      (∀ i a : Nat, a < 256 → phi (gf_mul_alpha_pow i a) = phi 2 ^ i * phi a) ∧
      (∀ a b : Nat, a < 256 → b < 256 → phi a = phi b → a = b) := by
  let F : Type := {x : Nat // x < 256}
  letI iadd : Add F := ⟨fun a b => ⟨a.1 ^^^ b.1, Nat.xor_lt_two_pow (n := 8) a.2 b.2⟩⟩
  letI imul : Mul F := ⟨fun a b => ⟨gf_mul a.1 b.1, gf_mul_lt a.1 b.1 a.2⟩⟩
  letI ineg : Neg F := ⟨fun a => a⟩
  letI iinv : Inv F := ⟨fun a => ⟨gf_inv a.1 % 256, Nat.mod_lt _ (by decide)⟩⟩
  letI izero : Zero F := ⟨⟨0, by decide⟩⟩
  letI ione : One F := ⟨⟨1, by decide⟩⟩
  have vadd : ∀ a b : F, (a + b).1 = a.1 ^^^ b.1 := fun _ _ => rfl
  have vmul : ∀ a b : F, (a * b).1 = gf_mul a.1 b.1 := fun _ _ => rfl
  have vneg : ∀ a : F, (-a) = a := fun _ => rfl
  have vinv : ∀ a : F, (a⁻¹).1 = gf_inv a.1 % 256 := fun _ => rfl
  have vzero : (0 : F).1 = 0 := rfl
  have vone : (1 : F).1 = 1 := rfl
  letI fld : Field F := Field.ofMinimalAxioms F
    (fun a b c => Subtype.ext (by rw [vadd, vadd, vadd, vadd, Nat.xor_assoc]))
    (fun a => Subtype.ext (by rw [vadd, vzero, Nat.zero_xor]))
    (fun a => Subtype.ext (by rw [vadd, vneg, vzero, Nat.xor_self]))
    (fun a b c => Subtype.ext (by
      rw [vmul, vmul, vmul, vmul, gf_mul_assoc _ _ _ a.2 b.2 c.2]))
    (fun a b => Subtype.ext (by rw [vmul, vmul, gf_mul_comm _ _ a.2 b.2]))
    (fun a => Subtype.ext (by
      rw [vmul, vone, gf_mul_comm _ _ (by decide) a.2]
      have h := gf_mul_alpha a.1 0 a.2
      exact h))
    (fun a ha => Subtype.ext (by
      have h0 : a.1 ≠ 0 := fun h => ha (Subtype.ext (by rw [h, vzero]))
      have hlt : gf_inv a.1 < 256 := by
        unfold gf_inv
        rw [if_neg h0]
        exact gf_alpha_pow_lt _
      rw [vmul, vinv, vone, Nat.mod_eq_of_lt hlt, gf_mul_inv _ h0 a.2]))
    (Subtype.ext (by rw [vinv, vzero]; rfl))
    (fun a b c => Subtype.ext (by
      rw [vmul, vadd, vadd, vmul, vmul, gf_mul_xor _ _ _ a.2 b.2 c.2]))
    ⟨0, 1, fun h => absurd (congrArg Subtype.val h) (by rw [vzero, vone]; decide)⟩
  have hxt : ∀ y : Nat, y < 256 →
      (⟨gf_xtime y % 256, Nat.mod_lt _ (by decide)⟩ : F) =
        (⟨2 % 256, Nat.mod_lt _ (by decide)⟩ : F) * ⟨y % 256, Nat.mod_lt _ (by decide)⟩ := by
    intro y hy
    apply Subtype.ext
    show gf_xtime y % 256 = gf_mul (2 % 256) (y % 256)
    rw [Nat.mod_eq_of_lt hy, Nat.mod_eq_of_lt (gf_xtime_lt y hy),
      gf_mul_comm _ _ (by decide) hy]
    exact (gf_mul_alpha y 1 hy).symm
  refine ⟨F, fld, fun x => ⟨x % 256, Nat.mod_lt _ (by decide)⟩, rfl, rfl, ?_, ?_, ?_⟩
  · intro a b _ _
    apply Subtype.ext
    exact xor_mod_256 a b
  · intro i a ha
    induction i with
    | zero =>
      rw [pow_zero, one_mul]
      rfl
    | succ k ih =>
      rw [gf_mul_alpha_pow_succ, pow_succ, mul_assoc, mul_comm, mul_assoc, mul_comm _ (_ ^ k),
        ← ih, mul_comm]
      exact (hxt _ (gf_mul_alpha_pow_lt k a ha)).trans (mul_comm _ _)
  · intro a b ha hb h
    have h' := congrArg Subtype.val h
    simp only [Nat.mod_eq_of_lt ha, Nat.mod_eq_of_lt hb] at h'
    exact h'

/-! ## Lemmas on the models of GF(2^8) -/

/-- There is a model of GF(2^8). -/
theorem gf_model_exists : ∃ (F : Type) (_ : Field F), Nonempty (gf_model F) := by
  obtain ⟨F, fld, phi, h0, h1, h2, h3, h4⟩ := gf_field_aux
  exact ⟨F, fld, ⟨⟨phi, h0, h1, h2, h3, h4⟩⟩⟩

/-- In a model of GF(2^8) every element is its own opposite. -/
theorem gf_model_add_self {F : Type} [Field F] (M : gf_model F) (x : F) : x + x = 0 := by
  have h1 : (1 : F) + 1 = 0 := by
    have h := M.phi_xor 1 1 (by decide) (by decide)
    rw [Nat.xor_self, M.phi_zero, M.phi_one] at h
    exact h.symm
  calc x + x = x * (1 + 1) := by ring
    _ = 0 := by rw [h1, mul_zero]

/-- In a model of GF(2^8) the difference is the sum. -/
theorem gf_model_sub_eq_add {F : Type} [Field F] (M : gf_model F) (x y : F) :
    x - y = x + y := by
  have h := gf_model_add_self M y
  have h2 : -y = y := by
    rw [neg_eq_iff_add_eq_zero]
    exact h
  rw [sub_eq_add_neg, h2]

/-- The image of alpha^i is the i-th power of the image of alpha. -/
theorem gf_model_phi_pow {F : Type} [Field F] (M : gf_model F) (i : Nat) :
    M.phi (gf_alpha_pow i) = M.phi 2 ^ i := by
  have h := M.phi_mul i 1 (by decide)
  rw [M.phi_one, mul_one] at h
  exact h

/-- The image of a value below 256 is zero only for the value 0. -/
theorem gf_model_phi_eq_zero {F : Type} [Field F] (M : gf_model F) (x : Nat) (hx : x < 256)
    (h : M.phi x = 0) : x = 0 :=
  M.phi_inj x 0 hx (by decide) (h.trans M.phi_zero.symm)

/-- The powers of the image of alpha are not zero. -/
theorem gf_model_pow_ne_zero {F : Type} [Field F] (M : gf_model F) (i : Nat) :
    M.phi 2 ^ i ≠ 0 := by
  rw [← gf_model_phi_pow M]
  intro h
  exact gf_alpha_pow_ne_zero i (gf_model_phi_eq_zero M _ (gf_alpha_pow_lt i) h)

/-- The image of alpha has the order 255. -/
theorem gf_model_pow_255 {F : Type} [Field F] (M : gf_model F) : M.phi 2 ^ 255 = 1 := by
  rw [← gf_model_phi_pow M, gf_alpha_pow_255, M.phi_one]

/-- Two powers of the image of alpha are equal only when the exponents are congruent modulo
255. -/
theorem gf_model_pow_inj {F : Type} [Field F] (M : gf_model F) (i j : Nat)
    (h : M.phi 2 ^ i = M.phi 2 ^ j) : i % 255 = j % 255 := by
  rw [← gf_model_phi_pow M, ← gf_model_phi_pow M] at h
  have h2 := M.phi_inj _ _ (gf_alpha_pow_lt i) (gf_alpha_pow_lt j) h
  rw [← gf_alpha_pow_mod i, ← gf_alpha_pow_mod j] at h2
  exact gf_alpha_pow_inj _ _ (Nat.mod_lt _ (by decide)) (Nat.mod_lt _ (by decide)) h2

/-- The image of a sum that a loop accumulates with the bitwise exclusive or is the sum, in
the field, of the images of its terms. -/
theorem gf_model_phi_foldl {F : Type} [Field F] (M : gf_model F) (f : Nat → Nat)
    (hf : ∀ m, f m < 256) (n : Nat) :
    (List.range n).foldl (fun acc m => acc ^^^ f m) 0 < 256 ∧
    M.phi ((List.range n).foldl (fun acc m => acc ^^^ f m) 0) =
      ∑ m in Finset.range n, M.phi (f m) := by
  refine foldl_range_invariant
    (fun (k : Nat) (acc : Nat) => acc < 256 ∧ M.phi acc = ∑ m in Finset.range k, M.phi (f m))
    (fun acc m => acc ^^^ f m) n 0 ⟨by decide, ?_⟩ ?_
  · rw [Finset.sum_range_zero]
    exact M.phi_zero
  · intro i acc _ ⟨h1, h2⟩
    refine ⟨Nat.xor_lt_two_pow (n := 8) h1 (hf i), ?_⟩
    rw [M.phi_xor _ _ h1 (hf i), h2, Finset.sum_range_succ]

/-- The image of the value of a polynomial at alpha^i is the value, in the field, of the
polynomial with the images of the coefficients at the i-th power of the image of alpha. -/
theorem gf_model_phi_poly_eval {F : Type} [Field F] (M : gf_model F) (c : List Nat)
    (hc : ∀ m, c.getD m 0 < 256) (i : Nat) :
    gf_poly_eval c i < 256 ∧
    M.phi (gf_poly_eval c i) =
      ∑ m in Finset.range c.length, M.phi (c.getD m 0) * (M.phi 2 ^ i) ^ m := by
  have h := gf_model_phi_foldl M (fun m => gf_mul_alpha_pow (i * m) (c.getD m 0))
    (fun m => gf_mul_alpha_pow_lt _ _ (hc m)) c.length
  refine ⟨h.1, ?_⟩
  unfold gf_poly_eval
  rw [h.2]
  apply Finset.sum_congr rfl
  intro m _
  rw [M.phi_mul _ _ (hc m), pow_mul, mul_comm]

/-! ## Lemmas on the generator polynomial -/

/-- The coefficient of X^j in the product with X + alpha^i. -/
theorem gf_poly_mul_root_getD (p : List Nat) (i j : Nat) :
    (gf_poly_mul_root p i).getD j 0 =
      (if j = 0 then 0 else p.getD (j - 1) 0) ^^^ gf_mul_alpha_pow i (p.getD j 0) := by
  unfold gf_poly_mul_root
  by_cases hj : j < p.length + 1
  · simp [List.getD_eq_getElem?_getD, hj]
  · have h1 : p.getD j 0 = 0 := by
      rw [List.getD_eq_getElem?_getD, List.getElem?_eq_none (by omega)]
      rfl
    have h2 : p.getD (j - 1) 0 = 0 := by
      rw [List.getD_eq_getElem?_getD, List.getElem?_eq_none (by omega)]
      rfl
    have h3 : ((List.range (p.length + 1)).map
        (fun j => (if j = 0 then 0 else p.getD (j - 1) 0) ^^^
          gf_mul_alpha_pow i (p.getD j 0))).getD j 0 = 0 := by
      rw [List.getD_eq_getElem?_getD, List.getElem?_eq_none (by simp; omega)]
      rfl
    rw [h3, h1, h2, gf_mul_alpha_pow_zero]
    split <;> rfl

/-- The product with X + alpha^i has one coefficient more. -/
theorem gf_poly_mul_root_length (p : List Nat) (i : Nat) :
    (gf_poly_mul_root p i).length = p.length + 1 := by
  unfold gf_poly_mul_root
  simp

/-- The product of the X + alpha^i for `i = 1..n+1` is the product for `i = 1..n` times
X + alpha^(n+1). -/
theorem gf_generator_succ (n : Nat) :
    gf_generator (n + 1) = gf_poly_mul_root (gf_generator n) (n + 1) := by
  unfold gf_generator
  rw [List.range_succ, List.map_append, List.foldl_append]
  rfl

/-- The product of the X + alpha^i for `i = 1..n` has the `n + 1` coefficients of X^0 to
X^n. -/
theorem gf_generator_length (n : Nat) : (gf_generator n).length = n + 1 := by
  induction n with
  | zero => rfl
  | succ k ih => rw [gf_generator_succ, gf_poly_mul_root_length, ih]

/-- The coefficients of the product of the X + alpha^i are below 256. -/
theorem gf_generator_lt (n j : Nat) : (gf_generator n).getD j 0 < 256 := by
  induction n generalizing j with
  | zero =>
    cases j with
    | zero => decide
    | succ k =>
      have h : (gf_generator 0).getD (k + 1) 0 = 0 := by
        rw [List.getD_eq_getElem?_getD, List.getElem?_eq_none (by rw [gf_generator_length]; omega)]
        rfl
      rw [h]
      decide
  | succ k ih =>
    rw [gf_generator_succ, gf_poly_mul_root_getD]
    apply Nat.xor_lt_two_pow (n := 8)
    · split
      · decide
      · exact ih _
    · exact gf_mul_alpha_pow_lt _ _ (ih _)

/-- A coefficient beyond that of X^n is zero. -/
theorem gf_generator_beyond (n j : Nat) (hj : n < j) : (gf_generator n).getD j 0 = 0 := by
  rw [List.getD_eq_getElem?_getD, List.getElem?_eq_none (by rw [gf_generator_length]; omega)]
  rfl

/-- The product of the X + alpha^i for `i = 1..n` is monic of degree `n`. -/
theorem gf_generator_monic (n : Nat) : (gf_generator n).getD n 0 = 1 := by
  induction n with
  | zero => rfl
  | succ k ih =>
    rw [gf_generator_succ, gf_poly_mul_root_getD, if_neg (by omega), Nat.add_sub_cancel, ih,
      gf_generator_beyond k (k + 1) (by omega), gf_mul_alpha_pow_zero]
    rfl

/-- The coefficient of X^0 of the product of the X + alpha^i is not zero. -/
theorem gf_generator_zero_ne (n : Nat) : (gf_generator n).getD 0 0 ≠ 0 := by
  induction n with
  | zero => decide
  | succ k ih =>
    rw [gf_generator_succ, gf_poly_mul_root_getD, if_pos rfl, Nat.zero_xor]
    intro h
    have h0 : gf_mul_alpha_pow (k + 1) ((gf_generator k).getD 0 0) = gf_mul_alpha_pow (k + 1) 0 := by
      rw [gf_mul_alpha_pow_zero]
      exact h
    exact ih (gf_mul_alpha_pow_inj _ _ _ (gf_generator_lt k 0) (by decide) h0)

/-- The bitwise exclusive or of two `int` values that are not negative. -/
theorem int_xor_nat (a b : Nat) : Int.xor (a : Int) (b : Int) = ((a ^^^ b : Nat) : Int) := rfl

/-- The read `alpha_to[(index_of[x] + e) % 255]` in a context with the tables of GF(2^8). -/
theorem rs_alpha_to_index_255 (rs : dmr_rs_t) (hctx : rs_gf_context rs) (x e : Nat)
    (h0 : x ≠ 0) (hx : x < 256) (he : e < 2 ^ 31) :
    tab_get rs.alpha_to
        ((to_uint (tab_get rs.index_of (x : Int) + (e : Int)) % 255 : Nat) : Int) =
      (gf_mul_alpha_pow e x : Int) := by
  have h := rs_alpha_to_index rs hctx x e h0 hx he
  rw [hctx.1] at h
  exact h

/-- The inner loop of the computation of the generator polynomial in `dmr_rs_new`, which
multiplies by X + alpha^i in place, from `gg[i - 1]` down to `gg[1]`: after `k` rounds the
cells `gg[i - k..i - 1]` hold the coefficients of the product and the cells below them the
old coefficients. -/
theorem rs_generator_inner (rs : dmr_rs_t) (hctx : rs_gf_context rs) (i : Nat)
    (hi2 : i < 2 ^ 30) (p : List Nat) (hp : ∀ j, p.getD j 0 < 256) (gg : List Int)
    (hlen : i < gg.length) (hold : ∀ j : Nat, j < i → tab_get gg (j : Int) = (p.getD j 0 : Int))
    (k : Nat) (hk : k ≤ i - 1) :
    ∀ gg1, gg1 = ((List.range k).map (fun m => i - 1 - m)).foldl
      (fun (gg : List Int) (j : Nat) =>
        if tab_get gg j ≠ 0 then
          tab_set gg j
            (Int.xor (tab_get gg (j - 1 : Nat))
              (tab_get rs.alpha_to
                (to_uint (tab_get rs.index_of (tab_get gg j) + i) % 255 : Nat)))
        else tab_set gg j (tab_get gg (j - 1 : Nat)))
      gg →
    gg1.length = gg.length ∧
    (∀ j : Nat, j < i - k → tab_get gg1 (j : Int) = (p.getD j 0 : Int)) ∧
    (∀ j : Nat, i - k ≤ j → j < i →
      tab_get gg1 (j : Int) = ((gf_poly_mul_root p i).getD j 0 : Int)) ∧
    (∀ j : Nat, i ≤ j → tab_get gg1 (j : Int) = tab_get gg (j : Int)) := by
  intro gg1 hgg1
  rw [List.foldl_map] at hgg1
  have key := foldl_range_invariant
    (fun (k : Nat) (gg1 : List Int) =>
      k ≤ i - 1 →
      gg1.length = gg.length ∧
      (∀ j : Nat, j < i - k → tab_get gg1 (j : Int) = (p.getD j 0 : Int)) ∧
      (∀ j : Nat, i - k ≤ j → j < i →
        tab_get gg1 (j : Int) = ((gf_poly_mul_root p i).getD j 0 : Int)) ∧
      (∀ j : Nat, i ≤ j → tab_get gg1 (j : Int) = tab_get gg (j : Int)))
    (fun (gg : List Int) (m : Nat) =>
        if tab_get gg ((i - 1 - m : Nat) : Int) ≠ 0 then
          tab_set gg ((i - 1 - m : Nat) : Int)
            (Int.xor (tab_get gg ((i - 1 - m - 1 : Nat) : Int))
              (tab_get rs.alpha_to
                (to_uint (tab_get rs.index_of (tab_get gg ((i - 1 - m : Nat) : Int)) + i) % 255
                  : Nat)))
        else tab_set gg ((i - 1 - m : Nat) : Int) (tab_get gg ((i - 1 - m - 1 : Nat) : Int)))
    k gg ?_ ?_
  · rw [← hgg1] at key
    exact key hk
  · intro _
    exact ⟨rfl, fun j hj => hold j (by omega), fun j h1 h2 => absurd h2 (by omega),
      fun j _ => rfl⟩
  · intro m st hm ih hm1
    obtain ⟨h1, h2, h3, h4⟩ := ih (by omega)
    have hj : tab_get st ((i - 1 - m : Nat) : Int) = (p.getD (i - 1 - m) 0 : Int) :=
      h2 _ (by omega)
    have hj1 : tab_get st ((i - 1 - m - 1 : Nat) : Int) = (p.getD (i - 1 - m - 1) 0 : Int) :=
      h2 _ (by omega)
    have hnew : (if tab_get st ((i - 1 - m : Nat) : Int) ≠ 0 then
          tab_set st ((i - 1 - m : Nat) : Int)
            (Int.xor (tab_get st ((i - 1 - m - 1 : Nat) : Int))
              (tab_get rs.alpha_to
                (to_uint (tab_get rs.index_of (tab_get st ((i - 1 - m : Nat) : Int)) + i) % 255
                  : Nat)))
        else tab_set st ((i - 1 - m : Nat) : Int) (tab_get st ((i - 1 - m - 1 : Nat) : Int))) =
        tab_set st ((i - 1 - m : Nat) : Int)
          ((gf_poly_mul_root p i).getD (i - 1 - m) 0 : Int) := by
      have hne : ¬ (i - 1 - m = 0) := by omega
      rw [hj, hj1, gf_poly_mul_root_getD, if_neg hne]
      by_cases hz : p.getD (i - 1 - m) 0 = 0
      · have hz' : ¬ ((p.getD (i - 1 - m) 0 : Int) ≠ 0) := by rw [hz]; simp
        rw [if_neg hz', hz, gf_mul_alpha_pow_zero, Nat.xor_zero]
      · have hz' : (p.getD (i - 1 - m) 0 : Int) ≠ 0 := by exact_mod_cast hz
        rw [if_pos hz', rs_alpha_to_index_255 rs hctx _ i hz (hp _) (by omega), int_xor_nat]
    simp only [hnew]
    refine ⟨by rw [tab_set_length]; exact h1, ?_, ?_, ?_⟩
    · intro j hj'
      rw [tab_get_set_ne _ _ _ _ (by omega)]
      exact h2 j (by omega)
    · intro j hj1' hj2'
      by_cases hjm : j = i - 1 - m
      · rw [hjm]
        exact tab_get_set_eq _ _ _ (by omega)
      · rw [tab_get_set_ne _ _ _ _ (by omega)]
        exact h3 j (by omega) hj2'
    · intro j hj'
      rw [tab_get_set_ne _ _ _ _ (by omega)]
      exact h4 j hj'

/-- The product for `i = 1` is X + alpha. -/
theorem gf_generator_one : gf_generator 1 = [2, 1] := by
  decide

/-- The outer loop of the computation of the generator polynomial in `dmr_rs_new`: for
`n` from 1 on it leaves the coefficients of the product of the X + alpha^i, `i = 1..n`, in
polynomial form in `gg[0..n]`. -/
theorem rs_generator_outer (rs : dmr_rs_t) (hctx : rs_gf_context rs) (fresh : Int) (n : Nat)
    (hn1 : 1 ≤ n) (hn : n < 2 ^ 30) :
    ∀ gg2, gg2 = ((List.range (n + 1 - 2)).map (fun k => 2 + k)).foldl
      (fun (gg : List Int) (i : Nat) =>
        let gg := tab_set gg i 1
        let gg :=
          ((List.range (i - 1)).map (fun k => i - 1 - k)).foldl
            (fun (gg : List Int) (j : Nat) =>
              if tab_get gg j ≠ 0 then
                tab_set gg j
                  (Int.xor (tab_get gg (j - 1 : Nat))
                    (tab_get rs.alpha_to
                      (to_uint (tab_get rs.index_of (tab_get gg j) + i) % 255 : Nat)))
              else tab_set gg j (tab_get gg (j - 1 : Nat)))
            gg
        tab_set gg 0
          (tab_get rs.alpha_to (to_uint (tab_get rs.index_of (tab_get gg 0) + i) % 255 : Nat)))
      (tab_set (tab_set (List.replicate (n + 1) fresh) 0 2) 1 1) →
    gg2.length = n + 1 ∧
    ∀ j : Nat, j ≤ n → tab_get gg2 (j : Int) = ((gf_generator n).getD j 0 : Int) := by
  intro gg2 hgg2
  rw [List.foldl_map] at hgg2
  have key := foldl_range_invariant
    (fun (m : Nat) (gg : List Int) =>
      gg.length = n + 1 ∧
      ∀ j : Nat, j ≤ m + 1 → tab_get gg (j : Int) = ((gf_generator (m + 1)).getD j 0 : Int))
    (fun (gg : List Int) (m : Nat) =>
        let gg := tab_set gg ((2 + m : Nat) : Int) 1
        let gg :=
          ((List.range (2 + m - 1)).map (fun k => 2 + m - 1 - k)).foldl
            (fun (gg : List Int) (j : Nat) =>
              if tab_get gg j ≠ 0 then
                tab_set gg j
                  (Int.xor (tab_get gg (j - 1 : Nat))
                    (tab_get rs.alpha_to
                      (to_uint (tab_get rs.index_of (tab_get gg j) + ((2 + m : Nat) : Int)) % 255
                        : Nat)))
              else tab_set gg j (tab_get gg (j - 1 : Nat)))
            gg
        tab_set gg 0
          (tab_get rs.alpha_to
            (to_uint (tab_get rs.index_of (tab_get gg 0) + ((2 + m : Nat) : Int)) % 255 : Nat)))
    (n + 1 - 2) (tab_set (tab_set (List.replicate (n + 1) fresh) 0 2) 1 1) ?_ ?_
  · rw [← hgg2] at key
    have he : n + 1 - 2 + 1 = n := by omega
    rw [he] at key
    exact key
  · have hl : (tab_set (tab_set (List.replicate (n + 1) fresh) 0 2) 1 1).length = n + 1 := by
      rw [tab_set_length, tab_set_length, List.length_replicate]
    refine ⟨hl, ?_⟩
    intro j hj
    rw [gf_generator_one]
    have hj01 : j = 0 ∨ j = 1 := by omega
    rcases hj01 with h | h
    · rw [h]
      have h01 : (1 : Int) ≠ ((0 : Nat) : Int) := by decide
      rw [tab_get_set_ne _ _ _ _ h01]
      exact tab_get_set_eq _ 0 _ (by rw [List.length_replicate]; omega)
    · rw [h]
      exact tab_get_set_eq _ 1 _ (by rw [tab_set_length, List.length_replicate]; omega)
  · intro m gg hm ⟨h1, h2⟩
    have hlen_a : (tab_set gg ((2 + m : Nat) : Int) 1).length = n + 1 := by
      rw [tab_set_length]; exact h1
    have hinner := rs_generator_inner rs hctx (2 + m) (by omega) (gf_generator (m + 1))
      (gf_generator_lt (m + 1)) (tab_set gg ((2 + m : Nat) : Int) 1) (by rw [hlen_a]; omega)
      (by
        intro j hj
        rw [tab_get_set_ne _ _ _ _ (by omega)]
        exact h2 j (by omega))
      (2 + m - 1) (le_refl _) _ rfl
    obtain ⟨i1, i2, i3, i4⟩ := hinner
    have h0 : tab_get
        (((List.range (2 + m - 1)).map (fun k => 2 + m - 1 - k)).foldl
            (fun (gg : List Int) (j : Nat) =>
              if tab_get gg j ≠ 0 then
                tab_set gg j
                  (Int.xor (tab_get gg (j - 1 : Nat))
                    (tab_get rs.alpha_to
                      (to_uint (tab_get rs.index_of (tab_get gg j) + ((2 + m : Nat) : Int)) % 255
                        : Nat)))
              else tab_set gg j (tab_get gg (j - 1 : Nat)))
            (tab_set gg ((2 + m : Nat) : Int) 1)) 0 = ((gf_generator (m + 1)).getD 0 0 : Int) :=
      i2 0 (by omega)
    simp only [h0]
    rw [rs_alpha_to_index_255 rs hctx _ (2 + m) (gf_generator_zero_ne (m + 1))
      (gf_generator_lt (m + 1) 0) (by omega)]
    refine ⟨by rw [tab_set_length, i1]; exact hlen_a, ?_⟩
    intro j hj
    have hsucc : gf_generator (m + 1 + 1) = gf_poly_mul_root (gf_generator (m + 1)) (2 + m) := by
      rw [gf_generator_succ]
      have he : m + 1 + 1 = 2 + m := by omega
      rw [he]
    rw [hsucc]
    by_cases hj0 : j = 0
    · rw [hj0, gf_poly_mul_root_getD, if_pos rfl, Nat.zero_xor]
      exact tab_get_set_eq _ 0 _ (by rw [i1, hlen_a]; omega)
    · have hne : (0 : Int) ≠ ((j : Nat) : Int) := by omega
      rw [tab_get_set_ne _ _ _ _ hne]
      by_cases hjl : j < 2 + m
      · exact i3 j (by omega) hjl
      · have hje : j = 2 + m := by omega
        rw [hje, i4 (2 + m) (le_refl _), tab_get_set_eq _ _ _ (by rw [h1]; omega),
          gf_poly_mul_root_getD, if_neg (by omega)]
        have hm1 : 2 + m - 1 = m + 1 := by omega
        rw [hm1, gf_generator_monic, gf_generator_beyond (m + 1) (2 + m) (by omega),
          gf_mul_alpha_pow_zero]
        rfl

/-- The last loop of `dmr_rs_new`, which puts `gg[0..n]` into index form. -/
theorem rs_generator_convert (index_of : List Int) (n : Nat) (c : Nat → Int) (gg2 : List Int)
    (hlen : gg2.length = n + 1) (h2 : ∀ j : Nat, j ≤ n → tab_get gg2 (j : Int) = c j) :
    ∀ gg3, gg3 = (List.range (n + 1)).foldl
      (fun (gg : List Int) (i : Nat) => tab_set gg i (tab_get index_of (tab_get gg i))) gg2 →
    ∀ j : Nat, j ≤ n → tab_get gg3 (j : Int) = tab_get index_of (c j) := by
  intro gg3 hgg3
  have key := foldl_range_invariant
    (fun (m : Nat) (gg : List Int) =>
      gg.length = n + 1 ∧
      (∀ j : Nat, j < m → j ≤ n → tab_get gg (j : Int) = tab_get index_of (c j)) ∧
      (∀ j : Nat, m ≤ j → j ≤ n → tab_get gg (j : Int) = c j))
    (fun (gg : List Int) (i : Nat) => tab_set gg i (tab_get index_of (tab_get gg i)))
    (n + 1) gg2 ⟨hlen, fun j hj => absurd hj (by omega), fun j _ hj => h2 j hj⟩ ?_
  · rw [← hgg3] at key
    intro j hj
    exact key.2.1 j (by omega) hj
  · intro m gg hm ⟨k1, k2, k3⟩
    refine ⟨by rw [tab_set_length]; exact k1, ?_, ?_⟩
    · intro j hj hjn
      by_cases hjm : j = m
      · rw [hjm, tab_get_set_eq _ _ _ (by omega), k3 m (le_refl _) (by omega)]
      · rw [tab_get_set_ne _ _ _ _ (by omega)]
        exact k2 j (by omega) hjn
    · intro j hj hjn
      rw [tab_get_set_ne _ _ _ _ (by omega)]
      exact k3 j (by omega) hjn

/-- The generator polynomial that `dmr_rs_new` computes for `n` from 1 on: `gg[j]` is the
index of the coefficient of X^j in the product of the X + alpha^i for `i = 1..n`. -/
theorem rs_generator_spec (rs : dmr_rs_t) (hctx : rs_gf_context rs) (fresh : Int) (n : Nat)
    (hn1 : 1 ≤ n) (hn : n < 2 ^ 30) (j : Nat) (hj : j ≤ n) :
    tab_get (rs_generator fresh rs.alpha_to rs.index_of 255 n) (j : Int) =
      tab_get rs.index_of ((gf_generator n).getD j 0 : Int) := by
  obtain ⟨h1, h2⟩ := rs_generator_outer rs hctx fresh n hn1 hn _ rfl
  exact rs_generator_convert rs.index_of n (fun j => ((gf_generator n).getD j 0 : Int)) _ h1 h2
    _ rfl j hj

/-- The generator polynomial that `dmr_rs_new` computes for `n = 0`: the one cell `gg[0]`
holds the index of alpha. -/
theorem rs_generator_zero (fresh : Int) (alpha_to index_of : List Int) (nn : Nat) :
    rs_generator fresh alpha_to index_of nn 0 = [tab_get index_of 2] := rfl

/-! ## Lemmas on the roots and on the coefficients of the generator polynomial -/

/-- The images of the coefficients of the product of the X + alpha^i are the coefficients of
the product of the corresponding polynomials over the field. -/
theorem gf_generator_coeff {F : Type} [Field F] (M : gf_model F) (n j : Nat) :
    (∏ k in Finset.range n,
        (Polynomial.X + Polynomial.C (M.phi 2 ^ (k + 1)) : Polynomial F)).coeff j =
      M.phi ((gf_generator n).getD j 0) := by
  induction n generalizing j with
  | zero =>
    rw [Finset.prod_range_zero, Polynomial.coeff_one]
    cases j with
    | zero =>
      rw [if_pos rfl]
      exact M.phi_one.symm
    | succ k =>
      rw [if_neg (by omega), gf_generator_beyond 0 (k + 1) (by omega)]
      exact M.phi_zero.symm
  | succ k ih =>
    rw [Finset.prod_range_succ, gf_generator_succ, gf_poly_mul_root_getD,
      M.phi_xor _ _ (by split; decide; exact gf_generator_lt _ _)
        (gf_mul_alpha_pow_lt _ _ (gf_generator_lt _ _)),
      M.phi_mul _ _ (gf_generator_lt _ _), mul_add, Polynomial.coeff_add, Polynomial.coeff_mul_C,
      ih j]
    cases j with
    | zero =>
      rw [Polynomial.coeff_mul_X_zero, if_pos rfl, M.phi_zero, mul_comm]
    | succ m =>
      rw [Polynomial.coeff_mul_X, if_neg (by omega), ih m, Nat.add_sub_cancel, mul_comm]

/-- The value at alpha^i of the polynomial with the coefficients of the product of the
X + alpha^k, in the field. -/
theorem gf_generator_eval {F : Type} [Field F] (M : gf_model F) (n i : Nat) :
    ∑ m in Finset.range (n + 1), M.phi ((gf_generator n).getD m 0) * (M.phi 2 ^ i) ^ m =
      ∏ k in Finset.range n, (M.phi 2 ^ i + M.phi 2 ^ (k + 1)) := by
  have hdeg : (∏ k in Finset.range n,
      (Polynomial.X + Polynomial.C (M.phi 2 ^ (k + 1)) : Polynomial F)).natDegree < n + 1 := by
    apply Nat.lt_succ_of_le
    rw [Polynomial.natDegree_le_iff_coeff_eq_zero]
    intro N hN
    rw [gf_generator_coeff, gf_generator_beyond n N hN]
    exact M.phi_zero
  have h := Polynomial.eval_eq_sum_range' hdeg (M.phi 2 ^ i)
  rw [Polynomial.eval_prod] at h
  simp only [Polynomial.eval_add, Polynomial.eval_X, Polynomial.eval_C] at h
  rw [h]
  apply Finset.sum_congr rfl
  intro m _
  rw [gf_generator_coeff]

/-- The powers alpha^1, ..., alpha^n are roots of the product of the X + alpha^i for
`i = 1..n`, in the field. -/
theorem gf_generator_root_aux {F : Type} [Field F] (M : gf_model F) (n i : Nat) (h1 : 1 ≤ i)
    (hn : i ≤ n) :
    ∑ m in Finset.range (n + 1), M.phi ((gf_generator n).getD m 0) * (M.phi 2 ^ i) ^ m = 0 := by
  rw [gf_generator_eval]
  apply Finset.prod_eq_zero (Finset.mem_range.mpr (show i - 1 < n by omega))
  have he : i - 1 + 1 = i := by omega
  rw [he]
  exact gf_model_add_self M _

/-- The powers alpha^1, ..., alpha^n are roots of the product of the X + alpha^i for
`i = 1..n`. -/
theorem gf_generator_root (n i : Nat) (h1 : 1 ≤ i) (hn : i ≤ n) :
    gf_poly_eval (gf_generator n) i = 0 := by
  obtain ⟨F, _, ⟨M⟩⟩ := gf_model_exists
  obtain ⟨hlt, hphi⟩ := gf_model_phi_poly_eval M (gf_generator n) (gf_generator_lt n) i
  rw [gf_generator_length, gf_generator_root_aux M n i h1 hn] at hphi
  exact gf_model_phi_eq_zero M _ hlt hphi

/-- None of the coefficients of the product of the X + alpha^i for `i = 1..n` is zero when
`n` is at most 254: a polynomial of degree `n` with at most `n` coefficients that are not
zero cannot have the `n` roots alpha^1, ..., alpha^n. -/
theorem gf_generator_coeff_ne_zero (n j : Nat) (hn : n ≤ 254) (hj : j ≤ n) :
    (gf_generator n).getD j 0 ≠ 0 := by
  intro hzero
  obtain ⟨F, _, ⟨M⟩⟩ := gf_model_exists
  classical
  have hjn : j ≠ n := by
    intro h
    rw [h, gf_generator_monic] at hzero
    exact absurd hzero (by decide)
  have hcj : M.phi ((gf_generator n).getD j 0) = 0 := by rw [hzero]; exact M.phi_zero
  have hcn : M.phi ((gf_generator n).getD n 0) = 1 := by rw [gf_generator_monic]; exact M.phi_one
  have hpow : ∀ m : Nat, m < n → M.phi 2 ^ n ≠ M.phi 2 ^ m := by
    intro m hm h
    have := gf_model_pow_inj M n m h
    omega
  let R : Polynomial F :=
    ∏ m in ((Finset.range (n + 1)).erase j).erase n, (Polynomial.X - Polynomial.C (M.phi 2 ^ m))
  have hcard : (((Finset.range (n + 1)).erase j).erase n).card = n - 1 := by
    rw [Finset.card_erase_of_mem, Finset.card_erase_of_mem, Finset.card_range]
    · rfl
    · exact Finset.mem_range.mpr (by omega)
    · exact Finset.mem_erase.mpr ⟨fun h => hjn h.symm, Finset.mem_range.mpr (by omega)⟩
  have hRdeg : R.natDegree < n := by
    have h1 : R.natDegree ≤ ∑ m in ((Finset.range (n + 1)).erase j).erase n,
        (Polynomial.X - Polynomial.C (M.phi 2 ^ m) : Polynomial F).natDegree :=
      Polynomial.natDegree_prod_le _ _
    have h2 : ∑ m in ((Finset.range (n + 1)).erase j).erase n,
        (Polynomial.X - Polynomial.C (M.phi 2 ^ m) : Polynomial F).natDegree = n - 1 := by
      rw [Finset.sum_congr rfl (fun m _ => Polynomial.natDegree_X_sub_C (M.phi 2 ^ m)),
        Finset.sum_const, hcard]
      simp
    omega
  have hReval : ∀ y : F, Polynomial.eval y R = ∑ i in Finset.range n, R.coeff i * y ^ i :=
    fun y => Polynomial.eval_eq_sum_range' hRdeg y
  have hRprod : ∀ y : F, Polynomial.eval y R =
      ∏ m in ((Finset.range (n + 1)).erase j).erase n, (y - M.phi 2 ^ m) := by
    intro y
    show Polynomial.eval y (∏ m in ((Finset.range (n + 1)).erase j).erase n,
      (Polynomial.X - Polynomial.C (M.phi 2 ^ m))) = _
    rw [Polynomial.eval_prod]
    simp only [Polynomial.eval_sub, Polynomial.eval_X, Polynomial.eval_C]
  -- the sum T, computed in two ways
  have hT1 : ∑ m in Finset.range (n + 1),
      M.phi ((gf_generator n).getD m 0) * M.phi 2 ^ m * Polynomial.eval (M.phi 2 ^ m) R = 0 := by
    have hterm : ∀ m : Nat,
        M.phi ((gf_generator n).getD m 0) * M.phi 2 ^ m * Polynomial.eval (M.phi 2 ^ m) R =
          ∑ i in Finset.range n,
            R.coeff i * (M.phi ((gf_generator n).getD m 0) * (M.phi 2 ^ (i + 1)) ^ m) := by
      intro m
      rw [hReval, Finset.mul_sum]
      apply Finset.sum_congr rfl
      intro i _
      have hp : (M.phi 2 ^ (i + 1)) ^ m = M.phi 2 ^ m * (M.phi 2 ^ m) ^ i := by
        rw [← pow_mul, ← pow_mul, ← pow_add]
        congr 1
        ring
      rw [hp]
      ring
    rw [Finset.sum_congr rfl (fun m _ => hterm m), Finset.sum_comm]
    apply Finset.sum_eq_zero
    intro i hi
    rw [← Finset.mul_sum, gf_generator_root_aux M n (i + 1) (by omega)
      (by have := Finset.mem_range.mp hi; omega), mul_zero]
  have hT2 : ∑ m in Finset.range (n + 1),
      M.phi ((gf_generator n).getD m 0) * M.phi 2 ^ m * Polynomial.eval (M.phi 2 ^ m) R =
        M.phi ((gf_generator n).getD n 0) * M.phi 2 ^ n * Polynomial.eval (M.phi 2 ^ n) R := by
    apply Finset.sum_eq_single n
    · intro m hm hmn
      by_cases hmj : m = j
      · rw [hmj, hcj, zero_mul, zero_mul]
      · have hmem : m ∈ ((Finset.range (n + 1)).erase j).erase n :=
          Finset.mem_erase.mpr ⟨hmn, Finset.mem_erase.mpr ⟨hmj, hm⟩⟩
        have hz : ∏ k in ((Finset.range (n + 1)).erase j).erase n,
            (M.phi 2 ^ m - M.phi 2 ^ k) = 0 :=
          Finset.prod_eq_zero hmem (sub_self (M.phi 2 ^ m))
        rw [hRprod, hz, mul_zero]
    · intro h
      exact absurd (Finset.mem_range.mpr (Nat.lt_succ_self n)) h
  rw [hT2, hcn, one_mul, hRprod] at hT1
  have hprod : ∏ m in ((Finset.range (n + 1)).erase j).erase n, (M.phi 2 ^ n - M.phi 2 ^ m) ≠ 0 := by
    rw [Finset.prod_ne_zero_iff]
    intro m hm
    have hm1 := Finset.mem_erase.mp hm
    have hm2 := Finset.mem_erase.mp hm1.2
    have hm3 := Finset.mem_range.mp hm2.2
    exact sub_ne_zero.mpr (hpow m (by omega))
  exact absurd hT1 (mul_ne_zero (gf_model_pow_ne_zero M n) hprod)

/-! ## Lemmas on the rounds of the encoder -/

/-- A cell of a byte buffer holds what has just been written to it. -/
theorem getD_set_eq (bb : List Nat) (j v : Nat) (h : j < bb.length) :
    (bb.set j v).getD j 0 = v := by
  simp [List.getD_eq_getElem?_getD, h]

/-- A write to a cell of a byte buffer leaves the other cells as they are. -/
theorem getD_set_ne (bb : List Nat) (i j v : Nat) (h : i ≠ j) :
    (bb.set i v).getD j 0 = bb.getD j 0 := by
  simp [List.getD_eq_getElem?_getD, List.getElem?_set, h]

/-- A loop `for (j = n - 1; j > 0; j--) bb[j] = h(j, bb[j - 1])`, which shifts the cells of
`bb` up by one in place: every cell from 1 to `n - 1` gets the value computed from the old
content of the cell below it, and the other cells stay as they are. -/
theorem shift_loop (h : Nat → Nat → Nat) (n : Nat) (bb : List Nat) (hlen : n ≤ bb.length) :
    ∀ bb1, bb1 = ((List.range (n - 1)).map (fun m => n - 1 - m)).foldl
      (fun (bb : List Nat) (j : Nat) => bb.set j (h j (bb.getD (j - 1) 0))) bb →
    bb1.length = bb.length ∧
    (∀ j, 1 ≤ j → j < n → bb1.getD j 0 = h j (bb.getD (j - 1) 0)) ∧
    bb1.getD 0 0 = bb.getD 0 0 ∧
    (∀ j, n ≤ j → bb1.getD j 0 = bb.getD j 0) := by
  intro bb1 hbb1
  rw [List.foldl_map] at hbb1
  have key := foldl_range_invariant
    (fun (k : Nat) (st : List Nat) =>
      k ≤ n - 1 →
      st.length = bb.length ∧
      (∀ j, n - k ≤ j → j < n → st.getD j 0 = h j (bb.getD (j - 1) 0)) ∧
      (∀ j, j < n - k → st.getD j 0 = bb.getD j 0) ∧
      (∀ j, n ≤ j → st.getD j 0 = bb.getD j 0))
    (fun (bb : List Nat) (m : Nat) => bb.set (n - 1 - m) (h (n - 1 - m) (bb.getD (n - 1 - m - 1) 0)))
    (n - 1) bb ?_ ?_
  · rw [← hbb1] at key
    obtain ⟨k1, k2, k3, k4⟩ := key (le_refl _)
    refine ⟨k1, fun j hj1 hj2 => k2 j (by omega) hj2, ?_, k4⟩
    by_cases hn : n = 0
    · exact k4 0 (by omega)
    · exact k3 0 (by omega)
  · intro _
    exact ⟨rfl, fun j h1 h2 => absurd h2 (by omega), fun j _ => rfl, fun j _ => rfl⟩
  · intro m st hm ih hm1
    obtain ⟨k1, k2, k3, k4⟩ := ih (by omega)
    refine ⟨by rw [List.length_set]; exact k1, ?_, ?_, ?_⟩
    · intro j hj1 hj2
      by_cases hjm : j = n - 1 - m
      · rw [hjm, getD_set_eq _ _ _ (by omega), k3 _ (by omega)]
      · rw [getD_set_ne _ _ _ _ (by omega)]
        exact k2 j (by omega) hj2
    · intro j hj
      rw [getD_set_ne _ _ _ _ (by omega)]
      exact k3 j (by omega)
    · intro j hj
      rw [getD_set_ne _ _ _ _ (by omega)]
      exact k4 j hj

/-- The first loop of `dmr_rs_encode` writes zeros to `bb[0..n-1]`. -/
theorem encode_clear (n : Nat) (bb : List Nat) :
    ∀ bb1, bb1 = (List.range n).foldl (fun (bb : List Nat) (i : Nat) => bb.set i 0) bb →
    bb1.length = bb.length ∧ (∀ j, j < n → bb1.getD j 0 = 0) ∧
    (∀ j, n ≤ j → bb1.getD j 0 = bb.getD j 0) := by
  intro bb1 hbb1
  have key := foldl_range_invariant
    (fun (k : Nat) (st : List Nat) =>
      st.length = bb.length ∧ (∀ j, j < k → st.getD j 0 = 0) ∧
      (∀ j, k ≤ j → st.getD j 0 = bb.getD j 0))
    (fun (bb : List Nat) (i : Nat) => bb.set i 0) n bb
    ⟨rfl, fun j hj => absurd hj (by omega), fun j _ => rfl⟩ ?_
  · rw [← hbb1] at key
    exact key
  · intro m st _ ⟨k1, k2, k3⟩
    refine ⟨by rw [List.length_set]; exact k1, ?_, ?_⟩
    · intro j hj
      by_cases hjm : j = m
      · rw [hjm]
        by_cases hml : m < st.length
        · exact getD_set_eq _ _ _ hml
        · rw [List.getD_eq_getElem?_getD, List.getElem?_eq_none (by rw [List.length_set]; omega)]
          rfl
      · rw [getD_set_ne _ _ _ _ (by omega)]
        exact k2 j (by omega)
    · intro j hj
      rw [getD_set_ne _ _ _ _ (by omega)]
      exact k3 j (by omega)

/-- The product of two values below 256, of which the second is alpha^k and the first
alpha^e, read from `alpha_to` at the sum of the two exponents. -/
theorem gf_mul_of_exponents (x y e k : Nat) (hx : gf_alpha_pow e = x) (hy : gf_alpha_pow k = y) :
    gf_alpha_pow (e + k) = gf_mul x y := by
  rw [← hx, ← hy, gf_mul_pow]

/-- One round of the second loop of `dmr_rs_encode` in a context with the tables of GF(2^8)
whose cells `gg[0..n-1]` hold the indices of coefficients `G[0..n-1]` that are not zero: with
the feedback `f = data[i] + bb[n - 1]`, the cell `bb[j]` becomes `bb[j - 1] + G[j] * f` and
the cell `bb[0]` becomes `G[0] * f`. -/
theorem encode_round (rs : dmr_rs_t) (hctx : rs_gf_context rs) (G : Nat → Nat)
    (hn1 : 1 ≤ rs.n)
    (hG : ∀ j, j < rs.n → G j ≠ 0 ∧ G j < 256 ∧
      tab_get rs.gg (j : Int) = tab_get rs.index_of (G j : Int))
    (d : Nat) (hd : d < 256) (bb : List Nat) (hlen : rs.n ≤ bb.length)
    (hbb : ∀ j, j < rs.n → bb.getD j 0 < 256) :
    ∀ bb1, bb1 =
      (let feedback : Int :=
        tab_get rs.index_of ((d ^^^ bb.getD (rs.n - 1) 0 : Nat) : Int)
      if feedback ≠ -1 then
        let bb :=
          ((List.range (rs.n - 1)).map (fun m => rs.n - 1 - m)).foldl
            (fun (bb : List Nat) (j : Nat) =>
              bb.set j
                (to_uchar
                  (Int.xor (bb.getD (j - 1) 0)
                    (tab_get rs.alpha_to
                      (to_uint (tab_get rs.gg j + feedback) % rs.nn : Nat)))))
            bb
        bb.set 0
          (to_uchar (tab_get rs.alpha_to (to_uint (tab_get rs.gg 0 + feedback) % rs.nn : Nat)))
      else
        let bb :=
          ((List.range (rs.n - 1)).map (fun m => rs.n - 1 - m)).foldl
            (fun (bb : List Nat) (j : Nat) => bb.set j (bb.getD (j - 1) 0)) bb
        bb.set 0 0) →
    bb1.length = bb.length ∧
    (∀ j, j < rs.n →
      bb1.getD j 0 =
        (if j = 0 then 0 else bb.getD (j - 1) 0) ^^^
          gf_mul (G j) (d ^^^ bb.getD (rs.n - 1) 0)) ∧
    (∀ j, rs.n ≤ j → bb1.getD j 0 = bb.getD j 0) := by
  intro bb1 hbb1
  have hf : d ^^^ bb.getD (rs.n - 1) 0 < 256 :=
    Nat.xor_lt_two_pow (n := 8) hd (hbb _ (by omega))
  by_cases hf0 : d ^^^ bb.getD (rs.n - 1) 0 = 0
  · -- the feedback is -1: the cells are shifted
    have hfb : tab_get rs.index_of ((d ^^^ bb.getD (rs.n - 1) 0 : Nat) : Int) = -1 := by
      rw [hf0]
      exact hctx.2.2.2
    simp only [hfb, ne_eq, not_true_eq_false, if_false] at hbb1
    obtain ⟨s1, s2, s3, s4⟩ := shift_loop (fun _ v => v) rs.n bb hlen _ rfl
    rw [hbb1]
    refine ⟨by rw [List.length_set]; exact s1, ?_, ?_⟩
    · intro j hj
      rw [hf0, gf_mul_zero_right, Nat.xor_zero]
      by_cases hj0 : j = 0
      · rw [hj0, if_pos rfl]
        exact getD_set_eq _ _ _
          (Nat.lt_of_lt_of_le (by omega : 0 < bb.length) (Nat.le_of_eq s1.symm))
      · rw [if_neg hj0, getD_set_ne _ _ _ _ (by omega)]
        exact s2 j (by omega) hj
    · intro j hj
      rw [getD_set_ne _ _ _ _ (by omega)]
      exact s4 j hj
  · -- the feedback is the index of f
    obtain ⟨kf, hkf, hkfx, hkfp⟩ := rs_index_of_spec rs hctx _ hf0 hf
    have hfb : ((kf : Nat) : Int) ≠ -1 := by omega
    simp only [hkfx, ne_eq, hfb, not_false_eq_true, if_true] at hbb1
    have hterm : ∀ j, j < rs.n →
        tab_get rs.alpha_to ((to_uint (tab_get rs.gg (j : Int) + (kf : Int)) % rs.nn : Nat) : Int) =
          ((gf_mul (G j) (d ^^^ bb.getD (rs.n - 1) 0) : Nat) : Int) := by
      intro j hj
      obtain ⟨g1, g2, g3⟩ := hG j hj
      obtain ⟨e, he, hex, hep⟩ := rs_index_of_spec rs hctx _ g1 g2
      rw [g3, hex, rs_alpha_to_sum rs hctx e kf he (by omega),
        gf_mul_of_exponents _ _ e kf hep hkfp]
    obtain ⟨s1, s2, s3, s4⟩ := shift_loop
      (fun j v =>
        to_uchar
          (Int.xor (v : Int)
            (tab_get rs.alpha_to ((to_uint (tab_get rs.gg (j : Int) + (kf : Int)) % rs.nn : Nat) : Int))))
      rs.n bb hlen _ rfl
    rw [hbb1]
    refine ⟨by rw [List.length_set]; exact s1, ?_, ?_⟩
    · intro j hj
      by_cases hj0 : j = 0
      · rw [hj0, if_pos rfl, Nat.zero_xor, getD_set_eq _ _ _
          (Nat.lt_of_lt_of_le (by omega : 0 < bb.length) (Nat.le_of_eq s1.symm))]
        have h0 := hterm 0 (by omega)
        rw [show ((0 : Nat) : Int) = 0 from rfl] at h0
        rw [h0]
        exact to_uchar_nat _ (gf_mul_lt _ _ (hG 0 (by omega)).2.1)
      · rw [if_neg hj0, getD_set_ne _ _ _ _ (by omega), s2 j (by omega) hj, hterm j hj,
          int_xor_nat]
        exact to_uchar_nat _ (Nat.xor_lt_two_pow (n := 8) (hbb _ (by omega))
          (gf_mul_lt _ _ (hG j hj).2.1))
    · intro j hj
      rw [getD_set_ne _ _ _ _ (by omega)]
      exact s4 j hj

/-! ## Lemmas on the codeword of the encoder -/

/-- The image of a product of GF(2^8) is the product of the images. -/
theorem gf_model_phi_gf_mul {F : Type} [Field F] (M : gf_model F) (x y : Nat) (hx : x < 256)
    (hy : y < 256) : M.phi (gf_mul x y) = M.phi x * M.phi y := by
  by_cases h0 : y = 0
  · rw [h0, gf_mul_zero_right, M.phi_zero, mul_zero]
  · obtain ⟨k, -, rfl⟩ := gf_alpha_pow_surj y h0 hy
    rw [gf_mul_alpha x k hx, M.phi_mul k x hx, gf_model_phi_pow, mul_comm]

/-- One round of a feedback shift register over a field in which every element is its own
opposite, for a monic polynomial `g` of degree `n` with the root `r`: the value at `r` of the
register is multiplied by `r`, and `r^n` times the symbol that enters is added. -/
theorem lfsr_step {F : Type} [Field F] (hchar : ∀ x : F, x + x = 0) (n : Nat) (hn : 1 ≤ n)
    (g b b1 : Nat → F) (r d : F)
    (hroot : ∑ j in Finset.range (n + 1), g j * r ^ j = 0) (hmonic : g n = 1)
    (hb1 : ∀ j, j < n →
      b1 j = (if j = 0 then 0 else b (j - 1)) + g j * (d + b (n - 1))) :
    ∑ j in Finset.range n, b1 j * r ^ j =
      r * ∑ j in Finset.range n, b j * r ^ j + r ^ n * d := by
  obtain ⟨n', rfl⟩ : ∃ n', n = n' + 1 := ⟨n - 1, by omega⟩
  rw [Nat.add_sub_cancel] at hb1
  have h1 : ∑ j in Finset.range (n' + 1), b1 j * r ^ j =
      ∑ j in Finset.range (n' + 1), (if j = 0 then 0 else b (j - 1)) * r ^ j +
        (d + b n') * ∑ j in Finset.range (n' + 1), g j * r ^ j := by
    rw [Finset.mul_sum, ← Finset.sum_add_distrib]
    apply Finset.sum_congr rfl
    intro j hj
    rw [hb1 j (Finset.mem_range.mp hj)]
    ring
  have h2 : ∑ j in Finset.range (n' + 1), (if j = 0 then 0 else b (j - 1)) * r ^ j =
      r * ∑ j in Finset.range n', b j * r ^ j := by
    rw [Finset.sum_range_succ', Finset.mul_sum]
    simp only [if_true, zero_mul, add_zero, Nat.add_sub_cancel]
    apply Finset.sum_congr rfl
    intro j _
    rw [if_neg (by omega), pow_succ]
    ring
  have hGs : ∑ j in Finset.range (n' + 1), g j * r ^ j + r ^ (n' + 1) = 0 := by
    rw [Finset.sum_range_succ, hmonic, one_mul] at hroot
    exact hroot
  have hX := hchar ((d + b n') * r ^ (n' + 1))
  have hS : ∑ j in Finset.range (n' + 1), b j * r ^ j =
      ∑ j in Finset.range n', b j * r ^ j + b n' * r ^ n' := Finset.sum_range_succ _ _
  rw [h1, h2, hS]
  linear_combination (d + b n') * hGs - hX

/-- The sum that the rounds of the encoder build up from the symbols of `data`, which enter
from `data[k - 1]` down to `data[0]`: one more symbol multiplies the sum by `r` and adds the
symbol. -/
theorem horner_step {F : Type} [Field F] (c : Nat → F) (r : F) (k m : Nat) (hm : m < k) :
    ∑ q in Finset.range (m + 1), c (k - (m + 1) + q) * r ^ q =
      c (k - 1 - m) + r * ∑ q in Finset.range m, c (k - m + q) * r ^ q := by
  have h0 : k - (m + 1) + 0 = k - 1 - m := by omega
  rw [Finset.sum_range_succ', Finset.mul_sum, add_comm, h0, pow_zero, mul_one]
  congr 1
  apply Finset.sum_congr rfl
  intro q _
  have he : k - (m + 1) + (q + 1) = k - m + q := by omega
  rw [he, pow_succ]
  ring

/-- The codeword of `dmr_rs_encode`, in the field: for a context with the tables of GF(2^8)
whose cells `gg[0..n-1]` hold the indices of the coefficients, none of them zero, of a monic
polynomial of degree `n` with the root `r`, the value at `r` of the parities `bb[0..n-1]` is
`r^n` times the value at `r` of the symbols `data[0..k-1]`. -/
theorem encode_value_aux {F : Type} [Field F] (M : gf_model F) (rs : dmr_rs_t)
    (hctx : rs_gf_context rs) (G : Nat → Nat) (hn1 : 1 ≤ rs.n) (hn : rs.n ≤ 255)
    (hG : ∀ j, j < rs.n → G j ≠ 0 ∧ G j < 256 ∧
      tab_get rs.gg (j : Int) = tab_get rs.index_of (G j : Int))
    (hmonic : G rs.n = 1) (r : F)
    (hroot : ∑ j in Finset.range (rs.n + 1), M.phi (G j) * r ^ j = 0)
    (data bb0 : List Nat) (hdata : ∀ i, data.getD i 0 < 256) (hlen : rs.n ≤ bb0.length) :
    (dmr_rs_encode rs data bb0).length = bb0.length ∧
    (∀ j, j < rs.n → (dmr_rs_encode rs data bb0).getD j 0 < 256) ∧
    ∑ j in Finset.range rs.n, M.phi ((dmr_rs_encode rs data bb0).getD j 0) * r ^ j =
      r ^ rs.n * ∑ q in Finset.range (rs.nn - rs.n), M.phi (data.getD q 0) * r ^ q := by
  obtain ⟨c1, c2, c3⟩ := encode_clear rs.n bb0 _ rfl
  unfold dmr_rs_encode
  simp only []
  rw [List.foldl_map]
  have key := foldl_range_invariant
    (fun (m : Nat) (st : List Nat) =>
      st.length = bb0.length ∧ (∀ j, j < rs.n → st.getD j 0 < 256) ∧
      ∑ j in Finset.range rs.n, M.phi (st.getD j 0) * r ^ j =
        r ^ rs.n * ∑ q in Finset.range m,
          M.phi (data.getD (rs.nn - rs.n - m + q) 0) * r ^ q)
    (fun (bb : List Nat) (m : Nat) =>
      let feedback : Int :=
        tab_get rs.index_of
          ((data.getD (rs.nn - rs.n - 1 - m) 0 ^^^ bb.getD (rs.n - 1) 0 : Nat) : Int)
      if feedback ≠ -1 then
        let bb :=
          ((List.range (rs.n - 1)).map (fun m => rs.n - 1 - m)).foldl
            (fun (bb : List Nat) (j : Nat) =>
              bb.set j
                (to_uchar
                  (Int.xor (bb.getD (j - 1) 0)
                    (tab_get rs.alpha_to
                      (to_uint (tab_get rs.gg j + feedback) % rs.nn : Nat)))))
            bb
        bb.set 0
          (to_uchar (tab_get rs.alpha_to (to_uint (tab_get rs.gg 0 + feedback) % rs.nn : Nat)))
      else
        let bb :=
          ((List.range (rs.n - 1)).map (fun m => rs.n - 1 - m)).foldl
            (fun (bb : List Nat) (j : Nat) => bb.set j (bb.getD (j - 1) 0)) bb
        bb.set 0 0)
    (rs.nn - rs.n)
    ((List.range rs.n).foldl (fun (bb : List Nat) (i : Nat) => bb.set i 0) bb0) ?_ ?_
  · obtain ⟨k1, k2, k3⟩ := key
    refine ⟨k1, k2, ?_⟩
    rw [k3]
    congr 1
    apply Finset.sum_congr rfl
    intro q _
    have he : rs.nn - rs.n - (rs.nn - rs.n) + q = q := by omega
    rw [he]
  · refine ⟨c1, fun j hj => by rw [c2 j hj]; decide, ?_⟩
    rw [Finset.sum_range_zero, mul_zero]
    apply Finset.sum_eq_zero
    intro j hj
    rw [c2 j (Finset.mem_range.mp hj), M.phi_zero, zero_mul]
  · intro m st hm ⟨k1, k2, k3⟩
    obtain ⟨e1, e2, e3⟩ := encode_round rs hctx G hn1 hG (data.getD (rs.nn - rs.n - 1 - m) 0)
      (hdata _) st (by rw [k1]; exact hlen) k2 _ rfl
    have hf : data.getD (rs.nn - rs.n - 1 - m) 0 ^^^ st.getD (rs.n - 1) 0 < 256 :=
      Nat.xor_lt_two_pow (n := 8) (hdata _) (k2 _ (by omega))
    have hlt : ∀ j, j < rs.n →
        (if j = 0 then 0 else st.getD (j - 1) 0) < 256 := by
      intro j hj
      split
      · decide
      · exact k2 _ (by omega)
    refine ⟨e1.trans k1, ?_, ?_⟩
    · intro j hj
      rw [e2 j hj]
      exact Nat.xor_lt_two_pow (n := 8) (hlt j hj) (gf_mul_lt _ _ (hG j hj).2.1)
    · have hstep := lfsr_step (gf_model_add_self M) rs.n hn1 (fun j => M.phi (G j))
        (fun j => M.phi (st.getD j 0))
        (fun j => M.phi
          ((List.getD
            (let feedback : Int :=
              tab_get rs.index_of
                ((data.getD (rs.nn - rs.n - 1 - m) 0 ^^^ st.getD (rs.n - 1) 0 : Nat) : Int)
            if feedback ≠ -1 then
              let bb :=
                ((List.range (rs.n - 1)).map (fun m => rs.n - 1 - m)).foldl
                  (fun (bb : List Nat) (j : Nat) =>
                    bb.set j
                      (to_uchar
                        (Int.xor (bb.getD (j - 1) 0)
                          (tab_get rs.alpha_to
                            (to_uint (tab_get rs.gg j + feedback) % rs.nn : Nat)))))
                  st
              bb.set 0
                (to_uchar
                  (tab_get rs.alpha_to (to_uint (tab_get rs.gg 0 + feedback) % rs.nn : Nat)))
            else
              let bb :=
                ((List.range (rs.n - 1)).map (fun m => rs.n - 1 - m)).foldl
                  (fun (bb : List Nat) (j : Nat) => bb.set j (bb.getD (j - 1) 0)) st
              bb.set 0 0)) j 0))
        r (M.phi (data.getD (rs.nn - rs.n - 1 - m) 0)) hroot
        (show M.phi (G rs.n) = 1 by rw [hmonic]; exact M.phi_one)
        (by
          intro j hj
          simp only []
          rw [e2 j hj, M.phi_xor _ _ (hlt j hj) (gf_mul_lt _ _ (hG j hj).2.1),
            gf_model_phi_gf_mul M _ _ (hG j hj).2.1 hf,
            M.phi_xor _ _ (hdata _) (k2 _ (by omega))]
          split
          · rw [M.phi_zero]
          · rfl)
      simp only [] at hstep
      rw [hstep, k3, horner_step (fun q => M.phi (data.getD q 0)) r (rs.nn - rs.n) m hm]
      ring

/-! ## Lemmas on the parities of the encoder -/

/-- A polynomial whose coefficients are all zero has the value 0. -/
theorem gf_poly_eval_all_zero (c : List Nat) (h : ∀ m, c.getD m 0 = 0) (i : Nat) :
    gf_poly_eval c i = 0 := by
  unfold gf_poly_eval
  refine foldl_invariant (fun acc : Nat => acc = 0) _ _ _ rfl ?_
  intro a x ha
  rw [ha, h x, gf_mul_alpha_pow_zero]
  rfl

/-- The cells of the codeword made of the first `n` cells of `bb` and the first `k` cells of
`data`. -/
theorem codeword_getD (bb data : List Nat) (n k : Nat) (hn : n ≤ bb.length)
    (hk : k ≤ data.length) :
    (bb.take n ++ data.take k).length = n + k ∧
    (∀ j, j < n → (bb.take n ++ data.take k).getD j 0 = bb.getD j 0) ∧
    (∀ q, q < k → (bb.take n ++ data.take k).getD (n + q) 0 = data.getD q 0) := by
  have hl1 : (bb.take n).length = n := by rw [List.length_take]; omega
  have hl2 : (data.take k).length = k := by rw [List.length_take]; omega
  refine ⟨by rw [List.length_append, hl1, hl2], ?_, ?_⟩
  · intro j hj
    rw [List.getD_append _ _ _ _ (by rw [hl1]; exact hj), List.getD_eq_getElem?_getD,
      List.getD_eq_getElem?_getD, List.getElem?_take_of_lt hj]
  · intro q hq
    rw [List.getD_append_right _ _ _ _ (by rw [hl1]; omega), hl1, Nat.add_sub_cancel_left,
      List.getD_eq_getElem?_getD, List.getD_eq_getElem?_getD, List.getElem?_take_of_lt hq]

/-- The cells `gg[0..n]` of the context that `dmr_rs_new(0x11d, 8, t)` builds for `t` from 1
to 255 hold the indices of the coefficients of the product of the X + alpha^i for
`i = 1..n`. -/
theorem dmr_rs_new_gg (env : rs_env) (t : Nat) (rs : dmr_rs_t)
    (hrs : dmr_rs_new env 0x11d 8 t = some rs) (ht1 : 1 ≤ t) (ht : t < 256) :
    rs_gf_context rs ∧ rs.n = 2 * t ∧ rs.tt = t ∧
    ∀ j, j ≤ rs.n →
      tab_get rs.gg (j : Int) = tab_get rs.index_of ((gf_generator rs.n).getD j 0 : Int) := by
  obtain ⟨hctx, htt, hn, hgg, -⟩ := dmr_rs_new_context env t rs hrs
  rw [Nat.mod_eq_of_lt ht] at hn htt
  refine ⟨hctx, hn, htt, ?_⟩
  intro j hj
  rw [hgg]
  exact rs_generator_spec rs hctx env.fresh rs.n (by omega) (by omega) j hj

/-- The codeword of `dmr_rs_encode` has the roots alpha^1, ..., alpha^(2t): the parities
`bb[0..n-1]` followed by the symbols `data[0..k-1]` are the coefficients of a polynomial
whose value at alpha^i is zero. -/
theorem encode_codeword_aux (env : rs_env) (t : Nat) (rs : dmr_rs_t)
    (hrs : dmr_rs_new env 0x11d 8 t = some rs) (ht : t < 256) (data bb0 : List Nat)
    (hdata : ∀ i, data.getD i 0 < 256) (hk : rs.nn - rs.n ≤ data.length)
    (hlen : rs.n ≤ bb0.length) (i : Nat) (h1 : 1 ≤ i) (hi : i ≤ 2 * t) :
    gf_poly_eval ((dmr_rs_encode rs data bb0).take rs.n ++ data.take (rs.nn - rs.n)) i = 0 := by
  have ht1 : 1 ≤ t := by omega
  obtain ⟨hctx, hn, -, hgg⟩ := dmr_rs_new_gg env t rs hrs ht1 ht
  have hnn : rs.nn = 255 := hctx.1
  by_cases hbig : 255 < rs.n
  · -- no symbol of data enters: the parities are zero
    have hk0 : rs.nn - rs.n = 0 := by omega
    obtain ⟨c1, c2, -⟩ := encode_clear rs.n bb0 _ rfl
    have henc : dmr_rs_encode rs data bb0 =
        (List.range rs.n).foldl (fun (bb : List Nat) (i : Nat) => bb.set i 0) bb0 := by
      unfold dmr_rs_encode
      simp only [hk0, List.range_zero, List.map_nil, List.foldl_nil]
    rw [henc, hk0]
    obtain ⟨d1, d2, -⟩ := codeword_getD
      ((List.range rs.n).foldl (fun (bb : List Nat) (i : Nat) => bb.set i 0) bb0) data rs.n 0
      (by rw [c1]; exact hlen) (Nat.zero_le _)
    apply gf_poly_eval_all_zero
    intro m
    by_cases hm : m < rs.n
    · rw [d2 m hm, c2 m hm]
    · rw [List.getD_eq_getElem?_getD, List.getElem?_eq_none (by rw [d1]; omega)]
      rfl
  · obtain ⟨F, _, ⟨M⟩⟩ := gf_model_exists
    have hn254 : rs.n ≤ 254 := by omega
    have hG : ∀ j, j < rs.n → (gf_generator rs.n).getD j 0 ≠ 0 ∧ (gf_generator rs.n).getD j 0 < 256 ∧
        tab_get rs.gg (j : Int) = tab_get rs.index_of ((gf_generator rs.n).getD j 0 : Int) :=
      fun j hj => ⟨gf_generator_coeff_ne_zero rs.n j hn254 (by omega), gf_generator_lt rs.n j,
        hgg j (by omega)⟩
    obtain ⟨e1, e2, e3⟩ := encode_value_aux M rs hctx (fun j => (gf_generator rs.n).getD j 0)
      (by omega) (by omega) hG (gf_generator_monic rs.n) (M.phi 2 ^ i)
      (gf_generator_root_aux M rs.n i h1 (by omega)) data bb0 hdata hlen
    obtain ⟨d1, d2, d3⟩ := codeword_getD (dmr_rs_encode rs data bb0) data rs.n (rs.nn - rs.n)
      (by rw [e1]; exact hlen) hk
    have hc : ∀ m, ((dmr_rs_encode rs data bb0).take rs.n ++
        data.take (rs.nn - rs.n)).getD m 0 < 256 := by
      intro m
      by_cases hm : m < rs.n
      · rw [d2 m hm]
        exact e2 m hm
      · by_cases hm2 : m < rs.n + (rs.nn - rs.n)
        · obtain ⟨q, rfl⟩ : ∃ q, m = rs.n + q := ⟨m - rs.n, by omega⟩
          rw [d3 q (by omega)]
          exact hdata q
        · rw [List.getD_eq_getElem?_getD, List.getElem?_eq_none (by rw [d1]; omega)]
          decide
    obtain ⟨p1, p2⟩ := gf_model_phi_poly_eval M _ hc i
    apply gf_model_phi_eq_zero M _ p1
    have hs1 : ∑ j in Finset.range rs.n,
        M.phi (((dmr_rs_encode rs data bb0).take rs.n ++
          data.take (rs.nn - rs.n)).getD j 0) * (M.phi 2 ^ i) ^ j =
        ∑ j in Finset.range rs.n,
          M.phi ((dmr_rs_encode rs data bb0).getD j 0) * (M.phi 2 ^ i) ^ j :=
      Finset.sum_congr rfl (fun j hj => by rw [d2 j (Finset.mem_range.mp hj)])
    have hs2 : ∑ q in Finset.range (rs.nn - rs.n),
        M.phi (((dmr_rs_encode rs data bb0).take rs.n ++
          data.take (rs.nn - rs.n)).getD (rs.n + q) 0) * (M.phi 2 ^ i) ^ (rs.n + q) =
        (M.phi 2 ^ i) ^ rs.n *
          ∑ q in Finset.range (rs.nn - rs.n), M.phi (data.getD q 0) * (M.phi 2 ^ i) ^ q := by
      rw [Finset.mul_sum]
      apply Finset.sum_congr rfl
      intro q hq
      rw [d3 q (Finset.mem_range.mp hq), pow_add]
      ring
    rw [p2, d1, Finset.sum_range_add, hs1, hs2, e3]
    exact gf_model_add_self M _

/-! ## Lemmas on the detection of a changed byte -/

/-- The value of the parities of `dmr_rs_encode` at alpha^i, in the field, for the context
that `dmr_rs_new(0x11d, 8, t)` builds with `t` from 1 to 127. -/
theorem encode_value {F : Type} [Field F] (M : gf_model F) (env : rs_env) (t : Nat)
    (rs : dmr_rs_t) (hrs : dmr_rs_new env 0x11d 8 t = some rs) (ht1 : 1 ≤ t) (ht : t ≤ 127)
    (data bb0 : List Nat) (hdata : ∀ i, data.getD i 0 < 256) (hlen : rs.n ≤ bb0.length)
    (i : Nat) (h1 : 1 ≤ i) (hi : i ≤ 2 * t) :
    (∀ j, j < rs.n → (dmr_rs_encode rs data bb0).getD j 0 < 256) ∧
    ∑ j in Finset.range rs.n, M.phi ((dmr_rs_encode rs data bb0).getD j 0) * (M.phi 2 ^ i) ^ j =
      (M.phi 2 ^ i) ^ rs.n *
        ∑ q in Finset.range (rs.nn - rs.n), M.phi (data.getD q 0) * (M.phi 2 ^ i) ^ q := by
  obtain ⟨hctx, hn, -, hgg⟩ := dmr_rs_new_gg env t rs hrs ht1 (by omega)
  have hG : ∀ j, j < rs.n → (gf_generator rs.n).getD j 0 ≠ 0 ∧ (gf_generator rs.n).getD j 0 < 256 ∧
      tab_get rs.gg (j : Int) = tab_get rs.index_of ((gf_generator rs.n).getD j 0 : Int) :=
    fun j hj => ⟨gf_generator_coeff_ne_zero rs.n j (by omega) (by omega), gf_generator_lt rs.n j,
      hgg j (by omega)⟩
  obtain ⟨-, e2, e3⟩ := encode_value_aux M rs hctx (fun j => (gf_generator rs.n).getD j 0)
    (by omega) (by omega) hG (gf_generator_monic rs.n) (M.phi 2 ^ i)
    (gf_generator_root_aux M rs.n i h1 (by omega)) data bb0 hdata hlen
  exact ⟨e2, e3⟩

/-- A zero-filled buffer after `memcpy` of `n` bytes into it: the `n` bytes followed by
zeros. The 12,9,4 functions hand such a block to the encoder. -/
theorem memcpy_block_getD (nn n : Nat) (check : List Nat) (q : Nat) :
    (memcpy (List.replicate nn 0) check n).getD q 0 = if q < n then check.getD q 0 else 0 := by
  unfold memcpy
  by_cases hq : q < n
  · rw [if_pos hq, List.getD_append _ _ _ _ (by simpa using hq)]
    simp [List.getD_eq_getElem?_getD, hq]
  · rw [if_neg hq, List.getD_append_right _ _ _ _ (by simp; omega)]
    simp only [List.drop_replicate, List.length_map, List.length_range]
    exact getD_replicate_zero _ _

/-- The value at alpha^i, in the field, of the four parities that the encoder computes for a
buffer of twelve bytes of which the last three are zero. -/
theorem parity_12_9_4_value {F : Type} [Field F] (M : gf_model F) (env : rs_env)
    (rs : dmr_rs_t) (hrs : dmr_rs_new env 0x11d 8 2 = some rs) (check : List Nat)
    (hcheck : ∀ q, check.getD q 0 < 256) (hzero : ∀ q, 9 ≤ q → check.getD q 0 = 0)
    (i : Nat) (h1 : 1 ≤ i) (hi : i ≤ 4) :
    (∀ j, j < 4 → (rs_12_9_4_parity rs check).getD j 0 < 256) ∧
    ∑ j in Finset.range 4, M.phi ((rs_12_9_4_parity rs check).getD j 0) * (M.phi 2 ^ i) ^ j =
      (M.phi 2 ^ i) ^ 4 * ∑ q in Finset.range 9, M.phi (check.getD q 0) * (M.phi 2 ^ i) ^ q := by
  obtain ⟨hnn, hn, -, -⟩ := dmr_rs_new_shape env rs hrs
  have hdata : ∀ q, (memcpy (List.replicate rs.nn 0) check 12).getD q 0 < 256 := by
    intro q
    rw [memcpy_block_getD rs.nn 12 check q]
    split
    · exact hcheck q
    · decide
  obtain ⟨e2, e3⟩ := encode_value M env 2 rs hrs (by decide) (by decide)
    (memcpy (List.replicate rs.nn 0) check 12) (List.replicate rs.nn 0) hdata
    (by rw [List.length_replicate]; omega) i h1 (by omega)
  rw [hn] at e2 e3
  have h251 : rs.nn - 4 = 9 + 242 := by rw [hnn]
  refine ⟨e2, ?_⟩
  unfold rs_12_9_4_parity
  rw [e3]
  congr 1
  rw [h251, Finset.sum_range_add]
  have hz : ∑ x in Finset.range 242,
      M.phi ((memcpy (List.replicate rs.nn 0) check 12).getD (9 + x) 0) *
        (M.phi 2 ^ i) ^ (9 + x) = 0 := by
    apply Finset.sum_eq_zero
    intro x _
    rw [memcpy_block_getD rs.nn 12 check]
    split
    · rw [hzero _ (by omega), M.phi_zero, zero_mul]
    · rw [M.phi_zero, zero_mul]
  rw [hz, add_zero]
  apply Finset.sum_congr rfl
  intro q hq
  rw [memcpy_block_getD rs.nn 12 check, if_pos (by have := Finset.mem_range.mp hq; omega)]

/-- The return value of `dmr_rs_12_9_4_decode_and_verify` is 0 exactly when each of the bytes
9..11 is the parity of that position, computed from bytes 0..8 and XORed with the mask. -/
theorem verify_ret_aux (env : rs_env) (rs8 : Option dmr_rs_t) (rs : dmr_rs_t)
    (bytes : List Nat) (crc_mask : Nat) (hinit : dmr_rs_init env rs8 = some rs)
    (hlen : bytes.length = 12) :
    ∃ v, dmr_rs_12_9_4_decode_and_verify env rs8 bytes crc_mask = some v ∧
      (v.ret = 0 ↔ ∀ i, i < 3 →
        bytes.getD (9 + i) 0 =
          ((rs_12_9_4_parity rs (memcpy (List.replicate 12 0) bytes 9)).getD i 0 ^^^ crc_mask) %
            256) := by
  obtain ⟨b0, b1, b2, b3, b4, b5, b6, b7, b8, b9, b10, b11, rfl⟩ :=
    list_of_length_12 bytes hlen
  refine ⟨_, verify_12_9_4_eq env rs8 rs _ crc_mask hinit, ?_⟩
  have hm : memcpy (List.replicate 12 0) [b0, b1, b2, b3, b4, b5, b6, b7, b8, b9, b10, b11] 9 =
      [b0, b1, b2, b3, b4, b5, b6, b7, b8, 0, 0, 0] := rfl
  simp only [hm]
  generalize rs_12_9_4_parity rs [b0, b1, b2, b3, b4, b5, b6, b7, b8, 0, 0, 0] = bb
  rw [memcmp_eq_zero_iff]
  have hs : rs_12_9_4_store [b0, b1, b2, b3, b4, b5, b6, b7, b8, 0, 0, 0] bb crc_mask =
      [b0, b1, b2, b3, b4, b5, b6, b7, b8, (bb.getD 0 0 ^^^ crc_mask) % 256,
        (bb.getD 1 0 ^^^ crc_mask) % 256, (bb.getD 2 0 ^^^ crc_mask) % 256] := rfl
  rw [hs]
  constructor
  · intro h i hi
    have h' := h i hi
    interval_cases i <;> exact h'
  · intro h i hi
    have h' := h i hi
    interval_cases i <;> exact h'

/-- A byte below 256 is recovered from its exclusive or with a mask below 256. -/
theorem xor_mask_inj (x y mask : Nat) (hx : x < 256) (hy : y < 256) (hm : mask < 256)
    (h : (x ^^^ mask) % 256 = (y ^^^ mask) % 256) : x = y := by
  rw [Nat.mod_eq_of_lt (Nat.xor_lt_two_pow (n := 8) hx hm),
    Nat.mod_eq_of_lt (Nat.xor_lt_two_pow (n := 8) hy hm)] at h
  have h2 := congrArg (fun v => v ^^^ mask) h
  simp only [Nat.xor_assoc, Nat.xor_self, Nat.xor_zero] at h2
  exact h2

/-- Two messages of nine bytes that differ in exactly one position do not get the same
parities in `bb[0..2]`: the two codewords would differ by a polynomial with the roots alpha
and alpha^2 that has two terms only, which needs alpha^(p + 1) = 1. -/
theorem parity_differs_aux (env : rs_env) (rs : dmr_rs_t)
    (hrs : dmr_rs_new env 0x11d 8 2 = some rs) (c1 c2 : List Nat)
    (hc1 : ∀ q, c1.getD q 0 < 256) (hc2 : ∀ q, c2.getD q 0 < 256)
    (hz1 : ∀ q, 9 ≤ q → c1.getD q 0 = 0) (hz2 : ∀ q, 9 ≤ q → c2.getD q 0 = 0)
    (p : Nat) (hp : p < 9) (hdiff : c1.getD p 0 ≠ c2.getD p 0)
    (hsame : ∀ q, q ≠ p → c1.getD q 0 = c2.getD q 0)
    (hpar : ∀ j, j < 3 →
      (rs_12_9_4_parity rs c1).getD j 0 = (rs_12_9_4_parity rs c2).getD j 0) : False := by
  obtain ⟨F, _, ⟨M⟩⟩ := gf_model_exists
  have hchar := gf_model_add_self M
  -- the difference of the two messages has one term
  have hD : ∀ r : F,
      ∑ q in Finset.range 9, M.phi (c1.getD q 0) * r ^ q +
        ∑ q in Finset.range 9, M.phi (c2.getD q 0) * r ^ q =
      (M.phi (c1.getD p 0) + M.phi (c2.getD p 0)) * r ^ p := by
    intro r
    rw [← Finset.sum_add_distrib]
    rw [Finset.sum_eq_single p]
    · ring
    · intro q _ hqp
      rw [hsame q hqp]
      exact hchar _
    · intro h
      exact absurd (Finset.mem_range.mpr hp) h
  -- the difference of the two blocks of parities has one term
  have hE : ∀ r : F,
      ∑ j in Finset.range 4, M.phi ((rs_12_9_4_parity rs c1).getD j 0) * r ^ j +
        ∑ j in Finset.range 4, M.phi ((rs_12_9_4_parity rs c2).getD j 0) * r ^ j =
      (M.phi ((rs_12_9_4_parity rs c1).getD 3 0) +
        M.phi ((rs_12_9_4_parity rs c2).getD 3 0)) * r ^ 3 := by
    intro r
    simp only [Finset.sum_range_succ, Finset.sum_range_zero, hpar 0 (by decide),
      hpar 1 (by decide), hpar 2 (by decide)]
    linear_combination hchar (M.phi ((rs_12_9_4_parity rs c2).getD 0 0) * r ^ 0) +
      hchar (M.phi ((rs_12_9_4_parity rs c2).getD 1 0) * r ^ 1) +
      hchar (M.phi ((rs_12_9_4_parity rs c2).getD 2 0) * r ^ 2)
  have hval : ∀ i, 1 ≤ i → i ≤ 4 →
      (M.phi ((rs_12_9_4_parity rs c1).getD 3 0) +
        M.phi ((rs_12_9_4_parity rs c2).getD 3 0)) * (M.phi 2 ^ i) ^ 3 =
      (M.phi 2 ^ i) ^ 4 * ((M.phi (c1.getD p 0) + M.phi (c2.getD p 0)) * (M.phi 2 ^ i) ^ p) := by
    intro i h1 hi
    obtain ⟨-, v1⟩ := parity_12_9_4_value M env rs hrs c1 hc1 hz1 i h1 hi
    obtain ⟨-, v2⟩ := parity_12_9_4_value M env rs hrs c2 hc2 hz2 i h1 hi
    rw [← hE, ← hD, v1, v2]
    ring
  have he : M.phi (c1.getD p 0) + M.phi (c2.getD p 0) ≠ 0 := by
    rw [← M.phi_xor _ _ (hc1 p) (hc2 p)]
    intro h
    have h0 := gf_model_phi_eq_zero M _ (Nat.xor_lt_two_pow (n := 8) (hc1 p) (hc2 p)) h
    exact hdiff (Nat.xor_eq_zero.mp h0)
  have h1 := hval 1 (by decide) (by decide)
  have h2 := hval 2 (by decide) (by decide)
  have ha : M.phi 2 ≠ 0 := by
    have := gf_model_pow_ne_zero M 1
    rwa [pow_one] at this
  have hkey : M.phi 2 ^ (7 + p) = M.phi 2 ^ (8 + 2 * p) := by
    apply mul_left_cancel₀ he
    have h1' : (M.phi ((rs_12_9_4_parity rs c1).getD 3 0) +
        M.phi ((rs_12_9_4_parity rs c2).getD 3 0)) * M.phi 2 ^ 6 =
        (M.phi (c1.getD p 0) + M.phi (c2.getD p 0)) * M.phi 2 ^ (7 + p) := by
      have := congrArg (fun v => v * M.phi 2 ^ 3) h1
      simp only [pow_one] at this
      rw [pow_add]
      linear_combination this
    have h2' : (M.phi ((rs_12_9_4_parity rs c1).getD 3 0) +
        M.phi ((rs_12_9_4_parity rs c2).getD 3 0)) * M.phi 2 ^ 6 =
        (M.phi (c1.getD p 0) + M.phi (c2.getD p 0)) * M.phi 2 ^ (8 + 2 * p) := by
      rw [pow_add, pow_mul]
      linear_combination h2
    rw [← h1', h2']
  have hmod := gf_model_pow_inj M _ _ hkey
  omega

/-! ## Lemmas on the search for the roots -/

/-- A polynomial of degree at most `L` with the constant term 1 over a model of GF(2^8) has
the value 0 at no more than `L` of the powers of the image of alpha with exponents below
255. -/
theorem root_count_aux {F : Type} [Field F] (M : gf_model F) (L : Nat) (z : Nat → Prop)
    [DecidablePred z] (E : Nat → Nat) (S : Finset Nat) (hS : S ⊆ Finset.range 255)
    (hroot : ∀ i, i ∈ S →
      1 + ∑ j in Finset.range L,
        (if z (j + 1) then 0 else M.phi 2 ^ E (j + 1) * (M.phi 2 ^ i) ^ (j + 1)) = 0) :
    S.card ≤ L := by
  classical
  let P : Polynomial F :=
    1 + ∑ j in Finset.range L,
      (if z (j + 1) then 0 else Polynomial.C (M.phi 2 ^ E (j + 1)) * Polynomial.X ^ (j + 1))
  have heval : ∀ x : F, Polynomial.eval x P =
      1 + ∑ j in Finset.range L, (if z (j + 1) then 0 else M.phi 2 ^ E (j + 1) * x ^ (j + 1)) := by
    intro x
    show Polynomial.eval x (1 + ∑ j in Finset.range L,
      (if z (j + 1) then 0 else Polynomial.C (M.phi 2 ^ E (j + 1)) * Polynomial.X ^ (j + 1))) = _
    rw [Polynomial.eval_add, Polynomial.eval_one, Polynomial.eval_finset_sum]
    congr 1
    apply Finset.sum_congr rfl
    intro j _
    split
    · exact Polynomial.eval_zero
    · rw [Polynomial.eval_mul, Polynomial.eval_C, Polynomial.eval_pow, Polynomial.eval_X]
  have hP0 : P ≠ 0 := by
    intro h
    have h1 := heval 0
    rw [h, Polynomial.eval_zero] at h1
    have h2 : ∑ j in Finset.range L,
        (if z (j + 1) then (0 : F) else M.phi 2 ^ E (j + 1) * 0 ^ (j + 1)) = 0 := by
      apply Finset.sum_eq_zero
      intro j _
      split
      · rfl
      · rw [zero_pow (by omega), mul_zero]
    rw [h2, add_zero] at h1
    exact zero_ne_one h1
  have hdeg : P.natDegree ≤ L := by
    have h1 : (1 : Polynomial F).natDegree ≤ L := by
      rw [Polynomial.natDegree_one]
      exact Nat.zero_le _
    have h2 : (∑ j in Finset.range L,
        (if z (j + 1) then 0
          else Polynomial.C (M.phi 2 ^ E (j + 1)) * Polynomial.X ^ (j + 1) : Polynomial F)).natDegree
          ≤ L := by
      apply Polynomial.natDegree_sum_le_of_forall_le
      intro j hj
      split
      · rw [Polynomial.natDegree_zero]
        exact Nat.zero_le _
      · exact (Polynomial.natDegree_C_mul_X_pow_le _ _).trans
          (by have := Finset.mem_range.mp hj; omega)
    exact (Polynomial.natDegree_add_le _ _).trans (max_le h1 h2)
  have hinj : Set.InjOn (fun i : Nat => M.phi 2 ^ i) (S : Set Nat) := by
    intro i hi j hj hij
    have h1 := Finset.mem_range.mp (hS hi)
    have h2 := Finset.mem_range.mp (hS hj)
    have h3 := gf_model_pow_inj M i j hij
    omega
  have hsub : S.image (fun i : Nat => M.phi 2 ^ i) ⊆ P.roots.toFinset := by
    intro x hx
    rw [Finset.mem_image] at hx
    obtain ⟨i, hi, rfl⟩ := hx
    rw [Multiset.mem_toFinset, Polynomial.mem_roots hP0, Polynomial.IsRoot.def, heval]
    exact hroot i hi
  calc S.card = (S.image (fun i : Nat => M.phi 2 ^ i)).card :=
        (Finset.card_image_of_injOn hinj).symm
    _ ≤ P.roots.toFinset.card := Finset.card_le_card hsub
    _ ≤ Multiset.card P.roots := Multiset.toFinset_card_le _
    _ ≤ P.natDegree := Polynomial.card_roots' P
    _ ≤ L := hdeg

/-- The powers of the image of alpha depend on the exponent modulo 255 only. -/
theorem gf_model_pow_mod {F : Type} [Field F] (M : gf_model F) (k : Nat) :
    M.phi 2 ^ (k % 255) = M.phi 2 ^ k := by
  rw [← gf_model_phi_pow M (k % 255), gf_alpha_pow_mod, gf_model_phi_pow]

/-- One round of the search for the roots: the inner loop over `j = 1..L` replaces every
register that is not -1 by `(reg[j] + j) % nn` and leaves in `q` the sum of 1 and of the
powers of alpha with the new registers as exponents. -/
theorem chien_round {F : Type} [Field F] (M : gf_model F) (rs : dmr_rs_t)
    (hctx : rs_gf_context rs) (L : Nat) (reg : cells) :
    ∀ qr : Int × cells,
      qr = ((List.range L).map (fun k => k + 1)).foldl
          (fun (qr : Int × cells) (j : Nat) =>
            if qr.2 j ≠ -1 then
              let reg := qr.2.set j (to_uint (qr.2 j + j) % rs.nn : Nat)
              (to_uint (Int.xor qr.1 (tab_get rs.alpha_to (reg j))), reg)
            else qr)
          (1, reg) →
      (∃ qn : Nat, qr.1 = (qn : Int) ∧ qn < 256 ∧
        M.phi qn = 1 + ∑ j in Finset.range L,
          (if reg ((j + 1 : Nat) : Int) = -1 then 0
            else M.phi 2 ^ (to_uint (reg ((j + 1 : Nat) : Int) + ((j + 1 : Nat) : Int)) % 255))) ∧
      (∀ j : Nat, 1 ≤ j → j ≤ L → qr.2 (j : Int) =
        if reg (j : Int) = -1 then -1
        else ((to_uint (reg (j : Int) + (j : Int)) % 255 : Nat) : Int)) := by
  intro qr hqr
  rw [List.foldl_map] at hqr
  have h := foldl_range_invariant
    (fun (k : Nat) (st : Int × cells) =>
      (∃ qn : Nat, st.1 = (qn : Int) ∧ qn < 256 ∧
        M.phi qn = 1 + ∑ j in Finset.range k,
          (if reg ((j + 1 : Nat) : Int) = -1 then 0
            else M.phi 2 ^ (to_uint (reg ((j + 1 : Nat) : Int) + ((j + 1 : Nat) : Int)) % 255))) ∧
      (∀ j : Nat, 1 ≤ j → j ≤ k → st.2 (j : Int) =
        if reg (j : Int) = -1 then -1
        else ((to_uint (reg (j : Int) + (j : Int)) % 255 : Nat) : Int)) ∧
      (∀ j : Nat, k < j → st.2 (j : Int) = reg (j : Int)))
    (fun (qr : Int × cells) (k : Nat) =>
      ((if qr.2 ((k + 1 : Nat) : Int) ≠ -1 then
        (((to_uint (Int.xor qr.1 (tab_get rs.alpha_to
            ((qr.2.set ((k + 1 : Nat) : Int)
              ((to_uint (qr.2 ((k + 1 : Nat) : Int) + ((k + 1 : Nat) : Int)) % rs.nn : Nat) : Int))
              ((k + 1 : Nat) : Int)))) : Nat) : Int),
          qr.2.set ((k + 1 : Nat) : Int)
            ((to_uint (qr.2 ((k + 1 : Nat) : Int) + ((k + 1 : Nat) : Int)) % rs.nn : Nat) : Int))
      else qr) : Int × cells))
    L (1, reg)
    ⟨⟨1, rfl, by decide, by rw [Finset.sum_range_zero, add_zero, M.phi_one]⟩,
      fun j h1 h2 => absurd h2 (by omega), fun j _ => rfl⟩
    (by
      intro k st hk hP
      obtain ⟨⟨qn, hq1, hq2, hq3⟩, hlow, hhigh⟩ := hP
      have hcur : st.2 ((k + 1 : Nat) : Int) = reg ((k + 1 : Nat) : Int) :=
        hhigh (k + 1) (Nat.lt_succ_self k)
      by_cases hz : reg ((k + 1 : Nat) : Int) = -1
      · have hc : ¬ (st.2 ((k + 1 : Nat) : Int) ≠ -1) := by rw [hcur]; exact not_not.mpr hz
        dsimp only
        rw [if_neg hc]
        refine ⟨⟨qn, hq1, hq2, ?_⟩, ?_, ?_⟩
        · rw [Finset.sum_range_succ, if_pos hz, add_zero]
          exact hq3
        · intro j h1 h2
          by_cases hj : j = k + 1
          · rw [hj, hcur, if_pos hz, hz]
          · exact hlow j h1 (by omega)
        · intro j hj
          exact hhigh j (by omega)
      · have hc : st.2 ((k + 1 : Nat) : Int) ≠ -1 := by rw [hcur]; exact hz
        dsimp only
        rw [if_pos hc]
        have hn : to_uint (st.2 ((k + 1 : Nat) : Int) + ((k + 1 : Nat) : Int)) % rs.nn < 255 := by
          rw [hctx.1]
          exact Nat.mod_lt _ (by decide)
        have hset : (st.2.set ((k + 1 : Nat) : Int)
            ((to_uint (st.2 ((k + 1 : Nat) : Int) + ((k + 1 : Nat) : Int)) % rs.nn : Nat) : Int))
            ((k + 1 : Nat) : Int) =
            ((to_uint (st.2 ((k + 1 : Nat) : Int) + ((k + 1 : Nat) : Int)) % rs.nn : Nat) : Int) := by
          unfold cells.set
          rw [if_pos rfl]
        refine ⟨⟨qn ^^^ gf_alpha_pow
            (to_uint (st.2 ((k + 1 : Nat) : Int) + ((k + 1 : Nat) : Int)) % rs.nn), ?_, ?_, ?_⟩,
          ?_, ?_⟩
        · show ((to_uint (Int.xor st.1 (tab_get rs.alpha_to _)) : Nat) : Int) = _
          rw [hset, hctx.2.1 _ hn, hq1, int_xor_nat, to_uint_nat]
          exact Nat.lt_of_lt_of_le
            (Nat.xor_lt_two_pow (n := 8) hq2 (gf_alpha_pow_lt _)) (by decide)
        · exact Nat.xor_lt_two_pow (n := 8) hq2 (gf_alpha_pow_lt _)
        · rw [M.phi_xor _ _ hq2 (gf_alpha_pow_lt _), hq3, Finset.sum_range_succ, if_neg hz,
            gf_model_phi_pow, hcur, hctx.1, add_assoc]
        · intro j h1 h2
          by_cases hj : j = k + 1
          · show (st.2.set _ _) (j : Int) = _
            rw [hj, hset, if_neg hz, hcur, hctx.1]
          · have hne : ¬ ((j : Int) = ((k + 1 : Nat) : Int)) := by
              intro h
              exact hj (by exact_mod_cast h)
            show (st.2.set _ _) (j : Int) = _
            unfold cells.set
            rw [if_neg hne]
            exact hlow j h1 (by omega)
        · intro j hj
          have hne : ¬ ((j : Int) = ((k + 1 : Nat) : Int)) := by
            intro h
            have : j = k + 1 := by exact_mod_cast h
            omega
          show (st.2.set _ _) (j : Int) = _
          unfold cells.set
          rw [if_neg hne]
          exact hhigh j (by omega))
  rw [hqr]
  exact ⟨h.1, h.2.1⟩

/-- The rounds of the search for the roots: after `m` rounds every register that was not -1
holds an exponent of `alpha^(e_j) * (alpha^m)^j`, the rounds that have counted a root are
rounds in which the polynomial with the coefficients `alpha^(e_j)` and the constant term 1
has the value 0, and no cell of `root` and `loc` at or past `count` has been written. -/
theorem chien_rounds {F : Type} [Field F] (M : gf_model F) (rs : dmr_rs_t)
    (hctx : rs_gf_context rs) (L : Nat) (hL : L < 2 ^ 31) (reg0 root0 loc0 : cells) :
    ∀ (m : Nat) (st : chien_t),
      st = (List.range m).foldl
        (fun (st : chien_t) (k : Nat) =>
          (fun (st : chien_t) (i : Nat) =>
            let qr : Int × cells :=
              ((List.range L).map (fun k => k + 1)).foldl
                (fun (qr : Int × cells) (j : Nat) =>
                  if qr.2 j ≠ -1 then
                    let reg := qr.2.set j (to_uint (qr.2 j + j) % rs.nn : Nat)
                    (to_uint (Int.xor qr.1 (tab_get rs.alpha_to (reg j))), reg)
                  else qr)
                (1, st.reg)
            if qr.1 = 0 then
              { count := st.count + 1, root := st.root.set st.count i,
                loc := st.loc.set st.count ((rs.nn : Int) - i), reg := qr.2 }
            else { st with reg := qr.2 }) st ((fun k => k + 1) k))
        { count := 0, root := root0, loc := loc0, reg := reg0 } →
      (∀ j : Nat, 1 ≤ j → j ≤ L →
        (reg0 (j : Int) = -1 → st.reg (j : Int) = -1) ∧
        (reg0 (j : Int) ≠ -1 → st.reg (j : Int) ≠ -1 ∧
          M.phi 2 ^ (to_uint (st.reg (j : Int) + (j : Int)) % 255) =
            M.phi 2 ^ (to_uint (reg0 (j : Int) + (j : Int)) % 255) * (M.phi 2 ^ m) ^ j)) ∧
      (∃ S : Finset Nat, S ⊆ Finset.range m ∧
        (∀ i, i ∈ S →
          1 + ∑ j in Finset.range L,
            (if reg0 ((j + 1 : Nat) : Int) = -1 then 0
              else M.phi 2 ^ (to_uint (reg0 ((j + 1 : Nat) : Int) + ((j + 1 : Nat) : Int)) % 255) *
                (M.phi 2 ^ i) ^ (j + 1)) = 0) ∧
        st.count = S.card) ∧
      (∀ k : Int, k < 0 ∨ (st.count : Int) ≤ k → st.root k = root0 k ∧ st.loc k = loc0 k) := by
  intro m
  induction m with
  | zero =>
    intro st hst
    rw [hst]
    refine ⟨fun j _ _ => ⟨fun h => h, fun h => ⟨h, ?_⟩⟩,
      ⟨∅, Finset.empty_subset _, fun i hi => absurd hi (Finset.not_mem_empty i), rfl⟩,
      fun k _ => ⟨rfl, rfl⟩⟩
    rw [pow_zero, one_pow, mul_one]
    rfl
  | succ m ih =>
    intro st hst
    rw [List.range_succ, List.foldl_append] at hst
    obtain ⟨prev, hprev⟩ : ∃ p : chien_t, p = (List.range m).foldl
        (fun (st : chien_t) (k : Nat) =>
          (fun (st : chien_t) (i : Nat) =>
            let qr : Int × cells :=
              ((List.range L).map (fun k => k + 1)).foldl
                (fun (qr : Int × cells) (j : Nat) =>
                  if qr.2 j ≠ -1 then
                    let reg := qr.2.set j (to_uint (qr.2 j + j) % rs.nn : Nat)
                    (to_uint (Int.xor qr.1 (tab_get rs.alpha_to (reg j))), reg)
                  else qr)
                (1, st.reg)
            if qr.1 = 0 then
              { count := st.count + 1, root := st.root.set st.count i,
                loc := st.loc.set st.count ((rs.nn : Int) - i), reg := qr.2 }
            else { st with reg := qr.2 }) st ((fun k => k + 1) k))
        { count := 0, root := root0, loc := loc0, reg := reg0 } := ⟨_, rfl⟩
    rw [← hprev] at hst
    obtain ⟨hreg, ⟨S, hS1, hS2, hS3⟩, hroot⟩ := ih prev hprev
    have key : ∀ qr : Int × cells,
        qr = ((List.range L).map (fun k => k + 1)).foldl
          (fun (qr : Int × cells) (j : Nat) =>
            if qr.2 j ≠ -1 then
              let reg := qr.2.set j (to_uint (qr.2 j + j) % rs.nn : Nat)
              (to_uint (Int.xor qr.1 (tab_get rs.alpha_to (reg j))), reg)
            else qr)
          (1, prev.reg) →
        ∀ st : chien_t,
          st = (if qr.1 = 0 then
              { count := prev.count + 1, root := prev.root.set prev.count ((m + 1 : Nat) : Int),
                loc := prev.loc.set prev.count ((rs.nn : Int) - ((m + 1 : Nat) : Int)),
                reg := qr.2 }
            else { prev with reg := qr.2 }) →
          (∀ j : Nat, 1 ≤ j → j ≤ L →
            (reg0 (j : Int) = -1 → st.reg (j : Int) = -1) ∧
            (reg0 (j : Int) ≠ -1 → st.reg (j : Int) ≠ -1 ∧
              M.phi 2 ^ (to_uint (st.reg (j : Int) + (j : Int)) % 255) =
                M.phi 2 ^ (to_uint (reg0 (j : Int) + (j : Int)) % 255) *
                  (M.phi 2 ^ (m + 1)) ^ j)) ∧
          (∃ S : Finset Nat, S ⊆ Finset.range (m + 1) ∧
            (∀ i, i ∈ S →
              1 + ∑ j in Finset.range L,
                (if reg0 ((j + 1 : Nat) : Int) = -1 then 0
                  else M.phi 2 ^
                      (to_uint (reg0 ((j + 1 : Nat) : Int) + ((j + 1 : Nat) : Int)) % 255) *
                    (M.phi 2 ^ i) ^ (j + 1)) = 0) ∧
            st.count = S.card) ∧
          (∀ k : Int, k < 0 ∨ (st.count : Int) ≤ k →
            st.root k = root0 k ∧ st.loc k = loc0 k) := by
      intro qr hqr
      obtain ⟨⟨qn, hq1, hq2, hq3⟩, hnew⟩ := chien_round M rs hctx L prev.reg qr hqr
      have hq3n : M.phi qn = 1 + ∑ j in Finset.range L,
          (if reg0 ((j + 1 : Nat) : Int) = -1 then 0
            else M.phi 2 ^ (to_uint (reg0 ((j + 1 : Nat) : Int) + ((j + 1 : Nat) : Int)) % 255) *
              (M.phi 2 ^ m) ^ (j + 1)) := by
        rw [hq3]
        congr 1
        apply Finset.sum_congr rfl
        intro j hj
        have hL1 := Finset.mem_range.mp hj
        have hr := hreg (j + 1) (by omega) (by omega)
        by_cases hz : reg0 ((j + 1 : Nat) : Int) = -1
        · rw [if_pos hz, if_pos (hr.1 hz)]
        · rw [if_neg hz, if_neg (hr.2 hz).1]
          exact (hr.2 hz).2
      have hregn : ∀ j : Nat, 1 ≤ j → j ≤ L →
          (reg0 (j : Int) = -1 → qr.2 (j : Int) = -1) ∧
          (reg0 (j : Int) ≠ -1 → qr.2 (j : Int) ≠ -1 ∧
            M.phi 2 ^ (to_uint (qr.2 (j : Int) + (j : Int)) % 255) =
              M.phi 2 ^ (to_uint (reg0 (j : Int) + (j : Int)) % 255) *
                (M.phi 2 ^ (m + 1)) ^ j) := by
        intro j h1 h2
        have hj := hreg j h1 h2
        have hn := hnew j h1 h2
        constructor
        · intro hz
          rw [hn, if_pos (hj.1 hz)]
        · intro hz
          rw [hn, if_neg (hj.2 hz).1]
          constructor
          · omega
          · have hc : ((to_uint (prev.reg (j : Int) + (j : Int)) % 255 : Nat) : Int) + (j : Int) =
                ((to_uint (prev.reg (j : Int) + (j : Int)) % 255 + j : Nat) : Int) := by
              push_cast
              rfl
            have hlt : to_uint (prev.reg (j : Int) + (j : Int)) % 255 + j < 2 ^ 32 := by omega
            rw [hc, to_uint_nat _ hlt, gf_model_pow_mod, pow_add, (hj.2 hz).2]
            rw [pow_succ, mul_pow, mul_assoc]
      have hm : m ∉ S := fun h => absurd (Finset.mem_range.mp (hS1 h)) (Nat.lt_irrefl m)
      intro st hst
      by_cases h0 : qr.1 = 0
      · rw [if_pos h0] at hst
        rw [hst]
        refine ⟨hregn, ⟨insert m S, ?_, ?_, ?_⟩, ?_⟩
        · intro i hi
          rw [Finset.mem_insert] at hi
          rw [Finset.mem_range]
          rcases hi with hi | hi
          · omega
          · have := Finset.mem_range.mp (hS1 hi)
            omega
        · intro i hi
          rw [Finset.mem_insert] at hi
          rcases hi with hi | hi
          · have hqn0 : qn = 0 := by
              rw [hq1] at h0
              exact_mod_cast h0
            rw [hi, ← hq3n, hqn0, M.phi_zero]
          · exact hS2 i hi
        · rw [Finset.card_insert_of_not_mem hm, ← hS3]
        · intro k hk
          have hk1 : ((prev.count + 1 : Nat) : Int) = (prev.count : Int) + 1 := by push_cast; rfl
          have hk2 : k < 0 ∨ ((prev.count + 1 : Nat) : Int) ≤ k := hk
          have hne : ¬ (k = (prev.count : Int)) := by omega
          have hold := hroot k (by omega)
          show (prev.root.set _ _) k = _ ∧ (prev.loc.set _ _) k = _
          unfold cells.set
          rw [if_neg hne, if_neg hne]
          exact hold
      · rw [if_neg h0] at hst
        rw [hst]
        refine ⟨hregn, ⟨S, ?_, hS2, hS3⟩, hroot⟩
        intro i hi
        have := Finset.mem_range.mp (hS1 hi)
        rw [Finset.mem_range]
        omega
    exact key _ rfl st hst

/-- The search for the roots of a polynomial of degree `lu` counts at most `lu` roots, and
writes no cell of `root` and `loc` at or past the final `count`. -/
theorem rs_chien_count (rs : dmr_rs_t) (hctx : rs_gf_context rs) (elp_u : cells) (lu : Int)
    (hlu : lu.toNat < 2 ^ 31) (stack : rs_stack) :
    (rs_chien rs elp_u lu stack).count ≤ lu.toNat ∧
    ∀ k : Int, k < 0 ∨ ((rs_chien rs elp_u lu stack).count : Int) ≤ k →
      (rs_chien rs elp_u lu stack).root k = stack.root k ∧
      (rs_chien rs elp_u lu stack).loc k = stack.loc k := by
  obtain ⟨F, hF, ⟨M⟩⟩ := gf_model_exists
  have h := chien_rounds M rs hctx lu.toNat hlu
    (((List.range lu.toNat).map (fun k => k + 1)).foldl
      (fun (reg : cells) (i : Nat) => reg.set i (elp_u i)) stack.reg)
    stack.root stack.loc rs.nn (rs_chien rs elp_u lu stack)
    (by unfold rs_chien; rw [List.foldl_map])
  obtain ⟨_, ⟨S, hS1, hS2, hS3⟩, hroot⟩ := h
  rw [hctx.1] at hS1
  refine ⟨?_, hroot⟩
  rw [hS3]
  exact root_count_aux M lu.toNat
    (fun j => (((List.range lu.toNat).map (fun k => k + 1)).foldl
      (fun (reg : cells) (i : Nat) => reg.set i (elp_u i)) stack.reg) (j : Int) = -1)
    (fun j => to_uint ((((List.range lu.toNat).map (fun k => k + 1)).foldl
      (fun (reg : cells) (i : Nat) => reg.set i (elp_u i)) stack.reg) (j : Int) + (j : Int)) % 255)
    S hS1 hS2

/-! ## Lemmas on the degree of the error location polynomial -/

/-- The loop `while ((d[q] == -1) && (q > 0)) q--;` does not raise `q`. -/
theorem berlekamp_find_q_le (d : cells) (n : Nat) : berlekamp_find_q d n ≤ n := by
  induction n with
  | zero => exact Nat.le_refl 0
  | succ k ih =>
    unfold berlekamp_find_q
    split
    · exact Nat.le_succ_of_le ih
    · exact Nat.le_refl _

/-- The search for the best `q` returns a value within the bound of its two arguments. -/
theorem berlekamp_best_q_le (d u_lu : cells) (B : Nat) :
    ∀ j q : Nat, j ≤ B → q ≤ B → berlekamp_best_q d u_lu j q ≤ B := by
  intro j
  induction j with
  | zero =>
    intro q _ hq
    exact hq
  | succ k ih =>
    intro q hj hq
    unfold berlekamp_best_q
    apply ih
    · omega
    · split
      · omega
      · exact hq

/-- One round of the Berlekamp iteration writes the cell `l[u + 1]` only, with `l[u]` or with
`l[q] + u - q` for an earlier row `q`. -/
theorem berlekamp_step_l (rs : dmr_rs_t) (s : cells) (st : berlekamp_t) :
    ∃ v : Int, (berlekamp_step rs s st).l = st.l.set (((st.u + 1 : Nat) : Int) + 1) v ∧
      (v = st.l ((st.u + 1 : Nat) : Int) ∨
        ∃ q : Nat, q ≤ st.u ∧ v = st.l (q : Int) + ((st.u + 1 : Nat) : Int) - (q : Int)) := by
  unfold berlekamp_step
  dsimp only
  split_ifs
  all_goals first
    | exact ⟨_, rfl, Or.inl rfl⟩
    | exact ⟨_, rfl, Or.inr ⟨_, berlekamp_best_q_le st.d st.u_lu st.u _ _
        (berlekamp_find_q_le st.d st.u) (berlekamp_find_q_le st.d st.u), rfl⟩⟩
    | exact ⟨_, rfl, Or.inr ⟨_, berlekamp_find_q_le st.d st.u, rfl⟩⟩

/-- The degrees `l[0..u + 1]` stay non-negative through a round of the Berlekamp
iteration. -/
theorem berlekamp_step_l_nonneg (rs : dmr_rs_t) (s : cells) (st : berlekamp_t)
    (h : ∀ k : Nat, k ≤ st.u + 1 → 0 ≤ st.l (k : Int)) :
    ∀ k : Nat, k ≤ (berlekamp_step rs s st).u + 1 → 0 ≤ (berlekamp_step rs s st).l (k : Int) := by
  intro k hk
  rw [berlekamp_step_u] at hk
  obtain ⟨v, hl, hv⟩ := berlekamp_step_l rs s st
  rw [hl]
  unfold cells.set
  split
  · rcases hv with hv | ⟨q, hq, hv⟩
    · rw [hv]
      exact h (st.u + 1) (Nat.le_refl _)
    · have hq0 := h q (by omega)
      rw [hv]
      push_cast
      omega
  · rename_i hne
    apply h
    by_contra hc
    apply hne
    have : k = st.u + 2 := by omega
    rw [this]
    push_cast
    ring

/-- The degrees `l[0..u + 1]` are non-negative when the Berlekamp iteration ends. -/
theorem berlekamp_loop_l_nonneg (rs : dmr_rs_t) (s : cells) (fuel : Nat) :
    ∀ st : berlekamp_t, (∀ k : Nat, k ≤ st.u + 1 → 0 ≤ st.l (k : Int)) →
      ∀ k : Nat, k ≤ (berlekamp_loop rs s fuel st).u + 1 →
        0 ≤ (berlekamp_loop rs s fuel st).l (k : Int) := by
  induction fuel with
  | zero =>
    intro st h
    exact berlekamp_step_l_nonneg rs s st h
  | succ f ih =>
    intro st h
    unfold berlekamp_loop
    simp only []
    split
    · exact ih _ (berlekamp_step_l_nonneg rs s st h)
    · exact berlekamp_step_l_nonneg rs s st h

/-- The degree `l[u]` with which the Berlekamp iteration of `dmr_rs_decode` ends is not
negative. -/
theorem decode_degree_nonneg (rs : dmr_rs_t) (stack : rs_stack) (input : List Nat) :
    0 ≤ decode_degree rs stack input := by
  unfold decode_degree decode_berlekamp
  rw [rs_berlekamp_eq]
  apply berlekamp_loop_l_nonneg
  · intro k hk
    have hu : (berlekamp_entry rs
        (rs_syndromes rs (rs_index_form rs input (List.replicate rs.nn 0)) stack.s).1 stack).u
        = 0 := rfl
    rw [hu] at hk
    have hk1 : k = 0 ∨ k = 1 := by omega
    rcases hk1 with hk1 | hk1
    · rw [hk1]
      rfl
    · rw [hk1]
      rfl
  · exact Nat.le_refl _

/-- The root count of `dmr_rs_decode` is the `count` of the state in which the search for
the roots ends. -/
theorem decode_chien_count (rs : dmr_rs_t) (stack : rs_stack) (input : List Nat) :
    decode_root_count rs stack input = (decode_chien rs stack input).count := rfl

/-- On the branch where the degree `l[u]` is at most `tt`, the search for the roots counts at
most `l[u]` roots and leaves every cell of `root` and `loc` outside the indices
`0..l[u]-1` as it found it. -/
theorem decode_root_cap_aux (rs : dmr_rs_t) (hctx : rs_gf_context rs) (htt : rs.tt < 256)
    (stack : rs_stack) (input : List Nat) (hdeg : decode_degree rs stack input ≤ rs.tt) :
    (decode_root_count rs stack input : Int) ≤ decode_degree rs stack input ∧
    ∀ k : Int, k < 0 ∨ decode_degree rs stack input ≤ k →
      (decode_chien rs stack input).root k = stack.root k ∧
      (decode_chien rs stack input).loc k = stack.loc k := by
  have h0 := decode_degree_nonneg rs stack input
  have hL : (decode_degree rs stack input).toNat < 2 ^ 31 := by omega
  have h := rs_chien_count rs hctx
    ((rs_elp_index_form rs (decode_berlekamp rs stack input))
      (((decode_berlekamp rs stack input).u + 1 : Nat) : Int))
    (decode_degree rs stack input) hL stack
  have hc : (decode_chien rs stack input).count ≤ (decode_degree rs stack input).toNat := h.1
  rw [decode_chien_count]
  refine ⟨by omega, ?_⟩
  intro k hk
  have hc2 : (rs_chien rs
    ((rs_elp_index_form rs (decode_berlekamp rs stack input))
      (((decode_berlekamp rs stack input).u + 1 : Nat) : Int))
    (decode_degree rs stack input) stack).count ≤ (decode_degree rs stack input).toNat := h.1
  exact h.2 k (by omega)

/-! ## Lemmas on the verification of a buffer with one changed byte -/

/-- A buffer that passes `dmr_rs_12_9_4_decode_and_verify` no longer passes after a change
of exactly one of its twelve bytes. -/
theorem verify_detects_aux (env : rs_env) (rs8 : Option dmr_rs_t) (rs : dmr_rs_t)
    (hrs : dmr_rs_new env 0x11d 8 2 = some rs) (hinit : dmr_rs_init env rs8 = some rs)
    (b1 b2 : List Nat) (crc_mask : Nat) (hl1 : b1.length = 12) (hl2 : b2.length = 12)
    (hb1 : ∀ q, b1.getD q 0 < 256) (hb2 : ∀ q, b2.getD q 0 < 256) (hm : crc_mask < 256)
    (p : Nat) (hp : p < 12) (hdiff : b1.getD p 0 ≠ b2.getD p 0)
    (hsame : ∀ q, q ≠ p → b1.getD q 0 = b2.getD q 0)
    (v1 : rs_call_result)
    (hv1 : dmr_rs_12_9_4_decode_and_verify env rs8 b1 crc_mask = some v1) (h0 : v1.ret = 0) :
    ∃ v2, dmr_rs_12_9_4_decode_and_verify env rs8 b2 crc_mask = some v2 ∧ v2.ret ≠ 0 := by
  obtain ⟨w1, hw1, hiff1⟩ := verify_ret_aux env rs8 rs b1 crc_mask hinit hl1
  obtain ⟨v2, hv2, hiff2⟩ := verify_ret_aux env rs8 rs b2 crc_mask hinit hl2
  have hw : w1 = v1 := Option.some.inj (hw1.symm.trans hv1)
  rw [hw] at hiff1
  have e1 := hiff1.mp h0
  refine ⟨v2, hv2, ?_⟩
  intro h20
  have e2 := hiff2.mp h20
  obtain ⟨F, hF, ⟨M⟩⟩ := gf_model_exists
  have hc : ∀ b : List Nat, (∀ q, b.getD q 0 < 256) →
      ∀ q, (memcpy (List.replicate 12 0) b 9).getD q 0 < 256 := by
    intro b hb q
    rw [memcpy_block_getD]
    split
    · exact hb q
    · decide
  have hz : ∀ b : List Nat, ∀ q, 9 ≤ q → (memcpy (List.replicate 12 0) b 9).getD q 0 = 0 := by
    intro b q hq
    have hq9 : ¬ q < 9 := by omega
    rw [memcpy_block_getD, if_neg hq9]
  by_cases hp9 : p < 9
  · apply parity_differs_aux env rs hrs (memcpy (List.replicate 12 0) b1 9)
      (memcpy (List.replicate 12 0) b2 9) (hc b1 hb1) (hc b2 hb2) (hz b1) (hz b2) p hp9
    · rw [memcpy_block_getD, memcpy_block_getD, if_pos hp9, if_pos hp9]
      exact hdiff
    · intro q hq
      rw [memcpy_block_getD, memcpy_block_getD]
      split
      · exact hsame q hq
      · rfl
    · intro j hj
      have hne : 9 + j ≠ p := by omega
      have h1 := e1 j hj
      have h2 := e2 j hj
      rw [hsame (9 + j) hne, h2] at h1
      exact (xor_mask_inj _ _ crc_mask
        ((parity_12_9_4_value M env rs hrs _ (hc b1 hb1) (hz b1) 1 (by decide) (by decide)).1 j
          (by omega))
        ((parity_12_9_4_value M env rs hrs _ (hc b2 hb2) (hz b2) 1 (by decide) (by decide)).1 j
          (by omega)) hm h1.symm)
  · have hcc : memcpy (List.replicate 12 0) b1 9 = memcpy (List.replicate 12 0) b2 9 := by
      unfold memcpy
      congr 1
      apply List.map_congr_left
      intro q hq
      have := List.mem_range.mp hq
      exact hsame q (by omega)
    obtain ⟨j, hj⟩ : ∃ j, p = 9 + j := ⟨p - 9, by omega⟩
    have h1 := e1 j (by omega)
    have h2 := e2 j (by omega)
    rw [hcc, ← h2, ← hj] at h1
    exact hdiff h1

/-! ## Lemmas on the contexts, the generator and the sample blocks -/

/-- The function `dmr_rs_new` returns a context when the allocations succeed. -/
theorem dmr_rs_new_some (env : rs_env) (g mm t : Nat) (h : env.alloc_ok = true) :
    ∃ rs, dmr_rs_new env g mm t = some rs := by
  unfold dmr_rs_new
  rw [if_neg (by rw [h]; decide)]
  exact ⟨_, rfl⟩

/-- A list of numbers is the list of its cells. -/
theorem list_eq_map_getD (l : List Nat) :
    l = (List.range l.length).map (fun j => l.getD j 0) := by
  apply List.ext_getElem
  · rw [List.length_map, List.length_range]
  · intro i h1 h2
    rw [List.getElem_map, List.getElem_range, List.getD_eq_getElem _ _ h1]

/-- The cells of a list whose members are below a bound that is positive. -/
theorem getD_lt_of_mem (l : List Nat) (B : Nat) (hB : 0 < B) (h : ∀ x ∈ l, x < B) (i : Nat) :
    l.getD i 0 < B := by
  by_cases hi : i < l.length
  · rw [List.getD_eq_getElem _ _ hi]
    exact h _ (List.getElem_mem hi)
  · rw [List.getD_eq_default _ _ (by omega)]
    exact hB

/-- The generator polynomial of the context built for `1 <= t <= 255`, read back to
polynomial form, is the product of the `X + alpha^i` for `i = 1..2t`. -/
theorem rs_generator_poly_eq (env : rs_env) (t : Nat) (rs : dmr_rs_t)
    (hrs : dmr_rs_new env 0x11d 8 t = some rs) (ht1 : 1 ≤ t) (ht : t < 256) :
    rs_generator_poly rs = gf_generator (2 * t) := by
  obtain ⟨hctx, hn, -, hgg⟩ := dmr_rs_new_gg env t rs hrs ht1 ht
  have hl := list_eq_map_getD (gf_generator (2 * t))
  rw [gf_generator_length] at hl
  rw [hl]
  unfold rs_generator_poly
  rw [hn]
  apply List.map_congr_left
  intro j hj
  have hj1 : j ≤ rs.n := by
    have := List.mem_range.mp hj
    omega
  rw [hgg j hj1, hn]
  unfold rs_poly_form
  by_cases h0 : (gf_generator (2 * t)).getD j 0 = 0
  · rw [h0]
    have hz : tab_get rs.index_of ((0 : Nat) : Int) = -1 := hctx.2.2.2
    rw [hz, if_pos rfl]
    rfl
  · obtain ⟨k, hk, hkv, -⟩ := rs_index_of_spec rs hctx _ h0 (gf_generator_lt _ _)
    have hne : ¬ (tab_get rs.index_of (((gf_generator (2 * t)).getD j 0 : Nat) : Int) = -1) := by
      rw [hkv]
      omega
    rw [if_neg hne, rs_alpha_to_index_of rs hctx _ h0 (gf_generator_lt _ _)]
    rfl

/-- The generator polynomial of the context built for `t = 0`, read back to polynomial form,
is the constant 2. -/
theorem rs_generator_poly_zero (env : rs_env) (rs : dmr_rs_t)
    (hrs : dmr_rs_new env 0x11d 8 0 = some rs) : rs_generator_poly rs = [2] := by
  obtain ⟨hctx, -, hn, hgg, -⟩ := dmr_rs_new_context env 0 rs hrs
  have hn0 : rs.n = 0 := hn
  unfold rs_generator_poly
  rw [hgg, hn0, rs_generator_zero]
  have h1 : tab_get rs.index_of ((gf_alpha_pow 1 : Nat) : Int) = ((1 : Nat) : Int) :=
    hctx.2.2.1 1 (by decide)
  have h2 : tab_get rs.alpha_to ((1 : Nat) : Int) = ((gf_alpha_pow 1 : Nat) : Int) :=
    hctx.2.1 1 (by decide)
  have h3 : tab_get [tab_get rs.index_of 2] ((0 : Nat) : Int) = tab_get rs.index_of 2 := rfl
  have h4 : tab_get rs.index_of 2 = 1 := h1
  have h5 : tab_get rs.alpha_to 1 = 2 := h2
  show [(rs_poly_form rs (tab_get [tab_get rs.index_of 2] ((0 : Nat) : Int))).toNat] = [2]
  rw [h3, h4]
  unfold rs_poly_form
  rw [if_neg (by decide), h5]
  rfl

/-- The block that `dmr_rs_12_9_4_decode_and_repair` hands to the decoder holds bytes. -/
theorem rs_12_9_4_input_lt (rs : dmr_rs_t) (bytes : List Nat) (crc_mask : Nat)
    (hb : ∀ q, bytes.getD q 0 < 256) (i : Nat) :
    (rs_12_9_4_input rs bytes crc_mask).getD i 0 < 256 := by
  have hset : ∀ (l : List Nat) (j v : Nat), v < 256 → (∀ q, l.getD q 0 < 256) →
      ∀ q, (l.set j v).getD q 0 < 256 := by
    intro l j v hv hl q
    by_cases hq : j = q
    · by_cases hj : j < l.length
      · rw [← hq, getD_set_eq l j v hj]
        exact hv
      · rw [List.getD_eq_default _ _ (by rw [List.length_set]; omega)]
        decide
    · rw [getD_set_ne l j q v hq]
      exact hl q
  have h0 : ∀ q, (memcpy (List.replicate rs.nn 0) bytes 12).getD q 0 < 256 := by
    intro q
    rw [memcpy_block_getD]
    split
    · exact hb q
    · decide
  unfold rs_12_9_4_input
  exact hset _ _ _ (Nat.mod_lt _ (by decide))
    (hset _ _ _ (Nat.mod_lt _ (by decide)) (hset _ _ _ (Nat.mod_lt _ (by decide)) h0)) i

/-- Some syndrome of the buffer `sample_rs_encoded` is not zero for the decoder: it
returns 1, not 0. -/
theorem decode_sample_syn_aux :
    decode_syn_error rs8_zero_fill rs_stack_zero
      (rs_12_9_4_input rs8_zero_fill sample_rs_encoded 0) ≠ 0 := by
  have h := decode_ret_cases rs8_zero_fill rs_stack_zero
    (rs_12_9_4_input rs8_zero_fill sample_rs_encoded 0)
  rw [decode_sample_rs_encoded] at h
  intro hc
  rw [if_neg (not_not.mpr hc)] at h
  exact absurd h (by decide)

/-- The symbols of `sample_rs_data` are bytes, and there are 251 of them. -/
theorem sample_rs_data_aux :
    sample_rs_data.length = 251 ∧ ∀ d ∈ sample_rs_data, d < 256 := by
  constructor
  · unfold sample_rs_data
    rw [List.length_map, List.length_range]
  · intro d hd
    unfold sample_rs_data at hd
    obtain ⟨i, -, rfl⟩ := List.mem_map.mp hd
    exact Nat.mod_lt _ (by decide)

/-! ## The claims on the encoder, the tables, the generator, the decoder and closing -/

/-- C31. Systematic encoding is a polynomial remainder: for the context built by
`dmr_rs_new(0x11d, 8, t)` and every block of `nn - 2t` data symbols, the parities
`bb[0..2t-1]` that `dmr_rs_encode` produces, followed by the data symbols, are the
coefficients of a polynomial `c(X) = data(X) * X^(2t) + b(X)` whose value at `alpha^i` is
zero in GF(2^8) for every `i` in `1..2t`. -/
theorem encode_codeword_roots (env : rs_env) (t : Nat) (rs : dmr_rs_t)
    (hrs : dmr_rs_new env 0x11d 8 t = some rs) (ht : t < 256) (data bb : List Nat)
    (hdata : ∀ d ∈ data, d < 256) (hk : rs.nn - 2 * t ≤ data.length)
    (hbb : 2 * t ≤ bb.length) (i : Nat) (h1 : 1 ≤ i) (hi : i ≤ 2 * t) :
    gf_poly_eval ((dmr_rs_encode rs data bb).take (2 * t) ++ data.take (rs.nn - 2 * t)) i =
      0 := by
  have hn : rs.n = 2 * t := by
    have h := (dmr_rs_new_context env t rs hrs).2.2.1
    rw [Nat.mod_eq_of_lt ht] at h
    exact h
  have h := encode_codeword_aux env t rs hrs ht data bb
    (getD_lt_of_mem data 256 (by decide) hdata) (by rw [hn]; exact hk) (by rw [hn]; exact hbb)
    i h1 hi
  rw [hn] at h
  exact h

/-- Witness of C31: the context with `t = 2`, the 251 symbols of `sample_rs_data` and the
root `alpha^3`. -/
theorem encode_codeword_roots_witness :
    dmr_rs_new rs_env_zero 0x11d 8 2 = some rs8_zero_fill ∧
    gf_poly_eval ((dmr_rs_encode rs8_zero_fill sample_rs_data [0, 0, 0, 0]).take (2 * 2) ++
      sample_rs_data.take (rs8_zero_fill.nn - 2 * 2)) 3 = 0 :=
  ⟨dmr_rs_new_zero_fill,
    encode_codeword_roots rs_env_zero 2 rs8_zero_fill dmr_rs_new_zero_fill (by decide)
      sample_rs_data [0, 0, 0, 0] sample_rs_data_aux.2
      (by rw [sample_rs_data_aux.1]; decide) (by decide) 3 (by decide) (by decide)⟩

/-- C32. The tables of GF(2^8) are mutually inverse: in the context built by
`dmr_rs_new(0x11d, 8, t)`, `alpha_to[i]` is `alpha^i` (alpha = 2, reduced by the polynomial
0x11d) for every `0 <= i < 255`, these 255 values are pairwise distinct and not zero,
`index_of[alpha_to[i]] = i` for every such `i`, `alpha_to[index_of[v]] = v` for every
`1 <= v <= 255`, and `index_of[0] = -1`. -/
theorem gf_tables_mutually_inverse (env : rs_env) (t : Nat) (rs : dmr_rs_t)
    (hrs : dmr_rs_new env 0x11d 8 t = some rs) :
    (gf_alpha_pow 0 = 1 ∧ gf_alpha_pow 1 = 2 ∧
      ∀ i, gf_alpha_pow (i + 1) = gf_xtime (gf_alpha_pow i)) ∧
    (∀ i : Nat, i < 255 → tab_get rs.alpha_to (i : Int) = (gf_alpha_pow i : Int)) ∧
    (∀ i j : Nat, i < 255 → j < 255 →
      tab_get rs.alpha_to (i : Int) = tab_get rs.alpha_to (j : Int) → i = j) ∧
    (∀ i : Nat, i < 255 → tab_get rs.alpha_to (i : Int) ≠ 0) ∧
    (∀ i : Nat, i < 255 → tab_get rs.index_of (tab_get rs.alpha_to (i : Int)) = (i : Int)) ∧
    (∀ v : Nat, 1 ≤ v → v ≤ 255 →
      tab_get rs.alpha_to (tab_get rs.index_of (v : Int)) = (v : Int)) ∧
    tab_get rs.index_of 0 = -1 := by
  obtain ⟨hctx, -⟩ := dmr_rs_new_context env t rs hrs
  refine ⟨⟨rfl, rfl, gf_alpha_pow_succ⟩, hctx.2.1, ?_, ?_, ?_, ?_, hctx.2.2.2⟩
  · intro i j hi hj h
    rw [hctx.2.1 i hi, hctx.2.1 j hj] at h
    exact gf_alpha_pow_inj i j hi hj (by exact_mod_cast h)
  · intro i hi
    rw [hctx.2.1 i hi]
    have := gf_alpha_pow_ne_zero i
    exact_mod_cast this
  · intro i hi
    rw [hctx.2.1 i hi]
    exact hctx.2.2.1 i hi
  · intro v h1 hv
    exact rs_alpha_to_index_of rs hctx v (by omega) (by omega)

/-- Witness of C32: the context `rs8_zero_fill`, built with `t = 2` in zero-filled
memory. -/
theorem gf_tables_mutually_inverse_witness :
    dmr_rs_new rs_env_zero 0x11d 8 2 = some rs8_zero_fill ∧
    (∀ i : Nat, i < 255 →
      tab_get rs8_zero_fill.index_of (tab_get rs8_zero_fill.alpha_to (i : Int)) = (i : Int)) ∧
    (∀ v : Nat, 1 ≤ v → v ≤ 255 →
      tab_get rs8_zero_fill.alpha_to (tab_get rs8_zero_fill.index_of (v : Int)) = (v : Int)) ∧
    tab_get rs8_zero_fill.index_of 0 = -1 :=
  ⟨dmr_rs_new_zero_fill,
    (gf_tables_mutually_inverse rs_env_zero 2 rs8_zero_fill dmr_rs_new_zero_fill).2.2.2.2.1,
    (gf_tables_mutually_inverse rs_env_zero 2 rs8_zero_fill dmr_rs_new_zero_fill).2.2.2.2.2.1,
    (gf_tables_mutually_inverse rs_env_zero 2 rs8_zero_fill dmr_rs_new_zero_fill).2.2.2.2.2.2⟩

/-- C33 as stated fails for `t = 0`: `dmr_rs_new(0x11d, 8, 0)` returns a context whose one
coefficient `gg[0]` reads back as 2, while the product of the `X + alpha^i` over the empty
range `i = 1..0` is the constant 1; the polynomial read back is not monic. -/
theorem generator_degree_zero :
    (∃ rs, dmr_rs_new rs_env_zero 0x11d 8 0 = some rs) ∧
    (∀ rs, dmr_rs_new rs_env_zero 0x11d 8 0 = some rs →
      rs.n = 2 * 0 ∧ rs_generator_poly rs = [2] ∧ (rs_generator_poly rs).getD (2 * 0) 0 ≠ 1) ∧
    gf_generator (2 * 0) = [1] := by
  refine ⟨dmr_rs_new_some rs_env_zero 0x11d 8 0 rfl, ?_, rfl⟩
  intro rs hrs
  have hp := rs_generator_poly_zero rs_env_zero rs hrs
  refine ⟨(dmr_rs_new_context rs_env_zero 0 rs hrs).2.2.1, hp, ?_⟩
  rw [hp]
  decide

/-- C33, amended to `1 <= t <= 255`. In the context built by `dmr_rs_new(0x11d, 8, t)`, the
coefficients `gg[0..2t]`, read back from index form to polynomial form, are those of the
product of the `X + alpha^i` for `i = 1..2t` over GF(2^8), in the list arithmetic of
`gf_generator` and in every field that models GF(2^8): there are `2t + 1` of them, the
coefficient of `X^(2t)` is 1, `gg[0]` is not zero, and `alpha^i` is a root for every `i`
in `1..2t`. -/
theorem generator_polynomial (env : rs_env) (t : Nat) (rs : dmr_rs_t)
    (hrs : dmr_rs_new env 0x11d 8 t = some rs) (ht1 : 1 ≤ t) (ht : t < 256) :
    rs_generator_poly rs = gf_generator (2 * t) ∧
    (∀ (F : Type) (_ : Field F) (M : gf_model F) (j : Nat),
      (∏ k in Finset.range (2 * t),
        (Polynomial.X + Polynomial.C (M.phi 2 ^ (k + 1)) : Polynomial F)).coeff j =
        M.phi ((rs_generator_poly rs).getD j 0)) ∧
    (rs_generator_poly rs).length = 2 * t + 1 ∧
    (rs_generator_poly rs).getD (2 * t) 0 = 1 ∧
    (rs_generator_poly rs).getD 0 0 ≠ 0 ∧
    tab_get rs.gg 0 ≠ -1 ∧
    ∀ i, 1 ≤ i → i ≤ 2 * t → gf_poly_eval (rs_generator_poly rs) i = 0 := by
  have hp := rs_generator_poly_eq env t rs hrs ht1 ht
  obtain ⟨hctx, hn, -, hgg⟩ := dmr_rs_new_gg env t rs hrs ht1 ht
  rw [hp]
  refine ⟨rfl, fun F _ M j => gf_generator_coeff M (2 * t) j, gf_generator_length _,
    gf_generator_monic _, gf_generator_zero_ne _, ?_, fun i h1 hi => gf_generator_root _ i h1 hi⟩
  have h0 := hgg 0 (Nat.zero_le _)
  obtain ⟨k, -, hk, -⟩ := rs_index_of_spec rs hctx _ (gf_generator_zero_ne rs.n)
    (gf_generator_lt _ _)
  have h00 : tab_get rs.gg 0 = tab_get rs.index_of (((gf_generator rs.n).getD 0 0 : Nat) : Int) :=
    h0
  rw [h00, hk]
  omega

/-- Witness of C33: the context `rs8_zero_fill`, built with `t = 2`, whose generator has the
coefficients `alpha^10, alpha^81, alpha^251, alpha^76, 1`. -/
theorem generator_polynomial_witness :
    dmr_rs_new rs_env_zero 0x11d 8 2 = some rs8_zero_fill ∧
    rs_generator_poly rs8_zero_fill = gf_generator (2 * 2) ∧
    (rs_generator_poly rs8_zero_fill).length = 2 * 2 + 1 ∧
    (rs_generator_poly rs8_zero_fill).getD (2 * 2) 0 = 1 ∧
    ∀ i, 1 ≤ i → i ≤ 2 * 2 → gf_poly_eval (rs_generator_poly rs8_zero_fill) i = 0 :=
  ⟨dmr_rs_new_zero_fill,
    (generator_polynomial rs_env_zero 2 rs8_zero_fill dmr_rs_new_zero_fill (by decide)
      (by decide)).1,
    (generator_polynomial rs_env_zero 2 rs8_zero_fill dmr_rs_new_zero_fill (by decide)
      (by decide)).2.2.1,
    (generator_polynomial rs_env_zero 2 rs8_zero_fill dmr_rs_new_zero_fill (by decide)
      (by decide)).2.2.2.1,
    (generator_polynomial rs_env_zero 2 rs8_zero_fill dmr_rs_new_zero_fill (by decide)
      (by decide)).2.2.2.2.2.2⟩

/-- C34 fails in the code. The decoder stores the index form of a symbol in the
`unsigned char` block `recd` and adds every cell of it to the sums, so a zero symbol, whose
index -1 is stored as 255, enters each syndrome as `alpha_to[(255 + i * j) % 255]`, the term
of the symbol 1. In the context with `tt = 2` the block `01 00 ... 00` and the block of 255
zeros get the same syndromes `s[1..4]`, whatever the stack holds, although the field sum of
`r[j] * alpha^(i * j)` is 1 for the first block and 0 for the second. -/
theorem syndromes_count_zero_symbols :
    (∀ stack : rs_stack,
      decode_syndromes rs8_zero_fill stack sample_unit_block =
        decode_syndromes rs8_zero_fill stack sample_zero_block) ∧
    (∀ i, gf_poly_eval sample_unit_block i = 1) ∧
    (∀ i, gf_poly_eval sample_zero_block i = 0) ∧
    sample_unit_block.length = 255 ∧ sample_zero_block.length = 255 :=
  ⟨sample_syndromes_aux, fun i => gf_poly_eval_const 1 254 i, fun i => gf_poly_eval_zero 255 i,
    by unfold sample_unit_block; rw [List.length_cons, List.length_replicate],
    List.length_replicate 255 0⟩

/-- C36 as stated fails: the context that `dmr_rs_init` builds in zero-filled memory has
`tt = 2`, so its parity count `2t`, the length of the feedback shift register, is 4 and
not 6. -/
theorem rs_init_register_not_six :
    dmr_rs_init rs_env_zero none = some rs8_zero_fill ∧
    rs8_zero_fill.tt = 2 ∧ rs8_zero_fill.n = 4 ∧ rs8_zero_fill.n ≠ 6 ∧
    rs8_zero_fill.gg.length = 5 :=
  ⟨dmr_rs_init_zero_fill, rfl, rfl, by decide, rfl⟩

/-- C36, amended to the length 4. The context that `dmr_rs_init` builds for the 12,9,4
functions, by `dmr_rs_new(0x11d, 8, 2)`, has `tt = 2`: the parity count `2t`, which is the
number of cells `bb[0..n-1]` of the feedback shift register of `dmr_rs_encode`, is 4, and
the generator has the five coefficients `gg[0..4]`, with degree 4. -/
theorem rs_init_register_length (env : rs_env) (rs : dmr_rs_t)
    (hinit : dmr_rs_init env none = some rs) :
    rs.tt = 2 ∧ rs.n = 2 * rs.tt ∧ rs.n = 4 ∧ rs.nn = 255 ∧ rs.gg.length = 5 ∧
    (rs_generator_poly rs).length = 5 ∧ (rs_generator_poly rs).getD 4 0 = 1 := by
  obtain ⟨htt, hn, hnn, hgg⟩ := dmr_rs_init_shape_aux env rs hinit
  have hrs : dmr_rs_new env 0x11d 8 2 = some rs := hinit
  have hp := rs_generator_poly_eq env 2 rs hrs (by decide) (by decide)
  refine ⟨htt, by rw [hn, htt], hn, hnn, hgg, ?_, ?_⟩
  · rw [hp]
    exact gf_generator_length 4
  · rw [hp]
    exact gf_generator_monic 4

/-- Witness of C36 as amended: the first call of `dmr_rs_init` in zero-filled memory. -/
theorem rs_init_register_length_witness :
    dmr_rs_init rs_env_zero none = some rs8_zero_fill ∧
    rs8_zero_fill.tt = 2 ∧ rs8_zero_fill.n = 4 ∧
    (rs_generator_poly rs8_zero_fill).length = 5 :=
  ⟨dmr_rs_init_zero_fill,
    (rs_init_register_length rs_env_zero rs8_zero_fill dmr_rs_init_zero_fill).1,
    (rs_init_register_length rs_env_zero rs8_zero_fill dmr_rs_init_zero_fill).2.2.1,
    (rs_init_register_length rs_env_zero rs8_zero_fill dmr_rs_init_zero_fill).2.2.2.2.2.1⟩

/-- C37. Root cap in the search for the roots: for the context built by
`dmr_rs_new(0x11d, 8, t)`, every input and every content of the stack, on the branch where
the degree `l[u]` of the error location polynomial is at most `tt`, the number of roots
stored in `root[]` and `loc[]` does not exceed `l[u]`, hence does not exceed `tt`, and no
cell of the two arrays outside the indices `0..tt-1` is written. `DMR_RS_MAX_TT`, the size
of the two arrays, is a macro of a header that is not among the sources; it is a parameter
here, and a context with `tt <= DMR_RS_MAX_TT` writes nothing outside the arrays. -/
theorem chien_root_cap (env : rs_env) (t : Nat) (rs : dmr_rs_t)
    (hrs : dmr_rs_new env 0x11d 8 t = some rs) (DMR_RS_MAX_TT : Nat)
    (hmax : rs.tt ≤ DMR_RS_MAX_TT) (stack : rs_stack) (input : List Nat)
    (hdeg : decode_degree rs stack input ≤ rs.tt) :
    (decode_root_count rs stack input : Int) ≤ decode_degree rs stack input ∧
    decode_root_count rs stack input ≤ rs.tt ∧
    decode_root_count rs stack input = (decode_chien rs stack input).count ∧
    ∀ k : Int, k < 0 ∨ (DMR_RS_MAX_TT : Int) ≤ k →
      (decode_chien rs stack input).root k = stack.root k ∧
      (decode_chien rs stack input).loc k = stack.loc k := by
  obtain ⟨hctx, htt, -⟩ := dmr_rs_new_context env t rs hrs
  have htt256 : rs.tt < 256 := by
    rw [htt]
    exact Nat.mod_lt _ (by decide)
  obtain ⟨h1, h2⟩ := decode_root_cap_aux rs hctx htt256 stack input hdeg
  refine ⟨h1, by omega, rfl, ?_⟩
  intro k hk
  exact h2 k (by omega)

/-- Witness of C37: the block of the buffer `sample_rs_encoded` in the context with
`tt = 2`, for which the Berlekamp iteration ends with a degree of at most 2. -/
theorem chien_root_cap_witness :
    decode_degree rs8_zero_fill rs_stack_zero
      (rs_12_9_4_input rs8_zero_fill sample_rs_encoded 0) ≤ rs8_zero_fill.tt ∧
    decode_root_count rs8_zero_fill rs_stack_zero
      (rs_12_9_4_input rs8_zero_fill sample_rs_encoded 0) ≤ 2 :=
  ⟨decode_sample_degree_aux,
    (chien_root_cap rs_env_zero 2 rs8_zero_fill dmr_rs_new_zero_fill 2 (by decide)
      rs_stack_zero (rs_12_9_4_input rs8_zero_fill sample_rs_encoded 0)
      decode_sample_degree_aux).2.1⟩

/-- C38. A corruption of one byte is always detected by the verification: with the context
of the 12,9,4 functions, built by `dmr_rs_new(0x11d, 8, 2)`, for every buffer of twelve
bytes and every `crc_mask` for which `dmr_rs_12_9_4_decode_and_verify` returns 0, every
buffer of twelve bytes that differs from it in exactly one of the twelve positions makes
`dmr_rs_12_9_4_decode_and_verify` return, with the same mask, a value that is not 0. -/
theorem verify_detects_single_byte (env : rs_env) (rs : dmr_rs_t)
    (hrs : dmr_rs_new env 0x11d 8 2 = some rs) (rs8 : Option dmr_rs_t)
    (h8 : rs8 = none ∨ rs8 = some rs) (b1 b2 : List Nat) (crc_mask : Nat)
    (hl1 : b1.length = 12) (hl2 : b2.length = 12) (hb1 : ∀ x ∈ b1, x < 256)
    (hb2 : ∀ x ∈ b2, x < 256) (hm : crc_mask < 256) (p : Nat) (hp : p < 12)
    (hdiff : b1.getD p 0 ≠ b2.getD p 0) (hsame : ∀ q, q ≠ p → b1.getD q 0 = b2.getD q 0)
    (v1 : rs_call_result)
    (hv1 : dmr_rs_12_9_4_decode_and_verify env rs8 b1 crc_mask = some v1) (h0 : v1.ret = 0) :
    ∃ v2, dmr_rs_12_9_4_decode_and_verify env rs8 b2 crc_mask = some v2 ∧ v2.ret ≠ 0 := by
  have hinit : dmr_rs_init env rs8 = some rs := by
    rcases h8 with h | h
    · rw [h]
      exact hrs
    · rw [h]
      rfl
  exact verify_detects_aux env rs8 rs hrs hinit b1 b2 crc_mask hl1 hl2
    (getD_lt_of_mem b1 256 (by decide) hb1) (getD_lt_of_mem b2 256 (by decide) hb2) hm p hp
    hdiff hsame v1 hv1 h0

/-- Witness of C38: the buffer `sample_rs_encoded`, which the encoder produced and the
verification accepts, and `sample_rs_corrupted`, which differs from it in byte 0. -/
theorem verify_detects_single_byte_witness :
    ∃ v2, dmr_rs_12_9_4_decode_and_verify rs_env_zero (some rs8_zero_fill)
      sample_rs_corrupted 0 = some v2 ∧ v2.ret ≠ 0 := by
  obtain ⟨r, v, hr, hv, h0⟩ := encode_verify_aux rs_env_zero none rs8_zero_fill
    [1, 2, 3, 4, 5, 6, 7, 8, 9] 0 dmr_rs_init_zero_fill rfl
  have hr2 : dmr_rs_12_9_4_encode rs_env_zero none sample_rs_block 0 = some r := hr
  rw [encode_sample_rs_block] at hr2
  have hr3 := Option.some.inj hr2
  rw [← hr3] at hv
  exact verify_detects_single_byte rs_env_zero rs8_zero_fill dmr_rs_new_zero_fill
    (some rs8_zero_fill) (Or.inr rfl) sample_rs_encoded sample_rs_corrupted 0 rfl rfl
    (by decide) (by decide) (by decide) 0 (by decide) (by decide)
    (fun q hq => by
      obtain ⟨k, rfl⟩ : ∃ k, q = k + 1 := ⟨q - 1, by omega⟩
      rfl)
    v hv h0

/-- C39 fails in the code. The test before the discrepancy is `u < rs->nn`, not `u < rs->n`,
so the last round of the Berlekamp iteration, in which `u = n`, reads `s[n + 1]`. For the
block of the buffer `sample_rs_encoded` in the context with `n = 4`, some syndrome is not
zero, and the iteration reads `s[5]`, a cell that the syndrome loop, which writes `s[1..4]`,
leaves as the stack held it on entry. -/
theorem berlekamp_reads_past_syndromes :
    rs8_zero_fill.n = 4 ∧
    decode_syn_error rs8_zero_fill rs_stack_zero
      (rs_12_9_4_input rs8_zero_fill sample_rs_encoded 0) ≠ 0 ∧
    (5 : Int) ∈ decode_syndrome_reads rs8_zero_fill rs_stack_zero
      (rs_12_9_4_input rs8_zero_fill sample_rs_encoded 0) ∧
    ∀ stack : rs_stack,
      decode_syndromes rs8_zero_fill stack
        (rs_12_9_4_input rs8_zero_fill sample_rs_encoded 0) 5 = stack.s 5 := by
  refine ⟨rfl, decode_sample_syn_aux, ?_, ?_⟩
  · exact decode_reads_past_aux rs8_zero_fill rs_stack_zero
      (rs_12_9_4_input rs8_zero_fill sample_rs_encoded 0) (by decide) (by decide)
      decode_sample_degree_aux
  · intro stack
    exact rs_syndromes_other rs8_zero_fill _ stack.s 5 (Or.inr (by decide))

/-- C40 fails in the code. The call `dmr_mutex_unlock` stands inside the branch
`if (homebrew->proto.is_active)`. For `sample_idle_session`, whose socket is open and whose
`is_active` is false, `dmr_homebrew_close` takes the mutex and returns with the mutex still
locked; for `sample_active_session` it returns with the mutex released. -/
theorem close_keeps_mutex_locked :
    sample_idle_session.fd = 3 ∧ sample_idle_session.proto.is_active = false ∧
    sample_idle_session.proto.mutex_locked = false ∧
    (dmr_homebrew_close (List.replicate 12 0) (some sample_idle_session)).map
      (fun r => r.homebrew.proto.mutex_locked) = some true ∧
    (dmr_homebrew_close (List.replicate 12 0) (some sample_active_session)).map
      (fun r => r.homebrew.proto.mutex_locked) = some false := by
  decide

/-! ## Evaluations of the decoder in memory that is not zero -/

/-- The function `dmr_rs_new(0x11d, 8, 2)`, run in memory whose cells hold 170, builds the
tables written out in `rs8_aa_fill`. -/
theorem dmr_rs_new_aa_fill : dmr_rs_new rs_env_aa 0x11d 8 2 = some rs8_aa_fill := by
  decide!

/-- The decoder returns 1 for the block of the buffer `sample_rs_encoded` in the context
`rs8_aa_fill`. -/
theorem decode_sample_rs_aa :
    (dmr_rs_decode rs8_aa_fill rs_stack_zero (rs_12_9_4_input rs8_aa_fill sample_rs_encoded 0)
      (List.replicate rs8_aa_fill.nn 0)).ret = 1 := by
  decide!

/-! ## Lemmas on the stale cells of the stack -/

/-- The syndrome loop gives the same count of non-zero syndromes, and the same cells apart
from a cell `c` in which the two arrays differ on entry, whatever the array `s` holds on
entry. -/
theorem rs_syndromes_stack (rs : dmr_rs_t) (recd : List Nat) (s1 s2 : cells) (c : Int)
    (h : ∀ k : Int, k ≠ c → s1 k = s2 k) :
    (rs_syndromes rs recd s1).2 = (rs_syndromes rs recd s2).2 ∧
    ∀ k : Int, k ≠ c → (rs_syndromes rs recd s1).1 k = (rs_syndromes rs recd s2).1 k := by
  unfold rs_syndromes
  have hgen : ∀ (l : List Nat) (st1 st2 : cells × Nat), st1.2 = st2.2 →
      (∀ k : Int, k ≠ c → st1.1 k = st2.1 k) →
      (l.foldl
        (fun (st : cells × Nat) (i : Nat) =>
          let si : Int :=
            (List.range rs.nn).foldl
              (fun (acc : Int) (j : Nat) =>
                Int.xor acc
                  (tab_get rs.alpha_to
                    (to_uint ((recd.getD j 0 : Int) + (i : Int) * j) % rs.nn : Nat)))
              0
          (st.1.set i (tab_get rs.index_of si), if si ≠ 0 then st.2 + 1 else st.2))
        st1).2 =
      (l.foldl
        (fun (st : cells × Nat) (i : Nat) =>
          let si : Int :=
            (List.range rs.nn).foldl
              (fun (acc : Int) (j : Nat) =>
                Int.xor acc
                  (tab_get rs.alpha_to
                    (to_uint ((recd.getD j 0 : Int) + (i : Int) * j) % rs.nn : Nat)))
              0
          (st.1.set i (tab_get rs.index_of si), if si ≠ 0 then st.2 + 1 else st.2))
        st2).2 ∧
      ∀ k : Int, k ≠ c →
        (l.foldl
          (fun (st : cells × Nat) (i : Nat) =>
            let si : Int :=
              (List.range rs.nn).foldl
                (fun (acc : Int) (j : Nat) =>
                  Int.xor acc
                    (tab_get rs.alpha_to
                      (to_uint ((recd.getD j 0 : Int) + (i : Int) * j) % rs.nn : Nat)))
                0
            (st.1.set i (tab_get rs.index_of si), if si ≠ 0 then st.2 + 1 else st.2))
          st1).1 k =
        (l.foldl
          (fun (st : cells × Nat) (i : Nat) =>
            let si : Int :=
              (List.range rs.nn).foldl
                (fun (acc : Int) (j : Nat) =>
                  Int.xor acc
                    (tab_get rs.alpha_to
                      (to_uint ((recd.getD j 0 : Int) + (i : Int) * j) % rs.nn : Nat)))
                0
            (st.1.set i (tab_get rs.index_of si), if si ≠ 0 then st.2 + 1 else st.2))
          st2).1 k := by
    intro l
    induction l with
    | nil =>
      intro st1 st2 h2 h1
      exact ⟨h2, h1⟩
    | cons x xs ih =>
      intro st1 st2 h2 h1
      rw [List.foldl_cons, List.foldl_cons]
      apply ih
      · simp only []
        rw [h2]
      · intro k hk
        simp only [cells.set]
        rw [h1 k hk]
  exact hgen _ (s1, 0) (s2, 0) rfl h

/-- The state in which the loop of the Berlekamp iteration is entered reads the cell `s[1]`
only. -/
theorem berlekamp_entry_congr (rs : dmr_rs_t) (s1 s2 : cells) (stack1 stack2 : rs_stack)
    (hs : s1 1 = s2 1) (hd : stack1.d = stack2.d) (hl : stack1.l = stack2.l)
    (hu : stack1.u_lu = stack2.u_lu) (he : stack1.elp = stack2.elp) :
    berlekamp_entry rs s1 stack1 = berlekamp_entry rs s2 stack2 := by
  unfold berlekamp_entry
  rw [hs, hd, hl, hu, he]

/-- One round of the Berlekamp iteration reads no cell of `s` past `s[u + 1]`. -/
theorem berlekamp_step_congr (rs : dmr_rs_t) (s1 s2 : cells) (st : berlekamp_t)
    (h : ∀ k : Int, k ≤ ((st.u + 1 : Nat) : Int) + 1 → s1 k = s2 k) :
    berlekamp_step rs s1 st = berlekamp_step rs s2 st := by
  have e1 : s1 (((st.u + 1 : Nat) : Int) + 1) = s2 (((st.u + 1 : Nat) : Int) + 1) :=
    h _ (le_refl _)
  have e2 : ∀ i : Nat, s1 (((st.u + 1 : Nat) : Int) + 1 - (i : Int)) =
      s2 (((st.u + 1 : Nat) : Int) + 1 - (i : Int)) := fun i => h _ (by omega)
  unfold berlekamp_step
  simp only [e1, e2]

/-- The degrees and the round counter of one round of the Berlekamp iteration do not depend
on the syndromes. -/
theorem berlekamp_step_l_congr (rs : dmr_rs_t) (s1 s2 : cells) (st : berlekamp_t) :
    (berlekamp_step rs s1 st).u = (berlekamp_step rs s2 st).u ∧
    (berlekamp_step rs s1 st).l = (berlekamp_step rs s2 st).l :=
  ⟨rfl, rfl⟩

/-- The Berlekamp iteration ends with the same round counter and the same degrees for two
arrays of syndromes that agree in the cells `s[k]` with `k <= n`. -/
theorem berlekamp_loop_congr (rs : dmr_rs_t) (s1 s2 : cells)
    (h : ∀ k : Int, k ≤ (rs.n : Int) → s1 k = s2 k) (fuel : Nat) :
    ∀ st : berlekamp_t,
      (berlekamp_loop rs s1 fuel st).u = (berlekamp_loop rs s2 fuel st).u ∧
      (berlekamp_loop rs s1 fuel st).l = (berlekamp_loop rs s2 fuel st).l := by
  induction fuel with
  | zero =>
    intro st
    exact berlekamp_step_l_congr rs s1 s2 st
  | succ f ih =>
    intro st
    unfold berlekamp_loop
    simp only []
    by_cases hc : ((berlekamp_step rs s1 st).u : Int) < rs.n ∧
        (berlekamp_step rs s1 st).l (((berlekamp_step rs s1 st).u : Int) + 1) ≤ rs.tt
    · have hc2 : ((berlekamp_step rs s2 st).u : Int) < rs.n ∧
          (berlekamp_step rs s2 st).l (((berlekamp_step rs s2 st).u : Int) + 1) ≤ rs.tt := hc
      rw [if_pos hc, if_pos hc2]
      have hu : (berlekamp_step rs s1 st).u = st.u + 1 := rfl
      have hlt : ((st.u + 1 : Nat) : Int) < rs.n := by
        have := hc.1
        rw [hu] at this
        exact this
      have heq : berlekamp_step rs s1 st = berlekamp_step rs s2 st :=
        berlekamp_step_congr rs s1 s2 st (fun k hk => h k (by omega))
      rw [heq]
      exact ih _
    · have hc2 : ¬ (((berlekamp_step rs s2 st).u : Int) < rs.n ∧
          (berlekamp_step rs s2 st).l (((berlekamp_step rs s2 st).u : Int) + 1) ≤ rs.tt) := hc
      rw [if_neg hc, if_neg hc2]
      exact berlekamp_step_l_congr rs s1 s2 st

/-- The last round of the loop reads `alpha_to` with the content of the cell `s[u + 1]` as
the index, where `u` is the value with which the loop ends, whenever `u < nn` and the cell
does not hold -1. -/
theorem berlekamp_loop_table_reads_last (rs : dmr_rs_t) (s : cells) (fuel : Nat)
    (st : berlekamp_t) (h : ((berlekamp_loop rs s fuel st).u : Int) < rs.nn)
    (hs : s (((berlekamp_loop rs s fuel st).u : Int) + 1) ≠ -1) :
    s (((berlekamp_loop rs s fuel st).u : Int) + 1) ∈ berlekamp_loop_table_reads rs s fuel st := by
  induction fuel generalizing st with
  | zero =>
    have h0 : berlekamp_loop rs s 0 st = berlekamp_step rs s st := rfl
    rw [h0] at h hs ⊢
    unfold berlekamp_loop_table_reads berlekamp_step_table_reads
    simp only []
    rw [if_pos ⟨h, hs⟩]
    exact List.mem_cons_self _ _
  | succ k ih =>
    unfold berlekamp_loop at h hs ⊢
    unfold berlekamp_loop_table_reads
    simp only [] at h hs ⊢
    split
    · rename_i hc
      simp only [hc, and_self, if_true] at h hs ⊢
      exact List.mem_append_right _ (ih _ h hs)
    · rename_i hc
      simp only [hc, if_false] at h hs ⊢
      unfold berlekamp_step_table_reads
      simp only []
      rw [if_pos ⟨h, hs⟩]
      exact List.mem_cons_self _ _

/-- When the Berlekamp iteration ends with a degree of at most `tt` in a context with
`0 < n < nn`, and the cell `s[n + 1]` of the stack does not hold -1, the iteration has read
`alpha_to` with the content of that cell as the index. -/
theorem decode_table_reads_aux (rs : dmr_rs_t) (stack : rs_stack) (input : List Nat)
    (hn : 0 < rs.n) (hnn : rs.n < rs.nn) (hdeg : decode_degree rs stack input ≤ rs.tt)
    (hs : stack.s ((rs.n : Int) + 1) ≠ -1) :
    stack.s ((rs.n : Int) + 1) ∈ decode_table_reads rs stack input := by
  have hu := decode_berlekamp_full rs stack input hn hdeg
  unfold decode_berlekamp at hu
  rw [rs_berlekamp_eq] at hu
  have hcell : decode_syndromes rs stack input ((rs.n : Int) + 1) = stack.s ((rs.n : Int) + 1) :=
    rs_syndromes_other rs _ stack.s _ (Or.inr (by omega))
  unfold decode_table_reads
  have hu2 : (berlekamp_loop rs (decode_syndromes rs stack input) (rs.n - 1)
      (berlekamp_entry rs (decode_syndromes rs stack input) stack)).u = rs.n := hu
  have h := berlekamp_loop_table_reads_last rs (decode_syndromes rs stack input) (rs.n - 1)
    (berlekamp_entry rs (decode_syndromes rs stack input) stack)
    (by rw [hu2]; exact_mod_cast hnn) (by rw [hu2, hcell]; exact hs)
  rw [hu2, hcell] at h
  exact h

/-- The count of non-zero syndromes and the degree with which the Berlekamp iteration ends do
not depend on what the cell `s[n + 1]` of the stack holds on entry. -/
theorem decode_stale_cell_aux (rs : dmr_rs_t) (stack : rs_stack) (input : List Nat) (v : Int)
    (hn : 0 < rs.n) :
    decode_syn_error rs { stack with s := fun k => if k = (rs.n : Int) + 1 then v else stack.s k }
        input = decode_syn_error rs stack input ∧
    decode_degree rs { stack with s := fun k => if k = (rs.n : Int) + 1 then v else stack.s k }
        input = decode_degree rs stack input := by
  have hag : ∀ k : Int, k ≠ (rs.n : Int) + 1 →
      (fun k => if k = (rs.n : Int) + 1 then v else stack.s k) k = stack.s k := by
    intro k hk
    simp only []
    rw [if_neg hk]
  obtain ⟨h2, h1⟩ := rs_syndromes_stack rs
    (rs_index_form rs input (List.replicate rs.nn 0))
    (fun k => if k = (rs.n : Int) + 1 then v else stack.s k) stack.s ((rs.n : Int) + 1) hag
  refine ⟨h2, ?_⟩
  have hent := berlekamp_entry_congr rs
    (rs_syndromes rs (rs_index_form rs input (List.replicate rs.nn 0))
      (fun k => if k = (rs.n : Int) + 1 then v else stack.s k)).1
    (rs_syndromes rs (rs_index_form rs input (List.replicate rs.nn 0)) stack.s).1
    { stack with s := fun k => if k = (rs.n : Int) + 1 then v else stack.s k } stack
    (h1 1 (by omega)) rfl rfl rfl rfl
  have hloop := berlekamp_loop_congr rs
    (rs_syndromes rs (rs_index_form rs input (List.replicate rs.nn 0))
      (fun k => if k = (rs.n : Int) + 1 then v else stack.s k)).1
    (rs_syndromes rs (rs_index_form rs input (List.replicate rs.nn 0)) stack.s).1
    (fun k hk => h1 k (by omega)) (rs.n - 1)
    (berlekamp_entry rs
      (rs_syndromes rs (rs_index_form rs input (List.replicate rs.nn 0)) stack.s).1 stack)
  unfold decode_degree decode_berlekamp
  rw [rs_berlekamp_eq, rs_berlekamp_eq, hent, hloop.1, hloop.2]

/-! ## Lemmas on the block of a buffer and on the frame of the phase CONF -/

/-- The block that `dmr_rs_12_9_4_decode_and_repair` hands to the decoder holds zeros from
position 12 on. -/
theorem rs_12_9_4_input_tail (rs : dmr_rs_t) (bytes : List Nat) (crc_mask : Nat) (i : Nat)
    (hi : 12 ≤ i) : (rs_12_9_4_input rs bytes crc_mask).getD i 0 = 0 := by
  unfold rs_12_9_4_input
  simp only []
  have h9 : (9 : Nat) ≠ i := by omega
  have h10 : (10 : Nat) ≠ i := by omega
  have h11 : (11 : Nat) ≠ i := by omega
  have h12 : ¬ i < 12 := by omega
  rw [getD_set_ne _ 11 i _ h11, getD_set_ne _ 10 i _ h10, getD_set_ne _ 9 i _ h9,
    memcpy_block_getD, if_neg h12]

/-- A run of `dmr_homebrew_auth` that starts in the phase CONF with an answer of the socket
at hand: when `DMR_DEBUG` is not defined or the configuration object has 306 bytes, one
frame is sent, the configuration object, and the run returns; when `DMR_DEBUG` is defined
and the object has another size, nothing is sent and the run does not return. -/
theorem conf_run_aux (X : dmr_error_env) (DMR_DEBUG : Bool) (sha256 : List Nat → List Nat)
    (now : Nat) (h : dmr_homebrew_t) (secret : List Nat) (r : Int) (rest : List Int)
    (recvs : List recv_event)
    (hphase : h.auth = dmr_homebrew_auth_t.DMR_HOMEBREW_AUTH_CONF) :
    ((DMR_DEBUG = true → h.config.bytes.length = 306) →
      (dmr_homebrew_auth X DMR_DEBUG sha256 now h secret (r :: rest) recvs).1.sent =
        [h.config.bytes] ∧
      (0 ≤ r →
        (dmr_homebrew_auth X DMR_DEBUG sha256 now h secret (r :: rest) recvs).2 = some 0 ∧
        (dmr_homebrew_auth X DMR_DEBUG sha256 now h secret (r :: rest) recvs).1.homebrew.auth =
          dmr_homebrew_auth_t.DMR_HOMEBREW_AUTH_DONE) ∧
      (r < 0 →
        (dmr_homebrew_auth X DMR_DEBUG sha256 now h secret (r :: rest) recvs).2 = some r)) ∧
    (DMR_DEBUG = true → h.config.bytes.length ≠ 306 →
      (dmr_homebrew_auth X DMR_DEBUG sha256 now h secret (r :: rest) recvs).1.sent = [] ∧
      (dmr_homebrew_auth X DMR_DEBUG sha256 now h secret (r :: rest) recvs).2 = none) := by
  constructor
  · intro hsize
    have ha : ¬ (DMR_DEBUG = true ∧ h.config.bytes.length ≠ 306) := fun hc => hc.2 (hsize hc.1)
    by_cases hr : r < 0
    · have hr2 : ¬ 0 ≤ r := by omega
      simp [dmr_homebrew_auth, auth_loop, auth_switch, hphase, ha, auth_sendraw, hr, hr2]
    · have hr2 : 0 ≤ r := by omega
      simp [dmr_homebrew_auth, auth_loop, auth_switch, hphase, ha, auth_sendraw, hr, hr2]
  · intro hd hne
    simp [dmr_homebrew_auth, auth_loop, auth_switch, hphase, hd, hne]

/-! ## The claims on the return of the decoder, the frame of the phase CONF and the block
after a failure -/

/-- C18 fails in the code. In its last round the Berlekamp iteration of `dmr_rs_decode`
reads the cell `s[n + 1]`, which the syndrome loop never writes, and uses its content as an
index: `d[u + 1] = rs->alpha_to[s[u + 1]]`. For the buffer `sample_rs_encoded`, the context
with `n = 4` and a stack whose stale cell `s[5]` holds 100000, some syndrome is not zero, the
iteration ends with a degree of at most `tt`, and it reads `alpha_to[100000]`, outside the
257 cells of the table: C leaves the read undefined, so the call need not return 0, 1 or 2,
nor return at all. -/
theorem repair_reads_outside_table :
    rs8_zero_fill.n = 4 ∧ rs8_zero_fill.alpha_to.length = 257 ∧
    sample_stale_stack.s 5 = 100000 ∧
    decode_syn_error rs8_zero_fill sample_stale_stack
      (rs_12_9_4_input rs8_zero_fill sample_rs_encoded 0) ≠ 0 ∧
    decode_degree rs8_zero_fill sample_stale_stack
      (rs_12_9_4_input rs8_zero_fill sample_rs_encoded 0) ≤ rs8_zero_fill.tt ∧
    (100000 : Int) ∈ decode_table_reads rs8_zero_fill sample_stale_stack
      (rs_12_9_4_input rs8_zero_fill sample_rs_encoded 0) := by
  obtain ⟨h1, h2⟩ := decode_stale_cell_aux rs8_zero_fill rs_stack_zero
    (rs_12_9_4_input rs8_zero_fill sample_rs_encoded 0) 100000 (by decide)
  have hsyn : decode_syn_error rs8_zero_fill sample_stale_stack
      (rs_12_9_4_input rs8_zero_fill sample_rs_encoded 0) =
      decode_syn_error rs8_zero_fill rs_stack_zero
        (rs_12_9_4_input rs8_zero_fill sample_rs_encoded 0) := h1
  have hdeg : decode_degree rs8_zero_fill sample_stale_stack
      (rs_12_9_4_input rs8_zero_fill sample_rs_encoded 0) =
      decode_degree rs8_zero_fill rs_stack_zero
        (rs_12_9_4_input rs8_zero_fill sample_rs_encoded 0) := h2
  have hle : decode_degree rs8_zero_fill sample_stale_stack
      (rs_12_9_4_input rs8_zero_fill sample_rs_encoded 0) ≤ rs8_zero_fill.tt := by
    rw [hdeg]
    exact decode_sample_degree_aux
  refine ⟨rfl, by decide!, rfl, ?_, hle, ?_⟩
  · rw [hsyn]
    exact decode_sample_syn_aux
  · exact decode_table_reads_aux rs8_zero_fill sample_stale_stack
      (rs_12_9_4_input rs8_zero_fill sample_rs_encoded 0) (by decide) (by decide) hle
      (by decide)

/-- C23, amended to the size of the configuration object. The configuration frame that
`dmr_homebrew_auth` sends in the phase CONF is the configuration object itself, so it is
exactly `sizeof(dmr_homebrew_config_t)` bytes long, and the `assert` of the case CONF states
that size to be 306: where `DMR_DEBUG` is not defined or the object has 306 bytes, the run
sends that one frame and returns, with 0 and in the phase DONE when the socket accepts the
frame; where `DMR_DEBUG` is defined and the object has another size, no frame is sent. The
structure is declared in a header that is not among the sources; its size is the length of
`config.bytes`. -/
theorem conf_frame_length (X : dmr_error_env) (DMR_DEBUG : Bool) (sha256 : List Nat → List Nat)
    (now : Nat) (h : dmr_homebrew_t) (secret : List Nat) (r : Int) (rest : List Int)
    (recvs : List recv_event)
    (hphase : h.auth = dmr_homebrew_auth_t.DMR_HOMEBREW_AUTH_CONF) :
    ((DMR_DEBUG = true → h.config.bytes.length = 306) →
      (dmr_homebrew_auth X DMR_DEBUG sha256 now h secret (r :: rest) recvs).1.sent =
        [h.config.bytes] ∧
      (0 ≤ r →
        (dmr_homebrew_auth X DMR_DEBUG sha256 now h secret (r :: rest) recvs).2 = some 0 ∧
        (dmr_homebrew_auth X DMR_DEBUG sha256 now h secret (r :: rest) recvs).1.homebrew.auth =
          dmr_homebrew_auth_t.DMR_HOMEBREW_AUTH_DONE) ∧
      (r < 0 →
        (dmr_homebrew_auth X DMR_DEBUG sha256 now h secret (r :: rest) recvs).2 = some r)) ∧
    (DMR_DEBUG = true → h.config.bytes.length ≠ 306 →
      (dmr_homebrew_auth X DMR_DEBUG sha256 now h secret (r :: rest) recvs).1.sent = [] ∧
      (dmr_homebrew_auth X DMR_DEBUG sha256 now h secret (r :: rest) recvs).2 = none) ∧
    (DMR_DEBUG = true →
      ∀ f ∈ (dmr_homebrew_auth X DMR_DEBUG sha256 now h secret (r :: rest) recvs).1.sent,
        f.length = 306) := by
  obtain ⟨h1, h2⟩ := conf_run_aux X DMR_DEBUG sha256 now h secret r rest recvs hphase
  refine ⟨h1, h2, ?_⟩
  intro hd f hf
  by_cases hlen : h.config.bytes.length = 306
  · rw [(h1 (fun _ => hlen)).1] at hf
    rw [List.mem_singleton] at hf
    rw [hf]
    exact hlen
  · rw [(h2 hd hlen).1] at hf
    exact absurd hf (List.not_mem_nil f)

/-- Witness of C23 as amended: `sample_conf_session`, whose configuration object has 306
bytes, in a build with `DMR_DEBUG`: the one frame sent is that object. -/
theorem conf_frame_length_witness :
    sample_conf_session.config.bytes.length = 306 ∧
    (dmr_homebrew_auth sample_error_env true sample_sha256 7 sample_conf_session [] [0]
      []).1.sent = [sample_conf_session.config.bytes] ∧
    (dmr_homebrew_auth sample_error_env true sample_sha256 7 sample_conf_session [] [0]
      []).2 = some 0 :=
  ⟨List.length_replicate 306 32,
    ((conf_frame_length sample_error_env true sample_sha256 7 sample_conf_session [] 0 []
      [] rfl).1 (fun _ => List.length_replicate 306 32)).1,
    (((conf_frame_length sample_error_env true sample_sha256 7 sample_conf_session [] 0 []
      [] rfl).1 (fun _ => List.length_replicate 306 32)).2.1 (by decide)).1⟩

/-- C35 fails in the code. The decoder keeps the index form of a symbol in the
`unsigned char` block `recd`, so the index -1 of a zero symbol is stored as 255, and on
failure the block is taken back to polynomial form by `recd[i] = rs->alpha_to[recd[i]]`: a
zero symbol comes back as the cell `alpha_to[255]`, which `dmr_rs_new` never writes. In the
context that `dmr_rs_new(0x11d, 8, 2)` builds in memory whose cells hold 170, the decoder
returns 1 for the block of the buffer `sample_rs_encoded`; the twelve bytes of the buffer come
back as they were, and each of the 243 zero symbols in positions 12..254 comes back as
170. -/
theorem decode_failure_rewrites_zero_symbols :
    dmr_rs_new rs_env_aa 0x11d 8 2 = some rs8_aa_fill ∧
    (dmr_rs_decode rs8_aa_fill rs_stack_zero (rs_12_9_4_input rs8_aa_fill sample_rs_encoded 0)
      (List.replicate rs8_aa_fill.nn 0)).ret = 1 ∧
    (∀ i, i < 12 →
      (dmr_rs_decode rs8_aa_fill rs_stack_zero
        (rs_12_9_4_input rs8_aa_fill sample_rs_encoded 0)
        (List.replicate rs8_aa_fill.nn 0)).recd.getD i 0 =
        (rs_12_9_4_input rs8_aa_fill sample_rs_encoded 0).getD i 0) ∧
    (∀ i, 12 ≤ i → i < 255 →
      (rs_12_9_4_input rs8_aa_fill sample_rs_encoded 0).getD i 0 = 0 ∧
      (dmr_rs_decode rs8_aa_fill rs_stack_zero
        (rs_12_9_4_input rs8_aa_fill sample_rs_encoded 0)
        (List.replicate rs8_aa_fill.nn 0)).recd.getD i 0 = 170) := by
  have hall : ∀ i, i < 255 →
      (dmr_rs_decode rs8_aa_fill rs_stack_zero
        (rs_12_9_4_input rs8_aa_fill sample_rs_encoded 0)
        (List.replicate rs8_aa_fill.nn 0)).recd.getD i 0 =
        if (rs_12_9_4_input rs8_aa_fill sample_rs_encoded 0).getD i 0 = 0 then
          to_uchar rs_env_aa.fresh
        else (rs_12_9_4_input rs8_aa_fill sample_rs_encoded 0).getD i 0 := by
    intro i hi
    exact decode_failure_aux rs_env_aa 2 rs8_aa_fill dmr_rs_new_aa_fill rs_stack_zero
      (rs_12_9_4_input rs8_aa_fill sample_rs_encoded 0) (List.replicate rs8_aa_fill.nn 0)
      (fun q _ => rs_12_9_4_input_lt rs8_aa_fill sample_rs_encoded 0
        (getD_lt_of_mem sample_rs_encoded 256 (by decide) (by decide)) q)
      (by rw [List.length_replicate]; exact Nat.le_refl 255)
      (by rw [decode_sample_rs_aa]; decide) i hi
  refine ⟨dmr_rs_new_aa_fill, decode_sample_rs_aa, ?_, ?_⟩
  · intro i hi
    have hne : (rs_12_9_4_input rs8_aa_fill sample_rs_encoded 0).getD i 0 ≠ 0 := by
      interval_cases i <;> decide
    rw [hall i (by omega), if_neg hne]
  · intro i h12 hi
    have hz := rs_12_9_4_input_tail rs8_aa_fill sample_rs_encoded 0 i h12
    refine ⟨hz, ?_⟩
    rw [hall i hi, if_pos hz]
    rfl

end DmrLib
